import Mathlib

/-!
# Exodus coordinator: a shallow embedding and its verified properties

The development embeds `exodus-coordinator.c` and the JSON library
`ctz-json.c` it links against.

Conventions of the embedding.

* A C `char` is a `Char`; `NUL` is the terminator.  A `const char*` is the
  list of the bytes stored from the pointer onwards (terminator and whatever
  follows it included); `cstr` is the C string such a pointer denotes.
  A read past the end of the modelled memory yields `NUL`.
* The request buffer is mutated by `strtok_r`, so inside `handle_connection`
  memory is a list and pointers are offsets into it.
* `time_t` and `int` values are integers; `time(NULL)` is the parameter `now`.
* `malloc`/`realloc` succeed.  The last byte of the `name` and `ip_addr`
  arrays of a freshly allocated `Unit` reads as `NUL`, so a field filled by
  `strncpy(dst, src, sizeof dst - 1)` holds the first `sizeof dst - 1` bytes
  of the source string.
* The registry mutex is not modelled: every operation is one atomic step on
  the list of units.
-/

namespace Coordinator

set_option maxRecDepth 100000

/-! ## C strings -/

/-- The terminator of a C string. -/
def NUL : Char := Char.ofNat 0

/-- The C string a pointer denotes: the bytes before the first `NUL`. -/
def cstr (p : List Char) : List Char := p.takeWhile (fun c => c ≠ NUL)

/-- Model of `strlen`. -/
def strlen (p : List Char) : Nat := (cstr p).length

/-- Model of `strcmp(a, b) == 0`. -/
def strcmp_eq (a b : List Char) : Bool := cstr a == cstr b

/-- Model of `strncmp(a, b, n) == 0`: at most `n` bytes are compared and the
comparison stops after a common `NUL`. -/
def strncmp_eq : List Char → List Char → Nat → Bool
  | _, _, 0 => true
  | a, b, n + 1 =>
    if a.headD NUL ≠ b.headD NUL then false
    else if a.headD NUL = NUL then true
    else strncmp_eq a.tail b.tail n

/-- Model of `strncpy(dst, src, n)` into an array of `n + 1` bytes whose last
byte is `NUL`: the string left in `dst`. -/
def strncpy (src : List Char) (n : Nat) : List Char := (cstr src).take n

/-! ## The unit registry -/

def UNIT_TIMEOUT_SECONDS : Int := 90

/-- The record `struct Unit` without its `next` link; the registry is the
list of records from `g_unit_list_head` on. -/
structure Unit where
  name : List Char
  ip_addr : List Char
  signal_port : Int
  last_seen : Int
  deriving DecidableEq, Repr

/-- A record that fits `struct Unit`: `name` is a string of at most 127
bytes and `ip_addr` one of at most 63. -/
def Unit.fits (u : Unit) : Prop :=
  u.name.length ≤ 127 ∧ NUL ∉ u.name ∧ u.ip_addr.length ≤ 63 ∧ NUL ∉ u.ip_addr

instance (u : Unit) : Decidable u.fits := by
  unfold Unit.fits; infer_instance

/-- The search loop of `register_unit`: the registry with the first record
named `name` overwritten in place, or `none` when the loop ends without a
match. -/
def register_update : List Unit → List Char → List Char → Int → Int → Option (List Unit)
  | [], _, _, _, _ => none
  | u :: rest, name, ip, port, now =>
    if strcmp_eq u.name name then
      some ({ u with ip_addr := strncpy ip 63, signal_port := port, last_seen := now } :: rest)
    else
      (register_update rest name ip port now).map (fun l => u :: l)

/-- Embedding of `register_unit`; `now` is the value `time(NULL)` returns.  A
new record becomes the head of the list. -/
def register_unit (units : List Unit) (name ip : List Char) (port now : Int) : List Unit :=
  match register_update units name ip port now with
  | some l => l
  | none =>
    { name := strncpy name 127, ip_addr := strncpy ip 63,
      signal_port := port, last_seen := now } :: units

/-- Embedding of `find_unit` with `ip_size = 64`: `some (ip_buf, port_out)`
when it returns 0, `none` when it returns -1. -/
def find_unit : List Unit → List Char → Int → Option (List Char × Int)
  | [], _, _ => none
  | u :: rest, name, now =>
    if strcmp_eq u.name name then
      if now < u.last_seen + UNIT_TIMEOUT_SECONDS then
        some (strncpy u.ip_addr 63, u.signal_port)
      else none
    else find_unit rest name now

/-! ## Formatting and the response writer -/

/-- Model of the `printf` conversion `%zu`. -/
def fmt_zu (n : Nat) : List Char := Nat.toDigits 10 n

/-- Model of the `printf` conversion `%d`. -/
def fmt_d : Int → List Char
  | Int.ofNat n => Nat.toDigits 10 n
  | Int.negSucc n => '-' :: Nat.toDigits 10 (n + 1)

/-- Model of `snprintf(buf, size, ...)`: the string left in `buf` when the
formatted text is `text`. -/
def snprintf (size : Nat) (text : List Char) : List Char := text.take (size - 1)

def CRLF : List Char := ['\r', '\n']

/-- Embedding of `send_response`: the bytes written to the client socket.
The arguments are C strings. -/
def send_response (status_line content_type body : List Char) : List Char :=
  cstr (snprintf 8192
    (cstr status_line ++ CRLF
      ++ "Content-Type: ".toList ++ cstr content_type ++ CRLF
      ++ "Content-Length: ".toList ++ fmt_zu (strlen body) ++ CRLF
      ++ "Connection: close".toList ++ CRLF ++ CRLF ++ cstr body))

/-! ## Scanning the request buffer -/

/-- Model of `strspn`. -/
def strspn (p accept : List Char) : Nat :=
  (p.takeWhile (fun c => c ≠ NUL ∧ c ∈ accept)).length

/-- Model of `strcspn`. -/
def strcspn (p reject : List Char) : Nat :=
  (p.takeWhile (fun c => c ≠ NUL ∧ c ∉ reject)).length

/-- Result of one `strtok_r` call: the token returned (`none` for `NULL`),
the memory after the call and the saved pointer. -/
structure Tok where
  token : Option Nat
  mem : List Char
  save : Nat
  deriving DecidableEq

/-- Model of `strtok_r(s, delim, &save)` for a non-null scan position `s`
(for the call `strtok_r(NULL, delim, &save)` the position is the saved
pointer). -/
def strtok_r (mem : List Char) (s : Nat) (delim : List Char) : Tok :=
  let s1 := s + strspn (mem.drop s) delim
  if mem.getD s1 NUL = NUL then { token := none, mem := mem, save := s1 }
  else
    let e := s1 + strcspn (mem.drop s1) delim
    if mem.getD e NUL = NUL then { token := some s1, mem := mem, save := e }
    else { token := some s1, mem := mem.set e NUL, save := e + 1 }

/-- Model of `strstr(hay, needle)`: the offset of the first occurrence of
`needle` in the string at `hay`, `none` for `NULL`. -/
def strstr : List Char → List Char → Option Nat
  | [], needle => if needle.isEmpty then some 0 else none
  | c :: rest, needle =>
    if needle.isPrefixOf (cstr (c :: rest)) then some 0
    else if c = NUL then none
    else (strstr rest needle).map (fun i => i + 1)

/-! ## Binary64 numbers

A finite `double` is given by its sign, its integer significand `m < 2^53`
and the exponent `e` of its unit in the last place: the value is
`(-1)^neg * m * 2^e` with `-1074 ≤ e ≤ 971`, `2^52 ≤ m` unless `e = -1074`.
Infinities and NaN are not represented: the parser rejects an overflowing
literal and no other code path of the coordinator creates a number. -/

structure Double where
  neg : Bool
  m : Nat
  e : Int
  deriving DecidableEq, Repr

/-- Number of binary digits of `n`, by halving; `fuel` bounds the loop. -/
def bitlen_loop : Nat → Nat → Nat
  | 0, _ => 0
  | fuel + 1, n => if n = 0 then 0 else bitlen_loop fuel (n / 2) + 1

def bitlen (n : Nat) : Nat := bitlen_loop n n

/-- Number of decimal digits of `n` (0 for 0). -/
def declen_loop : Nat → Nat → Nat
  | 0, _ => 0
  | fuel + 1, n => if n = 0 then 0 else declen_loop fuel (n / 10) + 1

def declen (n : Nat) : Nat := declen_loop n n

/-- Quotient of `num / den` rounded to the nearest integer, ties to even. -/
def div_round_even (num den : Nat) : Nat :=
  let q := num / den
  let r := num % den
  if 2 * r > den ∨ (2 * r = den ∧ q % 2 = 1) then q + 1 else q

/-- The binary64 nearest to `num / den` (`den > 0`), ties to even, with
sign `neg`; `none` when the rounded magnitude is not finite (the case in
which `strtod` returns `HUGE_VAL` and sets `ERANGE`). -/
def round_binary64 (neg : Bool) (num den : Nat) : Option Double :=
  if num = 0 then some { neg := neg, m := 0, e := -1074 }
  else
    -- exponent of the unit in the last place of the binade of num / den
    let e0 : Int := (bitlen num : Int) - (bitlen den : Int) - 53
    let fits : Int → Bool := fun e =>
      if e ≥ 0 then num / (den * 2 ^ e.toNat) < 2 ^ 53
      else num * 2 ^ (-e).toNat / den < 2 ^ 53
    let e1 : Int := if fits e0 then e0 else e0 + 1
    let e : Int := max e1 (-1074)
    let q : Nat :=
      if e ≥ 0 then div_round_even num (den * 2 ^ e.toNat)
      else div_round_even (num * 2 ^ (-e).toNat) den
    let d : Double :=
      if q = 2 ^ 53 then { neg := neg, m := 2 ^ 52, e := e + 1 }
      else { neg := neg, m := q, e := e }
    if d.e > 971 then none else some d

/-- The C conversion `(int)d`: truncation toward zero.  For a value outside
the range of `int` the C standard leaves the conversion undefined; the model
takes the result of the x86-64 conversion instruction, `INT_MIN`. -/
def double_to_int (d : Double) : Int :=
  let mag : Nat := if d.e ≥ 0 then d.m * 2 ^ d.e.toNat else d.m / 2 ^ (-d.e).toNat
  let t : Int := if d.neg then -(mag : Int) else (mag : Int)
  if -2147483648 ≤ t ∧ t ≤ 2147483647 then t else -2147483648

/-- The double a small non-negative integer converts to (`n < 2^53`). -/
def Double.ofNat (n : Nat) : Double :=
  match round_binary64 false n 1 with
  | some d => d
  | none => { neg := false, m := 0, e := -1074 }

/-- The decimal exponent of `num / den` (both positive): the `X` with
`10^X ≤ num / den < 10^(X+1)`. -/
def decimal_exponent (num den : Nat) : Int :=
  if num ≥ den then (declen (num / den) : Int) - 1
  else -(declen ((den + num - 1) / num - 1) : Int)

/-- The digit characters of `n`, padded on the left with zeros to `width`. -/
def fmt_digits (width n : Nat) : List Char :=
  let ds := Nat.toDigits 10 n
  List.replicate (width - ds.length) '0' ++ ds

/-- A digit string without its trailing zeros. -/
def strip_zeros (ds : List Char) : List Char :=
  (ds.reverse.dropWhile (fun c => c = '0')).reverse

/-- Model of the `printf` conversion `%.17g` for a finite double: the value
is rounded (ties to even) to 17 significant digits with decimal exponent
`X`; style `f` is used when `-4 ≤ X < 17`, style `e` otherwise, and the
trailing zeros of the fraction are removed. -/
def fmt_17g (d : Double) : List Char :=
  let sign : List Char := if d.neg then ['-'] else []
  if d.m = 0 then sign ++ ['0']
  else
    let num : Nat := if d.e ≥ 0 then d.m * 2 ^ d.e.toNat else d.m
    let den : Nat := if d.e ≥ 0 then 1 else 2 ^ (-d.e).toNat
    let x0 := decimal_exponent num den
    let s0 : Nat :=
      if x0 ≤ 16 then div_round_even (num * 10 ^ (16 - x0).toNat) den
      else div_round_even num (den * 10 ^ (x0 - 16).toNat)
    let x : Int := if s0 ≥ 10 ^ 17 then x0 + 1 else x0
    let s : Nat := if s0 ≥ 10 ^ 17 then s0 / 10 else s0
    let ds := fmt_digits 17 s
    if -4 ≤ x ∧ x < 17 then
      let ip : List Char := if x ≥ 0 then ds.take (x.toNat + 1) else ['0']
      let fp : List Char :=
        if x ≥ 0 then ds.drop (x.toNat + 1)
        else List.replicate ((-x).toNat - 1) '0' ++ ds
      let fp := strip_zeros fp
      sign ++ ip ++ (if fp.isEmpty then [] else '.' :: fp)
    else
      let fp := strip_zeros (ds.drop 1)
      sign ++ ds.take 1 ++ (if fp.isEmpty then [] else '.' :: fp)
        ++ ['e', if x < 0 then '-' else '+'] ++ fmt_digits 2 x.natAbs

/-! ## JSON documents (`ctz-json.h`) -/

/-- The record `struct ctz_json_member`: the key bytes `k` (without the
terminator), the stored key length and the value. -/
structure ctz_json_member_of (α : Type) where
  k : List Char
  klen : Nat
  v : α
  deriving Repr

/-- The tagged union `struct ctz_json_value`, one constructor per
`ctz_json_type`.  A string holds the bytes of its buffer `s` (without the
terminator) and the stored length `len`. -/
inductive ctz_json_value where
  | CTZ_JSON_NULL
  | CTZ_JSON_FALSE
  | CTZ_JSON_TRUE
  | CTZ_JSON_NUMBER (number : Double)
  | CTZ_JSON_STRING (s : List Char) (len : Nat)
  | CTZ_JSON_ARRAY (e : List ctz_json_value)
  | CTZ_JSON_OBJECT (m : List (ctz_json_member_of ctz_json_value))
  deriving Repr

abbrev ctz_json_member := ctz_json_member_of ctz_json_value

open ctz_json_value

/-- Structural equality test on documents. -/
def ctz_json_value.beq : ctz_json_value → ctz_json_value → Bool
  | CTZ_JSON_NULL, CTZ_JSON_NULL => true
  | CTZ_JSON_FALSE, CTZ_JSON_FALSE => true
  | CTZ_JSON_TRUE, CTZ_JSON_TRUE => true
  | CTZ_JSON_NUMBER a, CTZ_JSON_NUMBER b => a == b
  | CTZ_JSON_STRING s l, CTZ_JSON_STRING s2 l2 => s == s2 && l == l2
  | CTZ_JSON_ARRAY e, CTZ_JSON_ARRAY e2 => beq_elems e e2
  | CTZ_JSON_OBJECT m, CTZ_JSON_OBJECT m2 => beq_members m m2
  | _, _ => false
where
  beq_elems : List ctz_json_value → List ctz_json_value → Bool
    | [], [] => true
    | a :: r, b :: r2 => ctz_json_value.beq a b && beq_elems r r2
    | _, _ => false
  beq_members : List (ctz_json_member_of ctz_json_value) →
      List (ctz_json_member_of ctz_json_value) → Bool
    | [], [] => true
    | a :: r, b :: r2 =>
      a.k == b.k && a.klen == b.klen && ctz_json_value.beq a.v b.v && beq_members r r2
    | _, _ => false

theorem ctz_json_value.beq_sound (a : ctz_json_value) :
    ∀ b : ctz_json_value, ctz_json_value.beq a b = true → a = b := by
  refine ctz_json_value.rec
    (motive_1 := fun a => ∀ b, ctz_json_value.beq a b = true → a = b)
    (motive_2 := fun l => ∀ l2, ctz_json_value.beq.beq_elems l l2 = true → l = l2)
    (motive_3 := fun l => ∀ l2, ctz_json_value.beq.beq_members l l2 = true → l = l2)
    (motive_4 := fun m => ∀ m2 : ctz_json_member_of ctz_json_value,
      (m.k == m2.k && m.klen == m2.klen && ctz_json_value.beq m.v m2.v) = true → m = m2)
    ?_ ?_ ?_ ?_ ?_ ?_ ?_ ?_ ?_ ?_ ?_ ?_ a
  · intro b h; cases b <;> simp_all [ctz_json_value.beq]
  · intro b h; cases b <;> simp_all [ctz_json_value.beq]
  · intro b h; cases b <;> simp_all [ctz_json_value.beq]
  · intro n b h; cases b <;> simp_all [ctz_json_value.beq]
  · intro s l b h; cases b <;> simp_all [ctz_json_value.beq]
  · intro e ih b h; cases b <;> simp_all [ctz_json_value.beq]
    exact ih _ h
  · intro m ih b h; cases b <;> simp_all [ctz_json_value.beq]
    exact ih _ h
  · intro l2 h; cases l2 <;> simp_all [ctz_json_value.beq.beq_elems]
  · intro a r iha ihr l2 h
    cases l2 with
    | nil => simp [ctz_json_value.beq.beq_elems] at h
    | cons b r2 =>
      simp only [ctz_json_value.beq.beq_elems, Bool.and_eq_true] at h
      rw [iha b h.1, ihr r2 h.2]
  · intro l2 h; cases l2 <;> simp_all [ctz_json_value.beq.beq_members]
  · intro a r iha ihr l2 h
    cases l2 with
    | nil => simp [ctz_json_value.beq.beq_members] at h
    | cons b r2 =>
      simp only [ctz_json_value.beq.beq_members, Bool.and_eq_true] at h
      rw [iha b (by simp only [Bool.and_eq_true]; exact h.1), ihr r2 h.2]
  · intro k klen v ih m2 h
    cases m2 with
    | mk k2 klen2 v2 =>
      simp only [Bool.and_eq_true, beq_iff_eq] at h
      rw [h.1.1, h.1.2, ih v2 h.2]

theorem ctz_json_value.beq_refl (a : ctz_json_value) : ctz_json_value.beq a a = true := by
  refine ctz_json_value.rec
    (motive_1 := fun a => ctz_json_value.beq a a = true)
    (motive_2 := fun l => ctz_json_value.beq.beq_elems l l = true)
    (motive_3 := fun l => ctz_json_value.beq.beq_members l l = true)
    (motive_4 := fun m => ctz_json_value.beq m.v m.v = true)
    ?_ ?_ ?_ ?_ ?_ ?_ ?_ ?_ ?_ ?_ ?_ ?_ a
  all_goals (intros; simp_all [ctz_json_value.beq, ctz_json_value.beq.beq_elems,
    ctz_json_value.beq.beq_members])

instance : DecidableEq ctz_json_value := fun a b =>
  if h : ctz_json_value.beq a b = true then isTrue (ctz_json_value.beq_sound a b h)
  else isFalse (fun e => h (e ▸ ctz_json_value.beq_refl a))


/-! ### Accessors and builders -/

/-- Model of `memcmp(a, b, n) == 0`. -/
def memcmp_eq (a b : List Char) (n : Nat) : Bool :=
  (List.range n).all (fun i => a.getD i NUL == b.getD i NUL)

/-- The member search shared by `ctz_json_find_object_value` and
`ctz_json_object_set_value`: the first member whose stored key length is
`key_len` and whose first `key_len` key bytes are those of `key`. -/
def key_matches (m : ctz_json_member) (key : List Char) : Bool :=
  m.klen == strlen key && memcmp_eq m.k key (strlen key)

/-- Embedding of `ctz_json_find_object_value` for a non-null document and
key; `none` is `NULL`. -/
def ctz_json_find_object_value (value : ctz_json_value) (key : List Char) :
    Option ctz_json_value :=
  match value with
  | CTZ_JSON_OBJECT m => (m.find? (fun x => key_matches x key)).map (fun x => x.v)
  | _ => none

/-- Embedding of `ctz_json_get_type`. -/
inductive ctz_json_type where
  | NULL | FALSE | TRUE | NUMBER | STRING | ARRAY | OBJECT
  deriving DecidableEq, Repr

def ctz_json_get_type : Option ctz_json_value → ctz_json_type
  | some CTZ_JSON_NULL => .NULL
  | some CTZ_JSON_FALSE => .FALSE
  | some CTZ_JSON_TRUE => .TRUE
  | some (CTZ_JSON_NUMBER _) => .NUMBER
  | some (CTZ_JSON_STRING _ _) => .STRING
  | some (CTZ_JSON_ARRAY _) => .ARRAY
  | some (CTZ_JSON_OBJECT _) => .OBJECT
  | none => .NULL

/-- The double `0.0`. -/
def Double.zero : Double := { neg := false, m := 0, e := -1074 }

/-- Embedding of `ctz_json_get_number`. -/
def ctz_json_get_number : Option ctz_json_value → Double
  | some (CTZ_JSON_NUMBER n) => n
  | _ => Double.zero

/-- Embedding of `ctz_json_get_string`: the pointer returned (`none` would
be `NULL`); for a value that is not a string it is the literal `""`. -/
def ctz_json_get_string : Option ctz_json_value → Option (List Char)
  | some (CTZ_JSON_STRING s _) => some s
  | _ => some []

/-- Embedding of `ctz_json_get_string_length`. -/
def ctz_json_get_string_length : Option ctz_json_value → Nat
  | some (CTZ_JSON_STRING _ len) => len
  | _ => 0

/-- Embedding of `ctz_json_new_string` for a non-null argument. -/
def ctz_json_new_string (s : List Char) : ctz_json_value :=
  CTZ_JSON_STRING (cstr s) (strlen s)

def ctz_json_new_array : ctz_json_value := CTZ_JSON_ARRAY []

def ctz_json_new_object : ctz_json_value := CTZ_JSON_OBJECT []

/-- Embedding of `ctz_json_array_push_value` for non-null arguments: the
array after the call and the status returned. -/
def ctz_json_array_push_value (array value_to_push : ctz_json_value) :
    ctz_json_value × Int :=
  match array with
  | CTZ_JSON_ARRAY e => (CTZ_JSON_ARRAY (e ++ [value_to_push]), 0)
  | other => (other, -1)

/-- The replacement loop of `ctz_json_object_set_value`: the members with
the value of the first member matching `key` replaced, `none` when no
member matches. -/
def set_existing : List ctz_json_member → List Char → ctz_json_value →
    Option (List ctz_json_member)
  | [], _, _ => none
  | x :: rest, key, v =>
    if key_matches x key then some ({ x with v := v } :: rest)
    else (set_existing rest key v).map (fun l => x :: l)

/-- Embedding of `ctz_json_object_set_value` for non-null arguments: the
object after the call and the status returned. -/
def ctz_json_object_set_value (object : ctz_json_value) (key : List Char)
    (value_to_add : ctz_json_value) : ctz_json_value × Int :=
  match object with
  | CTZ_JSON_OBJECT m =>
    match set_existing m key value_to_add with
    | some m2 => (CTZ_JSON_OBJECT m2, 0)
    | none =>
      (CTZ_JSON_OBJECT (m ++ [{ k := cstr key, klen := strlen key, v := value_to_add }]), 0)
  | other => (other, -1)

/-! ### Serialisation -/

/-- The upper-case hexadecimal digit of `n < 16`. -/
def hex_digit_upper (n : Nat) : Char := (Nat.digitChar n).toUpper

/-- Model of `sprintf(hex, "\\u%04X", ch)` for a byte `ch`. -/
def fmt_u04X (ch : Nat) : List Char :=
  ['\\', 'u', '0', '0', hex_digit_upper (ch / 16), hex_digit_upper (ch % 16)]

/-- One iteration of the loop of `ctz_stringify_string`: the text appended
for the byte `ch`. -/
def escape_byte (ch : Char) : List Char :=
  if ch = '"' then ['\\', '"']
  else if ch = '\\' then ['\\', '\\']
  else if ch = Char.ofNat 8 then ['\\', 'b']
  else if ch = Char.ofNat 12 then ['\\', 'f']
  else if ch = '\n' then ['\\', 'n']
  else if ch = '\r' then ['\\', 'r']
  else if ch = '\t' then ['\\', 't']
  else if ch.toNat < 0x20 then fmt_u04X ch.toNat
  else [ch]

/-- Embedding of `ctz_stringify_string`: the text appended for the `len`
bytes at `s`. -/
def ctz_stringify_string (s : List Char) (len : Nat) : List Char :=
  '"' :: ((List.range len).map (fun i => escape_byte (s.getD i NUL))).flatten ++ ['"']

/-- Model of `sprintf(buffer, "%*s", n, "")`: `n` blanks. -/
def fmt_pad (n : Nat) : List Char := List.replicate n ' '

/-- Embedding of `ctz_stringify_value`: the text appended to the string
buffer.  The 128-byte scratch array is not modelled, so the text stands for
what the code appends while the indentation fits in it. -/
def ctz_stringify_value : ctz_json_value → Bool → Nat → List Char
  | CTZ_JSON_NULL, _, _ => "null".toList
  | CTZ_JSON_TRUE, _, _ => "true".toList
  | CTZ_JSON_FALSE, _, _ => "false".toList
  | CTZ_JSON_NUMBER n, _, _ => fmt_17g n
  | CTZ_JSON_STRING s len, _, _ => ctz_stringify_string s len
  | CTZ_JSON_ARRAY e, pretty, indent =>
    ['['] ++ (if pretty && !e.isEmpty then ['\n'] else [])
      ++ stringify_elems e pretty indent
      ++ (if pretty && !e.isEmpty then fmt_pad (indent * 2) else []) ++ [']']
  | CTZ_JSON_OBJECT m, pretty, indent =>
    ['{'] ++ (if pretty && !m.isEmpty then ['\n'] else [])
      ++ stringify_members m pretty indent
      ++ (if pretty && !m.isEmpty then fmt_pad (indent * 2) else []) ++ ['}']
where
  /-- The element loop of the array case, from element `i` on. -/
  stringify_elems : List ctz_json_value → Bool → Nat → List Char
    | [], _, _ => []
    | v :: rest, pretty, indent =>
      (if pretty then fmt_pad ((indent + 1) * 2) else [])
        ++ ctz_stringify_value v pretty (indent + 1)
        ++ (if rest.isEmpty then [] else [','])
        ++ (if pretty then ['\n'] else [])
        ++ stringify_elems rest pretty indent
  /-- The member loop of the object case, from member `i` on. -/
  stringify_members : List (ctz_json_member_of ctz_json_value) → Bool → Nat → List Char
    | [], _, _ => []
    | x :: rest, pretty, indent =>
      (if pretty then fmt_pad ((indent + 1) * 2) else [])
        ++ ctz_stringify_string x.k x.klen
        ++ (if pretty then [':', ' '] else [':'])
        ++ ctz_stringify_value x.v pretty (indent + 1)
        ++ (if rest.isEmpty then [] else [','])
        ++ (if pretty then ['\n'] else [])
        ++ stringify_members rest pretty indent

/-- Embedding of `ctz_json_stringify`; `none` is `NULL`. -/
def ctz_json_stringify (value : Option ctz_json_value) (pretty : Bool) :
    Option (List Char) :=
  match value with
  | none => none
  | some v => some (ctz_stringify_value v pretty 0)


/-! ### The parser

`c->json` is the list of the bytes from the cursor on.  Error texts written
to the error buffer are not modelled. -/

/-- The ways a parser routine ends without a value. -/
inductive ctz_stop where
  /-- the routine returned `NULL` -/
  | null
  /-- an `assert` failed -/
  | assert_failed
  /-- the routine left defined behaviour (null pointer arithmetic) -/
  | undefined
  /-- the fuel of the embedding ran out -/
  | out_of_fuel
  deriving DecidableEq, Repr

/-- Result of a parser routine: the value built and the cursor after it. -/
abbrev Parsed (α : Type) := Except ctz_stop (α × List Char)

instance {α : Type} [DecidableEq α] : DecidableEq (Except ctz_stop α) := fun a b =>
  match a, b with
  | .ok x, .ok y => if h : x = y then isTrue (by rw [h]) else isFalse (by intro e; cases e; exact h rfl)
  | .error x, .error y =>
    if h : x = y then isTrue (by rw [h]) else isFalse (by intro e; cases e; exact h rfl)
  | .ok _, .error _ => isFalse (by intro e; cases e)
  | .error _, .ok _ => isFalse (by intro e; cases e)

/-- The byte at a pointer. -/
def peek (p : List Char) : Char := p.headD NUL

def is_space (c : Char) : Bool := c = ' ' ∨ c = '\t' ∨ c = '\n' ∨ c = '\r'

/-- Embedding of `ctz_parse_whitespace`: the cursor after the call. -/
def ctz_parse_whitespace (json : List Char) : List Char := json.dropWhile is_space

/-- Embedding of `ctz_parse_literal`. -/
def ctz_parse_literal (json literal : List Char) (value : ctz_json_value) :
    Parsed ctz_json_value :=
  if strncmp_eq json literal (strlen literal) then .ok (value, json.drop (strlen literal))
  else .error .null

/-- Model of `isdigit` in the C locale. -/
def isdigit (c : Char) : Bool := '0' ≤ c ∧ c ≤ '9'

def is_hex_digit (c : Char) : Bool :=
  isdigit c || ('a' ≤ c ∧ c ≤ 'f') || ('A' ≤ c ∧ c ≤ 'F')

def hex_value (c : Char) : Nat :=
  if isdigit c then c.toNat - '0'.toNat
  else if 'a' ≤ c ∧ c ≤ 'f' then c.toNat - 'a'.toNat + 10
  else c.toNat - 'A'.toNat + 10

/-- The number a digit string denotes in base `b`. -/
def digits_value (b : Nat) (ds : List Char) : Nat :=
  ds.foldl (fun acc c => acc * b + hex_value c) 0

/-- An optional exponent part `[+-]?digit+` after the exponent letter: the
signed exponent and the number of bytes it takes, `none` when no digit
follows. -/
def exponent_part (p : List Char) : Option (Int × Nat) :=
  let signed := peek p = '+' ∨ peek p = '-'
  let q := if signed then p.tail else p
  let ds := q.takeWhile isdigit
  if ds.isEmpty then none
  else
    let v : Int := digits_value 10 ds
    some (if peek p = '-' then -v else v, (if signed then 1 else 0) + ds.length)

/-- Model of the C library's `strtod(nptr, &end)` on a text that starts with
an optional `-` and a digit (the only texts `ctz_parse_number` passes): the
longest prefix that is a decimal or hexadecimal floating constant is
converted, correctly rounded.  The result is the value (`none` when it is
`±HUGE_VAL` with `errno = ERANGE`) and the number of bytes before `end`. -/
def strtod (nptr : List Char) : Option Double × Nat :=
  let neg : Bool := peek nptr = '-'
  let s : Nat := if neg ∨ peek nptr = '+' then 1 else 0
  let p := nptr.drop s
  let hex_int := (p.drop 2).takeWhile is_hex_digit
  let hex_rest := p.drop (2 + hex_int.length)
  let hex_frac := if peek hex_rest = '.' then hex_rest.tail.takeWhile is_hex_digit else []
  if peek p = '0' ∧ (peek p.tail = 'x' ∨ peek p.tail = 'X')
      ∧ ¬ (hex_int.isEmpty ∧ hex_frac.isEmpty) then
    let dot : Nat := if peek hex_rest = '.' then 1 else 0
    let q := hex_rest.drop (dot + hex_frac.length)
    let ex : Option (Int × Nat) :=
      if peek q = 'p' ∨ peek q = 'P' then exponent_part q.tail else none
    let e2 : Int := (ex.map (fun x => x.1)).getD 0 - 4 * (hex_frac.length : Int)
    let h := digits_value 16 (hex_int ++ hex_frac)
    (round_binary64 neg (h * 2 ^ e2.toNat) (2 ^ (-e2).toNat),
      s + 2 + hex_int.length + dot + hex_frac.length
        + ((ex.map (fun x => x.2 + 1)).getD 0))
  else
    let int := p.takeWhile isdigit
    let rest := p.drop int.length
    let frac := if peek rest = '.' then rest.tail.takeWhile isdigit else []
    if int.isEmpty ∧ frac.isEmpty then (some Double.zero, 0)
    else
      let dot : Nat := if peek rest = '.' then 1 else 0
      let q := rest.drop (dot + frac.length)
      let ex : Option (Int × Nat) :=
        if peek q = 'e' ∨ peek q = 'E' then exponent_part q.tail else none
      let e10 : Int := (ex.map (fun x => x.1)).getD 0 - (frac.length : Int)
      let d := digits_value 10 (int ++ frac)
      (round_binary64 neg (d * 10 ^ e10.toNat) (10 ^ (-e10).toNat),
        s + int.length + dot + frac.length + ((ex.map (fun x => x.2 + 1)).getD 0))

/-- The validation scan of `ctz_parse_number`: the pointer `p` it ends at,
`none` when it reports an invalid format. -/
def number_scan (json : List Char) : Option (List Char) :=
  let p0 := if peek json = '-' then json.tail else json
  let int : Option (List Char) :=
    if peek p0 = '0' then
      if '1' ≤ peek p0.tail ∧ peek p0.tail ≤ '9' then none else some p0.tail
    else if '1' ≤ peek p0 ∧ peek p0 ≤ '9' then some (p0.tail.dropWhile isdigit)
    else none
  let frac : Option (List Char) := int.bind (fun p =>
    if peek p = '.' then
      if isdigit (peek p.tail) then some (p.tail.dropWhile isdigit) else none
    else some p)
  frac.bind (fun p =>
    if peek p = 'e' ∨ peek p = 'E' then
      let q := if peek p.tail = '+' ∨ peek p.tail = '-' then p.tail.tail else p.tail
      if isdigit (peek q) then some (q.dropWhile isdigit) else none
    else some p)

/-- Embedding of `ctz_parse_number`. -/
def ctz_parse_number (json : List Char) : Parsed ctz_json_value :=
  match number_scan json with
  | none => .error .null
  | some p =>
    match strtod json with
    | (none, _) => .error .null
    | (some val, end_) =>
      if json.length - p.length ≠ end_ then .error .null
      else .ok (CTZ_JSON_NUMBER val, p)


/-- Embedding of `ctz_parse_hex4`: the value left in `*u` and the pointer
returned, `none` for `NULL`. -/
def ctz_parse_hex4 (p : List Char) : Option (Nat × List Char) :=
  let step : Option (Nat × List Char) → Option (Nat × List Char) := fun st =>
    st.bind (fun x =>
      let ch := peek x.2
      let u := (x.1 * 16) % 2 ^ 32
      if '0' ≤ ch ∧ ch ≤ '9' then some (u ||| (ch.toNat - '0'.toNat), x.2.tail)
      else if 'a' ≤ ch ∧ ch ≤ 'f' then some (u ||| (ch.toNat - 'a'.toNat + 10), x.2.tail)
      else if 'A' ≤ ch ∧ ch ≤ 'F' then some (u ||| (ch.toNat - 'A'.toNat + 10), x.2.tail)
      else none)
  step (step (step (step (some (0, p)))))

/-- A value stored into a `char`. -/
def to_char (n : Nat) : Char := Char.ofNat (n % 256)

/-- Embedding of `ctz_encode_utf8`: the bytes written, `none` when the
assertion `u <= 0x10FFFF` fails. -/
def ctz_encode_utf8 (u : Nat) : Option (List Char) :=
  if u ≤ 0x7F then some [to_char (u &&& 0xFF)]
  else if u ≤ 0x7FF then
    some [to_char (0xC0 ||| ((u >>> 6) &&& 0xFF)), to_char (0x80 ||| (u &&& 0x3F))]
  else if u ≤ 0xFFFF then
    some [to_char (0xE0 ||| ((u >>> 12) &&& 0xFF)), to_char (0x80 ||| ((u >>> 6) &&& 0x3F)),
      to_char (0x80 ||| (u &&& 0x3F))]
  else if u ≤ 0x10FFFF then
    some [to_char (0xF0 ||| ((u >>> 18) &&& 0xFF)), to_char (0x80 ||| ((u >>> 12) &&& 0x3F)),
      to_char (0x80 ||| ((u >>> 6) &&& 0x3F)), to_char (0x80 ||| (u &&& 0x3F))]
  else none

/-- The code point of a surrogate pair as the `unsigned` expression
`(((u - 0xD800) << 10) | (u2 - 0xDC00)) + 0x10000` computes it. -/
def surrogate_pair (u u2 : Nat) : Nat :=
  let sub := fun (a b : Nat) => (a + 2 ^ 32 - b) % 2 ^ 32
  ((((sub u 0xD800) * 2 ^ 10) % 2 ^ 32 ||| sub u2 0xDC00) + 0x10000) % 2 ^ 32

def is_simple_escape (c : Char) : Bool :=
  c = '"' ∨ c = '\\' ∨ c = '/' ∨ c = 'b' ∨ c = 'f' ∨ c = 'n' ∨ c = 'r' ∨ c = 't'

/-- The first loop of `ctz_parse_string_raw` (validation and counting) from
pointer `p` with count `head`: the final count and the pointer at the
closing quote. -/
def string_pass1 : Nat → List Char → Nat → Except ctz_stop (Nat × List Char)
  | 0, _, _ => .error .out_of_fuel
  | fuel + 1, p, head =>
    if peek p = '"' then .ok (head, p)
    else if peek p = NUL then .error .null
    else if (peek p).toNat < 0x20 then .error .null
    else if peek p = '\\' then
      let p := p.tail
      if is_simple_escape (peek p) then string_pass1 fuel p.tail (head + 1)
      else if peek p = 'u' then
        match ctz_parse_hex4 p.tail with
        | none => .error .null
        | some (u, p) =>
          if 0xD800 ≤ u ∧ u ≤ 0xDBFF then
            if peek p ≠ '\\' then .error .null
            else if peek p.tail ≠ 'u' then .error .null
            else
              match ctz_parse_hex4 p.tail.tail with
              | none => .error .null
              | some (u2, p) =>
                if u2 < 0xDC00 ∨ u2 > 0xDFFF then .error .null
                else
                  let u := surrogate_pair u u2
                  string_pass1 fuel p
                    (head + (if u ≤ 0x7F then 1 else if u ≤ 0x7FF then 2
                      else if u ≤ 0xFFFF then 3 else 4))
          else
            string_pass1 fuel p
              (head + (if u ≤ 0x7F then 1 else if u ≤ 0x7FF then 2
                else if u ≤ 0xFFFF then 3 else 4))
      else .error .null
    else string_pass1 fuel p.tail (head + 1)

/-- The call `ctz_encode_utf8(&q, u)` of the second loop followed by the rest
of the loop, whose result is `r`: the bytes of `u` come first, and a failed
assertion ends the run. -/
def emit_utf8 (u : Nat) (r : Except ctz_stop (List Char × List Char)) :
    Except ctz_stop (List Char × List Char) :=
  match ctz_encode_utf8 u with
  | none => .error .assert_failed
  | some bytes => r.map (fun r => (bytes ++ r.1, r.2))

/-- The second loop of `ctz_parse_string_raw` (decoding) from pointer `p`:
the bytes written through `q` and the pointer at the closing quote. -/
def string_pass2 : Nat → List Char → Except ctz_stop (List Char × List Char)
  | 0, _ => .error .out_of_fuel
  | fuel + 1, p =>
    if peek p = '"' then .ok ([], p)
    else if peek p = '\\' then
      let p := p.tail
      let c := peek p
      let emit : List Char → List Char → Except ctz_stop (List Char × List Char) :=
        fun bytes p2 => (string_pass2 fuel p2).map (fun r => (bytes ++ r.1, r.2))
      if c = '"' then emit ['"'] p.tail
      else if c = '\\' then emit ['\\'] p.tail
      else if c = '/' then emit ['/'] p.tail
      else if c = 'b' then emit [Char.ofNat 8] p.tail
      else if c = 'f' then emit [Char.ofNat 12] p.tail
      else if c = 'n' then emit ['\n'] p.tail
      else if c = 'r' then emit ['\r'] p.tail
      else if c = 't' then emit ['\t'] p.tail
      else if c = 'u' then
        match ctz_parse_hex4 p.tail with
        | none => .error .undefined
        | some (u, p) =>
          if 0xD800 ≤ u ∧ u ≤ 0xDBFF then
            match ctz_parse_hex4 p.tail.tail with
            | none => .error .undefined
            | some (u2, p) => emit_utf8 (surrogate_pair u u2) (string_pass2 fuel p)
          else emit_utf8 u (string_pass2 fuel p)
      else emit [] p.tail
    else (string_pass2 fuel p.tail).map (fun r => (peek p :: r.1, r.2))

/-- Embedding of `ctz_parse_string_raw`: the buffer `*str`, the length
`*len` and the cursor after the closing quote. -/
def ctz_parse_string_raw (json : List Char) : Parsed (List Char × Nat) :=
  match string_pass1 (json.length + 1) json 0 with
  | .error e => .error e
  | .ok (head, _) =>
    match string_pass2 (json.length + 1) json with
    | .error e => .error e
    | .ok (str, p) => .ok ((str, head), p.tail)

/-- The macro `CTZ_EXPECT(c, ch)`: the cursor after it. -/
def CTZ_EXPECT (json : List Char) (ch : Char) : Except ctz_stop (List Char) :=
  if peek json = ch then .ok json.tail else .error .assert_failed

/-- Embedding of `ctz_parse_string`. -/
def ctz_parse_string (json : List Char) : Parsed ctz_json_value :=
  match CTZ_EXPECT json '"' with
  | .error e => .error e
  | .ok json =>
    match ctz_parse_string_raw json with
    | .error e => .error e
    | .ok ((s, len), rest) => .ok (CTZ_JSON_STRING s len, rest)

mutual
/-- Embedding of `ctz_parse_value`. -/
def ctz_parse_value : Nat → List Char → Parsed ctz_json_value
  | 0, _ => .error .out_of_fuel
  | fuel + 1, json =>
    let json := ctz_parse_whitespace json
    if peek json = 'n' then ctz_parse_literal json "null".toList CTZ_JSON_NULL
    else if peek json = 't' then ctz_parse_literal json "true".toList CTZ_JSON_TRUE
    else if peek json = 'f' then ctz_parse_literal json "false".toList CTZ_JSON_FALSE
    else if peek json = '"' then ctz_parse_string json
    else if peek json = '[' then ctz_parse_array fuel json
    else if peek json = '{' then ctz_parse_object fuel json
    else if peek json = NUL then .error .null
    else ctz_parse_number json
/-- Embedding of `ctz_parse_array` up to its element loop. -/
def ctz_parse_array : Nat → List Char → Parsed ctz_json_value
  | 0, _ => .error .out_of_fuel
  | fuel + 1, json =>
    match CTZ_EXPECT json '[' with
    | .error e => .error e
    | .ok json =>
      let json := ctz_parse_whitespace json
      if peek json = ']' then .ok (CTZ_JSON_ARRAY [], json.tail)
      else ctz_parse_array_loop fuel json []
/-- The loop `for (;;)` of `ctz_parse_array`; `e` holds the elements stored
so far. -/
def ctz_parse_array_loop : Nat → List Char → List ctz_json_value → Parsed ctz_json_value
  | 0, _, _ => .error .out_of_fuel
  | fuel + 1, json, e =>
    match ctz_parse_value fuel json with
    | .error err => .error err
    | .ok (element, json) =>
      let e := e ++ [element]
      let json := ctz_parse_whitespace json
      if peek json = ',' then ctz_parse_array_loop fuel (ctz_parse_whitespace json.tail) e
      else if peek json = ']' then .ok (CTZ_JSON_ARRAY e, json.tail)
      else .error .null
/-- Embedding of `ctz_parse_object` up to its member loop. -/
def ctz_parse_object : Nat → List Char → Parsed ctz_json_value
  | 0, _ => .error .out_of_fuel
  | fuel + 1, json =>
    match CTZ_EXPECT json '{' with
    | .error e => .error e
    | .ok json =>
      let json := ctz_parse_whitespace json
      if peek json = '}' then .ok (CTZ_JSON_OBJECT [], json.tail)
      else ctz_parse_object_loop fuel json []
/-- The loop `for (;;)` of `ctz_parse_object`; `m` holds the members stored
so far. -/
def ctz_parse_object_loop : Nat → List Char → List ctz_json_member → Parsed ctz_json_value
  | 0, _, _ => .error .out_of_fuel
  | fuel + 1, json, m =>
    if peek json ≠ '"' then .error .null
    else
      match CTZ_EXPECT json '"' with
      | .error e => .error e
      | .ok json =>
        match ctz_parse_string_raw json with
        | .error e => .error e
        | .ok ((k, klen), json) =>
          let json := ctz_parse_whitespace json
          if peek json ≠ ':' then .error .null
          else
            match ctz_parse_value fuel (ctz_parse_whitespace json.tail) with
            | .error err => .error err
            | .ok (v, json) =>
              let m := m ++ [{ k := k, klen := klen, v := v }]
              let json := ctz_parse_whitespace json
              if peek json = ',' then
                ctz_parse_object_loop fuel (ctz_parse_whitespace json.tail) m
              else if peek json = '}' then .ok (CTZ_JSON_OBJECT m, json.tail)
              else .error .null
end

/-- Embedding of `ctz_json_parse`: the document, or how the call ended
without one (`ctz_stop.null` is the return value `NULL`). -/
def ctz_json_parse (json : List Char) : Except ctz_stop ctz_json_value :=
  match ctz_parse_value (3 * json.length + 3) json with
  | .error e => .error e
  | .ok (value, rest) =>
    if peek (ctz_parse_whitespace rest) ≠ NUL then .error .null else .ok value


/-! ## The outbound client -/

/-- What the network does with one call of `send_http_request`: a failing
step, or the bytes the single `read` delivers. -/
inductive PeerReply where
  | resolve_failed
  | socket_failed
  | connect_failed
  | write_failed
  | read_failed
  | read_ok (bytes : List Char)
  deriving DecidableEq, Repr

/-- The peers: the reply to a request `(host, port, request text)`. -/
abbrev Network := List Char → Int → List Char → PeerReply

/-- Embedding of `send_http_request`: the return value and the string left
in `response_buf`.  `read` fills at most `response_size - 1` bytes. -/
def send_http_request (net : Network) (host : List Char) (port : Int)
    (request : List Char) (response_size : Nat) : Int × List Char :=
  match net (cstr host) port (cstr request) with
  | .read_ok bytes =>
    let response_buf := cstr (bytes.take (response_size - 1))
    if (strstr response_buf "HTTP/1.1 200 OK".toList).isNone then (-1, response_buf)
    else (0, response_buf)
  | _ => (-1, [])

/-! ## The connection handler -/

def MAX_HTTP_BODY_SIZE : Nat := 50 * 1024 * 1024

/-- One call of `send_http_request` as seen from outside: host, port and
the request text written. -/
structure Outbound where
  host : List Char
  port : Int
  request : List Char
  deriving DecidableEq, Repr

/-- What one run of `handle_connection` does: the registry it leaves, the
bytes written to the client (`none`: the socket is closed without a
response), the outbound calls made, and whether the JSON parser stopped the
process (failed assertion or undefined behaviour). -/
structure Outcome where
  units : List Unit
  sent : Option (List Char)
  outbound : List Outbound
  crashed : Bool
  deriving DecidableEq, Repr

/-- The request as `handle_connection` holds it after its parsing step: the
buffer and the pointers `method`, `path` and `body` into it (`body = none`
is `NULL`). -/
structure Request where
  mem : List Char
  method : Nat
  path : Nat
  body : Option Nat
  deriving DecidableEq, Repr

/-- The parsing step of `handle_connection` (from `buffer[n] = 0` to the
computation of `body`) on the buffer contents `buffer`; `none` when the
handler closes the socket without an answer. -/
def parse_request (buffer : List Char) : Option Request :=
  let line := strtok_r buffer 0 CRLF
  match line.token with
  | none => none
  | some first_line =>
    let saveptr_line := line.save
    let t1 := strtok_r line.mem first_line [' ']
    let t2 := strtok_r t1.mem t1.save [' ']
    match t1.token, t2.token with
    | some method, some path =>
      some { mem := t2.mem, method := method, path := path,
             body := (strstr (t2.mem.drop saveptr_line) (CRLF ++ CRLF)).map
                       (fun i => saveptr_line + i + 4) }
    | _, _ => none

def json_type : List Char := "application/json".toList

/-- A response written with `send_response` as the only effect. -/
def reply (units : List Unit) (status_line body : List Char) : Outcome :=
  { units := units, sent := some (send_response status_line json_type body),
    outbound := [], crashed := false }

/-- The outcome of a parser stop other than `NULL`. -/
def crash (units : List Unit) : Outcome :=
  { units := units, sent := none, outbound := [], crashed := true }

/-- The route `POST /register` of `handle_connection`. -/
def route_register (units : List Unit) (now : Int) (ip_addr : List Char) (r : Request) :
    Outcome :=
  match r.body with
  | some body =>
    match ctz_json_parse (r.mem.drop body) with
    | .ok root =>
      let unit_name := ctz_json_get_string (ctz_json_find_object_value root "unit_name".toList)
      let listen_port :=
        double_to_int (ctz_json_get_number (ctz_json_find_object_value root "listen_port".toList))
      match unit_name with
      | some name =>
        if listen_port > 0 then
          reply (register_unit units name ip_addr listen_port now)
            "HTTP/1.1 200 OK".toList "\x7b\"status\":\"registered\"\x7d".toList
        else
          reply units "HTTP/1.1 400 Bad Request".toList
            "\x7b\"error\":\"missing unit_name or listen_port\"\x7d".toList
      | none =>
        reply units "HTTP/1.1 400 Bad Request".toList
          "\x7b\"error\":\"missing unit_name or listen_port\"\x7d".toList
    | .error .null =>
      reply units "HTTP/1.1 400 Bad Request".toList "\x7b\"error\":\"invalid json\"\x7d".toList
    | .error _ => crash units
  | none =>
    reply units "HTTP/1.1 400 Bad Request".toList "\x7b\"error\":\"missing body\"\x7d".toList

/-- The object the loop of the route `GET /units` builds for one record. -/
def unit_obj (u : Unit) (now : Int) : ctz_json_value :=
  let o := (ctz_json_object_set_value ctz_json_new_object "name".toList
    (ctz_json_new_string u.name)).1
  if now < u.last_seen + UNIT_TIMEOUT_SECONDS then
    (ctz_json_object_set_value o "status".toList (ctz_json_new_string "online".toList)).1
  else
    (ctz_json_object_set_value o "status".toList (ctz_json_new_string "offline".toList)).1

/-- The array the loop of the route `GET /units` builds. -/
def units_array (units : List Unit) (now : Int) : ctz_json_value :=
  units.foldl (fun root u => (ctz_json_array_push_value root (unit_obj u now)).1)
    ctz_json_new_array

/-- The route `GET /units` of `handle_connection`. -/
def route_units (units : List Unit) (now : Int) : Outcome :=
  let json_body := ctz_json_stringify (some (units_array units now)) false
  reply units "HTTP/1.1 200 OK".toList (json_body.getD "[]".toList)

/-- The route `GET /nodes?target_unit=...` of `handle_connection`, entered
with `target_name = path + 20`. -/
def route_nodes (units : List Unit) (now : Int) (net : Network) (target_name : List Char) :
    Outcome :=
  match find_unit units target_name now with
  | some (target_ip, target_port) =>
    let http_req := snprintf 512
      ("GET /nodes_list HTTP/1.1".toList ++ CRLF
        ++ "Host: ".toList ++ cstr target_ip ++ [':'] ++ fmt_d target_port ++ CRLF
        ++ "Connection: close".toList ++ CRLF ++ CRLF)
    let call : Outbound := { host := cstr target_ip, port := target_port, request := cstr http_req }
    match send_http_request net target_ip target_port http_req 8192 with
    | (0, http_resp_buf) =>
      match strstr http_resp_buf (CRLF ++ CRLF) with
      | some body_start =>
        { reply units "HTTP/1.1 200 OK".toList (http_resp_buf.drop (body_start + 4)) with
          outbound := [call] }
      | none =>
        { reply units "HTTP/1.1 500 Server Error".toList
            "\x7b\"error\":\"invalid response from target unit\"\x7d".toList with outbound := [call] }
    | _ =>
      { reply units "HTTP/1.1 504 Gateway Timeout".toList
          "\x7b\"error\":\"could not reach target unit\"\x7d".toList with outbound := [call] }
  | none =>
    reply units "HTTP/1.1 404 Not Found".toList
      "\x7b\"error\":\"target unit not found or offline\"\x7d".toList

/-- The route `POST /sync` of `handle_connection`. -/
def route_sync (units : List Unit) (now : Int) (net : Network) (r : Request) : Outcome :=
  match r.body with
  | some body =>
    match ctz_json_parse (r.mem.drop body) with
    | .ok root =>
      let target_unit := ctz_json_get_string (ctz_json_find_object_value root "target_unit".toList)
      match target_unit.bind (fun t => find_unit units t now) with
      | some (target_ip, target_port) =>
        let body_to_forward := (ctz_json_stringify (some root) false).getD []
        let body_len := strlen body_to_forward
        let http_req := snprintf (body_len + 1024)
          ("POST /sync_incoming HTTP/1.1".toList ++ CRLF
            ++ "Host: ".toList ++ cstr target_ip ++ [':'] ++ fmt_d target_port ++ CRLF
            ++ "Content-Type: application/json".toList ++ CRLF
            ++ "Content-Length: ".toList ++ fmt_zu body_len ++ CRLF
            ++ "Connection: close".toList ++ CRLF ++ CRLF ++ cstr body_to_forward)
        let call : Outbound :=
          { host := cstr target_ip, port := target_port, request := cstr http_req }
        match send_http_request net target_ip target_port http_req 8192 with
        | (0, _) =>
          { reply units "HTTP/1.1 200 OK".toList "\x7b\"status\":\"sync forwarded\"\x7d".toList with
            outbound := [call] }
        | _ =>
          { reply units "HTTP/1.1 504 Gateway Timeout".toList
              "\x7b\"error\":\"target unit did not accept sync\"\x7d".toList with outbound := [call] }
      | none =>
        reply units "HTTP/1.1 404 Not Found".toList
          "\x7b\"error\":\"target unit not found or offline\"\x7d".toList
    | .error .null =>
      reply units "HTTP/1.1 400 Bad Request".toList "\x7b\"error\":\"invalid json\"\x7d".toList
    | .error _ => crash units
  | none =>
    reply units "HTTP/1.1 400 Bad Request".toList "\x7b\"error\":\"missing body\"\x7d".toList

/-- The route dispatch of `handle_connection` (the `if`/`else if` chain). -/
def dispatch (units : List Unit) (now : Int) (ip_addr : List Char) (net : Network)
    (r : Request) : Outcome :=
  let method := r.mem.drop r.method
  let path := r.mem.drop r.path
  if strcmp_eq method "POST".toList && strcmp_eq path "/register".toList then
    route_register units now ip_addr r
  else if strcmp_eq method "GET".toList && strcmp_eq path "/units".toList then
    route_units units now
  else if strcmp_eq method "GET".toList
      && strncmp_eq path "/nodes?target_unit=".toList 20 then
    route_nodes units now net (r.mem.drop (r.path + 20))
  else if strcmp_eq method "POST".toList && strcmp_eq path "/sync".toList then
    route_sync units now net r
  else
    reply units "HTTP/1.1 404 Not Found".toList "\x7b\"error\":\"endpoint not found\"\x7d".toList

/-- Embedding of `handle_connection`.  `input` holds the bytes the peer has
made available to the single `read` (empty when `read` returns 0 or fails);
`heap` holds the bytes of the freshly allocated buffer that `read` did not
overwrite; `ip_addr` is the caller's address, `now` the clock. -/
def handle_connection (units : List Unit) (now : Int) (ip_addr : List Char) (net : Network)
    (input heap : List Char) : Outcome :=
  let received := input.take (MAX_HTTP_BODY_SIZE + 1023)
  if received.isEmpty then { units := units, sent := none, outbound := [], crashed := false }
  else
    match parse_request (received ++ NUL :: heap) with
    | none => { units := units, sent := none, outbound := [], crashed := false }
    | some r => dispatch units now ip_addr net r

/-! ## Lemmas on C strings -/

theorem cstr_eq_self {l : List Char} (h : NUL ∉ l) : cstr l = l := by
  unfold cstr
  rw [List.takeWhile_eq_self_iff]
  intro c hc
  simp only [ne_eq, decide_eq_true_eq]
  intro e; exact h (e ▸ hc)

theorem nul_not_mem_cstr (p : List Char) : NUL ∉ cstr p := by
  unfold cstr
  intro h
  have := List.mem_takeWhile_imp h
  simp at this

theorem cstr_idem (p : List Char) : cstr (cstr p) = cstr p :=
  cstr_eq_self (nul_not_mem_cstr p)

theorem strcmp_eq_iff (a b : List Char) : strcmp_eq a b = true ↔ cstr a = cstr b := by
  unfold strcmp_eq; simp

theorem strncpy_of_short {s : List Char} {n : Nat} (h : (cstr s).length ≤ n) :
    strncpy s n = cstr s := by
  unfold strncpy; exact List.take_of_length_le h

/-! ## Lemmas on the registry -/

theorem find_unit_eq (units : List Unit) (name : List Char) (now : Int) :
    find_unit units name now =
      match units.find? (fun u => strcmp_eq u.name name) with
      | some u =>
        if now < u.last_seen + UNIT_TIMEOUT_SECONDS then
          some (strncpy u.ip_addr 63, u.signal_port)
        else none
      | none => none := by
  induction units with
  | nil => rfl
  | cons u rest ih =>
    by_cases h : strcmp_eq u.name name = true
    · simp [find_unit, List.find?, h]
    · simp only [Bool.not_eq_true] at h
      simp [find_unit, List.find?, h, ih]

theorem find_named_eq {units : List Unit} (hfit : ∀ u ∈ units, u.fits) (name : List Char) :
    units.find? (fun u => strcmp_eq u.name name) = units.find? (fun u => u.name == cstr name) := by
  induction units with
  | nil => rfl
  | cons u rest ih =>
    have hu : cstr u.name = u.name := cstr_eq_self (hfit u (List.mem_cons_self _ _)).2.1
    have ih2 := ih (fun v hv => hfit v (List.mem_cons_of_mem _ hv))
    simp only [List.find?, strcmp_eq, hu]
    rw [← ih2]
    rfl

/-! ## Lookup (C1) -/

/-- C1. On a registry whose records fit the `Unit` struct, `find_unit`
returns the stored address and port of the (first) record named `name`
exactly when that record exists and `now < last_seen + 90`; with no such
record, or with `now ≥ last_seen + 90` (equality included), it returns
not-found. -/
theorem find_unit_online_iff (units : List Unit) (name : List Char) (now : Int)
    (hfit : ∀ u ∈ units, u.fits) :
    (∀ ip port, find_unit units name now = some (ip, port) ↔
      ∃ u, units.find? (fun u => u.name == cstr name) = some u
        ∧ now < u.last_seen + 90 ∧ ip = u.ip_addr ∧ port = u.signal_port)
    ∧ (units.find? (fun u => u.name == cstr name) = none → find_unit units name now = none)
    ∧ (∀ u, units.find? (fun u => u.name == cstr name) = some u →
        u.last_seen + 90 ≤ now → find_unit units name now = none) := by
  rw [find_unit_eq, find_named_eq hfit]
  cases hf : units.find? (fun u => u.name == cstr name) with
  | none => simp
  | some u =>
    have hu := hfit u (List.mem_of_find?_eq_some hf)
    have hip : strncpy u.ip_addr 63 = u.ip_addr := by
      rw [strncpy_of_short (by rw [cstr_eq_self hu.2.2.2]; exact hu.2.2.1), cstr_eq_self hu.2.2.2]
    simp only [UNIT_TIMEOUT_SECONDS, hip]
    refine ⟨?_, ?_, ?_⟩
    · intro ip port
      by_cases hlt : now < u.last_seen + 90
      · simp only [hlt, if_true, Option.some.injEq, Prod.mk.injEq]
        constructor
        · rintro ⟨rfl, rfl⟩; exact ⟨u, rfl, hlt, rfl, rfl⟩
        · rintro ⟨v, hv, _, rfl, rfl⟩; cases hv; exact ⟨rfl, rfl⟩
      · simp only [hlt, if_false]
        constructor
        · intro h; cases h
        · rintro ⟨v, hv, hlt2, _, _⟩; cases hv; exact absurd hlt2 hlt
    · intro h; cases h
    · intro v hv hle
      cases hv
      rw [if_neg (by omega)]

/-- A registry with one online unit. -/
def registry_A : List Unit :=
  [{ name := "A".toList, ip_addr := "10.0.0.5".toList, signal_port := 9000, last_seen := 100 }]

theorem find_unit_online_iff_witness :
    (∀ u ∈ registry_A, u.fits)
    ∧ ((∀ ip port, find_unit registry_A "A".toList 189 = some (ip, port) ↔
        ∃ u, registry_A.find? (fun u => u.name == cstr "A".toList) = some u
          ∧ 189 < u.last_seen + 90 ∧ ip = u.ip_addr ∧ port = u.signal_port)
      ∧ (registry_A.find? (fun u => u.name == cstr "A".toList) = none →
          find_unit registry_A "A".toList 189 = none)
      ∧ (∀ u, registry_A.find? (fun u => u.name == cstr "A".toList) = some u →
          u.last_seen + 90 ≤ 189 → find_unit registry_A "A".toList 189 = none)) :=
  ⟨by decide, find_unit_online_iff registry_A "A".toList 189 (by decide)⟩

/-! ## Re-registration (C2) -/

theorem register_update_names (units : List Unit) (name ip : List Char) (port now : Int)
    (l : List Unit) (h : register_update units name ip port now = some l) :
    l.map Unit.name = units.map Unit.name := by
  induction units generalizing l with
  | nil => simp [register_update] at h
  | cons u rest ih =>
    by_cases hm : strcmp_eq u.name name = true
    · simp only [register_update, hm, if_true, Option.some.injEq] at h
      subst h; rfl
    · simp only [register_update, hm, Bool.false_eq_true, if_false, Option.map_eq_some'] at h
      obtain ⟨l2, h2, rfl⟩ := h
      simp [ih l2 h2]

theorem register_update_none (units : List Unit) (name ip : List Char) (port now : Int)
    (h : register_update units name ip port now = none) :
    ∀ u ∈ units, strcmp_eq u.name name = false := by
  induction units with
  | nil => simp
  | cons u rest ih =>
    by_cases hm : strcmp_eq u.name name = true
    · simp [register_update, hm] at h
    · simp only [register_update, hm, Bool.false_eq_true, if_false, Option.map_eq_none'] at h
      intro v hv
      rcases List.mem_cons.mp hv with rfl | hv
      · simpa using hm
      · exact ih h v hv

/-- The names stored in the registry after `register_unit`: unchanged when a
record compares equal to `name`, one more at the head otherwise. -/
theorem register_unit_names (units : List Unit) (name ip : List Char) (port now : Int) :
    ((∃ u ∈ units, strcmp_eq u.name name = true)
      ∧ (register_unit units name ip port now).map Unit.name = units.map Unit.name)
    ∨ ((∀ u ∈ units, strcmp_eq u.name name = false)
      ∧ (register_unit units name ip port now).map Unit.name
          = strncpy name 127 :: units.map Unit.name) := by
  unfold register_unit
  cases h : register_update units name ip port now with
  | some l =>
    left
    refine ⟨?_, register_update_names units name ip port now l h⟩
    by_contra hne
    have hall : ∀ u ∈ units, strcmp_eq u.name name = false := by
      intro u hu
      by_contra hc
      exact hne ⟨u, hu, by simpa using hc⟩
    have : register_update units name ip port now = none := by
      clear h hne
      induction units with
      | nil => rfl
      | cons v rest ih =>
        simp [register_update, hall v (List.mem_cons_self _ _),
          ih (fun w hw => hall w (List.mem_cons_of_mem _ hw))]
    rw [this] at h; cases h
  | none =>
    right
    exact ⟨register_update_none units name ip port now h, rfl⟩

theorem register_unit_fits (units : List Unit) (name ip : List Char) (port now : Int)
    (hfit : ∀ u ∈ units, u.fits) : ∀ u ∈ register_unit units name ip port now, u.fits := by
  have hcopy : ∀ (s : List Char) (n : Nat), (strncpy s n).length ≤ n ∧ NUL ∉ strncpy s n := by
    intro s n
    refine ⟨by simp [strncpy, List.length_take], ?_⟩
    intro hmem
    exact nul_not_mem_cstr s (List.mem_of_mem_take hmem)
  unfold register_unit
  cases h : register_update units name ip port now with
  | none =>
    intro u hu
    rcases List.mem_cons.mp hu with rfl | hu
    · exact ⟨(hcopy name 127).1, (hcopy name 127).2, (hcopy ip 63).1, (hcopy ip 63).2⟩
    · exact hfit u hu
  | some l =>
    simp only
    clear hcopy
    have hcopy : (strncpy ip 63).length ≤ 63 ∧ NUL ∉ strncpy ip 63 := by
      refine ⟨by simp [strncpy, List.length_take], ?_⟩
      intro hmem
      exact nul_not_mem_cstr ip (List.mem_of_mem_take hmem)
    induction units generalizing l with
    | nil => simp [register_update] at h
    | cons v rest ih =>
      have hv := hfit v (List.mem_cons_self _ _)
      by_cases hm : strcmp_eq v.name name = true
      · simp only [register_update, hm, if_true, Option.some.injEq] at h
        subst h
        intro u hu
        rcases List.mem_cons.mp hu with rfl | hu
        · exact ⟨hv.1, hv.2.1, hcopy.1, hcopy.2⟩
        · exact hfit u (List.mem_cons_of_mem _ hu)
      · simp only [register_update, hm, Bool.false_eq_true, if_false, Option.map_eq_some'] at h
        obtain ⟨l2, h2, rfl⟩ := h
        intro u hu
        rcases List.mem_cons.mp hu with rfl | hu
        · exact hv
        · exact ih (fun w hw => hfit w (List.mem_cons_of_mem _ hw)) l2 h2 u hu

/-- The request `handle_connection` dispatches when `read` delivers `input`
into a buffer whose untouched bytes are `heap`. -/
def receives (input heap : List Char) (r : Request) : Prop :=
  input.take (MAX_HTTP_BODY_SIZE + 1023) ≠ []
    ∧ parse_request (input.take (MAX_HTTP_BODY_SIZE + 1023) ++ NUL :: heap) = some r

theorem handle_connection_eq_dispatch (units : List Unit) (now : Int) (ip_addr : List Char)
    (net : Network) (input heap : List Char) (r : Request) (h : receives input heap r) :
    handle_connection units now ip_addr net input heap = dispatch units now ip_addr net r := by
  unfold handle_connection
  have h1 : (input.take (MAX_HTTP_BODY_SIZE + 1023)).isEmpty = false := by
    cases hl : input.take (MAX_HTTP_BODY_SIZE + 1023) with
    | nil => exact absurd hl h.1
    | cons a l => rfl
  simp only [h1, h.2]
  rfl

/-- `strcmp(p, lit) == 0` against a literal is equality of the string at `p`
with the literal. -/
theorem strcmp_eq_literal (p lit : List Char) (hlit : NUL ∉ lit) :
    strcmp_eq p lit = true ↔ cstr p = lit := by
  rw [strcmp_eq_iff, cstr_eq_self hlit]

theorem cstr_cons (c : Char) (p : List Char) :
    cstr (c :: p) = if c = NUL then [] else c :: cstr p := by
  unfold cstr
  by_cases h : c = NUL <;> simp [List.takeWhile, h]

theorem strncmp_eq_succ (a b : List Char) (n : Nat) :
    strncmp_eq a b (n + 1) =
      (if a.headD NUL ≠ b.headD NUL then false
       else if a.headD NUL = NUL then true
       else strncmp_eq a.tail b.tail n) := rfl

/-- Comparing one byte more than the literal is long compares the
terminator too: `strncmp(p, lit, strlen(lit) + 1) == 0` holds only for the
string `lit` itself. -/
theorem strncmp_eq_succ_length (lit : List Char) (hlit : NUL ∉ lit) (p : List Char) :
    strncmp_eq p lit (lit.length + 1) = true ↔ cstr p = lit := by
  induction lit generalizing p with
  | nil =>
    cases p with
    | nil => simp [strncmp_eq, cstr]
    | cons a l =>
      by_cases ha : a = NUL
      · simp [strncmp_eq, cstr_cons, ha]
      · simp [strncmp_eq, cstr_cons, ha]
  | cons c l ih =>
    have hc : c ≠ NUL := fun e => hlit (e ▸ List.mem_cons_self _ _)
    have hl : NUL ∉ l := fun h => hlit (List.mem_cons_of_mem _ h)
    cases p with
    | nil =>
      rw [List.length_cons, strncmp_eq_succ]
      simp [cstr, Ne.symm hc]
    | cons a q =>
      rw [List.length_cons, strncmp_eq_succ]
      simp only [List.headD_cons, List.tail_cons]
      by_cases hac : a = c
      · subst hac
        simp only [ne_eq, not_true_eq_false, if_false, hc, cstr_cons]
        rw [ih hl q]
        simp
      · simp only [ne_eq, hac, not_false_eq_true, if_true, cstr_cons]
        by_cases ha : a = NUL
        · simp [ha]
        · simp [ha, hac]

theorem nodes_prefix_test (p : List Char) :
    strncmp_eq p "/nodes?target_unit=".toList 20 = true ↔ cstr p = "/nodes?target_unit=".toList :=
  strncmp_eq_succ_length "/nodes?target_unit=".toList (by decide) p

theorem dispatch_register (units : List Unit) (now : Int) (ip_addr : List Char)
    (net : Network) (r : Request)
    (hmethod : cstr (r.mem.drop r.method) = "POST".toList)
    (hpath : cstr (r.mem.drop r.path) = "/register".toList) :
    dispatch units now ip_addr net r = route_register units now ip_addr r := by
  unfold dispatch
  have h1 : strcmp_eq (r.mem.drop r.method) "POST".toList = true :=
    (strcmp_eq_literal _ _ (by decide)).mpr hmethod
  have h2 : strcmp_eq (r.mem.drop r.path) "/register".toList = true :=
    (strcmp_eq_literal _ _ (by decide)).mpr hpath
  simp only [h1, h2, Bool.and_self, if_true]

/-! ## Registration requests (C3, C6, C7) -/

/-- The value of a double is greater than zero. -/
def Double.positive (d : Double) : Prop := d.neg = false ∧ 0 < d.m

instance (d : Double) : Decidable d.positive := by
  unfold Double.positive; infer_instance

theorem double_to_int_nonpos (d : Double) (h : ¬ d.positive) : double_to_int d ≤ 0 := by
  obtain ⟨neg, m, e⟩ := d
  simp only [Double.positive, not_and, not_lt, Nat.le_zero_eq] at h
  unfold double_to_int
  cases neg with
  | true =>
    dsimp only
    generalize (if e ≥ 0 then m * 2 ^ e.toNat else m / 2 ^ (-e).toNat) = mag
    simp only [if_true]
    split_ifs <;> omega
  | false =>
    have hm : m = 0 := h rfl
    subst hm
    simp

/-- The response to a registration that is accepted. -/
def response_registered : List Char :=
  send_response "HTTP/1.1 200 OK".toList json_type "\x7b\"status\":\"registered\"\x7d".toList

/-- The text `{"error":"msg"}`. -/
def error_body (msg : List Char) : List Char :=
  "\x7b\"error\":\"".toList ++ msg ++ "\"\x7d".toList

/-- A 400 response whose body is `{"error":"msg"}`. -/
def response_bad_request (msg : List Char) : List Char :=
  send_response "HTTP/1.1 400 Bad Request".toList json_type (error_body msg)

theorem response_registered_text :
    response_registered =
      ("HTTP/1.1 200 OK\r\nContent-Type: application/json\r\nContent-Length: 23\r\n"
        ++ "Connection: close\r\n\r\n\x7b\"status\":\"registered\"\x7d").toList := by
  decide!

theorem route_register_no_body (units : List Unit) (now : Int) (ip_addr : List Char)
    (r : Request) (hbody : r.body = none) :
    route_register units now ip_addr r =
      reply units "HTTP/1.1 400 Bad Request".toList (error_body "missing body".toList) := by
  simp only [route_register, hbody]
  rfl

theorem route_register_invalid_json (units : List Unit) (now : Int) (ip_addr : List Char)
    (r : Request) (body : Nat) (hbody : r.body = some body)
    (hparse : ctz_json_parse (r.mem.drop body) = .error .null) :
    route_register units now ip_addr r =
      reply units "HTTP/1.1 400 Bad Request".toList (error_body "invalid json".toList) := by
  simp only [route_register, hbody, hparse]
  rfl

theorem route_register_no_port (units : List Unit) (now : Int) (ip_addr : List Char)
    (r : Request) (body : Nat) (root : ctz_json_value) (hbody : r.body = some body)
    (hparse : ctz_json_parse (r.mem.drop body) = .ok root)
    (hle : double_to_int (ctz_json_get_number
      (ctz_json_find_object_value root "listen_port".toList)) ≤ 0) :
    route_register units now ip_addr r =
      reply units "HTTP/1.1 400 Bad Request".toList
        (error_body "missing unit_name or listen_port".toList) := by
  have hng : ¬ double_to_int (ctz_json_get_number
      (ctz_json_find_object_value root "listen_port".toList)) > 0 := by omega
  simp only [route_register, hbody, hparse, ctz_json_get_string]
  split <;> (try simp only [hng, if_false]) <;> rfl

/-- The route `POST /register` changes the registry only in the branch that
answers 200. -/
theorem route_register_changes (units : List Unit) (now : Int) (ip_addr : List Char)
    (r : Request) (hne : (route_register units now ip_addr r).units ≠ units) :
    (route_register units now ip_addr r).sent = some response_registered := by
  unfold route_register at hne ⊢
  unfold response_registered
  split at hne
  · split at hne
    · simp only [ctz_json_get_string] at hne ⊢
      split at hne
      · split at hne
        · rename_i hgt
          simp only [hgt, if_true, reply]
        · exact absurd rfl hne
      · exact absurd rfl hne
    · exact absurd rfl hne
    · exact absurd rfl hne
  · exact absurd rfl hne

/-- C7. For every `POST /register` request that has no body, or whose body
the parser rejects, or whose document has no numeric `listen_port` greater
than 0, the response is 400 with a body `{"error":"..."}`, the registry is
unchanged and no outbound call is made; and whatever the request, the
route changes the registry only when it answers 200. -/
theorem register_rejects (units : List Unit) (now : Int) (ip_addr : List Char) (net : Network)
    (input heap : List Char) (r : Request)
    (hrecv : receives input heap r)
    (hmethod : cstr (r.mem.drop r.method) = "POST".toList)
    (hpath : cstr (r.mem.drop r.path) = "/register".toList) :
    ((r.body = none
        ∨ (∃ b, r.body = some b ∧ ctz_json_parse (r.mem.drop b) = .error .null)
        ∨ (∃ b root, r.body = some b ∧ ctz_json_parse (r.mem.drop b) = .ok root
            ∧ ∀ d, ctz_json_find_object_value root "listen_port".toList
                = some (CTZ_JSON_NUMBER d) → ¬ d.positive)) →
      (handle_connection units now ip_addr net input heap).units = units
      ∧ (handle_connection units now ip_addr net input heap).outbound = []
      ∧ ∃ msg, (handle_connection units now ip_addr net input heap).sent
                = some (response_bad_request msg)
          ∧ ctz_json_parse (error_body msg)
              = .ok (CTZ_JSON_OBJECT [⟨"error".toList, 5, CTZ_JSON_STRING msg msg.length⟩]))
    ∧ ((handle_connection units now ip_addr net input heap).units ≠ units →
        (handle_connection units now ip_addr net input heap).sent = some response_registered) := by
  rw [handle_connection_eq_dispatch units now ip_addr net input heap r hrecv,
    dispatch_register units now ip_addr net r hmethod hpath]
  refine ⟨?_, route_register_changes units now ip_addr r⟩
  rintro (hb | ⟨b, hb, hp⟩ | ⟨b, root, hb, hp, hnum⟩)
  · rw [route_register_no_body units now ip_addr r hb]
    exact ⟨rfl, rfl, "missing body".toList, rfl, by decide!⟩
  · rw [route_register_invalid_json units now ip_addr r b hb hp]
    exact ⟨rfl, rfl, "invalid json".toList, rfl, by decide!⟩
  · have hle : double_to_int (ctz_json_get_number
        (ctz_json_find_object_value root "listen_port".toList)) ≤ 0 := by
      have hzero : double_to_int Double.zero ≤ 0 := by decide!
      cases hf : ctz_json_find_object_value root "listen_port".toList with
      | none => exact hzero
      | some v =>
        cases v with
        | CTZ_JSON_NUMBER d => exact double_to_int_nonpos d (hnum d hf)
        | _ => exact hzero
    rw [route_register_no_port units now ip_addr r b root hb hp hle]
    exact ⟨rfl, rfl, "missing unit_name or listen_port".toList, rfl, by decide!⟩

/-! ### Concrete requests -/

instance (input heap : List Char) (r : Request) : Decidable (receives input heap r) := by
  unfold receives; infer_instance

/-- The request the handler extracts from `input` when the rest of the
buffer is empty. -/
def request_of (input : List Char) : Request :=
  (parse_request (input.take (MAX_HTTP_BODY_SIZE + 1023) ++ [NUL])).getD
    { mem := [], method := 0, path := 0, body := none }

/-- A network without reachable peers. -/
def no_peers : Network := fun _ _ _ => PeerReply.connect_failed

def caller : List Char := "10.0.0.9".toList

def register_B_root : ctz_json_value :=
  CTZ_JSON_OBJECT [⟨"unit_name".toList, 9, CTZ_JSON_STRING "B".toList 1⟩,
    ⟨"listen_port".toList, 11, CTZ_JSON_NUMBER (Double.ofNat 9001)⟩]

def register_truncated_body : List Char :=
  "POST /register HTTP/1.1\r\nHost: c\r\n\r\n\x7b\"unit_name\":\"B\"".toList

theorem register_rejects_witness :
    (receives register_truncated_body [] (request_of register_truncated_body)
      ∧ cstr ((request_of register_truncated_body).mem.drop
          (request_of register_truncated_body).method) = "POST".toList
      ∧ cstr ((request_of register_truncated_body).mem.drop
          (request_of register_truncated_body).path) = "/register".toList
      ∧ (request_of register_truncated_body).body = some 36
      ∧ ctz_json_parse ((request_of register_truncated_body).mem.drop 36) = .error .null)
    ∧ ((handle_connection registry_A 160 caller no_peers register_truncated_body []).units
          = registry_A
      ∧ (handle_connection registry_A 160 caller no_peers register_truncated_body []).outbound = []
      ∧ ∃ msg, (handle_connection registry_A 160 caller no_peers register_truncated_body []).sent
                = some (response_bad_request msg)
          ∧ ctz_json_parse (error_body msg)
              = .ok (CTZ_JSON_OBJECT [⟨"error".toList, 5, CTZ_JSON_STRING msg msg.length⟩])) :=
  ⟨⟨by decide!, by decide!, by decide!, by decide!, by decide!⟩,
    (register_rejects registry_A 160 caller no_peers register_truncated_body []
      (request_of register_truncated_body) (by decide!) (by decide!) (by decide!)).1
      (Or.inr (Or.inl ⟨36, by decide!, by decide!⟩))⟩

def register_no_name : List Char :=
  "POST /register HTTP/1.1\r\nHost: c\r\n\r\n\x7b\"listen_port\":9000\x7d".toList

/-- C3 at its failing input: a body with `listen_port` and no `unit_name`
is answered 200 and a record with the empty name is added. -/
theorem register_without_unit_name_accepted :
    ctz_json_parse ((request_of register_no_name).mem.drop 36)
        = .ok (CTZ_JSON_OBJECT [⟨"listen_port".toList, 11, CTZ_JSON_NUMBER (Double.ofNat 9000)⟩])
    ∧ ctz_json_find_object_value
        (CTZ_JSON_OBJECT [⟨"listen_port".toList, 11, CTZ_JSON_NUMBER (Double.ofNat 9000)⟩])
        "unit_name".toList = none
    ∧ handle_connection registry_A 120 caller no_peers register_no_name []
        = reply ({ name := [], ip_addr := caller, signal_port := 9000, last_seen := 120 }
                  :: registry_A)
            "HTTP/1.1 200 OK".toList "\x7b\"status\":\"registered\"\x7d".toList := by
  decide!

/-! ## The route `GET /nodes?target_unit=...` (C4, C5, C10) -/

/-- The response of the default route. -/
def response_endpoint_not_found : List Char :=
  send_response "HTTP/1.1 404 Not Found".toList json_type
    "\x7b\"error\":\"endpoint not found\"\x7d".toList

/-- A `GET` request whose path is the prefix `/nodes?target_unit=` followed
by a non-empty name fails the 20-byte comparison of the nodes route (the
prefix has 19 bytes, so the 20th byte compared is the terminator) and falls
through to the default route. -/
theorem dispatch_nodes_named (units : List Unit) (now : Int) (ip_addr : List Char)
    (net : Network) (r : Request) (name : List Char)
    (hmethod : cstr (r.mem.drop r.method) = "GET".toList)
    (hpath : cstr (r.mem.drop r.path) = "/nodes?target_unit=".toList ++ name)
    (hname : name ≠ []) :
    dispatch units now ip_addr net r =
      reply units "HTTP/1.1 404 Not Found".toList "\x7b\"error\":\"endpoint not found\"\x7d".toList := by
  have h1 : strcmp_eq (r.mem.drop r.method) "POST".toList = false := by
    rw [← Bool.not_eq_true, strcmp_eq_literal _ _ (by decide), hmethod]
    decide
  have h2 : strcmp_eq (r.mem.drop r.path) "/units".toList = false := by
    rw [← Bool.not_eq_true, strcmp_eq_literal _ _ (by decide), hpath]
    intro h
    have h3 := congrArg (List.take 2) h
    have h4 : List.take 2 ("/nodes?target_unit=".toList ++ name) = ['/', 'n'] := rfl
    rw [h4] at h3
    exact absurd h3 (by decide)
  have h3 : strncmp_eq (r.mem.drop r.path) "/nodes?target_unit=".toList 20 = false := by
    rw [← Bool.not_eq_true, nodes_prefix_test, hpath]
    intro h
    have := congrArg List.length h
    rw [List.length_append] at this
    have hlen : name.length = 0 := by omega
    exact hname (List.length_eq_zero.mp hlen)
  unfold dispatch
  simp only [h1, h2, h3, Bool.false_and, Bool.and_false, Bool.false_eq_true, if_false]

/-- A peer that answers every request with `200 OK` and a node list. -/
def peer_ok : Network := fun _ _ _ =>
  PeerReply.read_ok
    "HTTP/1.1 200 OK\r\nContent-Type: application/json\r\n\r\n[\"n1\",\"n2\"]".toList

def nodes_of_A : List Char := "GET /nodes?target_unit=A HTTP/1.1\r\nHost: c\r\n\r\n".toList

def nodes_bare : List Char := "GET /nodes?target_unit= HTTP/1.1\r\nHost: c\r\n\r\n".toList

/-- C4 at its failing input: `GET /nodes?target_unit=A` is answered by the
default route although `A` is registered and online; the nodes route is
entered only for the bare prefix, and the name it then looks up is the text
that follows the path in the buffer (here the HTTP version). -/
theorem nodes_named_target_unrouted :
    find_unit registry_A "A".toList 120 = some ("10.0.0.5".toList, 9000)
    ∧ handle_connection registry_A 120 caller peer_ok nodes_of_A []
        = reply registry_A "HTTP/1.1 404 Not Found".toList
            "\x7b\"error\":\"endpoint not found\"\x7d".toList
    ∧ dispatch registry_A 120 caller peer_ok (request_of nodes_bare)
        = route_nodes registry_A 120 peer_ok
            ((request_of nodes_bare).mem.drop ((request_of nodes_bare).path + 20))
    ∧ cstr ((request_of nodes_bare).mem.drop (request_of nodes_bare).path)
        = "/nodes?target_unit=".toList
    ∧ cstr ((request_of nodes_bare).mem.drop ((request_of nodes_bare).path + 20))
        = "HTTP/1.1".toList := by
  decide!

def registry_unit_a : List Unit :=
  [{ name := "unit-a".toList, ip_addr := "10.0.0.7".toList, signal_port := 9100,
     last_seen := 1000 }]

def nodes_of_unit_a : List Char :=
  "GET /nodes?target_unit=unit-a HTTP/1.1\r\nHost: c\r\n\r\n".toList

/-- C5 at its failing input: `unit-a` is registered and online and its peer
would answer `200 OK` with body `["n1","n2"]`, yet the request is answered
404 by the default route and the peer is never contacted. -/
theorem nodes_relay_never_reached :
    find_unit registry_unit_a "unit-a".toList 1010 = some ("10.0.0.7".toList, 9100)
    ∧ (handle_connection registry_unit_a 1010 caller peer_ok nodes_of_unit_a []).sent
        = some response_endpoint_not_found
    ∧ (handle_connection registry_unit_a 1010 caller peer_ok nodes_of_unit_a []).outbound = [] := by
  decide!

def registry_version_name : List Unit :=
  [{ name := "HTTP/1.1".toList, ip_addr := "10.0.0.8".toList, signal_port := 9200,
     last_seen := 500 }]

/-- C10 at its failing input: the empty name has no record and its lookup
yields not-found, but `GET /nodes?target_unit=` followed by the HTTP version
makes the route look up the unit named `HTTP/1.1`, call that peer and relay
its answer with status 200. -/
theorem nodes_empty_name_contacts_peer :
    find_unit registry_version_name [] 510 = none
    ∧ handle_connection registry_version_name 510 caller peer_ok nodes_bare []
        = { units := registry_version_name,
            sent := some (send_response "HTTP/1.1 200 OK".toList json_type
              "[\"n1\",\"n2\"]".toList),
            outbound := [Outbound.mk "10.0.0.8".toList 9200
              ("GET /nodes_list HTTP/1.1\r\nHost: 10.0.0.8:9200\r\n"
                ++ "Connection: close\r\n\r\n").toList],
            crashed := false } := by
  decide!

/-! ## The route `GET /units` (C8, C9) -/

theorem dispatch_units (units : List Unit) (now : Int) (ip_addr : List Char)
    (net : Network) (r : Request)
    (hmethod : cstr (r.mem.drop r.method) = "GET".toList)
    (hpath : cstr (r.mem.drop r.path) = "/units".toList) :
    dispatch units now ip_addr net r = route_units units now := by
  have h1 : strcmp_eq (r.mem.drop r.method) "POST".toList = false := by
    rw [← Bool.not_eq_true, strcmp_eq_literal _ _ (by decide), hmethod]
    decide
  have h2 : strcmp_eq (r.mem.drop r.method) "GET".toList = true :=
    (strcmp_eq_literal _ _ (by decide)).mpr hmethod
  have h3 : strcmp_eq (r.mem.drop r.path) "/units".toList = true :=
    (strcmp_eq_literal _ _ (by decide)).mpr hpath
  unfold dispatch
  simp only [h1, h2, h3, Bool.false_and, Bool.and_self, Bool.false_eq_true, if_false, if_true]


/-- The status string of a record at time `now`. -/
def unit_status (u : Unit) (now : Int) : List Char :=
  if now < u.last_seen + UNIT_TIMEOUT_SECONDS then "online".toList else "offline".toList

/-- The object built for a record: its name and its status, in this order. -/
theorem unit_obj_eq (u : Unit) (now : Int) :
    unit_obj u now =
      CTZ_JSON_OBJECT [⟨"name".toList, 4, CTZ_JSON_STRING (cstr u.name) (cstr u.name).length⟩,
        ⟨"status".toList, 6,
          CTZ_JSON_STRING (unit_status u now) (unit_status u now).length⟩] := by
  unfold unit_obj unit_status
  split <;> rfl

/-- The array built by the loop holds one object per record, in list order. -/
theorem units_array_eq (units : List Unit) (now : Int) :
    units_array units now = CTZ_JSON_ARRAY (units.map (fun u => unit_obj u now)) := by
  have h : ∀ (l : List Unit) (acc : List ctz_json_value),
      l.foldl (fun root u => (ctz_json_array_push_value root (unit_obj u now)).1)
          (CTZ_JSON_ARRAY acc)
        = CTZ_JSON_ARRAY (acc ++ l.map (fun u => unit_obj u now)) := by
    intro l
    induction l with
    | nil => intro acc; simp
    | cons u rest ih =>
      intro acc
      have hpush : (ctz_json_array_push_value (CTZ_JSON_ARRAY acc) (unit_obj u now)).1
          = CTZ_JSON_ARRAY (acc ++ [unit_obj u now]) := rfl
      rw [List.foldl_cons, hpush, ih]
      simp
  exact h units []

/-- The compact text of the object of a record. -/
def unit_text (u : Unit) (now : Int) : List Char :=
  "\x7b\"name\":".toList ++ ctz_stringify_string (cstr u.name) (cstr u.name).length
    ++ ",\"status\":".toList
    ++ ctz_stringify_string (unit_status u now) (unit_status u now).length ++ ['}']

theorem stringify_unit_obj (u : Unit) (now : Int) (indent : Nat) :
    ctz_stringify_value (unit_obj u now) false indent = unit_text u now := by
  rw [unit_obj_eq]
  simp [ctz_stringify_value, ctz_stringify_value.stringify_members, unit_text]
  rfl

theorem stringify_elems_units (l r : List Unit) (now : Int) (hr : r ≠ []) :
    ctz_stringify_value.stringify_elems ((l ++ r).map (fun u => unit_obj u now)) false 0
      = (l.map (fun u => unit_text u now ++ [','])).flatten
        ++ ctz_stringify_value.stringify_elems (r.map (fun u => unit_obj u now)) false 0 := by
  induction l with
  | nil => simp
  | cons u rest ih =>
    have hne : (rest ++ r).map (fun u => unit_obj u now) ≠ [] := by
      cases rest <;> cases r <;> simp_all
    have hemp : ((rest ++ r).map (fun u => unit_obj u now)).isEmpty = false := by
      cases h : (rest ++ r).map (fun u => unit_obj u now) with
      | nil => exact absurd h hne
      | cons a b => rfl
    rw [List.cons_append, List.map_cons, ctz_stringify_value.stringify_elems,
      stringify_unit_obj, hemp, ih]
    simp

/-! ### Characters and lengths of formatted text -/

/-- The characters `Nat.digitChar` produces. -/
def digit_chars : List Char := "0123456789abcdef*".toList

theorem digitChar_mem (n : Nat) : Nat.digitChar n ∈ digit_chars := by
  by_cases h : n < 16
  · interval_cases n <;> decide
  · have h0 : n ≠ 0 := by omega
    have h1 : n ≠ 1 := by omega
    have h2 : n ≠ 2 := by omega
    have h3 : n ≠ 3 := by omega
    have h4 : n ≠ 4 := by omega
    have h5 : n ≠ 5 := by omega
    have h6 : n ≠ 6 := by omega
    have h7 : n ≠ 7 := by omega
    have h8 : n ≠ 8 := by omega
    have h9 : n ≠ 9 := by omega
    have h10 : n ≠ 10 := by omega
    have h11 : n ≠ 11 := by omega
    have h12 : n ≠ 12 := by omega
    have h13 : n ≠ 13 := by omega
    have h14 : n ≠ 14 := by omega
    have h15 : n ≠ 15 := by omega
    simp only [Nat.digitChar, h0, h1, h2, h3, h4, h5, h6, h7, h8, h9, h10, h11, h12, h13,
      h14, h15, if_false]
    decide

theorem toDigitsCore_mem (b : Nat) : ∀ (f n : Nat) (ds : List Char) (c : Char),
    c ∈ Nat.toDigitsCore b f n ds → c ∈ digit_chars ∨ c ∈ ds := by
  intro f
  induction f with
  | zero => intro n ds c h; right; simpa [Nat.toDigitsCore] using h
  | succ f ih =>
    intro n ds c h
    simp only [Nat.toDigitsCore] at h
    split at h
    · rcases List.mem_cons.mp h with rfl | h
      · left; exact digitChar_mem _
      · right; exact h
    · rcases ih _ _ c h with h | h
      · left; exact h
      · rcases List.mem_cons.mp h with rfl | h
        · left; exact digitChar_mem _
        · right; exact h

theorem toDigits_mem (b n : Nat) (c : Char) (h : c ∈ Nat.toDigits b n) : c ∈ digit_chars := by
  rcases toDigitsCore_mem b _ _ _ c h with h | h
  · exact h
  · simp at h

theorem cstr_length_le (p : List Char) : (cstr p).length ≤ p.length :=
  (List.takeWhile_prefix _).length_le

theorem mem_of_mem_cstr {c : Char} {p : List Char} (h : c ∈ cstr p) : c ∈ p :=
  (List.takeWhile_prefix _).subset h

theorem cstr_append_of_no_nul (a b : List Char) (h : NUL ∉ a) :
    cstr (a ++ b) = a ++ cstr b := by
  induction a with
  | nil => rfl
  | cons c l ih =>
    have hc : c ≠ NUL := fun e => h (e ▸ List.mem_cons_self _ _)
    have hl : NUL ∉ l := fun hm => h (List.mem_cons_of_mem _ hm)
    rw [List.cons_append, cstr_cons, if_neg hc, ih hl]
    rfl

/-- A response never has more than 8191 bytes. -/
theorem send_response_length_le (status_line content_type body : List Char) :
    (send_response status_line content_type body).length ≤ 8191 := by
  unfold send_response snprintf
  exact le_trans (cstr_length_le _) (by simp [List.length_take])

theorem stringify_string_length (s : List Char) (len : Nat) :
    2 ≤ (ctz_stringify_string s len).length := by
  unfold ctz_stringify_string
  simp only [List.length_cons, List.length_append, List.length_nil]
  omega

theorem unit_text_length (u : Unit) (now : Int) : 29 ≤ (unit_text u now).length := by
  have h1 := stringify_string_length (cstr u.name) (cstr u.name).length
  have h2 : 8 ≤ (ctz_stringify_string (unit_status u now) (unit_status u now).length).length := by
    unfold unit_status
    split <;> decide
  simp only [unit_text, List.length_append, List.length_cons, List.length_nil]
  have h3 : "\x7b\"name\":".toList.length = 8 := by decide
  have h4 : ",\"status\":".toList.length = 10 := by decide
  omega

theorem stringify_elems_length (l : List Unit) (now : Int) :
    29 * l.length
      ≤ (ctz_stringify_value.stringify_elems (l.map (fun u => unit_obj u now)) false 0).length := by
  induction l with
  | nil => simp
  | cons u rest ih =>
    rw [List.map_cons, ctz_stringify_value.stringify_elems, stringify_unit_obj]
    have := unit_text_length u now
    simp only [List.length_append, List.length_cons]
    omega

/-- The serialised listing has at least 29 bytes per record. -/
theorem units_text_length (units : List Unit) (now : Int) :
    29 * units.length ≤ (ctz_stringify_value (units_array units now) false 0).length := by
  rw [units_array_eq, ctz_stringify_value]
  have := stringify_elems_length units now
  simp only [List.length_append, List.length_cons]
  omega

/-- The response of the route `GET /units`. -/
theorem route_units_sent (units : List Unit) (now : Int) :
    route_units units now =
      reply units "HTTP/1.1 200 OK".toList (ctz_stringify_value (units_array units now) false 0) :=
  rfl

def units_request : List Char := "GET /units HTTP/1.1\r\nHost: c\r\n\r\n".toList

theorem units_request_routed (units : List Unit) (now : Int) (ip_addr : List Char)
    (net : Network) :
    handle_connection units now ip_addr net units_request [] = route_units units now := by
  rw [handle_connection_eq_dispatch units now ip_addr net units_request []
    (request_of units_request) (by decide!)]
  exact dispatch_units units now ip_addr net _ (by decide!) (by decide!)

/-- A registry of 300 units named `0`, `1`, ..., `299`, all seen at time
1000. -/
def many_units : List Unit :=
  (List.range 300).map
    (fun i => Unit.mk (Nat.toDigits 10 i) "10.0.0.5".toList 9000 1000)

/-- C9 at its failing input: for a registry of 300 records the serialised
array alone has at least 8700 bytes, but the whole response to `GET /units`
(status line and headers included) has at most 8191 bytes: the body sent is
a truncation of the array, not the array. -/
theorem units_listing_truncated :
    handle_connection many_units 1010 caller no_peers units_request []
        = reply many_units "HTTP/1.1 200 OK".toList
            (ctz_stringify_value (units_array many_units 1010) false 0)
    ∧ 8700 ≤ (ctz_stringify_value (units_array many_units 1010) false 0).length
    ∧ (send_response "HTTP/1.1 200 OK".toList json_type
        (ctz_stringify_value (units_array many_units 1010) false 0)).length ≤ 8191 := by
  refine ⟨?_, ?_, send_response_length_le _ _ _⟩
  · rw [units_request_routed, route_units_sent]
  · have h := units_text_length many_units 1010
    have hl : many_units.length = 300 := by simp [many_units]
    rw [hl] at h
    omega

/-- A byte that is neither `A` nor the terminator. -/
def not_A (c : Char) : Prop := c ≠ 'A' ∧ c ≠ NUL

instance (c : Char) : Decidable (not_A c) := by
  unfold not_A; infer_instance

theorem range_map_getD (s : List Char) (f : Char → List Char) :
    (List.range s.length).map (fun i => f (s.getD i NUL)) = s.map f := by
  induction s with
  | nil => rfl
  | cons c l ih =>
    rw [List.length_cons, List.range_succ_eq_map, List.map_cons, List.map_map, List.map_cons]
    congr 1

/-- A string all of whose bytes are copied unescaped is serialised between
two quotes. -/
theorem stringify_string_plain (s : List Char) (h : ∀ c ∈ s, escape_byte c = [c]) :
    ctz_stringify_string s s.length = '"' :: s ++ ['"'] := by
  unfold ctz_stringify_string
  rw [range_map_getD]
  have : (s.map escape_byte).flatten = s := by
    induction s with
    | nil => rfl
    | cons c l ih =>
      rw [List.map_cons, List.flatten_cons, h c (List.mem_cons_self _ _),
        ih (fun d hd => h d (List.mem_cons_of_mem _ hd))]
      rfl
  rw [this]

theorem unit_text_digits (i : Nat) (ip : List Char) (port seen now : Int) :
    ∀ c ∈ unit_text (Unit.mk (Nat.toDigits 10 i) ip port seen) now, not_A c := by
  have hdig : ∀ c ∈ Nat.toDigits 10 i, c ∈ digit_chars := fun c hc => toDigits_mem 10 i c hc
  have hclean : ∀ c ∈ digit_chars, not_A c := by decide
  have hesc : ∀ c ∈ digit_chars, escape_byte c = [c] := by decide
  have hnul : NUL ∉ Nat.toDigits 10 i := fun hm => (hclean NUL (hdig NUL hm)).2 rfl
  have hstatus : ∀ c ∈ ctz_stringify_string
      (unit_status (Unit.mk (Nat.toDigits 10 i) ip port seen) now)
      (unit_status (Unit.mk (Nat.toDigits 10 i) ip port seen) now).length, not_A c := by
    unfold unit_status
    split <;> decide
  intro c hc
  unfold unit_text at hc
  simp only [cstr_eq_self hnul] at hc
  rw [stringify_string_plain _ (fun d hd => hesc d (hdig d hd))] at hc
  have key : ∀ (a b : List Char), (∀ c ∈ a, not_A c) → (∀ c ∈ b, not_A c) →
      ∀ c ∈ a ++ b, not_A c :=
    fun a b ha hb c hc => (List.mem_append.mp hc).elim (ha c) (hb c)
  have hl1 : ∀ c ∈ "\x7b\"name\":".toList, not_A c := by decide
  have hl2 : ∀ c ∈ ",\"status\":".toList, not_A c := by decide
  have hq : ∀ c ∈ ['"'], not_A c := by decide
  have hb : ∀ c ∈ ['}'], not_A c := by decide
  have hname : ∀ c ∈ '"' :: Nat.toDigits 10 i ++ ['"'], not_A c :=
    key ['"'] _ hq (key _ _ (fun c hc => hclean c (hdig c hc)) hq)
  exact key _ _ (key _ _ (key _ _ (key _ _ hl1 hname) hl2) hstatus) hb c hc

theorem flatten_length_ge (l : List Unit) (f : Unit → List Char) (k : Nat)
    (h : ∀ u ∈ l, k ≤ (f u).length) : k * l.length ≤ (l.map f).flatten.length := by
  induction l with
  | nil => simp
  | cons u rest ih =>
    have h1 := h u (List.mem_cons_self _ _)
    have h2 := ih (fun v hv => h v (List.mem_cons_of_mem _ hv))
    simp only [List.map_cons, List.flatten_cons, List.length_append, List.length_cons]
    rw [Nat.mul_succ]
    omega

/-- When the text before the body already fills the 8191 bytes that
`send_response` can emit, every byte sent comes from the header or from
that text. -/
theorem send_response_mem_of_long (status_line content_type front back : List Char)
    (hnul : NUL ∉ front) (hlen : 8191 ≤ front.length) (c : Char)
    (hc : c ∈ send_response status_line content_type (front ++ back)) :
    c ∈ cstr status_line ++ CRLF ++ "Content-Type: ".toList ++ cstr content_type ++ CRLF
        ++ "Content-Length: ".toList ++ fmt_zu (strlen (front ++ back)) ++ CRLF
        ++ "Connection: close".toList ++ CRLF ++ CRLF ∨ c ∈ front := by
  unfold send_response snprintf at hc
  have hc2 := mem_of_mem_cstr hc
  rw [cstr_append_of_no_nul front back hnul, ← List.append_assoc,
    List.take_append_of_le_length (by rw [List.length_append]; omega)] at hc2
  exact List.mem_append.mp (List.mem_of_mem_take hc2)

/-- The unit `A`, registered at time 1000. -/
def unit_A : Unit :=
  { name := "A".toList, ip_addr := "10.0.0.4".toList, signal_port := 9000, last_seen := 1000 }

/-- C8 at its failing input: `A` is registered at time 1000 and online at
time 1010, but with 300 later registrations ahead of it in the registry the
response to `GET /units` is cut after 8191 bytes and holds no byte `A` at
all, so the element `{"name":"A","status":"online"}` is not part of it. -/
theorem units_listing_omits_online_unit :
    find_unit (many_units ++ [unit_A]) "A".toList 1010 = some ("10.0.0.4".toList, 9000)
    ∧ handle_connection (many_units ++ [unit_A]) 1010 caller no_peers units_request []
        = reply (many_units ++ [unit_A]) "HTTP/1.1 200 OK".toList
            (ctz_stringify_value (units_array (many_units ++ [unit_A]) 1010) false 0)
    ∧ 'A' ∉ send_response "HTTP/1.1 200 OK".toList json_type
        (ctz_stringify_value (units_array (many_units ++ [unit_A]) 1010) false 0) := by
  refine ⟨?_, ?_, ?_⟩
  · rw [find_unit_eq]
    have hfind : (many_units ++ [unit_A]).find? (fun u => strcmp_eq u.name "A".toList)
        = some unit_A := by
      rw [List.find?_append]
      have hnone : many_units.find? (fun u => strcmp_eq u.name "A".toList) = none := by
        rw [List.find?_eq_none]
        intro u hu
        simp only [many_units, List.mem_map] at hu
        obtain ⟨i, _, rfl⟩ := hu
        simp only [Bool.not_eq_true, ← Bool.not_eq_true, strcmp_eq_iff]
        intro h
        have hA : 'A' ∈ cstr (Nat.toDigits 10 i) := by rw [h]; decide
        have := toDigits_mem 10 i 'A' (mem_of_mem_cstr hA)
        exact absurd this (by decide)
      rw [hnone]
      rfl
    rw [hfind]
    decide
  · rw [units_request_routed, route_units_sent]
  · intro hA
    have htext : ctz_stringify_value (units_array (many_units ++ [unit_A]) 1010) false 0
        = ('[' :: (many_units.map (fun u => unit_text u 1010 ++ [','])).flatten)
          ++ (ctz_stringify_value.stringify_elems ([unit_A].map (fun u => unit_obj u 1010))
                false 0 ++ [']']) := by
      rw [units_array_eq, ctz_stringify_value,
        stringify_elems_units many_units [unit_A] 1010 (by simp)]
      simp
    have hfront : ∀ c ∈ '[' :: (many_units.map (fun u => unit_text u 1010 ++ [','])).flatten,
        not_A c := by
      intro c hc
      rcases List.mem_cons.mp hc with rfl | hc
      · decide
      · obtain ⟨l, hl, hcl⟩ := List.mem_flatten.mp hc
        obtain ⟨u, hu, rfl⟩ := List.mem_map.mp hl
        simp only [many_units, List.mem_map] at hu
        obtain ⟨i, _, rfl⟩ := hu
        rcases List.mem_append.mp hcl with h | h
        · exact unit_text_digits i _ _ _ 1010 c h
        · rw [List.mem_singleton.mp h]; decide
    have hlen : 8191 ≤ ('[' :: (many_units.map
        (fun u => unit_text u 1010 ++ [','])).flatten).length := by
      have h := flatten_length_ge many_units (fun u => unit_text u 1010 ++ [',']) 30
        (by
          intro u _
          have := unit_text_length u 1010
          simp only [List.length_append, List.length_cons, List.length_nil]
          omega)
      have hl : many_units.length = 300 := by simp [many_units]
      rw [hl] at h
      simp only [List.length_cons]
      omega
    rw [htext] at hA
    rcases send_response_mem_of_long _ _ _ _ (fun h => (hfront NUL h).2 rfl) hlen 'A' hA
      with h | h
    · have hkey : ∀ (a b : List Char), 'A' ∉ a → 'A' ∉ b → 'A' ∉ a ++ b :=
        fun a b ha hb hm => (List.mem_append.mp hm).elim ha hb
      have hdigits : 'A' ∉ fmt_zu (strlen
          (('[' :: (many_units.map (fun u => unit_text u 1010 ++ [','])).flatten)
            ++ (ctz_stringify_value.stringify_elems
                  ([unit_A].map (fun u => unit_obj u 1010)) false 0 ++ [']']))) :=
        fun hm => absurd (toDigits_mem 10 _ 'A' hm) (by decide)
      refine hkey _ _ (hkey _ _ (hkey _ _ (hkey _ _ (hkey _ _ (hkey _ _ (hkey _ _ (hkey _ _
        (hkey _ _ (hkey _ _ ?_ ?_) ?_) ?_) ?_) ?_) hdigits) ?_) ?_) ?_) ?_ h
      all_goals decide
    · exact (hfront 'A' h).1 rfl

/-! ## The route `POST /sync` (C12 to C15) and the default route (C18) -/

theorem dispatch_sync (units : List Unit) (now : Int) (ip_addr : List Char)
    (net : Network) (r : Request)
    (hmethod : cstr (r.mem.drop r.method) = "POST".toList)
    (hpath : cstr (r.mem.drop r.path) = "/sync".toList) :
    dispatch units now ip_addr net r = route_sync units now net r := by
  have h1 : strcmp_eq (r.mem.drop r.method) "POST".toList = true :=
    (strcmp_eq_literal _ _ (by decide)).mpr hmethod
  have h2 : strcmp_eq (r.mem.drop r.path) "/register".toList = false := by
    rw [← Bool.not_eq_true, strcmp_eq_literal _ _ (by decide), hpath]
    decide
  have h3 : strcmp_eq (r.mem.drop r.method) "GET".toList = false := by
    rw [← Bool.not_eq_true, strcmp_eq_literal _ _ (by decide), hmethod]
    decide
  have h4 : strcmp_eq (r.mem.drop r.path) "/sync".toList = true :=
    (strcmp_eq_literal _ _ (by decide)).mpr hpath
  unfold dispatch
  simp only [h1, h2, h3, h4, Bool.false_and, Bool.and_false, Bool.and_self, Bool.false_eq_true,
    if_false, if_true]

/-- The string `ctz_json_get_string` points to. -/
def string_of : Option ctz_json_value → List Char
  | some (CTZ_JSON_STRING s _) => s
  | _ => []

theorem get_string_eq (v : Option ctz_json_value) :
    ctz_json_get_string v = some (string_of v) := by
  unfold ctz_json_get_string string_of
  split <;> simp_all

/-- The 404 response of the lookup routes. -/
def response_target_not_found : List Char :=
  send_response "HTTP/1.1 404 Not Found".toList json_type
    "\x7b\"error\":\"target unit not found or offline\"\x7d".toList

theorem route_sync_no_body (units : List Unit) (now : Int) (net : Network)
    (r : Request) (hbody : r.body = none) :
    route_sync units now net r =
      reply units "HTTP/1.1 400 Bad Request".toList (error_body "missing body".toList) := by
  simp only [route_sync, hbody]
  rfl

theorem route_sync_invalid_json (units : List Unit) (now : Int) (net : Network)
    (r : Request) (body : Nat) (hbody : r.body = some body)
    (hparse : ctz_json_parse (r.mem.drop body) = .error .null) :
    route_sync units now net r =
      reply units "HTTP/1.1 400 Bad Request".toList (error_body "invalid json".toList) := by
  simp only [route_sync, hbody, hparse]
  rfl

theorem route_sync_not_found (units : List Unit) (now : Int) (net : Network)
    (r : Request) (body : Nat) (root : ctz_json_value) (hbody : r.body = some body)
    (hparse : ctz_json_parse (r.mem.drop body) = .ok root)
    (hfind : find_unit units
      (string_of (ctz_json_find_object_value root "target_unit".toList)) now = none) :
    route_sync units now net r =
      reply units "HTTP/1.1 404 Not Found".toList
        "\x7b\"error\":\"target unit not found or offline\"\x7d".toList := by
  simp only [route_sync, hbody, hparse, get_string_eq, Option.some_bind, hfind]

/-- The request text the route `POST /sync` formats for the target at
`target_ip:target_port` and the re-serialised body `body_to_forward`. -/
def sync_http_req (target_ip : List Char) (target_port : Int) (body_to_forward : List Char) :
    List Char :=
  snprintf (strlen body_to_forward + 1024)
    ("POST /sync_incoming HTTP/1.1".toList ++ CRLF
      ++ "Host: ".toList ++ cstr target_ip ++ [':'] ++ fmt_d target_port ++ CRLF
      ++ "Content-Type: application/json".toList ++ CRLF
      ++ "Content-Length: ".toList ++ fmt_zu (strlen body_to_forward) ++ CRLF
      ++ "Connection: close".toList ++ CRLF ++ CRLF ++ cstr body_to_forward)

/-- The outcome of a forwarded sync: one outbound call and the response
chosen by the return value `rc` of `send_http_request`. -/
def sync_outcome (units : List Unit) (call : Outbound) (rc : Int) : Outcome :=
  if rc = 0 then
    { units := units,
      sent := some (send_response "HTTP/1.1 200 OK".toList json_type
        "\x7b\"status\":\"sync forwarded\"\x7d".toList),
      outbound := [call], crashed := false }
  else
    { units := units,
      sent := some (send_response "HTTP/1.1 504 Gateway Timeout".toList json_type
        "\x7b\"error\":\"target unit did not accept sync\"\x7d".toList),
      outbound := [call], crashed := false }

theorem route_sync_found (units : List Unit) (now : Int) (net : Network)
    (r : Request) (body : Nat) (root : ctz_json_value) (ip : List Char) (port : Int)
    (hbody : r.body = some body)
    (hparse : ctz_json_parse (r.mem.drop body) = .ok root)
    (hfind : find_unit units
      (string_of (ctz_json_find_object_value root "target_unit".toList)) now = some (ip, port)) :
    route_sync units now net r =
      sync_outcome units
        { host := cstr ip, port := port,
          request := cstr (sync_http_req ip port (ctz_stringify_value root false 0)) }
        (send_http_request net ip port
          (sync_http_req ip port (ctz_stringify_value root false 0)) 8192).1 := by
  simp only [route_sync, hbody, hparse, get_string_eq, Option.some_bind, hfind,
    ctz_json_stringify, Option.getD_some]
  unfold sync_outcome sync_http_req reply
  rcases hs : send_http_request net ip port
      (snprintf (strlen (ctz_stringify_value root false 0) + 1024)
        ("POST /sync_incoming HTTP/1.1".toList ++ CRLF
          ++ "Host: ".toList ++ cstr ip ++ [':'] ++ fmt_d port ++ CRLF
          ++ "Content-Type: application/json".toList ++ CRLF
          ++ "Content-Length: ".toList ++ fmt_zu (strlen (ctz_stringify_value root false 0)) ++ CRLF
          ++ "Connection: close".toList ++ CRLF ++ CRLF
          ++ cstr (ctz_stringify_value root false 0))) 8192 with ⟨rc, buf⟩
  by_cases h0 : rc = 0
  · subst h0; simp
  · simp only [h0, if_false]
    split
    · rename_i heq
      simp only [Prod.mk.injEq] at heq
      exact absurd heq.1 h0
    · rfl

/-- C12. For every `POST /sync` request whose document names, in a string
member `target_unit`, a unit that has no record or whose record is offline
(`now ≥ last_seen + 90`), the response is 404, no outbound call is made and
the registry is unchanged. -/
theorem sync_unknown_target (units : List Unit) (now : Int) (ip_addr : List Char)
    (net : Network) (input heap : List Char) (r : Request) (body : Nat)
    (root : ctz_json_value) (s : List Char) (len : Nat)
    (hrecv : receives input heap r)
    (hmethod : cstr (r.mem.drop r.method) = "POST".toList)
    (hpath : cstr (r.mem.drop r.path) = "/sync".toList)
    (hbody : r.body = some body)
    (hparse : ctz_json_parse (r.mem.drop body) = .ok root)
    (htarget : ctz_json_find_object_value root "target_unit".toList
      = some (CTZ_JSON_STRING s len))
    (hmiss : units.find? (fun u => strcmp_eq u.name s) = none
      ∨ ∃ u, units.find? (fun u => strcmp_eq u.name s) = some u ∧ u.last_seen + 90 ≤ now) :
    (handle_connection units now ip_addr net input heap).sent = some response_target_not_found
    ∧ (handle_connection units now ip_addr net input heap).outbound = []
    ∧ (handle_connection units now ip_addr net input heap).units = units := by
  have hfind : find_unit units
      (string_of (ctz_json_find_object_value root "target_unit".toList)) now = none := by
    rw [htarget, find_unit_eq]
    show (match units.find? (fun u => strcmp_eq u.name s) with
      | some u => if now < u.last_seen + UNIT_TIMEOUT_SECONDS then
          some (strncpy u.ip_addr 63, u.signal_port) else none
      | none => none) = none
    rcases hmiss with h | ⟨u, h, hle⟩
    · rw [h]
    · rw [h]
      simp only [UNIT_TIMEOUT_SECONDS]
      rw [if_neg (by omega)]
  rw [handle_connection_eq_dispatch units now ip_addr net input heap r hrecv,
    dispatch_sync units now ip_addr net r hmethod hpath,
    route_sync_not_found units now net r body root hbody hparse hfind]
  exact ⟨rfl, rfl, rfl⟩

/-- C14. For every `POST /sync` request that has no body or whose body the
parser rejects, the response is 400 with an `{"error":"..."}` body, no
outbound call is made and the registry is unchanged. -/
theorem sync_rejects (units : List Unit) (now : Int) (ip_addr : List Char)
    (net : Network) (input heap : List Char) (r : Request)
    (hrecv : receives input heap r)
    (hmethod : cstr (r.mem.drop r.method) = "POST".toList)
    (hpath : cstr (r.mem.drop r.path) = "/sync".toList)
    (hbad : r.body = none
      ∨ ∃ b, r.body = some b ∧ ctz_json_parse (r.mem.drop b) = .error .null) :
    (∃ msg, (handle_connection units now ip_addr net input heap).sent
        = some (response_bad_request msg))
    ∧ (handle_connection units now ip_addr net input heap).outbound = []
    ∧ (handle_connection units now ip_addr net input heap).units = units := by
  rw [handle_connection_eq_dispatch units now ip_addr net input heap r hrecv,
    dispatch_sync units now ip_addr net r hmethod hpath]
  rcases hbad with hb | ⟨b, hb, hp⟩
  · rw [route_sync_no_body units now net r hb]
    exact ⟨⟨"missing body".toList, rfl⟩, rfl, rfl⟩
  · rw [route_sync_invalid_json units now net r b hb hp]
    exact ⟨⟨"invalid json".toList, rfl⟩, rfl, rfl⟩

/-- C15 (amended). On a registry that holds no record with the empty name,
a `POST /sync` request whose body is valid JSON without a string member
`target_unit` is answered 404 (target unit not found or offline), is not
forwarded and leaves the registry unchanged. -/
theorem sync_without_target (units : List Unit) (now : Int) (ip_addr : List Char)
    (net : Network) (input heap : List Char) (r : Request) (body : Nat)
    (root : ctz_json_value)
    (hrecv : receives input heap r)
    (hmethod : cstr (r.mem.drop r.method) = "POST".toList)
    (hpath : cstr (r.mem.drop r.path) = "/sync".toList)
    (hbody : r.body = some body)
    (hparse : ctz_json_parse (r.mem.drop body) = .ok root)
    (hno : ∀ s len, ctz_json_find_object_value root "target_unit".toList
      ≠ some (CTZ_JSON_STRING s len))
    (hnamed : ∀ u ∈ units, cstr u.name ≠ []) :
    (handle_connection units now ip_addr net input heap).sent = some response_target_not_found
    ∧ (handle_connection units now ip_addr net input heap).outbound = []
    ∧ (handle_connection units now ip_addr net input heap).units = units := by
  have hstr : string_of (ctz_json_find_object_value root "target_unit".toList) = [] := by
    unfold string_of
    split
    · rename_i s len h
      exact absurd h (hno s len)
    · rfl
  have hfind : find_unit units
      (string_of (ctz_json_find_object_value root "target_unit".toList)) now = none := by
    rw [hstr, find_unit_eq]
    have : units.find? (fun u => strcmp_eq u.name []) = none := by
      rw [List.find?_eq_none]
      intro u hu
      rw [strcmp_eq_iff]
      exact hnamed u hu
    rw [this]
  rw [handle_connection_eq_dispatch units now ip_addr net input heap r hrecv,
    dispatch_sync units now ip_addr net r hmethod hpath,
    route_sync_not_found units now net r body root hbody hparse hfind]
  exact ⟨rfl, rfl, rfl⟩

/-- C18. Every request whose method and path are none of `POST /register`,
`GET /units`, `GET` with a path that starts with `/nodes?target_unit=`, and
`POST /sync` (compared byte for byte) is answered 404 with body
`{"error":"endpoint not found"}`; the registry is unchanged and no outbound
call is made. -/
theorem unknown_route_not_found (units : List Unit) (now : Int) (ip_addr : List Char)
    (net : Network) (input heap : List Char) (r : Request)
    (hrecv : receives input heap r)
    (h1 : ¬ (cstr (r.mem.drop r.method) = "POST".toList
      ∧ cstr (r.mem.drop r.path) = "/register".toList))
    (h2 : ¬ (cstr (r.mem.drop r.method) = "GET".toList
      ∧ cstr (r.mem.drop r.path) = "/units".toList))
    (h3 : ¬ (cstr (r.mem.drop r.method) = "GET".toList
      ∧ "/nodes?target_unit=".toList <+: cstr (r.mem.drop r.path)))
    (h4 : ¬ (cstr (r.mem.drop r.method) = "POST".toList
      ∧ cstr (r.mem.drop r.path) = "/sync".toList)) :
    (handle_connection units now ip_addr net input heap).sent = some response_endpoint_not_found
    ∧ (handle_connection units now ip_addr net input heap).units = units
    ∧ (handle_connection units now ip_addr net input heap).outbound = [] := by
  rw [handle_connection_eq_dispatch units now ip_addr net input heap r hrecv]
  have e1 : (strcmp_eq (r.mem.drop r.method) "POST".toList
      && strcmp_eq (r.mem.drop r.path) "/register".toList) = false := by
    rw [← Bool.not_eq_true, Bool.and_eq_true, strcmp_eq_literal _ _ (by decide),
      strcmp_eq_literal _ _ (by decide)]
    exact h1
  have e2 : (strcmp_eq (r.mem.drop r.method) "GET".toList
      && strcmp_eq (r.mem.drop r.path) "/units".toList) = false := by
    rw [← Bool.not_eq_true, Bool.and_eq_true, strcmp_eq_literal _ _ (by decide),
      strcmp_eq_literal _ _ (by decide)]
    exact h2
  have e3 : (strcmp_eq (r.mem.drop r.method) "GET".toList
      && strncmp_eq (r.mem.drop r.path) "/nodes?target_unit=".toList 20) = false := by
    rw [← Bool.not_eq_true, Bool.and_eq_true, strcmp_eq_literal _ _ (by decide),
      nodes_prefix_test]
    rintro ⟨hm, hp⟩
    exact h3 ⟨hm, by rw [hp]⟩
  have e4 : (strcmp_eq (r.mem.drop r.method) "POST".toList
      && strcmp_eq (r.mem.drop r.path) "/sync".toList) = false := by
    rw [← Bool.not_eq_true, Bool.and_eq_true, strcmp_eq_literal _ _ (by decide),
      strcmp_eq_literal _ _ (by decide)]
    exact h4
  unfold dispatch
  simp only [e1, e2, e3, e4, Bool.false_eq_true, if_false]
  exact ⟨rfl, rfl, rfl⟩

def sync_ghost : List Char :=
  "POST /sync HTTP/1.1\r\nHost: c\r\n\r\n\x7b\"target_unit\":\"ghost\"\x7d".toList

def sync_ghost_root : ctz_json_value :=
  CTZ_JSON_OBJECT [⟨"target_unit".toList, 11, CTZ_JSON_STRING "ghost".toList 5⟩]

theorem sync_unknown_target_witness :
    (receives sync_ghost [] (request_of sync_ghost)
      ∧ cstr ((request_of sync_ghost).mem.drop (request_of sync_ghost).method) = "POST".toList
      ∧ cstr ((request_of sync_ghost).mem.drop (request_of sync_ghost).path) = "/sync".toList
      ∧ (request_of sync_ghost).body = some 32
      ∧ ctz_json_parse ((request_of sync_ghost).mem.drop 32) = .ok sync_ghost_root
      ∧ ctz_json_find_object_value sync_ghost_root "target_unit".toList
          = some (CTZ_JSON_STRING "ghost".toList 5)
      ∧ (registry_A.find? (fun u => strcmp_eq u.name "ghost".toList) = none
          ∨ ∃ u, registry_A.find? (fun u => strcmp_eq u.name "ghost".toList) = some u
              ∧ u.last_seen + 90 ≤ 120))
    ∧ ((handle_connection registry_A 120 caller peer_ok sync_ghost []).sent
          = some response_target_not_found
      ∧ (handle_connection registry_A 120 caller peer_ok sync_ghost []).outbound = []
      ∧ (handle_connection registry_A 120 caller peer_ok sync_ghost []).units = registry_A) :=
  ⟨⟨by decide!, by decide!, by decide!, by decide!, by decide!, by decide!,
      Or.inl (by decide!)⟩,
    sync_unknown_target registry_A 120 caller peer_ok sync_ghost [] (request_of sync_ghost) 32
      sync_ghost_root "ghost".toList 5 (by decide!) (by decide!) (by decide!) (by decide!)
      (by decide!) (by decide!) (Or.inl (by decide!))⟩

def sync_truncated_body : List Char :=
  "POST /sync HTTP/1.1\r\nHost: c\r\n\r\n\x7b\"target_unit\"".toList

theorem sync_rejects_witness :
    (receives sync_truncated_body [] (request_of sync_truncated_body)
      ∧ cstr ((request_of sync_truncated_body).mem.drop
          (request_of sync_truncated_body).method) = "POST".toList
      ∧ cstr ((request_of sync_truncated_body).mem.drop
          (request_of sync_truncated_body).path) = "/sync".toList
      ∧ (request_of sync_truncated_body).body = some 32
      ∧ ctz_json_parse ((request_of sync_truncated_body).mem.drop 32) = .error .null)
    ∧ ((∃ msg, (handle_connection registry_A 120 caller peer_ok sync_truncated_body []).sent
          = some (response_bad_request msg))
      ∧ (handle_connection registry_A 120 caller peer_ok sync_truncated_body []).outbound = []
      ∧ (handle_connection registry_A 120 caller peer_ok sync_truncated_body []).units
          = registry_A) :=
  ⟨⟨by decide!, by decide!, by decide!, by decide!, by decide!⟩,
    sync_rejects registry_A 120 caller peer_ok sync_truncated_body []
      (request_of sync_truncated_body) (by decide!) (by decide!) (by decide!)
      (Or.inr ⟨32, by decide!, by decide!⟩)⟩

def sync_numeric_target : List Char :=
  "POST /sync HTTP/1.1\r\nHost: c\r\n\r\n\x7b\"target_unit\":5\x7d".toList

def sync_numeric_target_root : ctz_json_value :=
  CTZ_JSON_OBJECT [⟨"target_unit".toList, 11, CTZ_JSON_NUMBER (Double.ofNat 5)⟩]

theorem sync_numeric_target_no_string (s : List Char) (len : Nat) :
    ctz_json_find_object_value sync_numeric_target_root "target_unit".toList
      ≠ some (CTZ_JSON_STRING s len) := by
  have hf : ctz_json_find_object_value sync_numeric_target_root "target_unit".toList
      = some (CTZ_JSON_NUMBER (Double.ofNat 5)) := by decide!
  rw [hf]
  intro h
  cases h

theorem sync_without_target_witness :
    (receives sync_numeric_target [] (request_of sync_numeric_target)
      ∧ cstr ((request_of sync_numeric_target).mem.drop
          (request_of sync_numeric_target).method) = "POST".toList
      ∧ cstr ((request_of sync_numeric_target).mem.drop
          (request_of sync_numeric_target).path) = "/sync".toList
      ∧ (request_of sync_numeric_target).body = some 32
      ∧ ctz_json_parse ((request_of sync_numeric_target).mem.drop 32)
          = .ok sync_numeric_target_root
      ∧ (∀ s len, ctz_json_find_object_value sync_numeric_target_root "target_unit".toList
          ≠ some (CTZ_JSON_STRING s len))
      ∧ (∀ u ∈ registry_A, cstr u.name ≠ []))
    ∧ ((handle_connection registry_A 120 caller peer_ok sync_numeric_target []).sent
          = some response_target_not_found
      ∧ (handle_connection registry_A 120 caller peer_ok sync_numeric_target []).outbound = []
      ∧ (handle_connection registry_A 120 caller peer_ok sync_numeric_target []).units
          = registry_A) :=
  ⟨⟨by decide!, by decide!, by decide!, by decide!, by decide!,
      sync_numeric_target_no_string, by decide!⟩,
    sync_without_target registry_A 120 caller peer_ok sync_numeric_target []
      (request_of sync_numeric_target) 32 sync_numeric_target_root
      (by decide!) (by decide!) (by decide!) (by decide!) (by decide!)
      sync_numeric_target_no_string (by decide!)⟩

def sync_empty_object : List Char := "POST /sync HTTP/1.1\r\nHost: c\r\n\r\n\x7b\x7d".toList

/-- A registry that holds a record with the empty name (as left by a
registration without `unit_name`). -/
def registry_unnamed : List Unit :=
  [{ name := [], ip_addr := "10.0.0.3".toList, signal_port := 9300, last_seen := 100 }]

/-- C15 as stated fails: the body `{}` is valid JSON without `target_unit`,
and it is answered 404, not 400; with a record of the empty name in the
registry it is even forwarded to that unit. -/
theorem sync_empty_object_counterexample :
    ctz_json_parse ((request_of sync_empty_object).mem.drop 32) = .ok (CTZ_JSON_OBJECT [])
    ∧ handle_connection registry_A 120 caller peer_ok sync_empty_object []
        = reply registry_A "HTTP/1.1 404 Not Found".toList
            "\x7b\"error\":\"target unit not found or offline\"\x7d".toList
    ∧ (handle_connection registry_unnamed 120 caller peer_ok sync_empty_object []).outbound
        = [Outbound.mk "10.0.0.3".toList 9300
            ("POST /sync_incoming HTTP/1.1\r\nHost: 10.0.0.3:9300\r\n"
              ++ "Content-Type: application/json\r\nContent-Length: 2\r\n"
              ++ "Connection: close\r\n\r\n\x7b\x7d").toList] := by
  decide!

def get_register : List Char := "GET /register HTTP/1.1\r\nHost: c\r\n\r\n".toList

theorem unknown_route_not_found_witness :
    (receives get_register [] (request_of get_register)
      ∧ ¬ (cstr ((request_of get_register).mem.drop (request_of get_register).method)
            = "POST".toList
          ∧ cstr ((request_of get_register).mem.drop (request_of get_register).path)
            = "/register".toList)
      ∧ ¬ (cstr ((request_of get_register).mem.drop (request_of get_register).method)
            = "GET".toList
          ∧ cstr ((request_of get_register).mem.drop (request_of get_register).path)
            = "/units".toList)
      ∧ ¬ (cstr ((request_of get_register).mem.drop (request_of get_register).method)
            = "GET".toList
          ∧ "/nodes?target_unit=".toList
            <+: cstr ((request_of get_register).mem.drop (request_of get_register).path))
      ∧ ¬ (cstr ((request_of get_register).mem.drop (request_of get_register).method)
            = "POST".toList
          ∧ cstr ((request_of get_register).mem.drop (request_of get_register).path)
            = "/sync".toList))
    ∧ ((handle_connection registry_A 120 caller peer_ok get_register []).sent
          = some response_endpoint_not_found
      ∧ (handle_connection registry_A 120 caller peer_ok get_register []).units = registry_A
      ∧ (handle_connection registry_A 120 caller peer_ok get_register []).outbound = []) :=
  ⟨⟨by decide!, by decide!, by decide!, by decide!, by decide!⟩,
    unknown_route_not_found registry_A 120 caller peer_ok get_register []
      (request_of get_register) (by decide!) (by decide!) (by decide!) (by decide!)
      (by decide!)⟩

def registry_node7 : List Unit :=
  [{ name := "node-7".toList, ip_addr := "10.0.0.6".toList, signal_port := 9400,
     last_seen := 2000 }]

def nodes_of_node7 : List Char :=
  "GET /nodes?target_unit=node-7 HTTP/1.1\r\nHost: c\r\n\r\n".toList

/-- C11 at its failing input: `node-7` is registered and online and its
address is unreachable; the nodes route would answer 504, but the request
`GET /nodes?target_unit=node-7` never reaches it and is answered 404 by the
default route without any outbound attempt. -/
theorem nodes_unreachable_peer_not_504 :
    find_unit registry_node7 "node-7".toList 2010 = some ("10.0.0.6".toList, 9400)
    ∧ (route_nodes registry_node7 2010 no_peers "node-7".toList).sent
        = some (send_response "HTTP/1.1 504 Gateway Timeout".toList json_type
            "\x7b\"error\":\"could not reach target unit\"\x7d".toList)
    ∧ handle_connection registry_node7 2010 caller no_peers nodes_of_node7 []
        = reply registry_node7 "HTTP/1.1 404 Not Found".toList
            "\x7b\"error\":\"endpoint not found\"\x7d".toList := by
  decide!

/-! ## The outbound client (C16, C17) -/

/-- The marker `send_http_request` searches for. -/
def marker_200 : List Char := "HTTP/1.1 200 OK".toList

/-- The search `strstr` succeeds exactly when the needle occurs in the
string at `hay`, that is, before the first `NUL`. -/
theorem strstr_isSome_iff (hay needle : List Char) :
    (strstr hay needle).isSome = true ↔ needle <:+: cstr hay := by
  induction hay with
  | nil =>
    cases needle with
    | nil => simp [strstr, cstr]
    | cons a l => simp [strstr, cstr]
  | cons c rest ih =>
    unfold strstr
    by_cases hp : needle.isPrefixOf (cstr (c :: rest)) = true
    · simp only [hp, if_true, Option.isSome_some, true_iff]
      exact (List.isPrefixOf_iff_prefix.mp hp).isInfix
    · simp only [hp, Bool.false_eq_true, if_false]
      have hnp : ¬ needle <+: cstr (c :: rest) := fun h => hp (List.isPrefixOf_iff_prefix.mpr h)
      by_cases hc : c = NUL
      · simp only [hc, if_true, Option.isSome_none, Bool.false_eq_true, false_iff]
        rw [cstr_cons, if_pos rfl]
        intro h
        have hn : needle = [] := List.eq_nil_of_infix_nil h
        exact hnp (by rw [hn]; exact List.nil_prefix)
      · simp only [hc, if_false, Option.isSome_map']
        rw [ih]
        rw [cstr_cons, if_neg hc] at hnp ⊢
        rw [List.infix_cons_iff]
        constructor
        · intro h; exact Or.inr h
        · rintro (h | h)
          · exact absurd h hnp
          · exact h

/-- The return value of `send_http_request`. -/
theorem send_http_request_fst (net : Network) (host : List Char) (port : Int)
    (request : List Char) (response_size : Nat) :
    (send_http_request net host port request response_size).1 =
      match net (cstr host) port (cstr request) with
      | PeerReply.read_ok bytes =>
        if marker_200 <:+: cstr (bytes.take (response_size - 1)) then 0 else -1
      | _ => -1 := by
  unfold send_http_request
  cases hn : net (cstr host) port (cstr request) with
  | read_ok bytes =>
    simp only
    by_cases hin : marker_200 <:+: cstr (bytes.take (response_size - 1))
    · have hs : (strstr (cstr (bytes.take (response_size - 1)))
          "HTTP/1.1 200 OK".toList).isSome = true :=
        (strstr_isSome_iff _ _).mpr (by rw [cstr_idem]; exact hin)
      have hnone : (strstr (cstr (bytes.take (response_size - 1)))
          "HTTP/1.1 200 OK".toList).isNone = false := by
        rw [Option.isNone_eq_false_iff]
        exact hs
      rw [hnone, if_pos hin]
      rfl
    · have hs : ¬ (strstr (cstr (bytes.take (response_size - 1)))
          "HTTP/1.1 200 OK".toList).isSome = true := by
        intro h
        have := (strstr_isSome_iff _ _).mp h
        rw [cstr_idem] at this
        exact hin this
      have hnone : (strstr (cstr (bytes.take (response_size - 1)))
          "HTTP/1.1 200 OK".toList).isNone = true := by
        cases hx : strstr (cstr (bytes.take (response_size - 1))) "HTTP/1.1 200 OK".toList with
        | none => rfl
        | some k => rw [hx] at hs; exact absurd rfl hs
      rw [hnone, if_neg hin]
      rfl
  | _ => rfl

/-- C16 (amended). Whatever the network does, `send_http_request` reports
success exactly when the single `read` succeeds and the bytes it returned
(at most the buffer size minus one), up to their first `NUL` byte, contain
the text `HTTP/1.1 200 OK`; in every other case it returns -1. -/
theorem send_http_request_success_iff (net : Network) (host : List Char) (port : Int)
    (request : List Char) (response_size : Nat) :
    ((send_http_request net host port request response_size).1 = 0 ↔
      ∃ bytes, net (cstr host) port (cstr request) = PeerReply.read_ok bytes
        ∧ marker_200 <:+: cstr (bytes.take (response_size - 1)))
    ∧ ((send_http_request net host port request response_size).1 ≠ 0 →
        (send_http_request net host port request response_size).1 = -1) := by
  rw [send_http_request_fst]
  cases hn : net (cstr host) port (cstr request) with
  | read_ok bytes =>
    dsimp only
    by_cases hin : marker_200 <:+: cstr (bytes.take (response_size - 1))
    · rw [if_pos hin]
      refine ⟨⟨fun _ => ⟨bytes, rfl, hin⟩, fun _ => rfl⟩, fun h => absurd rfl h⟩
    · rw [if_neg hin]
      refine ⟨⟨fun h => absurd h (by decide), ?_⟩, fun _ => rfl⟩
      rintro ⟨b, hb, hb2⟩
      cases hb
      exact absurd hb2 hin
  | resolve_failed =>
    dsimp only
    exact ⟨⟨fun h => absurd h (by decide), fun ⟨_, hb, _⟩ => by cases hb⟩, fun _ => rfl⟩
  | socket_failed =>
    dsimp only
    exact ⟨⟨fun h => absurd h (by decide), fun ⟨_, hb, _⟩ => by cases hb⟩, fun _ => rfl⟩
  | connect_failed =>
    dsimp only
    exact ⟨⟨fun h => absurd h (by decide), fun ⟨_, hb, _⟩ => by cases hb⟩, fun _ => rfl⟩
  | write_failed =>
    dsimp only
    exact ⟨⟨fun h => absurd h (by decide), fun ⟨_, hb, _⟩ => by cases hb⟩, fun _ => rfl⟩
  | read_failed =>
    dsimp only
    exact ⟨⟨fun h => absurd h (by decide), fun ⟨_, hb, _⟩ => by cases hb⟩, fun _ => rfl⟩

/-- A peer whose reply carries a `NUL` byte before the status line. -/
def peer_nul_first : Network := fun _ _ _ =>
  PeerReply.read_ok (NUL :: "HTTP/1.1 200 OK\r\n\r\n[]".toList)

/-- C16 as stated fails for a reply with a `NUL` byte ahead of the marker:
the bytes returned contain `HTTP/1.1 200 OK`, but the string search stops at
the `NUL` and the call reports an error. -/
theorem send_http_request_nul_counterexample :
    marker_200 <:+: NUL :: "HTTP/1.1 200 OK\r\n\r\n[]".toList
    ∧ (send_http_request peer_nul_first "10.0.0.5".toList 9000
        "GET /nodes_list HTTP/1.1\r\n\r\n".toList 8192).1 = -1 := by
  decide!

/-- The 504 response of the route `POST /sync`. -/
def response_sync_refused : List Char :=
  send_response "HTTP/1.1 504 Gateway Timeout".toList json_type
    "\x7b\"error\":\"target unit did not accept sync\"\x7d".toList

/-- The 504 response of the route `GET /nodes`. -/
def response_nodes_unreachable : List Char :=
  send_response "HTTP/1.1 504 Gateway Timeout".toList json_type
    "\x7b\"error\":\"could not reach target unit\"\x7d".toList

theorem route_nodes_failed (units : List Unit) (now : Int) (net : Network)
    (target ip : List Char) (port : Int)
    (hfind : find_unit units target now = some (ip, port))
    (hrc : ∀ request, (send_http_request net ip port request 8192).1 = -1) :
    (route_nodes units now net target).sent = some response_nodes_unreachable := by
  unfold route_nodes
  simp only [hfind]
  split
  · rename_i buf heq
    have h := hrc (snprintf 512
      ("GET /nodes_list HTTP/1.1".toList ++ CRLF
        ++ "Host: ".toList ++ cstr ip ++ [':'] ++ fmt_d port ++ CRLF
        ++ "Connection: close".toList ++ CRLF ++ CRLF))
    rw [heq] at h
    have h2 : (0 : Int) = -1 := h
    exact absurd h2 (by decide)
  · rfl

/-- C17 (amended). When no reply of the network contains the text
`HTTP/1.1 200 OK` (in the bytes read, up to their first `NUL` byte), the
outbound client reports an error for every request, the route `POST /sync`
answers a request for a registered online target with 504, and so does the
route `GET /nodes` whenever it is entered for such a target. -/
theorem non_200_reply_gives_504 (net : Network)
    (hnet : ∀ h p q bytes, net h p q = PeerReply.read_ok bytes →
      ¬ marker_200 <:+: cstr (bytes.take 8191)) :
    (∀ host port request, (send_http_request net host port request 8192).1 = -1)
    ∧ (∀ units now ip_addr input heap r body root ip port,
        receives input heap r →
        cstr (r.mem.drop r.method) = "POST".toList →
        cstr (r.mem.drop r.path) = "/sync".toList →
        r.body = some body →
        ctz_json_parse (r.mem.drop body) = .ok root →
        find_unit units (string_of (ctz_json_find_object_value root "target_unit".toList)) now
          = some (ip, port) →
        (handle_connection units now ip_addr net input heap).sent = some response_sync_refused)
    ∧ (∀ units now target ip port,
        find_unit units target now = some (ip, port) →
        (route_nodes units now net target).sent = some response_nodes_unreachable) := by
  have hrc : ∀ host port request, (send_http_request net host port request 8192).1 = -1 := by
    intro host port request
    rw [send_http_request_fst]
    cases hn : net (cstr host) port (cstr request) with
    | read_ok bytes =>
      dsimp only
      rw [if_neg (hnet _ _ _ bytes hn)]
    | _ => rfl
  refine ⟨hrc, ?_, ?_⟩
  · intro units now ip_addr input heap r body root ip port hrecv hm hp hb hparse hfind
    rw [handle_connection_eq_dispatch units now ip_addr net input heap r hrecv,
      dispatch_sync units now ip_addr net r hm hp,
      route_sync_found units now net r body root ip port hb hparse hfind, hrc]
    rfl
  · intro units now target ip port hfind
    exact route_nodes_failed units now net target ip port hfind (fun q => hrc ip port q)

/-- A peer that answers every request with status 500. -/
def peer_500 : Network := fun _ _ _ =>
  PeerReply.read_ok "HTTP/1.1 500 Internal Server Error\r\nContent-Length: 0\r\n\r\n".toList

def sync_to_A : List Char :=
  "POST /sync HTTP/1.1\r\nHost: c\r\n\r\n\x7b\"target_unit\":\"A\"\x7d".toList

def sync_to_A_root : ctz_json_value :=
  CTZ_JSON_OBJECT [⟨"target_unit".toList, 11, CTZ_JSON_STRING "A".toList 1⟩]

theorem peer_500_no_marker (h : List Char) (p : Int) (q bytes : List Char)
    (heq : peer_500 h p q = PeerReply.read_ok bytes) :
    ¬ marker_200 <:+: cstr (bytes.take 8191) := by
  have hb : bytes
      = "HTTP/1.1 500 Internal Server Error\r\nContent-Length: 0\r\n\r\n".toList := by
    unfold peer_500 at heq
    cases heq
    rfl
  subst hb
  decide!

theorem non_200_reply_gives_504_witness :
    (∀ h p q bytes, peer_500 h p q = PeerReply.read_ok bytes →
      ¬ marker_200 <:+: cstr (bytes.take 8191))
    ∧ (send_http_request peer_500 "10.0.0.5".toList 9000 "GET / HTTP/1.1\r\n\r\n".toList 8192).1
        = -1
    ∧ (handle_connection registry_A 120 caller peer_500 sync_to_A []).sent
        = some response_sync_refused
    ∧ (route_nodes registry_A 120 peer_500 "A".toList).sent = some response_nodes_unreachable :=
  ⟨peer_500_no_marker,
    (non_200_reply_gives_504 peer_500 peer_500_no_marker).1 _ _ _,
    (non_200_reply_gives_504 peer_500 peer_500_no_marker).2.1 registry_A 120 caller sync_to_A []
      (request_of sync_to_A) 32 sync_to_A_root "10.0.0.5".toList 9000
      (by decide!) (by decide!) (by decide!) (by decide!) (by decide!) (by decide!),
    (non_200_reply_gives_504 peer_500 peer_500_no_marker).2.2 registry_A 120 "A".toList
      "10.0.0.5".toList 9000 (by decide!)⟩

/-- A peer that answers with status 500 and a body that quotes a 200 status
line. -/
def peer_500_quoting_200 : Network := fun _ _ _ =>
  PeerReply.read_ok
    "HTTP/1.1 500 Internal Server Error\r\nContent-Type: text/plain\r\n\r\nHTTP/1.1 200 OK".toList

/-- C17 as stated fails: the reply starts with a 500 status line, but its
body contains `HTTP/1.1 200 OK`, so the client reports success and the
route `POST /sync` answers 200. -/
theorem non_200_status_line_counterexample :
    (send_http_request peer_500_quoting_200 "10.0.0.5".toList 9000
        "GET / HTTP/1.1\r\n\r\n".toList 8192).1 = 0
    ∧ (handle_connection registry_A 120 caller peer_500_quoting_200 sync_to_A []).sent
        = some (send_response "HTTP/1.1 200 OK".toList json_type
            "\x7b\"status\":\"sync forwarded\"\x7d".toList) := by
  decide!

/-! ## The response writer (C19) and the request scanner (C20) -/

/-- C19 at its failing input: for a body of 9000 bytes `send_response`
announces `Content-Length: 9000` but emits the 92 header bytes followed by
only the first 8099 body bytes. -/
theorem send_response_truncates_long_body :
    strlen (List.replicate 9000 'x') = 9000
    ∧ send_response "HTTP/1.1 200 OK".toList json_type (List.replicate 9000 'x')
        = ("HTTP/1.1 200 OK\r\nContent-Type: application/json\r\n"
            ++ "Content-Length: 9000\r\nConnection: close\r\n\r\n").toList
          ++ List.replicate 8099 'x' := by
  have hnul : NUL ∉ List.replicate 9000 'x' := by
    intro h
    exact absurd (List.eq_of_mem_replicate h) (by decide)
  have hb : cstr (List.replicate 9000 'x') = List.replicate 9000 'x' := cstr_eq_self hnul
  have hlen : strlen (List.replicate 9000 'x') = 9000 := by
    unfold strlen
    rw [hb, List.length_replicate]
  refine ⟨hlen, ?_⟩
  unfold send_response snprintf
  rw [hlen, hb]
  have hhead : cstr "HTTP/1.1 200 OK".toList ++ CRLF
      ++ "Content-Type: ".toList ++ cstr json_type ++ CRLF
      ++ "Content-Length: ".toList ++ fmt_zu 9000 ++ CRLF
      ++ "Connection: close".toList ++ CRLF ++ CRLF
      = ("HTTP/1.1 200 OK\r\nContent-Type: application/json\r\n"
          ++ "Content-Length: 9000\r\nConnection: close\r\n\r\n").toList := by decide!
  rw [hhead]
  have hhl : ("HTTP/1.1 200 OK\r\nContent-Type: application/json\r\n"
      ++ "Content-Length: 9000\r\nConnection: close\r\n\r\n").toList.length = 92 := by decide!
  have htake : List.take (8192 - 1)
      (("HTTP/1.1 200 OK\r\nContent-Type: application/json\r\n"
          ++ "Content-Length: 9000\r\nConnection: close\r\n\r\n").toList
        ++ List.replicate 9000 'x')
      = ("HTTP/1.1 200 OK\r\nContent-Type: application/json\r\n"
          ++ "Content-Length: 9000\r\nConnection: close\r\n\r\n").toList
        ++ List.replicate 8099 'x' := by
    rw [List.take_append_eq_append_take, hhl, List.take_of_length_le (by rw [hhl]; omega),
      List.take_replicate]
    rfl
  rw [htake]
  apply cstr_eq_self
  intro h
  rcases List.mem_append.mp h with h | h
  · exact absurd h (by decide!)
  · exact absurd (List.eq_of_mem_replicate h) (by decide)

def register_without_headers : List Char :=
  "POST /register HTTP/1.1\r\n\r\n\x7b\"unit_name\":\"B\",\"listen_port\":9001\x7d".toList

/-- C20 at its failing input: a request with zero header lines.  The first
`strtok_r` overwrites the `\r` that ends the request line, the text left
for the boundary search is `\n\r\n{...}`, no `\r\n\r\n` is found in it, and
the body pointer is `NULL`: the registration is answered 400 (missing body)
although the bytes after the blank line are a valid document. -/
theorem request_without_headers_loses_body :
    receives register_without_headers [] (request_of register_without_headers)
    ∧ cstr ((request_of register_without_headers).mem.drop
        (request_of register_without_headers).method) = "POST".toList
    ∧ cstr ((request_of register_without_headers).mem.drop
        (request_of register_without_headers).path) = "/register".toList
    ∧ (request_of register_without_headers).body = none
    ∧ ctz_json_parse (register_without_headers.drop 27) = .ok register_B_root
    ∧ handle_connection registry_A 160 caller no_peers register_without_headers []
        = reply registry_A "HTTP/1.1 400 Bad Request".toList
            "\x7b\"error\":\"missing body\"\x7d".toList := by
  decide!

/-! ## The serialised text holds no `NUL` byte -/

/-- Every byte of the list differs from the terminator. -/
def nul_free (l : List Char) : Prop := NUL ∉ l

instance (l : List Char) : Decidable (nul_free l) := by
  unfold nul_free; infer_instance

theorem nul_free_nil : nul_free [] := by
  intro h; cases h

theorem nul_free_append {a b : List Char} (ha : nul_free a) (hb : nul_free b) :
    nul_free (a ++ b) :=
  fun h => (List.mem_append.mp h).elim ha hb

theorem nul_free_cons {c : Char} {l : List Char} (hc : c ≠ NUL) (hl : nul_free l) :
    nul_free (c :: l) := by
  intro h
  rcases List.mem_cons.mp h with h | h
  · exact hc h.symm
  · exact hl h

theorem nul_free_ite {p : Prop} [Decidable p] {a b : List Char} (ha : nul_free a)
    (hb : nul_free b) : nul_free (if p then a else b) := by
  split <;> assumption

theorem char_ite_ne {p : Prop} [Decidable p] {a b c : Char} (ha : a ≠ c) (hb : b ≠ c) :
    (if p then a else b) ≠ c := by
  split <;> assumption

theorem nul_free_take {l : List Char} (n : Nat) (h : nul_free l) : nul_free (l.take n) :=
  fun hm => h (List.mem_of_mem_take hm)

theorem nul_free_drop {l : List Char} (n : Nat) (h : nul_free l) : nul_free (l.drop n) :=
  fun hm => h (List.mem_of_mem_drop hm)

theorem nul_free_strip_zeros {l : List Char} (h : nul_free l) : nul_free (strip_zeros l) := by
  intro hm
  unfold strip_zeros at hm
  have h1 := List.mem_reverse.mp hm
  have h2 := (List.dropWhile_suffix _).subset h1
  exact h (List.mem_reverse.mp h2)

theorem nul_free_toDigits (b n : Nat) : nul_free (Nat.toDigits b n) :=
  fun h => absurd (toDigits_mem b n NUL h) (by decide)

theorem nul_free_replicate (n : Nat) {c : Char} (hc : c ≠ NUL) :
    nul_free (List.replicate n c) :=
  fun h => hc (List.eq_of_mem_replicate h).symm

theorem nul_free_fmt_digits (w n : Nat) : nul_free (fmt_digits w n) :=
  nul_free_append (nul_free_replicate _ (by decide)) (nul_free_toDigits 10 n)

theorem nul_free_fmt_17g (d : Double) : nul_free (fmt_17g d) := by
  have hsign : nul_free (if d.neg = true then ['-'] else []) :=
    nul_free_ite (nul_free_cons (by decide) nul_free_nil) nul_free_nil
  unfold fmt_17g
  dsimp only
  refine nul_free_ite (nul_free_append hsign (nul_free_cons (by decide) nul_free_nil)) ?_
  refine nul_free_ite ?_ ?_
  · refine nul_free_append (nul_free_append hsign ?_) ?_
    · exact nul_free_ite (nul_free_take _ (nul_free_fmt_digits _ _))
        (nul_free_cons (by decide) nul_free_nil)
    · refine nul_free_ite nul_free_nil (nul_free_cons (by decide) (nul_free_strip_zeros ?_))
      exact nul_free_ite (nul_free_drop _ (nul_free_fmt_digits _ _))
        (nul_free_append (nul_free_replicate _ (by decide)) (nul_free_fmt_digits _ _))
  · refine nul_free_append (nul_free_append (nul_free_append (nul_free_append hsign ?_) ?_) ?_)
      (nul_free_fmt_digits _ _)
    · exact nul_free_take _ (nul_free_fmt_digits _ _)
    · exact nul_free_ite nul_free_nil (nul_free_cons (by decide)
        (nul_free_strip_zeros (nul_free_drop _ (nul_free_fmt_digits _ _))))
    · exact nul_free_cons (by decide)
        (nul_free_cons (char_ite_ne (by decide) (by decide)) nul_free_nil)

theorem nul_free_escape_byte (ch : Char) : nul_free (escape_byte ch) := by
  unfold escape_byte
  refine nul_free_ite (by decide) (nul_free_ite (by decide) (nul_free_ite (by decide)
    (nul_free_ite (by decide) (nul_free_ite (by decide) (nul_free_ite (by decide)
    (nul_free_ite (by decide) ?_))))))
  split
  · unfold fmt_u04X hex_digit_upper
    have hup : ∀ c ∈ digit_chars, c.toUpper ≠ NUL := by decide
    exact nul_free_cons (by decide) (nul_free_cons (by decide) (nul_free_cons (by decide)
      (nul_free_cons (by decide) (nul_free_cons (hup _ (digitChar_mem _))
      (nul_free_cons (hup _ (digitChar_mem _)) nul_free_nil)))))
  · rename_i h
    refine nul_free_cons ?_ nul_free_nil
    intro e
    rw [e] at h
    exact h (by decide)

theorem nul_free_flatten {ls : List (List Char)} (h : ∀ l ∈ ls, nul_free l) :
    nul_free ls.flatten := by
  intro hm
  obtain ⟨l, hl, hc⟩ := List.mem_flatten.mp hm
  exact h l hl hc

theorem nul_free_stringify_string (s : List Char) (len : Nat) :
    nul_free (ctz_stringify_string s len) := by
  unfold ctz_stringify_string
  refine nul_free_cons (by decide) (nul_free_append (nul_free_flatten ?_)
    (nul_free_cons (by decide) nul_free_nil))
  intro l hl
  obtain ⟨i, _, rfl⟩ := List.mem_map.mp hl
  exact nul_free_escape_byte _

theorem nul_free_stringify_value (v : ctz_json_value) :
    ∀ (pretty : Bool) (indent : Nat), nul_free (ctz_stringify_value v pretty indent) := by
  have hpad : ∀ n, nul_free (fmt_pad n) := fun n => nul_free_replicate n (by decide)
  refine ctz_json_value.rec
    (motive_1 := fun v => ∀ (pretty : Bool) (indent : Nat),
      nul_free (ctz_stringify_value v pretty indent))
    (motive_2 := fun l => ∀ (pretty : Bool) (indent : Nat),
      nul_free (ctz_stringify_value.stringify_elems l pretty indent))
    (motive_3 := fun l => ∀ (pretty : Bool) (indent : Nat),
      nul_free (ctz_stringify_value.stringify_members l pretty indent))
    (motive_4 := fun m => ∀ (pretty : Bool) (indent : Nat),
      nul_free (ctz_stringify_value m.v pretty indent))
    ?_ ?_ ?_ ?_ ?_ ?_ ?_ ?_ ?_ ?_ ?_ ?_ v
  · intro _ _; unfold ctz_stringify_value; decide
  · intro _ _; unfold ctz_stringify_value; decide
  · intro _ _; unfold ctz_stringify_value; decide
  · intro n _ _; unfold ctz_stringify_value; exact nul_free_fmt_17g n
  · intro s len _ _; unfold ctz_stringify_value; exact nul_free_stringify_string s len
  · intro e ih pretty indent
    unfold ctz_stringify_value
    exact nul_free_append (nul_free_append (nul_free_append (nul_free_append
      (nul_free_cons (by decide) nul_free_nil)
      (nul_free_ite (nul_free_cons (by decide) nul_free_nil) nul_free_nil))
      (ih pretty indent)) (nul_free_ite (hpad _) nul_free_nil))
      (nul_free_cons (by decide) nul_free_nil)
  · intro m ih pretty indent
    unfold ctz_stringify_value
    exact nul_free_append (nul_free_append (nul_free_append (nul_free_append
      (nul_free_cons (by decide) nul_free_nil)
      (nul_free_ite (nul_free_cons (by decide) nul_free_nil) nul_free_nil))
      (ih pretty indent)) (nul_free_ite (hpad _) nul_free_nil))
      (nul_free_cons (by decide) nul_free_nil)
  · intro _ _; unfold ctz_stringify_value.stringify_elems; exact nul_free_nil
  · intro v rest ihv ihr pretty indent
    unfold ctz_stringify_value.stringify_elems
    exact nul_free_append (nul_free_append (nul_free_append (nul_free_append
      (nul_free_ite (hpad _) nul_free_nil) (ihv pretty _))
      (nul_free_ite nul_free_nil (nul_free_cons (by decide) nul_free_nil)))
      (nul_free_ite (nul_free_cons (by decide) nul_free_nil) nul_free_nil))
      (ihr pretty indent)
  · intro _ _; unfold ctz_stringify_value.stringify_members; exact nul_free_nil
  · intro x rest ihx ihr pretty indent
    unfold ctz_stringify_value.stringify_members
    exact nul_free_append (nul_free_append (nul_free_append (nul_free_append
      (nul_free_append (nul_free_append
      (nul_free_ite (hpad _) nul_free_nil) (nul_free_stringify_string _ _))
      (nul_free_ite (nul_free_cons (by decide) (nul_free_cons (by decide) nul_free_nil))
        (nul_free_cons (by decide) nul_free_nil)))
      (ihx pretty _))
      (nul_free_ite nul_free_nil (nul_free_cons (by decide) nul_free_nil)))
      (nul_free_ite (nul_free_cons (by decide) nul_free_nil) nul_free_nil))
      (ihr pretty indent)
  · intro k klen v ih pretty indent
    exact ih pretty indent

/-! ## The forwarded request of `POST /sync` (C13) -/

theorem toDigits_length_le (n e : Nat) (he : 0 < e) (h : n < 10 ^ e) :
    (Nat.toDigits 10 n).length ≤ e :=
  Nat.toDigitsCore_length 10 (by decide) (n + 1) n e h he

theorem fmt_zu_length_le (n : Nat) (h : n < 2 ^ 64) : (fmt_zu n).length ≤ 20 :=
  toDigits_length_le n 20 (by decide) (lt_of_lt_of_le h (by norm_num))

theorem fmt_d_length_le (p : Int) (hlo : -2 ^ 31 ≤ p) (hhi : p < 2 ^ 31) :
    (fmt_d p).length ≤ 11 := by
  cases p with
  | ofNat n =>
    have hn : n < 10 ^ 10 := by
      have : (n : Int) < 2 ^ 31 := hhi
      omega
    exact le_trans (toDigits_length_le n 10 (by decide) hn) (by decide)
  | negSucc n =>
    have hn : n + 1 < 10 ^ 10 := by
      have h2 : -2 ^ 31 ≤ -((n : Int) + 1) := by
        rw [← Int.negSucc_eq]; exact hlo
      omega
    show (Nat.toDigits 10 (n + 1)).length + 1 ≤ 11
    have := toDigits_length_le (n + 1) 10 (by decide) hn
    omega

theorem nul_free_fmt_d (p : Int) : nul_free (fmt_d p) := by
  cases p with
  | ofNat n => exact nul_free_toDigits 10 n
  | negSucc n => exact nul_free_cons (by decide) (nul_free_toDigits 10 (n + 1))

/-- The request the specification describes for a forwarded sync: the
request line, the four header lines, a blank line and the body, with the
byte length of the body as `Content-Length`. -/
def sync_request_text (ip : List Char) (port : Int) (body : List Char) : List Char :=
  "POST /sync_incoming HTTP/1.1".toList ++ CRLF
    ++ "Host: ".toList ++ ip ++ [':'] ++ fmt_d port ++ CRLF
    ++ "Content-Type: application/json".toList ++ CRLF
    ++ "Content-Length: ".toList ++ fmt_zu body.length ++ CRLF
    ++ "Connection: close".toList ++ CRLF ++ CRLF ++ body

theorem nul_free_sync_request_text (ip : List Char) (port : Int) (body : List Char)
    (hip : nul_free ip) (hbody : nul_free body) :
    nul_free (sync_request_text ip port body) := by
  unfold sync_request_text fmt_zu
  have hcrlf : nul_free CRLF := by decide
  repeat apply nul_free_append
  all_goals first
    | exact hip | exact hbody | exact hcrlf | exact nul_free_fmt_d _
    | exact nul_free_toDigits _ _ | decide

theorem sync_request_text_length (ip : List Char) (port : Int) (body : List Char) :
    (sync_request_text ip port body).length
      = 110 + ip.length + (fmt_d port).length + (fmt_zu body.length).length + body.length := by
  have h1 : "POST /sync_incoming HTTP/1.1".toList.length = 28 := by decide
  have h2 : "Host: ".toList.length = 6 := by decide
  have h3 : "Content-Type: application/json".toList.length = 30 := by decide
  have h4 : "Content-Length: ".toList.length = 16 := by decide
  have h5 : "Connection: close".toList.length = 17 := by decide
  have h6 : CRLF.length = 2 := by decide
  unfold sync_request_text
  simp only [List.length_append, h1, h2, h3, h4, h5, h6, List.length_singleton]
  omega

theorem sync_http_req_eq (ip : List Char) (port : Int) (body : List Char)
    (hip : nul_free ip) (hiplen : ip.length ≤ 63)
    (hlo : -2 ^ 31 ≤ port) (hhi : port < 2 ^ 31)
    (hbody : nul_free body) (hlen : body.length < 2 ^ 64) :
    cstr (sync_http_req ip port body) = sync_request_text ip port body := by
  have hcb : cstr body = body := cstr_eq_self hbody
  have hci : cstr ip = ip := cstr_eq_self hip
  have hreq : sync_http_req ip port body = sync_request_text ip port body := by
    unfold sync_http_req strlen snprintf
    rw [hcb, hci]
    show (sync_request_text ip port body).take (body.length + 1024 - 1) = _
    apply List.take_of_length_le
    rw [sync_request_text_length]
    have := fmt_d_length_le port hlo hhi
    have := fmt_zu_length_le body.length hlen
    omega
  rw [hreq]
  exact cstr_eq_self (nul_free_sync_request_text ip port body hip hbody)

/-- The 200 response of the route `POST /sync`. -/
def response_sync_forwarded : List Char :=
  send_response "HTTP/1.1 200 OK".toList json_type
    "\x7b\"status\":\"sync forwarded\"\x7d".toList

/-- C13. For every `POST /sync` request whose body parses to a document
`root` with a string member `target_unit` that names (as a C string) a
record `u` of the registry that is online (`now < last_seen + 90`), the
handler makes exactly one outbound call, to `u.ip_addr : u.signal_port`, and
the request written is `POST /sync_incoming HTTP/1.1` with the headers
`Host: ip:port`, `Content-Type: application/json`, `Content-Length: n` and
`Connection: close`, a blank line and the compact serialisation of `root`,
where `n` is the byte length of that serialisation; the registry is
unchanged; the response is 200 `{"status":"sync forwarded"}` when
`send_http_request` returns 0 and 504 otherwise.  The record is one that
fits `struct Unit` (address of at most 63 bytes, port an `int`) and the
length of the serialisation is a `size_t`. -/
theorem sync_forwards_reserialised_body (units : List Unit) (now : Int) (ip_addr : List Char)
    (net : Network) (input heap : List Char) (r : Request) (body : Nat)
    (root : ctz_json_value) (s : List Char) (len : Nat) (u : Unit)
    (hrecv : receives input heap r)
    (hmethod : cstr (r.mem.drop r.method) = "POST".toList)
    (hpath : cstr (r.mem.drop r.path) = "/sync".toList)
    (hbody : r.body = some body)
    (hparse : ctz_json_parse (r.mem.drop body) = .ok root)
    (htarget : ctz_json_find_object_value root "target_unit".toList
      = some (CTZ_JSON_STRING s len))
    (hunit : units.find? (fun u => strcmp_eq u.name s) = some u)
    (honline : now < u.last_seen + 90)
    (hfit : u.fits) (hlo : -2 ^ 31 ≤ u.signal_port) (hhi : u.signal_port < 2 ^ 31)
    (hsize : (ctz_stringify_value root false 0).length < 2 ^ 64) :
    (handle_connection units now ip_addr net input heap).outbound
        = [Outbound.mk u.ip_addr u.signal_port
            (sync_request_text u.ip_addr u.signal_port (ctz_stringify_value root false 0))]
    ∧ (handle_connection units now ip_addr net input heap).units = units
    ∧ ((send_http_request net u.ip_addr u.signal_port
          (sync_request_text u.ip_addr u.signal_port (ctz_stringify_value root false 0)) 8192).1
          = 0 →
        (handle_connection units now ip_addr net input heap).sent
          = some response_sync_forwarded)
    ∧ ((send_http_request net u.ip_addr u.signal_port
          (sync_request_text u.ip_addr u.signal_port (ctz_stringify_value root false 0)) 8192).1
          ≠ 0 →
        (handle_connection units now ip_addr net input heap).sent
          = some response_sync_refused) := by
  have hipc : cstr u.ip_addr = u.ip_addr := cstr_eq_self hfit.2.2.2
  have hip : strncpy u.ip_addr 63 = u.ip_addr := by
    rw [strncpy_of_short (by rw [hipc]; exact hfit.2.2.1), hipc]
  have hfind : find_unit units
      (string_of (ctz_json_find_object_value root "target_unit".toList)) now
      = some (u.ip_addr, u.signal_port) := by
    rw [htarget, find_unit_eq]
    show (match units.find? (fun u => strcmp_eq u.name s) with
      | some u => if now < u.last_seen + UNIT_TIMEOUT_SECONDS then
          some (strncpy u.ip_addr 63, u.signal_port) else none
      | none => none) = _
    rw [hunit]
    simp only [UNIT_TIMEOUT_SECONDS]
    rw [if_pos honline, hip]
  have hreq : cstr (sync_http_req u.ip_addr u.signal_port (ctz_stringify_value root false 0))
      = sync_request_text u.ip_addr u.signal_port (ctz_stringify_value root false 0) :=
    sync_http_req_eq _ _ _ hfit.2.2.2 hfit.2.2.1 hlo hhi
      (nul_free_stringify_value root false 0) hsize
  have hrc : send_http_request net u.ip_addr u.signal_port
      (sync_http_req u.ip_addr u.signal_port (ctz_stringify_value root false 0)) 8192
      = send_http_request net u.ip_addr u.signal_port
          (sync_request_text u.ip_addr u.signal_port (ctz_stringify_value root false 0)) 8192 := by
    unfold send_http_request
    rw [hreq, cstr_eq_self (nul_free_sync_request_text _ _ _ hfit.2.2.2
      (nul_free_stringify_value root false 0))]
  rw [handle_connection_eq_dispatch units now ip_addr net input heap r hrecv,
    dispatch_sync units now ip_addr net r hmethod hpath,
    route_sync_found units now net r body root u.ip_addr u.signal_port hbody hparse hfind,
    hreq, hipc, hrc]
  unfold sync_outcome
  refine ⟨?_, ?_, ?_, ?_⟩
  · split <;> rfl
  · split <;> rfl
  · intro h0
    rw [if_pos h0]
    rfl
  · intro h0
    rw [if_neg h0]
    rfl

/-- The record of `registry_A`. -/
def unit_A_online : Unit :=
  Unit.mk "A".toList "10.0.0.5".toList 9000 100

theorem sync_forwards_reserialised_body_witness :
    (receives sync_to_A [] (request_of sync_to_A)
      ∧ cstr ((request_of sync_to_A).mem.drop (request_of sync_to_A).method) = "POST".toList
      ∧ cstr ((request_of sync_to_A).mem.drop (request_of sync_to_A).path) = "/sync".toList
      ∧ (request_of sync_to_A).body = some 32
      ∧ ctz_json_parse ((request_of sync_to_A).mem.drop 32) = .ok sync_to_A_root
      ∧ ctz_json_find_object_value sync_to_A_root "target_unit".toList
          = some (CTZ_JSON_STRING "A".toList 1)
      ∧ registry_A.find? (fun u => strcmp_eq u.name "A".toList) = some unit_A_online
      ∧ (120 : Int) < unit_A_online.last_seen + 90
      ∧ unit_A_online.fits
      ∧ -2 ^ 31 ≤ unit_A_online.signal_port ∧ unit_A_online.signal_port < 2 ^ 31
      ∧ (ctz_stringify_value sync_to_A_root false 0).length < 2 ^ 64)
    ∧ (handle_connection registry_A 120 caller peer_ok sync_to_A []).outbound
        = [Outbound.mk "10.0.0.5".toList 9000
            ("POST /sync_incoming HTTP/1.1\r\nHost: 10.0.0.5:9000\r\n".toList
              ++ "Content-Type: application/json\r\nContent-Length: 19\r\n".toList
              ++ "Connection: close\r\n\r\n\x7b\"target_unit\":\"A\"\x7d".toList)]
    ∧ (handle_connection registry_A 120 caller peer_ok sync_to_A []).sent
        = some response_sync_forwarded :=
  ⟨⟨by decide!, by decide!, by decide!, by decide!, by decide!, by decide!, by decide!,
      by decide, by decide, by decide, by decide, by decide!⟩,
    (sync_forwards_reserialised_body registry_A 120 caller peer_ok sync_to_A []
      (request_of sync_to_A) 32 sync_to_A_root "A".toList 1 unit_A_online
      (by decide!) (by decide!) (by decide!) (by decide!) (by decide!) (by decide!) (by decide!)
      (by decide) (by decide) (by decide) (by decide) (by decide!)).1.trans (by decide!),
    (sync_forwards_reserialised_body registry_A 120 caller peer_ok sync_to_A []
      (request_of sync_to_A) 32 sync_to_A_root "A".toList 1 unit_A_online
      (by decide!) (by decide!) (by decide!) (by decide!) (by decide!) (by decide!) (by decide!)
      (by decide) (by decide) (by decide) (by decide) (by decide!)).2.2.1 (by decide!)⟩

/-! ## Requests without a method or path token (C21) -/

/-- The outcome of a connection that is closed without a response. -/
def closed_silently (units : List Unit) : Outcome :=
  { units := units, sent := none, outbound := [], crashed := false }

/-- The request line of the buffer lacks a token: `strtok_r` finds no first
line, or no method in it, or no path after the method. -/
def lacks_token (buffer : List Char) : Prop :=
  (strtok_r buffer 0 CRLF).token = none
  ∨ ∃ first_line, (strtok_r buffer 0 CRLF).token = some first_line
      ∧ ((strtok_r (strtok_r buffer 0 CRLF).mem first_line [' ']).token = none
        ∨ (strtok_r (strtok_r (strtok_r buffer 0 CRLF).mem first_line [' ']).mem
            (strtok_r (strtok_r buffer 0 CRLF).mem first_line [' ']).save [' ']).token = none)

instance (buffer : List Char) : Decidable (lacks_token buffer) := by
  unfold lacks_token
  cases h : (strtok_r buffer 0 CRLF).token with
  | none => exact isTrue (Or.inl rfl)
  | some first_line =>
    by_cases h2 : ((strtok_r (strtok_r buffer 0 CRLF).mem first_line [' ']).token = none
        ∨ (strtok_r (strtok_r (strtok_r buffer 0 CRLF).mem first_line [' ']).mem
            (strtok_r (strtok_r buffer 0 CRLF).mem first_line [' ']).save [' ']).token = none)
    · exact isTrue (Or.inr ⟨first_line, rfl, h2⟩)
    · refine isFalse ?_
      rintro (h3 | ⟨f, hf, h3⟩)
      · cases h3
      · cases hf
        exact h2 h3

theorem parse_request_lacks_token (buffer : List Char) (h : lacks_token buffer) :
    parse_request buffer = none := by
  unfold parse_request
  rcases h with h | ⟨first_line, h1, h2⟩
  · simp only [h]
  · simp only [h1]
    rcases h2 with h2 | h2
    · simp only [h2]
    · simp only [h2]
      split <;> simp_all

/-- C21 (amended). For every request buffer whose request line lacks a
method token or a path token, no route handler runs: the connection is
closed without any response (no 400 is written), no outbound call is made
and the registry is unchanged. -/
theorem malformed_request_line_closes (units : List Unit) (now : Int) (ip_addr : List Char)
    (net : Network) (input heap : List Char)
    (hbad : lacks_token (input.take (MAX_HTTP_BODY_SIZE + 1023) ++ NUL :: heap)) :
    handle_connection units now ip_addr net input heap = closed_silently units := by
  unfold handle_connection
  simp only [parse_request_lacks_token _ hbad]
  split <;> rfl

/-- A request line that holds a method and nothing else. -/
def request_without_path : List Char := "GET\r\nHost: c\r\n\r\n".toList

theorem malformed_request_line_closes_witness :
    lacks_token (request_without_path.take (MAX_HTTP_BODY_SIZE + 1023) ++ NUL :: [])
    ∧ handle_connection registry_A 120 caller no_peers request_without_path []
        = closed_silently registry_A :=
  ⟨by decide!,
    malformed_request_line_closes registry_A 120 caller no_peers request_without_path []
      (by decide!)⟩

/-- C21 as stated fails: the request line `GET` has no path token, and the
handler writes nothing to the client, in particular no 400 response. -/
theorem request_without_path_counterexample :
    parse_request (request_without_path ++ [NUL]) = none
    ∧ (handle_connection registry_A 120 caller no_peers request_without_path []).sent = none
    ∧ (handle_connection registry_A 120 caller no_peers request_without_path []).units
        = registry_A := by
  decide!

/-! ## Sequences of registrations (C22 to C24) -/

/-- One call `register_unit(name, ip, port)` made at time `now`. -/
structure RegisterCall where
  name : List Char
  ip : List Char
  port : Int
  now : Int
  deriving DecidableEq, Repr

/-- The registry after the calls `calls`, made one after another. -/
def register_all (units : List Unit) (calls : List RegisterCall) : List Unit :=
  calls.foldl (fun us c => register_unit us c.name c.ip c.port c.now) units

theorem register_unit_fresh (units : List Unit) (name ip : List Char) (port now : Int)
    (h : ∀ u ∈ units, strcmp_eq u.name name = false) :
    register_unit units name ip port now
      = Unit.mk (strncpy name 127) (strncpy ip 63) port now :: units := by
  have hnone : register_update units name ip port now = none := by
    induction units with
    | nil => rfl
    | cons v rest ih =>
      simp [register_update, h v (List.mem_cons_self _ _),
        ih (fun w hw => h w (List.mem_cons_of_mem _ hw))]
  unfold register_unit
  rw [hnone]

theorem register_all_fits (calls : List RegisterCall) :
    ∀ (units : List Unit), (∀ u ∈ units, u.fits) → ∀ u ∈ register_all units calls, u.fits := by
  induction calls with
  | nil => intro units h; exact h
  | cons c rest ih =>
    intro units h
    exact ih _ (register_unit_fits units c.name c.ip c.port c.now h)

theorem register_all_distinct (calls : List RegisterCall) :
    ∀ (units : List Unit), (∀ u ∈ units, u.fits) →
      (∀ c ∈ calls, (cstr c.name).length ≤ 127) →
      (calls.map (fun c => cstr c.name)).Nodup →
      (∀ c ∈ calls, cstr c.name ∉ units.map Unit.name) →
      register_all units calls
        = (calls.map (fun c => Unit.mk (cstr c.name) (strncpy c.ip 63) c.port c.now)).reverse
            ++ units := by
  induction calls with
  | nil => intro units _ _ _ _; rfl
  | cons c rest ih =>
    intro units hfit hshort hnodup hfresh
    have hc : ∀ u ∈ units, strcmp_eq u.name c.name = false := by
      intro u hu
      rw [← Bool.not_eq_true, strcmp_eq_iff, cstr_eq_self (hfit u hu).2.1]
      intro he
      exact hfresh c (List.mem_cons_self _ _) (List.mem_map.mpr ⟨u, hu, he⟩)
    have hreg := register_unit_fresh units c.name c.ip c.port c.now hc
    rw [strncpy_of_short (hshort c (List.mem_cons_self _ _))] at hreg
    have hfit2 := register_unit_fits units c.name c.ip c.port c.now hfit
    rw [List.map_cons, List.nodup_cons] at hnodup
    have hstep := ih (register_unit units c.name c.ip c.port c.now) hfit2
      (fun d hd => hshort d (List.mem_cons_of_mem _ hd)) hnodup.2
      (by
        intro d hd hmem
        rw [hreg, List.map_cons, List.mem_cons] at hmem
        rcases hmem with h | h
        · exact hnodup.1 (List.mem_map.mpr ⟨d, hd, h⟩)
        · exact hfresh d (List.mem_cons_of_mem _ hd) h)
    show register_all (register_unit units c.name c.ip c.port c.now) rest = _
    rw [hstep, hreg, List.map_cons, List.reverse_cons, List.append_assoc]
    rfl

theorem toDigitsCore_append (b : Nat) : ∀ (fuel n : Nat) (ds : List Char),
    Nat.toDigitsCore b fuel n ds = Nat.toDigitsCore b fuel n [] ++ ds := by
  intro fuel
  induction fuel with
  | zero => intro n ds; rfl
  | succ f ih =>
    intro n ds
    simp only [Nat.toDigitsCore]
    split
    · rfl
    · rw [ih (n / b) (Nat.digitChar (n % b) :: ds), ih (n / b) [Nat.digitChar (n % b)]]
      simp

theorem toDigitsCore_fuel (b : Nat) (hb : 2 ≤ b) : ∀ (f1 f2 n : Nat), n < f1 → n < f2 →
    Nat.toDigitsCore b f1 n [] = Nat.toDigitsCore b f2 n [] := by
  intro f1
  induction f1 with
  | zero => intro f2 n h; omega
  | succ f ih =>
    intro f2 n h1 h2
    cases f2 with
    | zero => omega
    | succ g =>
      simp only [Nat.toDigitsCore]
      split
      · rfl
      · rename_i hne
        have hlt : n / b < n := Nat.div_lt_self (by
          rcases Nat.eq_zero_or_pos n with h0 | h0
          · rw [h0, Nat.zero_div] at hne; exact absurd rfl hne
          · exact h0) hb
        rw [toDigitsCore_append b f, toDigitsCore_append b g,
          ih g (n / b) (by omega) (by omega)]

/-- The recursion of the decimal digit string. -/
theorem toDigits_lt (n : Nat) (h : n < 10) : Nat.toDigits 10 n = [Nat.digitChar n] := by
  unfold Nat.toDigits
  simp only [Nat.toDigitsCore]
  rw [if_pos (Nat.div_eq_of_lt h), Nat.mod_eq_of_lt h]

theorem toDigits_ge (n : Nat) (h : 10 ≤ n) :
    Nat.toDigits 10 n = Nat.toDigits 10 (n / 10) ++ [Nat.digitChar (n % 10)] := by
  have hdiv : n / 10 ≠ 0 := by
    intro h0
    have := Nat.div_add_mod n 10
    omega
  have hl : Nat.toDigitsCore 10 (n + 1) n []
      = Nat.toDigitsCore 10 n (n / 10) [Nat.digitChar (n % 10)] := by
    simp only [Nat.toDigitsCore]
    rw [if_neg hdiv]
  unfold Nat.toDigits
  rw [hl, toDigitsCore_append,
    toDigitsCore_fuel 10 (by decide) n (n / 10 + 1) (n / 10) (by omega) (by omega)]

theorem hex_value_digitChar (d : Nat) (h : d < 10) : hex_value (Nat.digitChar d) = d := by
  interval_cases d <;> decide

theorem isdigit_digitChar (d : Nat) (h : d < 10) : isdigit (Nat.digitChar d) = true := by
  interval_cases d <;> decide

theorem digits_value_append (b : Nat) (l : List Char) (c : Char) :
    digits_value b (l ++ [c]) = digits_value b l * b + hex_value c := by
  unfold digits_value
  rw [List.foldl_append]
  rfl

/-- The decimal digit string of `n` denotes `n`. -/
theorem digits_value_toDigits (n : Nat) : digits_value 10 (Nat.toDigits 10 n) = n := by
  induction n using Nat.strong_induction_on with
  | _ n ih =>
    by_cases h : n < 10
    · rw [toDigits_lt n h]
      show 0 * 10 + hex_value (Nat.digitChar n) = n
      rw [hex_value_digitChar n h]
      omega
    · rw [toDigits_ge n (by omega), digits_value_append, ih (n / 10) (by omega),
        hex_value_digitChar _ (Nat.mod_lt _ (by decide))]
      exact Nat.div_add_mod' n 10

theorem toDigits_injective (a b : Nat) (h : Nat.toDigits 10 a = Nat.toDigits 10 b) : a = b := by
  have := congrArg (digits_value 10) h
  rwa [digits_value_toDigits, digits_value_toDigits] at this

theorem toDigits_all_isdigit (n : Nat) : ∀ c ∈ Nat.toDigits 10 n, isdigit c = true := by
  induction n using Nat.strong_induction_on with
  | _ n ih =>
    by_cases h : n < 10
    · rw [toDigits_lt n h]
      intro c hc
      rw [List.mem_singleton.mp hc]
      exact isdigit_digitChar n h
    · rw [toDigits_ge n (by omega)]
      intro c hc
      rcases List.mem_append.mp hc with hc | hc
      · exact ih (n / 10) (by omega) c hc
      · rw [List.mem_singleton.mp hc]
        exact isdigit_digitChar _ (Nat.mod_lt _ (by decide))

theorem toDigits_ne_nil (n : Nat) : Nat.toDigits 10 n ≠ [] := by
  by_cases h : n < 10
  · rw [toDigits_lt n h]; simp
  · rw [toDigits_ge n (by omega)]; simp

/-- One operation on the registry: a call of `register_unit`, a call of
`find_unit` for a name at a time, or the listing of `GET /units` at a time. -/
inductive RegistryOp where
  | register (c : RegisterCall)
  | lookup (name : List Char) (now : Int)
  | list (now : Int)
  deriving DecidableEq, Repr

/-- The registry after one operation; `find_unit` only reads the list and
the listing leaves the registry of its outcome. -/
def RegistryOp.apply (units : List Unit) : RegistryOp → List Unit
  | .register c => register_unit units c.name c.ip c.port c.now
  | .lookup _ _ => units
  | .list now => (route_units units now).units

/-- The registry after a sequence of operations. -/
def run_ops (units : List Unit) (ops : List RegistryOp) : List Unit :=
  ops.foldl RegistryOp.apply units

theorem run_ops_names_sublist (ops : List RegistryOp) :
    ∀ units : List Unit,
      List.Sublist (units.map Unit.name) ((run_ops units ops).map Unit.name) := by
  induction ops with
  | nil => intro units; exact List.Sublist.refl _
  | cons op rest ih =>
    intro units
    have hstep : List.Sublist (units.map Unit.name)
        ((RegistryOp.apply units op).map Unit.name) := by
      cases op with
      | register c =>
        show List.Sublist _ ((register_unit units c.name c.ip c.port c.now).map Unit.name)
        rcases register_unit_names units c.name c.ip c.port c.now with ⟨_, hn⟩ | ⟨_, hn⟩
        · rw [hn]
        · rw [hn]; exact List.sublist_cons_self _ _
      | lookup name now => exact List.Sublist.refl _
      | list now => exact List.Sublist.refl _
    exact hstep.trans (ih (RegistryOp.apply units op))

theorem run_ops_register (calls : List RegisterCall) (units : List Unit) :
    run_ops units (calls.map RegistryOp.register) = register_all units calls := by
  unfold run_ops register_all
  rw [List.foldl_map]
  rfl

/-- When the records ahead of the last ones are named by decimal numbers
and their objects already fill the 8191 bytes `send_response` can emit, the
response to the listing holds no byte `A`. -/
theorem listing_without_A (front last : List Unit) (now : Int)
    (hfront : ∀ u ∈ front, ∃ i ip port seen, u = Unit.mk (Nat.toDigits 10 i) ip port seen)
    (hlen : 273 ≤ front.length) (hlast : last ≠ []) :
    'A' ∉ send_response "HTTP/1.1 200 OK".toList json_type
      (ctz_stringify_value (units_array (front ++ last) now) false 0) := by
  intro hA
  have htext : ctz_stringify_value (units_array (front ++ last) now) false 0
      = ('[' :: (front.map (fun u => unit_text u now ++ [','])).flatten)
        ++ (ctz_stringify_value.stringify_elems (last.map (fun u => unit_obj u now))
              false 0 ++ [']']) := by
    rw [units_array_eq, ctz_stringify_value, stringify_elems_units front last now hlast]
    simp
  have hclean : ∀ c ∈ '[' :: (front.map (fun u => unit_text u now ++ [','])).flatten,
      not_A c := by
    intro c hc
    rcases List.mem_cons.mp hc with rfl | hc
    · decide
    · obtain ⟨l, hl, hcl⟩ := List.mem_flatten.mp hc
      obtain ⟨u, hu, rfl⟩ := List.mem_map.mp hl
      obtain ⟨i, ip, port, seen, rfl⟩ := hfront u hu
      rcases List.mem_append.mp hcl with h | h
      · exact unit_text_digits i _ _ _ now c h
      · rw [List.mem_singleton.mp h]; decide
  have hlong : 8191 ≤ ('[' :: (front.map
      (fun u => unit_text u now ++ [','])).flatten).length := by
    have h := flatten_length_ge front (fun u => unit_text u now ++ [',']) 30
      (by
        intro u _
        have := unit_text_length u now
        simp only [List.length_append, List.length_cons, List.length_nil]
        omega)
    simp only [List.length_cons]
    omega
  rw [htext] at hA
  rcases send_response_mem_of_long _ _ _ _ (fun h => (hclean NUL h).2 rfl) hlong 'A' hA
    with h | h
  · have hkey : ∀ (a b : List Char), 'A' ∉ a → 'A' ∉ b → 'A' ∉ a ++ b :=
      fun a b ha hb hm => (List.mem_append.mp hm).elim ha hb
    have hdigits : 'A' ∉ fmt_zu (strlen
        (('[' :: (front.map (fun u => unit_text u now ++ [','])).flatten)
          ++ (ctz_stringify_value.stringify_elems
                (last.map (fun u => unit_obj u now)) false 0 ++ [']']))) :=
      fun hm => absurd (toDigits_mem 10 _ 'A' hm) (by decide)
    refine hkey _ _ (hkey _ _ (hkey _ _ (hkey _ _ (hkey _ _ (hkey _ _ (hkey _ _ (hkey _ _
      (hkey _ _ (hkey _ _ ?_ ?_) ?_) ?_) ?_) ?_) hdigits) ?_) ?_) ?_) ?_ h
    all_goals decide
  · exact (hclean 'A' h).1 rfl

/-- The calls that register `A` and then the 300 units `0`, ..., `299`, all
at time 1000. -/
def calls_A_then_many : List RegisterCall :=
  RegisterCall.mk "A".toList "10.0.0.4".toList 9000 1000
    :: (List.range 300).map (fun i => RegisterCall.mk (Nat.toDigits 10 i) "10.0.0.5".toList 9000 1000)

theorem calls_A_then_many_registry :
    run_ops [] (calls_A_then_many.map RegistryOp.register)
      = ((List.range 300).map
            (fun i => Unit.mk (Nat.toDigits 10 i) "10.0.0.5".toList 9000 1000)).reverse
          ++ [Unit.mk "A".toList "10.0.0.4".toList 9000 1000] := by
  have hnul : ∀ i, NUL ∉ Nat.toDigits 10 i :=
    fun i h => absurd (toDigits_mem 10 i NUL h) (by decide)
  have hnames : calls_A_then_many.map (fun c => cstr c.name)
      = "A".toList :: (List.range 300).map (fun i => Nat.toDigits 10 i) := by
    unfold calls_A_then_many
    rw [List.map_cons, List.map_map]
    congr 1
  have hshort : ∀ c ∈ calls_A_then_many, (cstr c.name).length ≤ 127 := by
    intro c hc
    unfold calls_A_then_many at hc
    rcases List.mem_cons.mp hc with rfl | hc
    · decide
    · obtain ⟨i, hi, rfl⟩ := List.mem_map.mp hc
      have hi2 : i < 10 ^ 3 := by
        have := List.mem_range.mp hi
        omega
      exact le_trans (cstr_length_le _)
        (le_trans (toDigits_length_le i 3 (by decide) hi2) (by decide))
  have hnodup : (calls_A_then_many.map (fun c => cstr c.name)).Nodup := by
    rw [hnames, List.nodup_cons]
    refine ⟨?_, (List.nodup_range 300).map (fun a b h => toDigits_injective a b h)⟩
    intro hmem
    obtain ⟨i, _, hi⟩ := List.mem_map.mp hmem
    have hA : 'A' ∈ Nat.toDigits 10 i := by rw [hi]; decide
    exact absurd (toDigits_mem 10 i 'A' hA) (by decide)
  rw [run_ops_register, register_all_distinct calls_A_then_many [] (fun _ h => by cases h)
    hshort hnodup (fun _ _ h => by cases h), List.append_nil]
  unfold calls_A_then_many
  rw [List.map_cons, List.reverse_cons, List.map_map]
  congr 1

/-- C23 at its failing input.  No operation removes a record: after every
sequence of register, lookup and list operations the stored names of the
records present before are still there, in the same order.  But the listing
does not show every record: after `A` and then 300 further units have been
registered, the registry holds 301 records, `A` among them, and the response
to `GET /units` at time 1200 holds no byte `A` at all. -/
theorem registered_unit_missing_from_listing :
    (∀ (units : List Unit) (ops : List RegistryOp),
      List.Sublist (units.map Unit.name) ((run_ops units ops).map Unit.name))
    ∧ (run_ops [] (calls_A_then_many.map RegistryOp.register)).length = 301
    ∧ "A".toList ∈ (run_ops [] (calls_A_then_many.map RegistryOp.register)).map Unit.name
    ∧ (handle_connection (run_ops [] (calls_A_then_many.map RegistryOp.register)) 1200
        caller no_peers units_request []).sent
        = some (send_response "HTTP/1.1 200 OK".toList json_type
            (ctz_stringify_value
              (units_array (run_ops [] (calls_A_then_many.map RegistryOp.register)) 1200)
              false 0))
    ∧ 'A' ∉ send_response "HTTP/1.1 200 OK".toList json_type
        (ctz_stringify_value
          (units_array (run_ops [] (calls_A_then_many.map RegistryOp.register)) 1200)
          false 0) := by
  refine ⟨fun units ops => run_ops_names_sublist ops units, ?_, ?_, ?_, ?_⟩
  · rw [calls_A_then_many_registry]
    simp
  · rw [calls_A_then_many_registry]
    simp
  · rw [units_request_routed, route_units_sent]
    rfl
  · rw [calls_A_then_many_registry]
    apply listing_without_A
    · intro u hu
      obtain ⟨i, _, rfl⟩ := List.mem_map.mp (List.mem_reverse.mp hu)
      exact ⟨i, _, _, _, rfl⟩
    · simp
    · simp

/-! ## The typed accessors (C26) -/

/-- The value of the first member of an object whose key is the string
`key`, as the specification words the lookup; absent for a document that is
not an object. -/
def first_member_value (doc : ctz_json_value) (key : List Char) : Option ctz_json_value :=
  match doc with
  | CTZ_JSON_OBJECT m => (m.find? (fun x => x.k == cstr key)).map (fun x => x.v)
  | _ => none

/-- The members of an object store the length of their key. -/
def key_lengths_stored (doc : ctz_json_value) : Prop :=
  match doc with
  | CTZ_JSON_OBJECT m => ∀ x ∈ m, x.klen = x.k.length
  | _ => True

instance (doc : ctz_json_value) : Decidable (key_lengths_stored doc) := by
  unfold key_lengths_stored
  cases doc <;> infer_instance

theorem getD_cstr (key : List Char) (i : Nat) (h : i < (cstr key).length) :
    key.getD i NUL = (cstr key).getD i NUL := by
  have hp : cstr key <+: key := List.takeWhile_prefix _
  obtain ⟨t, ht⟩ := hp
  conv_lhs => rw [← ht]
  rw [List.getD_eq_getElem?_getD, List.getD_eq_getElem?_getD, List.getElem?_append_left h]

theorem memcmp_eq_iff (a b : List Char) (h : a.length = b.length) :
    memcmp_eq a b b.length = true ↔ a = b := by
  unfold memcmp_eq
  rw [List.all_eq_true]
  constructor
  · intro hall
    apply List.ext_getElem h
    intro i h1 h2
    have := hall i (List.mem_range.mpr h2)
    rw [List.getD_eq_getElem?_getD, List.getD_eq_getElem?_getD,
      List.getElem?_eq_getElem h1, List.getElem?_eq_getElem h2] at this
    simpa using this
  · intro he x _
    rw [he]
    simp

theorem key_matches_iff (x : ctz_json_member) (key : List Char) (h : x.klen = x.k.length) :
    key_matches x key = true ↔ x.k = cstr key := by
  unfold key_matches strlen
  rw [Bool.and_eq_true, beq_iff_eq, h]
  constructor
  · rintro ⟨hlen, hcmp⟩
    have hc : memcmp_eq x.k (cstr key) (cstr key).length = true := by
      unfold memcmp_eq at hcmp ⊢
      rw [List.all_eq_true] at hcmp ⊢
      intro i hi
      have := hcmp i hi
      rwa [getD_cstr key i (List.mem_range.mp hi)] at this
    exact (memcmp_eq_iff _ _ hlen).mp hc
  · intro he
    refine ⟨by rw [he], ?_⟩
    have hc : memcmp_eq x.k (cstr key) (cstr key).length = true :=
      (memcmp_eq_iff _ _ (by rw [he])).mpr he
    unfold memcmp_eq at hc ⊢
    rw [List.all_eq_true] at hc ⊢
    intro i hi
    have := hc i hi
    rwa [getD_cstr key i (List.mem_range.mp hi)]

theorem find_object_value_eq (doc : ctz_json_value) (key : List Char)
    (h : key_lengths_stored doc) :
    ctz_json_find_object_value doc key = first_member_value doc key := by
  cases doc with
  | CTZ_JSON_OBJECT m =>
    simp only [ctz_json_find_object_value, first_member_value]
    congr 1
    unfold key_lengths_stored at h
    induction m with
    | nil => rfl
    | cons x rest ih =>
      have hx := key_matches_iff x key (h x (List.mem_cons_self _ _))
      have hrest := ih (fun y hy => h y (List.mem_cons_of_mem _ hy))
      by_cases hm : x.k = cstr key
      · have h1 : key_matches x key = true := hx.mpr hm
        have h2 : (x.k == cstr key) = true := by rw [hm]; simp
        simp [List.find?, h1, h2]
      · have h1 : key_matches x key = false := by
          rw [← Bool.not_eq_true, hx]; exact hm
        have h2 : (x.k == cstr key) = false := by simpa using hm
        simp only [List.find?, h1, h2]
        exact hrest
  | _ => rfl

/-- C26. For every document whose members store the length of their key and
every key, `ctz_json_find_object_value` returns the value of the first
member with that key (nothing when the document is not an object or has no
such member); `ctz_json_get_string` of the result is never `NULL`: it is
the member's string when that value is a string and the empty string
otherwise; `ctz_json_get_number` of the result is the member's number when
that value is a number and `0.0` otherwise. -/
theorem typed_accessors_never_absent (doc : ctz_json_value) (key : List Char)
    (h : key_lengths_stored doc) :
    ctz_json_find_object_value doc key = first_member_value doc key
    ∧ ctz_json_get_string (ctz_json_find_object_value doc key)
        = some (match first_member_value doc key with
          | some (CTZ_JSON_STRING s _) => s
          | _ => [])
    ∧ ctz_json_get_number (ctz_json_find_object_value doc key)
        = (match first_member_value doc key with
          | some (CTZ_JSON_NUMBER n) => n
          | _ => Double.zero) := by
  rw [find_object_value_eq doc key h]
  refine ⟨rfl, ?_, ?_⟩
  · unfold ctz_json_get_string
    split <;> simp_all
  · unfold ctz_json_get_number
    split <;> simp_all

/-- A document with two members `a`, a member of another key and a number. -/
def doc_two_a : ctz_json_value :=
  CTZ_JSON_OBJECT [⟨"b".toList, 1, CTZ_JSON_TRUE⟩,
    ⟨"a".toList, 1, CTZ_JSON_STRING "x".toList 1⟩,
    ⟨"a".toList, 1, CTZ_JSON_STRING "y".toList 1⟩,
    ⟨"n".toList, 1, CTZ_JSON_NUMBER (Double.ofNat 7)⟩]

theorem typed_accessors_never_absent_witness :
    key_lengths_stored doc_two_a
    ∧ ctz_json_get_string (ctz_json_find_object_value doc_two_a "a".toList) = some "x".toList
    ∧ ctz_json_get_number (ctz_json_find_object_value doc_two_a "a".toList) = Double.zero
    ∧ ctz_json_get_string (ctz_json_find_object_value doc_two_a "zz".toList) = some []
    ∧ ctz_json_get_number (ctz_json_find_object_value doc_two_a "n".toList) = Double.ofNat 7
    ∧ ctz_json_get_string (ctz_json_find_object_value (CTZ_JSON_ARRAY []) "a".toList)
        = some [] :=
  ⟨by decide,
    (typed_accessors_never_absent doc_two_a "a".toList (by decide)).2.1.trans (by decide!),
    (typed_accessors_never_absent doc_two_a "a".toList (by decide)).2.2.trans (by decide!),
    (typed_accessors_never_absent doc_two_a "zz".toList (by decide)).2.1.trans (by decide!),
    (typed_accessors_never_absent doc_two_a "n".toList (by decide)).2.2.trans (by decide!),
    (typed_accessors_never_absent (CTZ_JSON_ARRAY []) "a".toList trivial).2.1.trans
      (by decide!)⟩

/-! ## Hexadecimal escapes and UTF-8 (C30) -/

/-- One iteration of the loop of `ctz_parse_hex4`. -/
def hex4_step (st : Option (Nat × List Char)) : Option (Nat × List Char) :=
  st.bind (fun x =>
    let ch := peek x.2
    let u := (x.1 * 16) % 2 ^ 32
    if '0' ≤ ch ∧ ch ≤ '9' then some (u ||| (ch.toNat - '0'.toNat), x.2.tail)
    else if 'a' ≤ ch ∧ ch ≤ 'f' then some (u ||| (ch.toNat - 'a'.toNat + 10), x.2.tail)
    else if 'A' ≤ ch ∧ ch ≤ 'F' then some (u ||| (ch.toNat - 'A'.toNat + 10), x.2.tail)
    else none)

theorem parse_hex4_steps (p : List Char) :
    ctz_parse_hex4 p = hex4_step (hex4_step (hex4_step (hex4_step (some (0, p))))) := rfl

theorem char_le_iff (a b : Char) : a ≤ b ↔ a.toNat ≤ b.toNat := by
  rw [Char.le_def]
  exact Iff.rfl

/-- The three kinds of hexadecimal digit and their values. -/
theorem hex_digit_cases (c : Char) (hc : is_hex_digit c = true) :
    (('0' ≤ c ∧ c ≤ '9') ∧ hex_value c = c.toNat - '0'.toNat ∧ hex_value c < 10)
    ∨ (¬ ('0' ≤ c ∧ c ≤ '9') ∧ ('a' ≤ c ∧ c ≤ 'f')
        ∧ hex_value c = c.toNat - 'a'.toNat + 10 ∧ hex_value c < 16)
    ∨ (¬ ('0' ≤ c ∧ c ≤ '9') ∧ ¬ ('a' ≤ c ∧ c ≤ 'f') ∧ ('A' ≤ c ∧ c ≤ 'F')
        ∧ hex_value c = c.toNat - 'A'.toNat + 10 ∧ hex_value c < 16) := by
  unfold is_hex_digit isdigit at hc
  simp only [Bool.or_eq_true, decide_eq_true_eq] at hc
  have e0 : '0'.toNat = 48 := rfl
  have e9 : '9'.toNat = 57 := rfl
  have ea : 'a'.toNat = 97 := rfl
  have ef : 'f'.toNat = 102 := rfl
  have eA : 'A'.toNat = 65 := rfl
  have eF : 'F'.toNat = 70 := rfl
  by_cases h1 : '0' ≤ c ∧ c ≤ '9'
  · left
    have hv : hex_value c = c.toNat - '0'.toNat := by
      unfold hex_value isdigit
      rw [if_pos (by simpa using h1)]
    refine ⟨h1, hv, ?_⟩
    have := (char_le_iff _ _).mp h1.1
    have := (char_le_iff _ _).mp h1.2
    rw [hv]
    omega
  · right
    have hnd : ¬ (isdigit c = true) := by
      unfold isdigit
      simpa using h1
    by_cases h2 : 'a' ≤ c ∧ c ≤ 'f'
    · left
      have hv : hex_value c = c.toNat - 'a'.toNat + 10 := by
        unfold hex_value
        rw [if_neg hnd, if_pos h2]
      refine ⟨h1, h2, hv, ?_⟩
      have := (char_le_iff _ _).mp h2.1
      have := (char_le_iff _ _).mp h2.2
      rw [hv]
      omega
    · right
      have h3 : 'A' ≤ c ∧ c ≤ 'F' := by
        rcases hc with (hc | hc) | hc
        · exact absurd hc h1
        · exact absurd hc h2
        · exact hc
      have hv : hex_value c = c.toNat - 'A'.toNat + 10 := by
        unfold hex_value
        rw [if_neg hnd, if_neg h2]
      refine ⟨h1, h2, h3, hv, ?_⟩
      have := (char_le_iff _ _).mp h3.1
      have := (char_le_iff _ _).mp h3.2
      rw [hv]
      omega

theorem hex_value_lt (c : Char) (hc : is_hex_digit c = true) : hex_value c < 16 := by
  rcases hex_digit_cases c hc with ⟨_, _, h⟩ | ⟨_, _, _, h⟩ | ⟨_, _, _, _, h⟩ <;> omega

theorem hex4_step_ok (u : Nat) (c : Char) (t : List Char) (hu : u < 2 ^ 28)
    (hc : is_hex_digit c = true) :
    hex4_step (some (u, c :: t)) = some (u * 16 + hex_value c, t) := by
  have hlt := hex_value_lt c hc
  have hmod : u * 16 % 2 ^ 32 = 2 ^ 4 * u := by
    rw [Nat.mod_eq_of_lt (by omega)]
    omega
  have hor : (u * 16 % 2 ^ 32 ||| hex_value c) = u * 16 + hex_value c := by
    rw [hmod, ← Nat.mul_add_lt_is_or (by omega : hex_value c < 2 ^ 4)]
    omega
  simp only [hex4_step, Option.some_bind, peek, List.headD_cons, List.tail_cons]
  rcases hex_digit_cases c hc with ⟨h1, hv, _⟩ | ⟨h1, h2, hv, _⟩ | ⟨h1, h2, h3, hv, _⟩
  · rw [if_pos h1, ← hv, hor]
  · rw [if_neg h1, if_pos h2, ← hv, hor]
  · rw [if_neg h1, if_neg h2, if_pos h3, ← hv, hor]

theorem hex4_step_fail (u : Nat) (p : List Char) (hc : is_hex_digit (peek p) = false) :
    hex4_step (some (u, p)) = none := by
  unfold is_hex_digit isdigit at hc
  simp only [Bool.or_eq_false_iff, decide_eq_false_iff_not] at hc
  simp only [hex4_step, Option.some_bind, hc.1.1, hc.1.2, hc.2, if_false]

/-- The value of four hexadecimal digits. -/
def hex4_value (a b c d : Char) : Nat :=
  ((hex_value a * 16 + hex_value b) * 16 + hex_value c) * 16 + hex_value d

theorem hex4_value_lt (a b c d : Char) (ha : is_hex_digit a = true)
    (hb : is_hex_digit b = true) (hc : is_hex_digit c = true) (hd : is_hex_digit d = true) :
    hex4_value a b c d < 2 ^ 16 := by
  have := hex_value_lt a ha
  have := hex_value_lt b hb
  have := hex_value_lt c hc
  have := hex_value_lt d hd
  unfold hex4_value
  omega

/-- `ctz_parse_hex4` on four hexadecimal digits (of either case): their
value and the pointer after them. -/
theorem parse_hex4_ok (a b c d : Char) (t : List Char) (ha : is_hex_digit a = true)
    (hb : is_hex_digit b = true) (hc : is_hex_digit c = true) (hd : is_hex_digit d = true) :
    ctz_parse_hex4 (a :: b :: c :: d :: t) = some (hex4_value a b c d, t) := by
  have h1 := hex_value_lt a ha
  have h2 := hex_value_lt b hb
  have h3 := hex_value_lt c hc
  rw [parse_hex4_steps, hex4_step_ok 0 a _ (by omega) ha,
    hex4_step_ok _ b _ (by omega) hb, hex4_step_ok _ c _ (by omega) hc,
    hex4_step_ok _ d _ (by omega) hd]
  unfold hex4_value
  simp

/-- `ctz_parse_hex4` returns `NULL` when one of the four bytes is not a
hexadecimal digit. -/
theorem parse_hex4_fail (p : List Char)
    (h : is_hex_digit (peek p) = false ∨ is_hex_digit (peek p.tail) = false
      ∨ is_hex_digit (peek p.tail.tail) = false
      ∨ is_hex_digit (peek p.tail.tail.tail) = false) :
    ctz_parse_hex4 p = none := by
  have hnone : ∀ st, st = none → hex4_step st = none := fun st h => by rw [h]; rfl
  have hstep : ∀ (u : Nat) (q : List Char), hex4_step (some (u, q)) = none
      ∨ ∃ u2, hex4_step (some (u, q)) = some (u2, q.tail) := by
    intro u q
    simp only [hex4_step, Option.some_bind]
    split
    · exact Or.inr ⟨_, rfl⟩
    · split
      · exact Or.inr ⟨_, rfl⟩
      · split
        · exact Or.inr ⟨_, rfl⟩
        · exact Or.inl rfl
  rw [parse_hex4_steps]
  rcases h with h | h
  · rw [hex4_step_fail 0 p h]; rfl
  · rcases hstep 0 p with e | ⟨u1, e⟩
    · rw [e]; rfl
    · rw [e]
      rcases h with h | h
      · rw [hex4_step_fail u1 _ h]; rfl
      · rcases hstep u1 p.tail with e2 | ⟨u2, e2⟩
        · rw [e2]; rfl
        · rw [e2]
          rcases h with h | h
          · rw [hex4_step_fail u2 _ h]; rfl
          · rcases hstep u2 p.tail.tail with e3 | ⟨u3, e3⟩
            · rw [e3]; rfl
            · rw [e3]
              exact hex4_step_fail u3 _ h

/-- The UTF-8 encoding of a code point below `0x110000` (RFC 3629): one
byte below `0x80`, two below `0x800`, three below `0x10000`, four above. -/
def utf8_bytes (u : Nat) : List Char :=
  if u < 0x80 then [Char.ofNat u]
  else if u < 0x800 then [Char.ofNat (0xC0 + u / 64), Char.ofNat (0x80 + u % 64)]
  else if u < 0x10000 then
    [Char.ofNat (0xE0 + u / 4096), Char.ofNat (0x80 + u / 64 % 64), Char.ofNat (0x80 + u % 64)]
  else
    [Char.ofNat (0xF0 + u / 262144), Char.ofNat (0x80 + u / 4096 % 64),
      Char.ofNat (0x80 + u / 64 % 64), Char.ofNat (0x80 + u % 64)]

theorem and_255 (x : Nat) : x &&& 0xFF = x % 256 := Nat.and_pow_two_sub_one_eq_mod x 8

theorem and_63 (x : Nat) : x &&& 0x3F = x % 64 := Nat.and_pow_two_sub_one_eq_mod x 6

theorem or_lead6 (a x : Nat) (h : x < 64) : (64 * a ||| x) = 64 * a + x :=
  (Nat.mul_add_lt_is_or (by omega : x < 2 ^ 6) a).symm

theorem or_lead4 (a x : Nat) (h : x < 16) : (16 * a ||| x) = 16 * a + x :=
  (Nat.mul_add_lt_is_or (by omega : x < 2 ^ 4) a).symm

/-- `ctz_encode_utf8` writes the UTF-8 encoding of the code point. -/
theorem encode_utf8_eq (u : Nat) (h : u ≤ 0x10FFFF) :
    ctz_encode_utf8 u = some (utf8_bytes u) := by
  have hc0 : ∀ x, x < 64 → (0xC0 ||| x) = 0xC0 + x := fun x hx => or_lead6 3 x hx
  have h80 : ∀ x, x < 64 → (0x80 ||| x) = 0x80 + x := fun x hx => or_lead6 2 x hx
  have he0 : ∀ x, x < 16 → (0xE0 ||| x) = 0xE0 + x := fun x hx => or_lead4 14 x hx
  have hf0 : ∀ x, x < 16 → (0xF0 ||| x) = 0xF0 + x := fun x hx => or_lead4 15 x hx
  have hm : ∀ x, x % 64 < 64 := fun x => Nat.mod_lt x (by decide)
  unfold ctz_encode_utf8 utf8_bytes to_char
  simp only [and_255, and_63, Nat.shiftRight_eq_div_pow]
  by_cases h1 : u ≤ 0x7F
  · rw [if_pos h1, if_pos (show u < 0x80 by omega)]
    congr 3
    omega
  · by_cases h2 : u ≤ 0x7FF
    · rw [if_neg h1, if_pos h2, if_neg (show ¬ u < 0x80 by omega),
        if_pos (show u < 0x800 by omega)]
      have e1 : u / 2 ^ 6 % 256 = u / 64 := by
        have : u / 64 < 32 := by omega
        show u / 64 % 256 = u / 64
        omega
      rw [e1, hc0 _ (by omega), h80 _ (hm u),
        Nat.mod_eq_of_lt (show 0xC0 + u / 64 < 256 by omega),
        Nat.mod_eq_of_lt (show 0x80 + u % 64 < 256 by omega)]
    · by_cases h3 : u ≤ 0xFFFF
      · rw [if_neg h1, if_neg h2, if_pos h3, if_neg (show ¬ u < 0x80 by omega),
          if_neg (show ¬ u < 0x800 by omega), if_pos (show u < 0x10000 by omega)]
        have e1 : u / 2 ^ 12 % 256 = u / 4096 := by
          have : u / 4096 < 16 := by omega
          show u / 4096 % 256 = u / 4096
          omega
        have e2 : u / 2 ^ 6 = u / 64 := rfl
        rw [e1, e2, he0 _ (by omega), h80 _ (hm _), h80 _ (hm u),
          Nat.mod_eq_of_lt (show 0xE0 + u / 4096 < 256 by omega),
          Nat.mod_eq_of_lt (show 0x80 + u / 64 % 64 < 256 by omega),
          Nat.mod_eq_of_lt (show 0x80 + u % 64 < 256 by omega)]
      · rw [if_neg h1, if_neg h2, if_neg h3, if_pos h, if_neg (show ¬ u < 0x80 by omega),
          if_neg (show ¬ u < 0x800 by omega), if_neg (show ¬ u < 0x10000 by omega)]
        have e1 : u / 2 ^ 18 % 256 = u / 262144 := by
          have : u / 262144 < 8 := by omega
          show u / 262144 % 256 = u / 262144
          omega
        have e2 : u / 2 ^ 6 = u / 64 := rfl
        have e3 : u / 2 ^ 12 = u / 4096 := rfl
        rw [e1, e2, e3, hf0 _ (by omega), h80 _ (hm _), h80 _ (hm _), h80 _ (hm u),
          Nat.mod_eq_of_lt (show 0xF0 + u / 262144 < 256 by omega),
          Nat.mod_eq_of_lt (show 0x80 + u / 4096 % 64 < 256 by omega),
          Nat.mod_eq_of_lt (show 0x80 + u / 64 % 64 < 256 by omega),
          Nat.mod_eq_of_lt (show 0x80 + u % 64 < 256 by omega)]

/-- The code point of a surrogate pair, as the specification writes it. -/
def surrogate_code_point (h l : Nat) : Nat :=
  0x10000 + (((h - 0xD800) <<< 10) ||| (l - 0xDC00))

theorem surrogate_pair_eq (h l : Nat) (hh : 0xD800 ≤ h ∧ h ≤ 0xDBFF)
    (hl : 0xDC00 ≤ l ∧ l ≤ 0xDFFF) :
    surrogate_pair h l = surrogate_code_point h l
    ∧ 0x10000 ≤ surrogate_code_point h l ∧ surrogate_code_point h l ≤ 0x10FFFF := by
  have hor : ∀ a b, b < 1024 → (a * 1024 ||| b) = a * 1024 + b := by
    intro a b hb
    have := (Nat.mul_add_lt_is_or (by omega : b < 2 ^ 10) a).symm
    rw [Nat.mul_comm] at this
    exact this
  have e1 : (h + 2 ^ 32 - 0xD800) % 2 ^ 32 = h - 0xD800 := by omega
  have e2 : (l + 2 ^ 32 - 0xDC00) % 2 ^ 32 = l - 0xDC00 := by omega
  have e3 : (h - 0xD800) * 2 ^ 10 % 2 ^ 32 = (h - 0xD800) * 1024 := by omega
  unfold surrogate_pair surrogate_code_point
  simp only [e1, e2, e3, Nat.shiftLeft_eq]
  have e4 : (h - 0xD800) * 2 ^ 10 = (h - 0xD800) * 1024 := by omega
  rw [e4, hor _ _ (by omega)]
  refine ⟨by omega, by omega, by omega⟩

/-! ## The two loops of `ctz_parse_string_raw`, one step at a time -/

/-- The number of bytes the first loop counts for a code point. -/
def utf8_width (u : Nat) : Nat :=
  if u ≤ 0x7F then 1 else if u ≤ 0x7FF then 2 else if u ≤ 0xFFFF then 3 else 4

theorem utf8_bytes_length (u : Nat) : (utf8_bytes u).length = utf8_width u := by
  unfold utf8_bytes utf8_width
  by_cases h1 : u < 0x80
  · rw [if_pos h1, if_pos (show u ≤ 0x7F by omega)]; rfl
  · by_cases h2 : u < 0x800
    · rw [if_neg h1, if_pos h2, if_neg (show ¬ u ≤ 0x7F by omega),
        if_pos (show u ≤ 0x7FF by omega)]; rfl
    · by_cases h3 : u < 0x10000
      · rw [if_neg h1, if_neg h2, if_pos h3, if_neg (show ¬ u ≤ 0x7F by omega),
          if_neg (show ¬ u ≤ 0x7FF by omega), if_pos (show u ≤ 0xFFFF by omega)]; rfl
      · rw [if_neg h1, if_neg h2, if_neg h3, if_neg (show ¬ u ≤ 0x7F by omega),
          if_neg (show ¬ u ≤ 0x7FF by omega), if_neg (show ¬ u ≤ 0xFFFF by omega)]; rfl

/-- The byte a two-character escape stands for. -/
def unescape (e : Char) : Char :=
  if e = 'b' then Char.ofNat 8
  else if e = 'f' then Char.ofNat 12
  else if e = 'n' then '\n'
  else if e = 'r' then '\r'
  else if e = 't' then '\t'
  else e

theorem pass1_quote (f h : Nat) (t : List Char) :
    string_pass1 (f + 1) ('"' :: t) h = .ok (h, '"' :: t) := by
  rw [string_pass1]
  simp [peek]

theorem pass1_plain (f h : Nat) (c : Char) (t : List Char) (hc : 0x20 ≤ c.toNat)
    (hq : c ≠ '"') (hb : c ≠ '\\') :
    string_pass1 (f + 1) (c :: t) h = string_pass1 f t (h + 1) := by
  have hn : c ≠ NUL := by
    intro e; rw [e] at hc; exact absurd hc (by decide)
  rw [string_pass1]
  simp only [peek, List.headD_cons, List.tail_cons, hq, hn, hb, if_false,
    show ¬ c.toNat < 0x20 by omega]

theorem pass1_simple (f h : Nat) (e : Char) (t : List Char)
    (he : is_simple_escape e = true) :
    string_pass1 (f + 1) ('\\' :: e :: t) h = string_pass1 f t (h + 1) := by
  rw [string_pass1]
  simp [peek, he, NUL]

theorem pass1_unicode (f h : Nat) (t t2 : List Char) (u : Nat)
    (hx : ctz_parse_hex4 t = some (u, t2)) (hs : ¬ (0xD800 ≤ u ∧ u ≤ 0xDBFF)) :
    string_pass1 (f + 1) ('\\' :: 'u' :: t) h = string_pass1 f t2 (h + utf8_width u) := by
  rw [string_pass1]
  simp [peek, NUL, is_simple_escape, hx, hs, utf8_width]

theorem pass1_pair (f h : Nat) (t t2 : List Char) (u u2 : Nat)
    (hx : ctz_parse_hex4 t = some (u, '\\' :: 'u' :: t2))
    (hs : 0xD800 ≤ u ∧ u ≤ 0xDBFF) (t3 : List Char)
    (hx2 : ctz_parse_hex4 t2 = some (u2, t3)) (hl : 0xDC00 ≤ u2 ∧ u2 ≤ 0xDFFF) :
    string_pass1 (f + 1) ('\\' :: 'u' :: t) h
      = string_pass1 f t3 (h + utf8_width (surrogate_pair u u2)) := by
  rw [string_pass1]
  simp [peek, NUL, is_simple_escape, hx, hs, hx2, utf8_width,
    show ¬ (u2 < 0xDC00 ∨ 0xDFFF < u2) by omega]

theorem pass2_quote (f : Nat) (t : List Char) :
    string_pass2 (f + 1) ('"' :: t) = .ok ([], '"' :: t) := by
  rw [string_pass2]
  simp [peek]

theorem pass2_plain (f : Nat) (c : Char) (t : List Char) (hq : c ≠ '"') (hb : c ≠ '\\') :
    string_pass2 (f + 1) (c :: t) = (string_pass2 f t).map (fun r => (c :: r.1, r.2)) := by
  rw [string_pass2]
  simp only [peek, List.headD_cons, List.tail_cons, hq, hb, if_false]

theorem pass2_simple (f : Nat) (e : Char) (t : List Char) (he : is_simple_escape e = true) :
    string_pass2 (f + 1) ('\\' :: e :: t)
      = (string_pass2 f t).map (fun r => (unescape e :: r.1, r.2)) := by
  unfold is_simple_escape at he
  simp only [decide_eq_true_eq] at he
  rw [string_pass2]
  rcases he with h | h | h | h | h | h | h | h <;> subst h <;> simp [peek, unescape]

theorem emit_utf8_eq (u : Nat) (hu : u ≤ 0x10FFFF)
    (r : Except ctz_stop (List Char × List Char)) :
    emit_utf8 u r = r.map (fun r => (utf8_bytes u ++ r.1, r.2)) := by
  unfold emit_utf8
  rw [encode_utf8_eq u hu]

theorem pass2_u_plain (f : Nat) (t t2 : List Char) (u : Nat)
    (hx : ctz_parse_hex4 t = some (u, t2)) (hs : ¬ (0xD800 ≤ u ∧ u ≤ 0xDBFF)) :
    string_pass2 (f + 1) ('\\' :: 'u' :: t) = emit_utf8 u (string_pass2 f t2) := by
  have h1 : ('u' = '"') = False := eq_false (by decide)
  have h2 : ('u' = '\\') = False := eq_false (by decide)
  have h3 : ('u' = '/') = False := eq_false (by decide)
  have h4 : ('u' = 'b') = False := eq_false (by decide)
  have h5 : ('u' = 'f') = False := eq_false (by decide)
  have h6 : ('u' = 'n') = False := eq_false (by decide)
  have h7 : ('u' = 'r') = False := eq_false (by decide)
  have h8 : ('u' = 't') = False := eq_false (by decide)
  have h9 : ('\\' = '"') = False := eq_false (by decide)
  rw [string_pass2]
  simp only [peek, List.headD_cons, List.tail_cons, h1, h2, h3, h4, h5, h6, h7, h8, h9,
    if_true, if_false, hx, hs]

theorem pass2_u_pair (f : Nat) (t t2 : List Char) (u u2 : Nat)
    (hx : ctz_parse_hex4 t = some (u, '\\' :: 'u' :: t2))
    (hs : 0xD800 ≤ u ∧ u ≤ 0xDBFF) (t3 : List Char)
    (hx2 : ctz_parse_hex4 t2 = some (u2, t3)) :
    string_pass2 (f + 1) ('\\' :: 'u' :: t)
      = emit_utf8 (surrogate_pair u u2) (string_pass2 f t3) := by
  have h1 : ('u' = '"') = False := eq_false (by decide)
  have h2 : ('u' = '\\') = False := eq_false (by decide)
  have h3 : ('u' = '/') = False := eq_false (by decide)
  have h4 : ('u' = 'b') = False := eq_false (by decide)
  have h5 : ('u' = 'f') = False := eq_false (by decide)
  have h6 : ('u' = 'n') = False := eq_false (by decide)
  have h7 : ('u' = 'r') = False := eq_false (by decide)
  have h8 : ('u' = 't') = False := eq_false (by decide)
  have h9 : ('\\' = '"') = False := eq_false (by decide)
  have hs2 : (0xD800 ≤ u ∧ u ≤ 0xDBFF) = True := eq_true hs
  rw [string_pass2]
  simp only [peek, List.headD_cons, List.tail_cons, h1, h2, h3, h4, h5, h6, h7, h8, h9,
    if_true, if_false, hx, hs2, hx2]

theorem pass2_unicode (f : Nat) (t t2 : List Char) (u : Nat)
    (hx : ctz_parse_hex4 t = some (u, t2)) (hs : ¬ (0xD800 ≤ u ∧ u ≤ 0xDBFF))
    (hu : u ≤ 0x10FFFF) :
    string_pass2 (f + 1) ('\\' :: 'u' :: t)
      = (string_pass2 f t2).map (fun r => (utf8_bytes u ++ r.1, r.2)) := by
  rw [pass2_u_plain f t t2 u hx hs]
  exact emit_utf8_eq u hu _

theorem pass2_pair (f : Nat) (t t2 : List Char) (u u2 : Nat)
    (hx : ctz_parse_hex4 t = some (u, '\\' :: 'u' :: t2))
    (hs : 0xD800 ≤ u ∧ u ≤ 0xDBFF) (t3 : List Char)
    (hx2 : ctz_parse_hex4 t2 = some (u2, t3)) (hl : 0xDC00 ≤ u2 ∧ u2 ≤ 0xDFFF) :
    string_pass2 (f + 1) ('\\' :: 'u' :: t)
      = (string_pass2 f t3).map
          (fun r => (utf8_bytes (surrogate_code_point u u2) ++ r.1, r.2)) := by
  have hp := surrogate_pair_eq u u2 hs hl
  rw [pass2_u_pair f t t2 u u2 hx hs t3 hx2]
  generalize surrogate_pair u u2 = cp at hp
  rw [hp.1]
  exact emit_utf8_eq _ hp.2.2 _

/-! ## Strings: parsing undoes serialisation -/

theorem hex_digit_upper_ok (d : Nat) (h : d < 16) :
    is_hex_digit (hex_digit_upper d) = true ∧ hex_value (hex_digit_upper d) = d := by
  interval_cases d <;> decide

theorem parse_hex4_u04X (n : Nat) (hn : n < 256) (t : List Char) :
    ctz_parse_hex4 ('0' :: '0' :: hex_digit_upper (n / 16) :: hex_digit_upper (n % 16) :: t)
      = some (n, t) := by
  have h1 := hex_digit_upper_ok (n / 16) (by omega)
  have h2 := hex_digit_upper_ok (n % 16) (by omega)
  rw [parse_hex4_ok _ _ _ _ t (by decide) (by decide) h1.1 h2.1]
  unfold hex4_value
  rw [h1.2, h2.2]
  have h0 : hex_value '0' = 0 := by decide
  rw [h0]
  congr 2
  omega

/-- The five control bytes with a two-character escape, and the two
punctuation bytes. -/
theorem escape_byte_cases (c : Char) :
    (∃ e, is_simple_escape e = true ∧ unescape e = c ∧ escape_byte c = ['\\', e])
    ∨ (c.toNat < 0x20 ∧ escape_byte c = fmt_u04X c.toNat)
    ∨ (0x20 ≤ c.toNat ∧ c ≠ '"' ∧ c ≠ '\\' ∧ escape_byte c = [c]) := by
  unfold escape_byte
  by_cases h1 : c = '"'
  · left; exact ⟨'"', by decide, by rw [h1]; decide, by rw [if_pos h1]⟩
  by_cases h2 : c = '\\'
  · left; exact ⟨'\\', by decide, by rw [h2]; decide, by rw [if_neg h1, if_pos h2]⟩
  by_cases h3 : c = Char.ofNat 8
  · left; exact ⟨'b', by decide, by rw [h3]; decide, by rw [if_neg h1, if_neg h2, if_pos h3]⟩
  by_cases h4 : c = Char.ofNat 12
  · left
    exact ⟨'f', by decide, by rw [h4]; decide,
      by rw [if_neg h1, if_neg h2, if_neg h3, if_pos h4]⟩
  by_cases h5 : c = '\n'
  · left
    exact ⟨'n', by decide, by rw [h5]; decide,
      by rw [if_neg h1, if_neg h2, if_neg h3, if_neg h4, if_pos h5]⟩
  by_cases h6 : c = '\r'
  · left
    exact ⟨'r', by decide, by rw [h6]; decide,
      by rw [if_neg h1, if_neg h2, if_neg h3, if_neg h4, if_neg h5, if_pos h6]⟩
  by_cases h7 : c = '\t'
  · left
    exact ⟨'t', by decide, by rw [h7]; decide,
      by rw [if_neg h1, if_neg h2, if_neg h3, if_neg h4, if_neg h5, if_neg h6, if_pos h7]⟩
  right
  rw [if_neg h1, if_neg h2, if_neg h3, if_neg h4, if_neg h5, if_neg h6, if_neg h7]
  by_cases h8 : c.toNat < 0x20
  · left; exact ⟨h8, by rw [if_pos h8]⟩
  · right; exact ⟨by omega, h1, h2, by rw [if_neg h8]⟩

theorem escape_byte_ne_nil (c : Char) : escape_byte c ≠ [] := by
  rcases escape_byte_cases c with ⟨e, _, _, h⟩ | ⟨_, h⟩ | ⟨_, _, _, h⟩ <;> rw [h]
  · simp
  · simp [fmt_u04X]
  · simp

theorem pass1_escape_byte (f h : Nat) (c : Char) (t : List Char) :
    string_pass1 (f + 1) (escape_byte c ++ t) h = string_pass1 f t (h + 1) := by
  rcases escape_byte_cases c with ⟨e, he, _, hc⟩ | ⟨hlt, hc⟩ | ⟨hge, hq, hb, hc⟩
  · rw [hc]
    exact pass1_simple f h e t he
  · rw [hc]
    unfold fmt_u04X
    have hx := parse_hex4_u04X c.toNat (by omega) t
    have := pass1_unicode f h _ t c.toNat hx (by omega)
    have hw : utf8_width c.toNat = 1 := by
      unfold utf8_width
      rw [if_pos (by omega)]
    rw [hw] at this
    exact this
  · rw [hc]
    exact pass1_plain f h c t hge hq hb

theorem pass2_escape_byte (f : Nat) (c : Char) (t : List Char) :
    string_pass2 (f + 1) (escape_byte c ++ t)
      = (string_pass2 f t).map (fun r => (c :: r.1, r.2)) := by
  rcases escape_byte_cases c with ⟨e, he, hu, hc⟩ | ⟨hlt, hc⟩ | ⟨hge, hq, hb, hc⟩
  · rw [hc, ← hu]
    exact pass2_simple f e t he
  · rw [hc]
    unfold fmt_u04X
    have hx := parse_hex4_u04X c.toNat (by omega) t
    have := pass2_unicode f _ t c.toNat hx (by omega) (by omega)
    have hb : utf8_bytes c.toNat = [c] := by
      unfold utf8_bytes
      rw [if_pos (by omega), Char.ofNat_toNat]
    rw [hb] at this
    exact this
  · rw [hc]
    exact pass2_plain f c t hq hb

/-- The escaped text of a byte string. -/
def escaped (s : List Char) : List Char := (s.map escape_byte).flatten

theorem escaped_length (s : List Char) : s.length ≤ (escaped s).length := by
  induction s with
  | nil => simp [escaped]
  | cons c l ih =>
    have hc : 1 ≤ (escape_byte c).length := by
      cases h : escape_byte c with
      | nil => exact absurd h (escape_byte_ne_nil c)
      | cons a b => simp
    unfold escaped at ih ⊢
    simp only [List.map_cons, List.flatten_cons, List.length_append, List.length_cons]
    omega

theorem pass1_escaped (s : List Char) : ∀ (f h : Nat) (t : List Char),
    string_pass1 (f + s.length) (escaped s ++ t) h = string_pass1 f t (h + s.length) := by
  induction s with
  | nil => intro f h t; rfl
  | cons c l ih =>
    intro f h t
    have e1 : escaped (c :: l) ++ t = escape_byte c ++ (escaped l ++ t) := by
      simp [escaped]
    rw [e1, List.length_cons, ← Nat.add_assoc, pass1_escape_byte, ih]
    congr 1
    omega

theorem pass2_escaped (s : List Char) : ∀ (f : Nat) (t : List Char),
    string_pass2 (f + s.length) (escaped s ++ t)
      = (string_pass2 f t).map (fun r => (s ++ r.1, r.2)) := by
  induction s with
  | nil =>
    intro f t
    show string_pass2 f t = _
    cases string_pass2 f t <;> rfl
  | cons c l ih =>
    intro f t
    have e1 : escaped (c :: l) ++ t = escape_byte c ++ (escaped l ++ t) := by
      simp [escaped]
    rw [e1, List.length_cons, ← Nat.add_assoc, pass2_escape_byte, ih]
    cases string_pass2 f t <;> rfl

/-- `ctz_parse_string_raw` on the escaped text of `s`, a quote and any text
`rest`: the bytes `s`, their count and the pointer at `rest`. -/
theorem parse_string_raw_escaped (s rest : List Char) :
    ctz_parse_string_raw (escaped s ++ '"' :: rest) = .ok ((s, s.length), rest) := by
  have hlen : (escaped s ++ '"' :: rest).length + 1
      = ((escaped s).length - s.length + rest.length + 1) + 1 + s.length := by
    have := escaped_length s
    simp only [List.length_append, List.length_cons]
    omega
  unfold ctz_parse_string_raw
  rw [hlen, pass1_escaped, pass2_escaped, pass1_quote, pass2_quote]
  simp [Except.map]

theorem stringify_string_eq (s : List Char) :
    ctz_stringify_string s s.length = '"' :: escaped s ++ ['"'] := by
  unfold ctz_stringify_string escaped
  rw [range_map_getD]

/-- Parsing the serialisation of a string gives the string back. -/
theorem parse_string_stringify (s rest : List Char) :
    ctz_parse_string (ctz_stringify_string s s.length ++ rest)
      = .ok (CTZ_JSON_STRING s s.length, rest) := by
  rw [stringify_string_eq]
  unfold ctz_parse_string CTZ_EXPECT
  simp only [List.cons_append, peek, List.headD_cons, List.tail_cons, if_true,
    List.append_assoc, List.singleton_append, parse_string_raw_escaped, List.nil_append]

/-! ## Escapes in strings (C30) -/

theorem pass1_escaped_ge (s : List Char) (F h : Nat) (t : List Char) (hF : s.length ≤ F) :
    string_pass1 F (escaped s ++ t) h = string_pass1 (F - s.length) t (h + s.length) := by
  have := pass1_escaped s (F - s.length) h t
  rwa [Nat.sub_add_cancel hF] at this

theorem pass2_escaped_ge (s : List Char) (F : Nat) (t : List Char) (hF : s.length ≤ F) :
    string_pass2 F (escaped s ++ t)
      = (string_pass2 (F - s.length) t).map (fun r => (s ++ r.1, r.2)) := by
  have := pass2_escaped s (F - s.length) t
  rwa [Nat.sub_add_cancel hF] at this

/-- A string whose body is the escaped text of `pre` followed by a text `x`
on which the first loop fails: the parse fails. -/
theorem parse_string_raw_fails (pre x : List Char)
    (h : ∀ F head, x.length + 1 ≤ F → string_pass1 F x head = .error .null) :
    ctz_parse_string_raw (escaped pre ++ x) = .error .null := by
  have hl := escaped_length pre
  unfold ctz_parse_string_raw
  rw [pass1_escaped_ge pre _ 0 x (by simp only [List.length_append]; omega),
    h _ _ (by simp only [List.length_append]; omega)]

/-- A string whose body is the escaped text of `pre` followed by a text `x`
on which both loops succeed. -/
theorem parse_string_raw_succeeds (pre x bytes q : List Char) (n : Nat)
    (h1 : ∀ F head, x.length + 1 ≤ F → string_pass1 F x head = .ok (head + n, q))
    (h2 : ∀ F, x.length + 1 ≤ F → string_pass2 F x = .ok (bytes, q)) :
    ctz_parse_string_raw (escaped pre ++ x) = .ok ((pre ++ bytes, pre.length + n), q.tail) := by
  have hl := escaped_length pre
  unfold ctz_parse_string_raw
  rw [pass1_escaped_ge pre _ 0 x (by simp only [List.length_append]; omega),
    h1 _ _ (by simp only [List.length_append]; omega),
    pass2_escaped_ge pre _ x (by simp only [List.length_append]; omega),
    h2 _ (by simp only [List.length_append]; omega)]
  simp [Except.map]

theorem pass1_fail_control (F head : Nat) (c : Char) (t : List Char) (hF : 1 ≤ F)
    (hc : c.toNat < 0x20) : string_pass1 F (c :: t) head = .error .null := by
  obtain ⟨f, rfl⟩ : ∃ f, F = f + 1 := ⟨F - 1, by omega⟩
  have hq : c ≠ '"' := by
    intro e; rw [e] at hc; exact absurd hc (by decide)
  rw [string_pass1]
  simp only [peek, List.headD_cons, hq, if_false, hc, if_true]
  split <;> rfl

theorem pass1_fail_end (F head : Nat) (hF : 1 ≤ F) :
    string_pass1 F [] head = .error .null := by
  obtain ⟨f, rfl⟩ : ∃ f, F = f + 1 := ⟨F - 1, by omega⟩
  rw [string_pass1]
  rfl

theorem pass1_fail_escape (F head : Nat) (e : Char) (t : List Char) (hF : 1 ≤ F)
    (he : is_simple_escape e = false) (hu : e ≠ 'u') :
    string_pass1 F ('\\' :: e :: t) head = .error .null := by
  obtain ⟨f, rfl⟩ : ∃ f, F = f + 1 := ⟨F - 1, by omega⟩
  rw [string_pass1]
  simp [peek, NUL, he, hu]

theorem pass1_fail_escape_end (F head : Nat) (hF : 1 ≤ F) :
    string_pass1 F ['\\'] head = .error .null := by
  obtain ⟨f, rfl⟩ : ∃ f, F = f + 1 := ⟨F - 1, by omega⟩
  rw [string_pass1]
  simp [peek, NUL, is_simple_escape]

theorem pass1_fail_hex (F head : Nat) (t : List Char) (hF : 1 ≤ F)
    (hx : ctz_parse_hex4 t = none) :
    string_pass1 F ('\\' :: 'u' :: t) head = .error .null := by
  obtain ⟨f, rfl⟩ : ∃ f, F = f + 1 := ⟨F - 1, by omega⟩
  rw [string_pass1]
  simp [peek, NUL, is_simple_escape, hx]

/-- After a high surrogate the first loop asks for `\u` and four
hexadecimal digits whose value is a low surrogate. -/
def low_surrogate_follows (t : List Char) : Prop :=
  ∃ e f g h rest, t = '\\' :: 'u' :: e :: f :: g :: h :: rest
    ∧ is_hex_digit e = true ∧ is_hex_digit f = true ∧ is_hex_digit g = true
    ∧ is_hex_digit h = true
    ∧ 0xDC00 ≤ hex4_value e f g h ∧ hex4_value e f g h ≤ 0xDFFF

theorem parse_hex4_some (p : List Char) (u : Nat) (q : List Char)
    (h : ctz_parse_hex4 p = some (u, q)) :
    ∃ a b c d, p = a :: b :: c :: d :: q ∧ is_hex_digit a = true ∧ is_hex_digit b = true
      ∧ is_hex_digit c = true ∧ is_hex_digit d = true ∧ u = hex4_value a b c d := by
  have key : ∀ x : List Char, is_hex_digit (peek x) = true → ∃ c t, x = c :: t := by
    intro x hx
    cases x with
    | nil => exact absurd hx (by decide)
    | cons c t => exact ⟨c, t, rfl⟩
  by_cases h1 : is_hex_digit (peek p) = true
  · obtain ⟨a, p1, rfl⟩ := key p h1
    by_cases h2 : is_hex_digit (peek p1) = true
    · obtain ⟨b, p2, rfl⟩ := key p1 h2
      by_cases h3 : is_hex_digit (peek p2) = true
      · obtain ⟨c, p3, rfl⟩ := key p2 h3
        by_cases h4 : is_hex_digit (peek p3) = true
        · obtain ⟨d, p4, rfl⟩ := key p3 h4
          rw [parse_hex4_ok a b c d p4 h1 h2 h3 h4] at h
          simp only [Option.some.injEq, Prod.mk.injEq] at h
          exact ⟨a, b, c, d, by rw [h.2], h1, h2, h3, h4, h.1.symm⟩
        · rw [parse_hex4_fail _ (Or.inr (Or.inr (Or.inr (by simpa using h4))))] at h
          cases h
      · rw [parse_hex4_fail _ (Or.inr (Or.inr (Or.inl (by simpa using h3))))] at h
        cases h
    · rw [parse_hex4_fail _ (Or.inr (Or.inl (by simpa using h2)))] at h
      cases h
  · rw [parse_hex4_fail _ (Or.inl (by simpa using h1))] at h
    cases h

theorem pass1_at_surrogate (f head : Nat) (t t2 : List Char) (u : Nat)
    (hx : ctz_parse_hex4 t = some (u, t2)) (hs : 0xD800 ≤ u ∧ u ≤ 0xDBFF)
    (r : Except ctz_stop (Nat × List Char))
    (hr : (if peek t2 ≠ '\\' then .error .null
      else if peek t2.tail ≠ 'u' then .error .null
      else
        match ctz_parse_hex4 t2.tail.tail with
        | none => .error .null
        | some (u2, p) =>
          if u2 < 0xDC00 ∨ u2 > 0xDFFF then .error .null
          else string_pass1 f p (head + utf8_width (surrogate_pair u u2))) = r) :
    string_pass1 (f + 1) ('\\' :: 'u' :: t) head = r := by
  have hs2 : (0xD800 ≤ u ∧ u ≤ 0xDBFF) = True := eq_true hs
  rw [← hr, string_pass1]
  simp only [peek, List.headD_cons, List.tail_cons, NUL, is_simple_escape, hx, hs2, if_true,
    utf8_width]
  simp only [show ('\\' = '"') = False from eq_false (by decide),
    show ('\\' = Char.ofNat 0) = False from eq_false (by decide),
    show ('\\'.toNat < 32) = False from eq_false (by decide),
    show ('u' = '"') = False from eq_false (by decide),
    show ('u' = '\\') = False from eq_false (by decide),
    show ('u' = '/') = False from eq_false (by decide),
    show ('u' = 'b') = False from eq_false (by decide),
    show ('u' = 'f') = False from eq_false (by decide),
    show ('u' = 'n') = False from eq_false (by decide),
    show ('u' = 'r') = False from eq_false (by decide),
    show ('u' = 't') = False from eq_false (by decide),
    if_false, if_true, or_self, decide_False, Bool.false_eq_true]

theorem pass1_fail_surrogate (F head : Nat) (t t2 : List Char) (u : Nat) (hF : 1 ≤ F)
    (hx : ctz_parse_hex4 t = some (u, t2)) (hs : 0xD800 ≤ u ∧ u ≤ 0xDBFF)
    (hno : ¬ low_surrogate_follows t2) :
    string_pass1 F ('\\' :: 'u' :: t) head = .error .null := by
  obtain ⟨f, rfl⟩ : ∃ f, F = f + 1 := ⟨F - 1, by omega⟩
  apply pass1_at_surrogate f head t t2 u hx hs
  by_cases h1 : peek t2 = '\\'
  · by_cases h2 : peek t2.tail = 'u'
    · rw [if_neg (not_not.mpr h1), if_neg (not_not.mpr h2)]
      cases hx2 : ctz_parse_hex4 t2.tail.tail with
      | none => rfl
      | some r =>
        obtain ⟨u2, t3⟩ := r
        by_cases hl : u2 < 0xDC00 ∨ u2 > 0xDFFF
        · simp only [hl, if_true]
        · exfalso
          apply hno
          obtain ⟨e, f2, g, h, hp, he, hf, hg, hh, hv⟩ := parse_hex4_some _ _ _ hx2
          refine ⟨e, f2, g, h, t3, ?_, he, hf, hg, hh, by omega, by omega⟩
          cases t2 with
          | nil => exact absurd h1 (by decide)
          | cons c1 r1 =>
            cases r1 with
            | nil =>
              have h3 : NUL = 'u' := h2
              exact absurd h3 (by decide)
            | cons c2 r2 =>
              simp only [peek, List.headD_cons, List.tail_cons] at h1 h2 hp
              rw [h1, h2, hp]
    · rw [if_neg (not_not.mpr h1), if_pos h2]
  · rw [if_pos h1]

theorem pass1_quote_ge (F h : Nat) (t : List Char) (hF : 1 ≤ F) :
    string_pass1 F ('"' :: t) h = .ok (h, '"' :: t) := by
  obtain ⟨f, rfl⟩ : ∃ f, F = f + 1 := ⟨F - 1, by omega⟩
  exact pass1_quote f h t

theorem pass2_quote_ge (F : Nat) (t : List Char) (hF : 1 ≤ F) :
    string_pass2 F ('"' :: t) = .ok ([], '"' :: t) := by
  obtain ⟨f, rfl⟩ : ∃ f, F = f + 1 := ⟨F - 1, by omega⟩
  exact pass2_quote f t

theorem parse_string_fails (pre x : List Char)
    (h : ∀ F head, x.length + 1 ≤ F → string_pass1 F x head = .error .null) :
    ctz_parse_string ('"' :: (escaped pre ++ x)) = .error .null := by
  unfold ctz_parse_string CTZ_EXPECT
  simp only [peek, List.headD_cons, List.tail_cons, if_true, parse_string_raw_fails pre x h]

theorem parse_string_succeeds (pre x bytes q : List Char) (n : Nat)
    (h1 : ∀ F head, x.length + 1 ≤ F → string_pass1 F x head = .ok (head + n, q))
    (h2 : ∀ F, x.length + 1 ≤ F → string_pass2 F x = .ok (bytes, q)) :
    ctz_parse_string ('"' :: (escaped pre ++ x))
      = .ok (CTZ_JSON_STRING (pre ++ bytes) (pre.length + n), q.tail) := by
  unfold ctz_parse_string CTZ_EXPECT
  simp only [peek, List.headD_cons, List.tail_cons, if_true,
    parse_string_raw_succeeds pre x bytes q n h1 h2]

/-- A string with one `\u` escape between two escaped texts. -/
theorem parse_string_unicode (a b c d : Char) (ha : is_hex_digit a = true)
    (hb : is_hex_digit b = true) (hc : is_hex_digit c = true) (hd : is_hex_digit d = true)
    (hs : ¬ (0xD800 ≤ hex4_value a b c d ∧ hex4_value a b c d ≤ 0xDBFF))
    (pre post rest : List Char) :
    ctz_parse_string ('"' :: (escaped pre
        ++ '\\' :: 'u' :: a :: b :: c :: d :: (escaped post ++ '"' :: rest)))
      = .ok (CTZ_JSON_STRING (pre ++ (utf8_bytes (hex4_value a b c d) ++ post))
          (pre.length + ((utf8_bytes (hex4_value a b c d)).length + post.length)), rest) := by
  have hlt := hex4_value_lt a b c d ha hb hc hd
  have hl := escaped_length post
  apply parse_string_succeeds pre _ (utf8_bytes (hex4_value a b c d) ++ post) ('"' :: rest)
      ((utf8_bytes (hex4_value a b c d)).length + post.length)
  · intro F head hF
    simp only [List.length_cons, List.length_append] at hF
    obtain ⟨f, rfl⟩ : ∃ f, F = f + 1 := ⟨F - 1, by omega⟩
    rw [pass1_unicode f head _ _ _ (parse_hex4_ok a b c d _ ha hb hc hd) hs,
      pass1_escaped_ge post f _ _ (by omega), pass1_quote_ge _ _ _ (by omega),
      utf8_bytes_length, Nat.add_assoc]
  · intro F hF
    simp only [List.length_cons, List.length_append] at hF
    obtain ⟨f, rfl⟩ : ∃ f, F = f + 1 := ⟨F - 1, by omega⟩
    rw [pass2_unicode f _ _ _ (parse_hex4_ok a b c d _ ha hb hc hd) hs (by omega),
      pass2_escaped_ge post f _ (by omega), pass2_quote_ge _ _ (by omega)]
    simp [Except.map]

/-- A string with one surrogate pair between two escaped texts. -/
theorem parse_string_pair (a b c d e f g h : Char) (ha : is_hex_digit a = true)
    (hb : is_hex_digit b = true) (hc : is_hex_digit c = true) (hd : is_hex_digit d = true)
    (he : is_hex_digit e = true) (hf : is_hex_digit f = true) (hg : is_hex_digit g = true)
    (hh : is_hex_digit h = true)
    (hs : 0xD800 ≤ hex4_value a b c d ∧ hex4_value a b c d ≤ 0xDBFF)
    (hl : 0xDC00 ≤ hex4_value e f g h ∧ hex4_value e f g h ≤ 0xDFFF)
    (pre post rest : List Char) :
    ctz_parse_string ('"' :: (escaped pre
        ++ '\\' :: 'u' :: a :: b :: c :: d :: '\\' :: 'u' :: e :: f :: g :: h
          :: (escaped post ++ '"' :: rest)))
      = .ok (CTZ_JSON_STRING
          (pre ++ (utf8_bytes (surrogate_code_point (hex4_value a b c d) (hex4_value e f g h))
            ++ post))
          (pre.length + (4 + post.length)), rest) := by
  have hp := surrogate_pair_eq _ _ hs hl
  have hlen := escaped_length post
  have hw : utf8_width (surrogate_pair (hex4_value a b c d) (hex4_value e f g h)) = 4 := by
    rw [hp.1]
    unfold utf8_width
    rw [if_neg (by omega), if_neg (by omega), if_neg (by omega)]
  apply parse_string_succeeds pre _
      (utf8_bytes (surrogate_code_point (hex4_value a b c d) (hex4_value e f g h)) ++ post)
      ('"' :: rest) (4 + post.length)
  · intro F head hF
    simp only [List.length_cons, List.length_append] at hF
    obtain ⟨k, rfl⟩ : ∃ k, F = k + 1 := ⟨F - 1, by omega⟩
    rw [pass1_pair k head _ _ _ _ (parse_hex4_ok a b c d _ ha hb hc hd) hs _
        (parse_hex4_ok e f g h _ he hf hg hh) hl,
      pass1_escaped_ge post k _ _ (by omega), pass1_quote_ge _ _ _ (by omega), hw,
      Nat.add_assoc]
  · intro F hF
    simp only [List.length_cons, List.length_append] at hF
    obtain ⟨k, rfl⟩ : ∃ k, F = k + 1 := ⟨F - 1, by omega⟩
    rw [pass2_pair k _ _ _ _ (parse_hex4_ok a b c d _ ha hb hc hd) hs _
        (parse_hex4_ok e f g h _ he hf hg hh) hl,
      pass2_escaped_ge post k _ (by omega), pass2_quote_ge _ _ (by omega)]
    simp [Except.map]

/-- C30. In a string, after any escaped text `pre`: the escape `\uXXXX`
(hexadecimal digits of either case) of a code point outside the
high-surrogate range decodes to the UTF-8 encoding of the code point, of at
most three bytes; a high surrogate followed by `\uYYYY` with a low
surrogate decodes to the four bytes of the UTF-8 encoding of
`0x10000 + ((h - 0xD800) << 10 | (l - 0xDC00))`; and the parse fails for a
high surrogate that is not followed by such a low surrogate, for a `\u`
with a byte that is no hexadecimal digit among the next four, for an escape
letter without a case, for an unescaped byte below `0x20`, and for a string
that ends without a closing quote. -/
theorem unicode_escapes_decode (a b c d : Char) (ha : is_hex_digit a = true)
    (hb : is_hex_digit b = true) (hc : is_hex_digit c = true) (hd : is_hex_digit d = true)
    (pre post rest : List Char) :
    (¬ (0xD800 ≤ hex4_value a b c d ∧ hex4_value a b c d ≤ 0xDBFF) →
      ctz_parse_string ('"' :: (escaped pre
          ++ '\\' :: 'u' :: a :: b :: c :: d :: (escaped post ++ '"' :: rest)))
        = .ok (CTZ_JSON_STRING (pre ++ (utf8_bytes (hex4_value a b c d) ++ post))
            (pre.length + ((utf8_bytes (hex4_value a b c d)).length + post.length)), rest)
      ∧ (utf8_bytes (hex4_value a b c d)).length ≤ 3)
    ∧ (∀ e f g h : Char, is_hex_digit e = true → is_hex_digit f = true →
        is_hex_digit g = true → is_hex_digit h = true →
        0xD800 ≤ hex4_value a b c d ∧ hex4_value a b c d ≤ 0xDBFF →
        0xDC00 ≤ hex4_value e f g h ∧ hex4_value e f g h ≤ 0xDFFF →
        ctz_parse_string ('"' :: (escaped pre
            ++ '\\' :: 'u' :: a :: b :: c :: d :: '\\' :: 'u' :: e :: f :: g :: h
              :: (escaped post ++ '"' :: rest)))
          = .ok (CTZ_JSON_STRING
              (pre ++ (utf8_bytes
                (surrogate_code_point (hex4_value a b c d) (hex4_value e f g h)) ++ post))
              (pre.length + (4 + post.length)), rest))
    ∧ (∀ t : List Char, 0xD800 ≤ hex4_value a b c d ∧ hex4_value a b c d ≤ 0xDBFF →
        ¬ low_surrogate_follows t →
        ctz_parse_string ('"' :: (escaped pre ++ '\\' :: 'u' :: a :: b :: c :: d :: t))
          = .error .null)
    ∧ (∀ t : List Char,
        (is_hex_digit (peek t) = false ∨ is_hex_digit (peek t.tail) = false
          ∨ is_hex_digit (peek t.tail.tail) = false
          ∨ is_hex_digit (peek t.tail.tail.tail) = false) →
        ctz_parse_string ('"' :: (escaped pre ++ '\\' :: 'u' :: t)) = .error .null)
    ∧ (∀ (e : Char) (t : List Char), is_simple_escape e = false → e ≠ 'u' →
        ctz_parse_string ('"' :: (escaped pre ++ '\\' :: e :: t)) = .error .null)
    ∧ (∀ (x : Char) (t : List Char), x.toNat < 0x20 →
        ctz_parse_string ('"' :: (escaped pre ++ x :: t)) = .error .null)
    ∧ ctz_parse_string ('"' :: escaped pre) = .error .null := by
  refine ⟨?_, ?_, ?_, ?_, ?_, ?_, ?_⟩
  · intro hs
    refine ⟨parse_string_unicode a b c d ha hb hc hd hs pre post rest, ?_⟩
    have := hex4_value_lt a b c d ha hb hc hd
    rw [utf8_bytes_length]
    unfold utf8_width
    split
    · omega
    · split
      · omega
      · rw [if_pos (by omega)]
  · intro e f g h he hf hg hh hs hl
    exact parse_string_pair a b c d e f g h ha hb hc hd he hf hg hh hs hl pre post rest
  · intro t hs hno
    apply parse_string_fails
    intro F head hF
    exact pass1_fail_surrogate F head _ t _ (by omega)
      (parse_hex4_ok a b c d t ha hb hc hd) hs hno
  · intro t ht
    apply parse_string_fails
    intro F head hF
    exact pass1_fail_hex F head t (by omega) (parse_hex4_fail t ht)
  · intro e t he hu
    apply parse_string_fails
    intro F head hF
    exact pass1_fail_escape F head e t (by omega) he hu
  · intro x t hx
    apply parse_string_fails
    intro F head hF
    exact pass1_fail_control F head x t (by omega) hx
  · have := parse_string_fails pre [] (fun F head hF => pass1_fail_end F head (by omega))
    rwa [List.append_nil] at this

theorem unicode_escapes_decode_witness :
    (is_hex_digit '0' = true ∧ is_hex_digit 'e' = true ∧ is_hex_digit '9' = true)
    ∧ ctz_parse_string "\"caf\\u00e9!\"".toList
        = .ok (CTZ_JSON_STRING ("caf".toList ++ [Char.ofNat 0xC3, Char.ofNat 0xA9] ++ ['!']) 6, [])
    ∧ ctz_parse_string "\"\\u00e9\\uDE00\"".toList
        = .ok (CTZ_JSON_STRING
            [Char.ofNat 0xC3, Char.ofNat 0xA9, Char.ofNat 0xED, Char.ofNat 0xB8, Char.ofNat 0x80]
            5, [])
    ∧ ctz_parse_string "\"\\u00e9\\q\"".toList = .error .null :=
  ⟨by decide,
    ((unicode_escapes_decode '0' '0' 'e' '9' (by decide) (by decide) (by decide) (by decide)
      "caf".toList "!".toList []).1 (by decide)).1.symm ▸ (by decide!),
    by decide!, by decide!⟩

/-! ## Number tokens (C29) -/

theorem peek_cons (c : Char) (t : List Char) : peek (c :: t) = c := rfl

theorem peek_append (a b : List Char) (h : a ≠ []) : peek (a ++ b) = peek a := by
  cases a with
  | nil => exact absurd rfl h
  | cons c t => rfl

theorem takeWhile_append_stop (p : Char → Bool) (a b : List Char)
    (ha : ∀ c ∈ a, p c = true) (hb : b = [] ∨ p (peek b) = false) :
    (a ++ b).takeWhile p = a ∧ (a ++ b).dropWhile p = b := by
  induction a with
  | nil =>
    rcases hb with rfl | hb
    · exact ⟨rfl, rfl⟩
    · cases b with
      | nil => exact ⟨rfl, rfl⟩
      | cons c t =>
        have hc : p c = false := hb
        simp [List.takeWhile, List.dropWhile, hc]
  | cons c t ih =>
    have hc := ha c (List.mem_cons_self _ _)
    have := ih (fun d hd => ha d (List.mem_cons_of_mem _ hd))
    simp [List.takeWhile, List.dropWhile, hc, this.1, this.2]

/-- A non-empty run of decimal digits. -/
def digit_run (l : List Char) : Prop := l ≠ [] ∧ ∀ c ∈ l, isdigit c = true

/-- The integer part of the grammar: `0` or a digit `1`..`9` followed by
digits. -/
def int_part (l : List Char) : Prop :=
  l = ['0'] ∨ ∃ d ds, l = d :: ds ∧ ('1' ≤ d ∧ d ≤ '9') ∧ ∀ c ∈ ds, isdigit c = true

/-- The optional fraction of the grammar: nothing, or `.` and digits. -/
def frac_part (l : List Char) : Prop :=
  l = [] ∨ ∃ fs, l = '.' :: fs ∧ digit_run fs

/-- The optional exponent of the grammar: nothing, or `e` or `E`, an
optional sign and digits. -/
def exp_part (l : List Char) : Prop :=
  l = [] ∨ ∃ e sg es, l = e :: (sg ++ es) ∧ (e = 'e' ∨ e = 'E')
    ∧ (sg = [] ∨ sg = ['+'] ∨ sg = ['-']) ∧ digit_run es

/-- The number grammar of RFC 8259:
`-? (0 | [1-9][0-9]*) (\.[0-9]+)? ([eE][+-]?[0-9]+)?`. -/
def rfc_number (tok : List Char) : Prop :=
  ∃ sign int frac exp, tok = sign ++ (int ++ (frac ++ exp))
    ∧ (sign = [] ∨ sign = ['-']) ∧ int_part int ∧ frac_part frac ∧ exp_part exp

/-- A byte that could continue a number token. -/
def continues_number (c : Char) : Bool :=
  isdigit c || c = '.' || c = 'e' || c = 'E' || c = 'x' || c = 'X'

/-- The three stages of the validation scan of `ctz_parse_number`. -/
def scan_int (p0 : List Char) : Option (List Char) :=
  if peek p0 = '0' then
    if '1' ≤ peek p0.tail ∧ peek p0.tail ≤ '9' then none else some p0.tail
  else if '1' ≤ peek p0 ∧ peek p0 ≤ '9' then some (p0.tail.dropWhile isdigit)
  else none

def scan_frac (p : List Char) : Option (List Char) :=
  if peek p = '.' then
    if isdigit (peek p.tail) then some (p.tail.dropWhile isdigit) else none
  else some p

def scan_exp (p : List Char) : Option (List Char) :=
  if peek p = 'e' ∨ peek p = 'E' then
    let q := if peek p.tail = '+' ∨ peek p.tail = '-' then p.tail.tail else p.tail
    if isdigit (peek q) then some (q.dropWhile isdigit) else none
  else some p

theorem number_scan_stages (json : List Char) :
    number_scan json
      = ((scan_int (if peek json = '-' then json.tail else json)).bind scan_frac).bind
          scan_exp := rfl

theorem isdigit_iff (c : Char) : isdigit c = true ↔ 48 ≤ c.toNat ∧ c.toNat ≤ 57 := by
  unfold isdigit
  simp only [decide_eq_true_eq, char_le_iff]
  exact Iff.rfl

theorem digit_run_peek (l r : List Char) (h : digit_run l) :
    isdigit (peek (l ++ r)) = true := by
  obtain ⟨hne, hall⟩ := h
  cases l with
  | nil => exact absurd rfl hne
  | cons c t => exact hall c (List.mem_cons_self _ _)

theorem scan_int_ok (int r : List Char) (h : int_part int) (hr : isdigit (peek r) = false) :
    scan_int (int ++ r) = some r := by
  rcases h with rfl | ⟨d, ds, rfl, hd, hds⟩
  · have hnot : ¬ ('1' ≤ peek r ∧ peek r ≤ '9') := by
      rintro ⟨h1, h2⟩
      have := (char_le_iff _ _).mp h1
      have := (char_le_iff _ _).mp h2
      have hd : isdigit (peek r) = true := by
        rw [isdigit_iff]
        have e1 : '1'.toNat = 49 := rfl
        have e9 : '9'.toNat = 57 := rfl
        omega
      rw [hd] at hr
      cases hr
    unfold scan_int
    simp only [List.cons_append, List.nil_append, peek_cons, List.tail_cons,
      if_true]
    rw [if_neg hnot]
  · have hne : ¬ (d = '0') := by
      intro e
      rw [e] at hd
      exact absurd hd.1 (by decide)
    unfold scan_int
    simp only [List.cons_append, peek_cons, List.tail_cons, hne, if_false, hd,
      and_self, if_true]
    rw [(takeWhile_append_stop isdigit ds r hds (Or.inr hr)).2]

theorem scan_frac_ok (frac r : List Char) (h : frac_part frac)
    (hr : isdigit (peek r) = false) (hdot : frac = [] → peek r ≠ '.') :
    scan_frac (frac ++ r) = some r := by
  rcases h with rfl | ⟨fs, rfl, hfs⟩
  · unfold scan_frac
    rw [List.nil_append, if_neg (hdot rfl)]
  · unfold scan_frac
    simp only [List.cons_append, peek_cons, List.tail_cons, if_true]
    rw [digit_run_peek fs r hfs, if_pos rfl, (takeWhile_append_stop isdigit fs r hfs.2 (Or.inr hr)).2]

theorem scan_exp_ok (exp r : List Char) (h : exp_part exp)
    (hr : isdigit (peek r) = false) (he : exp = [] → peek r ≠ 'e' ∧ peek r ≠ 'E') :
    scan_exp (exp ++ r) = some r := by
  rcases h with rfl | ⟨e, sg, es, rfl, hee, hsg, hes⟩
  · unfold scan_exp
    rw [List.nil_append, if_neg (by
      rintro (h | h)
      · exact (he rfl).1 h
      · exact (he rfl).2 h)]
  · have hpk := digit_run_peek es r hes
    have hdrop := (takeWhile_append_stop isdigit es r hes.2 (Or.inr hr)).2
    have hnd : ∀ c, isdigit c = true → ¬ (c = '+' ∨ c = '-') := by
      intro c hc
      rw [isdigit_iff] at hc
      rintro (h | h) <;> rw [h] at hc <;> exact absurd hc (by decide)
    unfold scan_exp
    simp only [List.cons_append, peek_cons, List.tail_cons, hee, if_true]
    rcases hsg with rfl | rfl | rfl
    · have hns := hnd _ hpk
      simp only [List.nil_append]
      rw [if_neg hns, hpk, if_pos rfl, hdrop]
    · simp only [List.cons_append, List.nil_append, peek_cons, List.tail_cons,
        true_or, if_true]
      rw [hpk, if_pos rfl, hdrop]
    · simp only [List.cons_append, List.nil_append, peek_cons, List.tail_cons,
        or_true, if_true]
      rw [hpk, if_pos rfl, hdrop]

theorem peek_eq_cons (p : List Char) (c : Char) (h : peek p = c) (hc : c ≠ NUL) :
    p = c :: p.tail := by
  cases p with
  | nil => exact absurd h.symm hc
  | cons d t =>
    rw [peek_cons] at h
    rw [h]
    rfl

theorem dropWhile_digits (l : List Char) :
    ∃ ds, l = ds ++ l.dropWhile isdigit ∧ ∀ c ∈ ds, isdigit c = true :=
  ⟨l.takeWhile isdigit, (List.takeWhile_append_dropWhile isdigit l).symm,
    fun _ hc => List.mem_takeWhile_imp hc⟩

theorem isdigit_ne_nul (c : Char) (h : isdigit c = true) : c ≠ NUL := by
  intro e
  rw [e] at h
  exact absurd h (by decide)

theorem scan_int_sound (p0 r : List Char) (h : scan_int p0 = some r) :
    ∃ int, p0 = int ++ r ∧ int_part int := by
  unfold scan_int at h
  by_cases h0 : peek p0 = '0'
  · rw [if_pos h0] at h
    split at h
    · cases h
    · simp only [Option.some.injEq] at h
      refine ⟨['0'], ?_, Or.inl rfl⟩
      rw [← h]
      exact peek_eq_cons p0 '0' h0 (by decide)
  · rw [if_neg h0] at h
    split at h
    · rename_i hd
      simp only [Option.some.injEq] at h
      obtain ⟨ds, hds, hall⟩ := dropWhile_digits p0.tail
      have hne : peek p0 ≠ NUL := by
        intro e
        rw [e] at hd
        exact absurd hd.1 (by decide)
      refine ⟨peek p0 :: ds, ?_, Or.inr ⟨peek p0, ds, rfl, hd, hall⟩⟩
      have hp := peek_eq_cons p0 (peek p0) rfl hne
      rw [← h, List.cons_append, ← hds]
      exact hp
    · cases h

theorem scan_frac_sound (p r : List Char) (h : scan_frac p = some r) :
    ∃ frac, p = frac ++ r ∧ frac_part frac := by
  unfold scan_frac at h
  by_cases h0 : peek p = '.'
  · rw [if_pos h0] at h
    split at h
    · rename_i hd
      simp only [Option.some.injEq] at h
      obtain ⟨ds, hds, hall⟩ := dropWhile_digits p.tail
      have hne : ds ≠ [] := by
        intro e
        rw [e, List.nil_append] at hds
        have hnot : ∀ l : List Char, isdigit (peek l) = true → l.dropWhile isdigit ≠ l := by
          intro l hl he
          cases l with
          | nil => exact absurd hl (by decide)
          | cons c t =>
            rw [peek_cons] at hl
            simp only [List.dropWhile, hl] at he
            have := List.dropWhile_suffix isdigit (l := t)
            have hlen := this.length_le
            rw [he] at hlen
            simp at hlen
        exact hnot _ hd hds.symm
      refine ⟨'.' :: ds, ?_, Or.inr ⟨ds, rfl, hne, hall⟩⟩
      rw [← h, List.cons_append, ← hds]
      exact peek_eq_cons p '.' h0 (by decide)
    · cases h
  · rw [if_neg h0] at h
    simp only [Option.some.injEq] at h
    exact ⟨[], by rw [h]; rfl, Or.inl rfl⟩

theorem digits_after (q r : List Char) (hd : isdigit (peek q) = true)
    (h : q.dropWhile isdigit = r) : ∃ es, q = es ++ r ∧ digit_run es := by
  obtain ⟨ds, hds, hall⟩ := dropWhile_digits q
  rw [h] at hds
  refine ⟨ds, hds, ?_, hall⟩
  intro e
  rw [e, List.nil_append] at hds
  cases q with
  | nil => exact absurd hd (by decide)
  | cons c t =>
    rw [peek_cons] at hd
    simp only [List.dropWhile, hd] at h
    have hlen := (List.dropWhile_suffix isdigit (l := t)).length_le
    rw [h, ← hds] at hlen
    simp at hlen

theorem scan_exp_sound (p r : List Char) (h : scan_exp p = some r) :
    ∃ exp, p = exp ++ r ∧ exp_part exp := by
  unfold scan_exp at h
  by_cases h0 : peek p = 'e' ∨ peek p = 'E'
  · rw [if_pos h0] at h
    have hp : p = peek p :: p.tail :=
      peek_eq_cons p (peek p) rfl (by
        rcases h0 with e | e <;> rw [e] <;> decide)
    by_cases hs : peek p.tail = '+' ∨ peek p.tail = '-'
    · simp only [hs, if_true] at h
      split at h
      · rename_i hd
        simp only [Option.some.injEq] at h
        obtain ⟨es, hes, hrun⟩ := digits_after _ _ hd h
        have ht : p.tail = peek p.tail :: p.tail.tail :=
          peek_eq_cons p.tail (peek p.tail) rfl (by
            rcases hs with e | e <;> rw [e] <;> decide)
        refine ⟨peek p :: ([peek p.tail] ++ es), ?_, Or.inr ⟨peek p, [peek p.tail], es, rfl, h0,
          ?_, hrun⟩⟩
        · rw [List.cons_append, List.append_assoc, ← hes, List.singleton_append, ← ht]
          exact hp
        · rcases hs with e | e
          · exact Or.inr (Or.inl (by rw [e]))
          · exact Or.inr (Or.inr (by rw [e]))
      · cases h
    · simp only [hs, if_false] at h
      split at h
      · rename_i hd
        simp only [Option.some.injEq] at h
        obtain ⟨es, hes, hrun⟩ := digits_after _ _ hd h
        refine ⟨peek p :: ([] ++ es), ?_, Or.inr ⟨peek p, [], es, rfl, h0, Or.inl rfl, hrun⟩⟩
        rw [List.nil_append, List.cons_append, ← hes]
        exact hp
      · cases h
  · rw [if_neg h0] at h
    simp only [Option.some.injEq] at h
    exact ⟨[], by rw [h]; rfl, Or.inl rfl⟩

/-- What the validation scan accepts is a token of the grammar, and the
pointer it returns is the text after the token. -/
theorem number_scan_sound (json p : List Char) (h : number_scan json = some p) :
    ∃ tok, json = tok ++ p ∧ rfc_number tok := by
  rw [number_scan_stages] at h
  cases h1 : scan_int (if peek json = '-' then json.tail else json) with
  | none => rw [h1] at h; cases h
  | some r1 =>
    rw [h1, Option.some_bind] at h
    cases h2 : scan_frac r1 with
    | none => rw [h2] at h; cases h
    | some r2 =>
      rw [h2, Option.some_bind] at h
      obtain ⟨int, hint, hi⟩ := scan_int_sound _ _ h1
      obtain ⟨frac, hfrac, hf⟩ := scan_frac_sound _ _ h2
      obtain ⟨exp, hexp, he⟩ := scan_exp_sound _ _ h
      by_cases hm : peek json = '-'
      · rw [if_pos hm] at hint
        refine ⟨['-'] ++ (int ++ (frac ++ exp)), ?_, ['-'], int, frac, exp, rfl, Or.inr rfl,
          hi, hf, he⟩
        have hj := peek_eq_cons json '-' hm (by decide)
        rw [hj, hint, hfrac, hexp]
        simp
      · rw [if_neg hm] at hint
        refine ⟨[] ++ (int ++ (frac ++ exp)), ?_, [], int, frac, exp, rfl, Or.inl rfl,
          hi, hf, he⟩
        rw [hint, hfrac, hexp]
        simp

/-- The scan accepts a token of the grammar that is followed by a byte that
cannot continue it. -/
theorem number_scan_complete (tok rest : List Char) (h : rfc_number tok)
    (hr : continues_number (peek rest) = false) :
    number_scan (tok ++ rest) = some rest := by
  obtain ⟨sign, int, frac, exp, rfl, hsign, hi, hf, he⟩ := h
  unfold continues_number at hr
  simp only [Bool.or_eq_false_iff, decide_eq_false_iff_not] at hr
  obtain ⟨⟨⟨⟨⟨hr1, hr2⟩, hr3⟩, hr4⟩, _⟩, _⟩ := hr
  have hint_ne : int ≠ [] := by
    rcases hi with rfl | ⟨d, ds, rfl, _, _⟩ <;> simp
  have hint_peek : ∀ t, peek (int ++ t) ≠ '-' := by
    intro t
    rw [peek_append _ _ hint_ne]
    rcases hi with rfl | ⟨d, ds, rfl, hd, _⟩
    · decide
    · rw [peek_cons]
      intro e
      rw [e] at hd
      exact absurd hd.1 (by decide)
  -- the text after the exponent
  have he_dig : isdigit (peek (exp ++ rest)) = false := by
    rcases he with rfl | ⟨e, sg, es, rfl, hee, _, _⟩
    · exact hr1
    · rw [List.cons_append, peek_cons]
      rcases hee with rfl | rfl <;> decide
  have he_dot : frac = [] → peek (exp ++ rest) ≠ '.' := by
    intro _
    rcases he with rfl | ⟨e, sg, es, rfl, hee, _, _⟩
    · exact hr2
    · rw [List.cons_append, peek_cons]
      rcases hee with rfl | rfl <;> decide
  have hf_dig : isdigit (peek (frac ++ (exp ++ rest))) = false := by
    rcases hf with rfl | ⟨fs, rfl, _⟩
    · exact he_dig
    · rfl
  have hstages : ((scan_int (int ++ (frac ++ (exp ++ rest)))).bind scan_frac).bind scan_exp
      = some rest := by
    rw [scan_int_ok int _ hi hf_dig, Option.some_bind,
      scan_frac_ok frac _ hf he_dig he_dot, Option.some_bind,
      scan_exp_ok exp rest he hr1 (fun _ => ⟨hr3, hr4⟩)]
  rw [number_scan_stages]
  rcases hsign with rfl | rfl
  · simp only [List.nil_append, List.append_assoc]
    rw [if_neg (hint_peek _)]
    exact hstages
  · simp only [List.singleton_append, List.cons_append, List.append_assoc, peek_cons,
      List.tail_cons, if_true]
    exact hstages

/-- The decimal branch of `strtod` on the text `p` after a sign of `s`
bytes. -/
def strtod_decimal (neg : Bool) (s : Nat) (p : List Char) : Option Double × Nat :=
  let int := p.takeWhile isdigit
  let rest := p.drop int.length
  let frac := if peek rest = '.' then rest.tail.takeWhile isdigit else []
  if int.isEmpty ∧ frac.isEmpty then (some Double.zero, 0)
  else
    let dot : Nat := if peek rest = '.' then 1 else 0
    let q := rest.drop (dot + frac.length)
    let ex : Option (Int × Nat) :=
      if peek q = 'e' ∨ peek q = 'E' then exponent_part q.tail else none
    let e10 : Int := (ex.map (fun x => x.1)).getD 0 - (frac.length : Int)
    let d := digits_value 10 (int ++ frac)
    (round_binary64 neg (d * 10 ^ e10.toNat) (10 ^ (-e10).toNat),
      s + int.length + dot + frac.length + ((ex.map (fun x => x.2 + 1)).getD 0))

theorem strtod_eq_decimal (nptr : List Char)
    (h : ¬ (peek (nptr.drop (if peek nptr = '-' ∨ peek nptr = '+' then 1 else 0)) = '0'
      ∧ (peek (nptr.drop (if peek nptr = '-' ∨ peek nptr = '+' then 1 else 0)).tail = 'x'
        ∨ peek (nptr.drop (if peek nptr = '-' ∨ peek nptr = '+' then 1 else 0)).tail = 'X'))) :
    strtod nptr
      = strtod_decimal (decide (peek nptr = '-'))
          (if peek nptr = '-' ∨ peek nptr = '+' then 1 else 0)
          (nptr.drop (if peek nptr = '-' ∨ peek nptr = '+' then 1 else 0)) := by
  unfold strtod
  simp only [decide_eq_true_eq]
  rw [if_neg (fun hc => h ⟨hc.1, hc.2.1⟩)]
  rfl

theorem exponent_part_ok (sg es rest : List Char) (hsg : sg = [] ∨ sg = ['+'] ∨ sg = ['-'])
    (hes : digit_run es) (hr : isdigit (peek rest) = false) :
    exponent_part (sg ++ (es ++ rest))
      = some (if sg = ['-'] then -(digits_value 10 es : Int) else (digits_value 10 es : Int),
          sg.length + es.length) := by
  have hpk := digit_run_peek es rest hes
  have htake := (takeWhile_append_stop isdigit es rest hes.2 (Or.inr hr)).1
  have hne : es ≠ [] := hes.1
  have hemp : es.isEmpty = false := by
    cases es with
    | nil => exact absurd rfl hne
    | cons c t => rfl
  have hnd : ∀ c, isdigit c = true → c ≠ '+' ∧ c ≠ '-' := by
    intro c hc
    rw [isdigit_iff] at hc
    constructor <;> intro h <;> rw [h] at hc <;> exact absurd hc (by decide)
  unfold exponent_part
  rcases hsg with rfl | rfl | rfl
  · have h1 := hnd _ hpk
    simp only [List.nil_append, h1.1, h1.2, or_self, if_false, htake, hemp,
      Bool.false_eq_true, List.length_nil, Nat.zero_add,
      show ¬ (([] : List Char) = ['-']) by simp]
  · simp only [List.singleton_append, peek_cons, true_or, if_true, List.tail_cons, htake, hemp,
      Bool.false_eq_true, if_false, List.length_singleton,
      show ¬ ('+' = '-') by decide, show ¬ (['+'] = ['-']) by decide]
  · simp only [List.singleton_append, peek_cons, or_true, if_true, List.tail_cons, htake, hemp,
      Bool.false_eq_true, if_false, List.length_singleton]

/-- The value the decimal branch computes for the parts of a token. -/
def token_value (neg : Bool) (int frac exp : List Char) : Option Double :=
  let fs := frac.tail
  let ev : Int := ((exponent_part exp.tail).map (fun x => x.1)).getD 0
  let e10 : Int := ev - (fs.length : Int)
  round_binary64 neg (digits_value 10 (int ++ fs) * 10 ^ e10.toNat) (10 ^ (-e10).toNat)

theorem int_part_digits (int : List Char) (h : int_part int) :
    int ≠ [] ∧ ∀ c ∈ int, isdigit c = true := by
  rcases h with rfl | ⟨d, ds, rfl, hd, hds⟩
  · exact ⟨by simp, by decide⟩
  · refine ⟨by simp, ?_⟩
    intro c hc
    rcases List.mem_cons.mp hc with rfl | hc
    · rw [isdigit_iff]
      have := (char_le_iff _ _).mp hd.1
      have := (char_le_iff _ _).mp hd.2
      have e1 : '1'.toNat = 49 := rfl
      have e9 : '9'.toNat = 57 := rfl
      omega
    · exact hds c hc

theorem strtod_decimal_token (neg : Bool) (s : Nat) (int frac exp rest : List Char)
    (hi : int_part int) (hf : frac_part frac) (he : exp_part exp)
    (hr : continues_number (peek rest) = false) :
    strtod_decimal neg s (int ++ (frac ++ (exp ++ rest)))
      = (token_value neg int frac exp, s + int.length + frac.length + exp.length) := by
  unfold continues_number at hr
  simp only [Bool.or_eq_false_iff, decide_eq_false_iff_not] at hr
  obtain ⟨⟨⟨⟨⟨hr1, hr2⟩, hr3⟩, hr4⟩, _⟩, _⟩ := hr
  obtain ⟨hint_ne, hint_dig⟩ := int_part_digits int hi
  have he_dig : isdigit (peek (exp ++ rest)) = false := by
    rcases he with rfl | ⟨e, sg, es, rfl, hee, _, _⟩
    · exact hr1
    · rw [List.cons_append, peek_cons]
      rcases hee with rfl | rfl <;> decide
  have he_dot : frac = [] → peek (exp ++ rest) ≠ '.' := by
    intro _
    rcases he with rfl | ⟨e, sg, es, rfl, hee, _, _⟩
    · exact hr2
    · rw [List.cons_append, peek_cons]
      rcases hee with rfl | rfl <;> decide
  have hf_dig : isdigit (peek (frac ++ (exp ++ rest))) = false := by
    rcases hf with rfl | ⟨fs, rfl, _⟩
    · exact he_dig
    · rfl
  have htake := (takeWhile_append_stop isdigit int _ hint_dig (Or.inr hf_dig)).1
  have hdrop : (int ++ (frac ++ (exp ++ rest))).drop int.length = frac ++ (exp ++ rest) :=
    List.drop_left _ _
  have hemp : int.isEmpty = false := by
    cases int with
    | nil => exact absurd rfl hint_ne
    | cons c t => rfl
  -- the fraction
  have hfrac : (if peek (frac ++ (exp ++ rest)) = '.'
      then (frac ++ (exp ++ rest)).tail.takeWhile isdigit else []) = frac.tail := by
    rcases hf with rfl | ⟨fs, rfl, hfs⟩
    · rw [List.nil_append, if_neg (he_dot rfl)]
      rfl
    · rw [List.cons_append, peek_cons, if_pos rfl, List.tail_cons, List.tail_cons,
        (takeWhile_append_stop isdigit fs _ hfs.2 (Or.inr he_dig)).1]
  have hdot : (if peek (frac ++ (exp ++ rest)) = '.' then 1 else 0) + frac.tail.length
      = frac.length := by
    rcases hf with rfl | ⟨fs, rfl, hfs⟩
    · rw [List.nil_append, if_neg (he_dot rfl)]
      rfl
    · rw [List.cons_append, peek_cons, if_pos rfl, List.tail_cons, List.length_cons]
      omega
  have hq : (frac ++ (exp ++ rest)).drop
      ((if peek (frac ++ (exp ++ rest)) = '.' then 1 else 0) + frac.tail.length)
      = exp ++ rest := by
    rw [hdot]
    exact List.drop_left _ _
  -- the exponent
  have hex : (if peek (exp ++ rest) = 'e' ∨ peek (exp ++ rest) = 'E'
      then exponent_part (exp ++ rest).tail else none)
      = (exponent_part exp.tail).map (fun x => x) ∧
      (((exponent_part exp.tail).map (fun x => x.2 + 1)).getD 0) = exp.length := by
    rcases he with rfl | ⟨e, sg, es, rfl, hee, hsg, hes⟩
    · rw [List.nil_append, if_neg (by
        rintro (h | h)
        · exact hr3 h
        · exact hr4 h)]
      exact ⟨rfl, rfl⟩
    · have h1 := exponent_part_ok sg es rest hsg hes hr1
      have h2 := exponent_part_ok sg es [] hsg hes (by decide)
      rw [List.append_nil] at h2
      rw [List.cons_append, peek_cons, if_pos hee, List.tail_cons, List.tail_cons,
        List.append_assoc, h1, h2]
      refine ⟨rfl, ?_⟩
      simp only [Option.map_some', Option.getD_some, List.length_cons, List.length_append]
  unfold strtod_decimal token_value
  simp only [htake, hdrop, hfrac, hemp, Bool.false_eq_true, false_and, if_false, hq, hex.1,
    Option.map_map, Option.map_id']
  rw [hex.2]
  congr 1
  omega

theorem token_tail_peek (frac exp rest : List Char) (hf : frac_part frac) (he : exp_part exp)
    (hr : continues_number (peek rest) = false) :
    peek (frac ++ (exp ++ rest)) ≠ 'x' ∧ peek (frac ++ (exp ++ rest)) ≠ 'X' := by
  unfold continues_number at hr
  simp only [Bool.or_eq_false_iff, decide_eq_false_iff_not] at hr
  rcases hf with rfl | ⟨fs, rfl, _⟩
  · rcases he with rfl | ⟨e, sg, es, rfl, hee, _, _⟩
    · exact ⟨hr.1.2, hr.2⟩
    · rw [List.nil_append, List.cons_append, peek_cons]
      rcases hee with rfl | rfl <;> exact ⟨by decide, by decide⟩
  · rw [List.cons_append, peek_cons]
    exact ⟨by decide, by decide⟩

/-- `strtod` on a token of the grammar that is followed by a byte that
cannot continue it: the value of the token, and the whole token is
consumed. -/
theorem strtod_token (sign int frac exp rest : List Char)
    (hsign : sign = [] ∨ sign = ['-']) (hi : int_part int) (hf : frac_part frac)
    (he : exp_part exp) (hr : continues_number (peek rest) = false) :
    strtod (sign ++ (int ++ (frac ++ (exp ++ rest))))
      = (token_value (decide (sign = ['-'])) int frac exp,
          sign.length + int.length + frac.length + exp.length) := by
  obtain ⟨hint_ne, hint_dig⟩ := int_part_digits int hi
  have htail := token_tail_peek frac exp rest hf he hr
  have hpk : ∀ t, isdigit (peek (int ++ t)) = true := by
    intro t
    cases int with
    | nil => exact absurd rfl hint_ne
    | cons c l => exact hint_dig c (List.mem_cons_self _ _)
  have hnosign : ∀ t, ¬ (peek (int ++ t) = '-' ∨ peek (int ++ t) = '+') := by
    intro t h
    have := hpk t
    rcases h with h | h <;> rw [h] at this <;> exact absurd this (by decide)
  have hnohex : ¬ (peek (int ++ (frac ++ (exp ++ rest))) = '0'
      ∧ (peek (int ++ (frac ++ (exp ++ rest))).tail = 'x'
        ∨ peek (int ++ (frac ++ (exp ++ rest))).tail = 'X')) := by
    rcases hi with rfl | ⟨d, ds, rfl, hd, _⟩
    · rintro ⟨_, h | h⟩
      · exact htail.1 h
      · exact htail.2 h
    · rintro ⟨h, _⟩
      rw [List.cons_append, peek_cons] at h
      rw [h] at hd
      exact absurd hd.1 (by decide)
  rcases hsign with rfl | rfl
  · have hs : (if peek ([] ++ (int ++ (frac ++ (exp ++ rest)))) = '-'
        ∨ peek ([] ++ (int ++ (frac ++ (exp ++ rest)))) = '+' then 1 else 0) = 0 := by
      rw [List.nil_append, if_neg (hnosign _)]
    rw [strtod_eq_decimal _ (by rw [hs]; exact hnohex), hs]
    have hneg : decide (peek ([] ++ (int ++ (frac ++ (exp ++ rest)))) = '-') = false := by
      rw [List.nil_append, decide_eq_false_iff_not]
      exact fun h => hnosign _ (Or.inl h)
    rw [hneg, List.drop_zero, List.nil_append,
      strtod_decimal_token false 0 int frac exp rest hi hf he hr]
    simp
  · have hs : (if peek (['-'] ++ (int ++ (frac ++ (exp ++ rest)))) = '-'
        ∨ peek (['-'] ++ (int ++ (frac ++ (exp ++ rest)))) = '+' then 1 else 0) = 1 := by
      rw [List.singleton_append, peek_cons, if_pos (Or.inl rfl)]
    rw [strtod_eq_decimal _ (by rw [hs]; exact hnohex), hs]
    have hneg : decide (peek (['-'] ++ (int ++ (frac ++ (exp ++ rest)))) = '-') = true := by
      rw [List.singleton_append, peek_cons]
      rfl
    rw [hneg]
    show strtod_decimal true 1 (int ++ (frac ++ (exp ++ rest))) = _
    rw [strtod_decimal_token true 1 int frac exp rest hi hf he hr]
    simp

/-- `ctz_parse_number` on a token of the grammar followed by a byte that
cannot continue it. -/
theorem parse_number_token (tok rest : List Char) (h : rfc_number tok)
    (hr : continues_number (peek rest) = false) :
    (strtod (tok ++ rest)).1 = (strtod tok).1
    ∧ (∀ d, (strtod tok).1 = some d →
        ctz_parse_number (tok ++ rest) = .ok (CTZ_JSON_NUMBER d, rest))
    ∧ ((strtod tok).1 = none → ctz_parse_number (tok ++ rest) = .error .null) := by
  have hscan := number_scan_complete tok rest h hr
  obtain ⟨sign, int, frac, exp, rfl, hsign, hi, hf, he⟩ := h
  have h1 := strtod_token sign int frac exp rest hsign hi hf he hr
  have h2 := strtod_token sign int frac exp [] hsign hi hf he (by decide)
  simp only [List.append_nil] at h2
  have h1b : strtod (sign ++ (int ++ (frac ++ exp)) ++ rest)
      = (token_value (decide (sign = ['-'])) int frac exp,
          sign.length + int.length + frac.length + exp.length) := by
    rw [← h1]
    simp only [List.append_assoc]
  refine ⟨by rw [h1b, h2], ?_, ?_⟩
  · intro d hd
    rw [h2] at hd
    simp only at hd
    unfold ctz_parse_number
    rw [hscan, h1b, hd]
    simp only [List.length_append]
    rw [if_neg (by omega)]
  · intro hd
    rw [h2] at hd
    simp only at hd
    unfold ctz_parse_number
    rw [hscan, h1b, hd]

theorem parse_number_sound (json : List Char) (v : ctz_json_value) (rest : List Char)
    (h : ctz_parse_number json = .ok (v, rest)) :
    ∃ tok d, json = tok ++ rest ∧ rfc_number tok ∧ v = CTZ_JSON_NUMBER d := by
  unfold ctz_parse_number at h
  cases hs : number_scan json with
  | none => rw [hs] at h; cases h
  | some p =>
    rw [hs] at h
    simp only at h
    obtain ⟨tok, htok, hrfc⟩ := number_scan_sound json p hs
    cases hv : (strtod json).1 with
    | none =>
      have : strtod json = (none, (strtod json).2) := by rw [← hv]
      rw [this] at h
      cases h
    | some d =>
      have : strtod json = (some d, (strtod json).2) := by rw [← hv]
      rw [this] at h
      simp only at h
      split at h
      · cases h
      · simp only [Except.ok.injEq, Prod.mk.injEq] at h
        exact ⟨tok, d, by rw [← h.2]; exact htok, hrfc, h.1.symm⟩

/-- The spellings the number grammar excludes: a leading zero, a leading
plus, a bare minus, a missing digit around the point, an exponent with no
digit, hexadecimal, infinities and NaN, and a value beyond the finite
range. -/
def rejected_number_spellings : List String :=
  ["01", "00", "-01", "+1", "-", ".5", "-.5", "1.", "1.e5", "1e", "1e+", "1E-", "0x10", "0X1p3",
   "Infinity", "-Infinity", "inf", "NaN", "nan", "1e400", "-1e400"]

/-- Claim C29: `ctz_parse_number` accepts exactly the tokens of the RFC 8259
number grammar whose value is finite. Whenever it accepts, the consumed
text is a token of the grammar, the value is a number node and the cursor
is right after the token; a token of the grammar followed by a byte that
cannot continue a number is accepted with the cursor right after it when
its value is finite and rejected when it is beyond the finite range; and
the excluded spellings are rejected, by `ctz_parse_number` and by
`ctz_json_parse`. -/
theorem number_grammar_accepted :
    (∀ json v rest, ctz_parse_number json = .ok (v, rest) →
      ∃ tok d, json = tok ++ rest ∧ rfc_number tok ∧ v = CTZ_JSON_NUMBER d)
    ∧ (∀ tok rest, rfc_number tok → continues_number (peek rest) = false →
        (∀ d, (strtod tok).1 = some d →
          ctz_parse_number (tok ++ rest) = .ok (CTZ_JSON_NUMBER d, rest))
        ∧ ((strtod tok).1 = none → ctz_parse_number (tok ++ rest) = .error .null))
    ∧ (∀ s ∈ rejected_number_spellings,
        ctz_parse_number s.toList = .error .null ∧ ctz_json_parse s.toList = .error .null)
    ∧ (ctz_parse_number "-12.5e+3,".toList).map Prod.snd = .ok ",".toList := by
  refine ⟨parse_number_sound, ?_, by decide!, by decide!⟩
  intro tok rest h hr
  exact (parse_number_token tok rest h hr).2

/-! ## Text after a value (C28) -/

/-- The two loops of `ctz_parse_string_raw` stop at the closing quote: a
first loop that succeeds on a text ends at a quote inside the text, and it
succeeds with the same count, with any larger bound on its steps and with
any text appended after it; the second loop then succeeds as well, stops
at the same quote and writes as many bytes as the first loop counted. -/
theorem string_body_extend : ∀ (f : Nat) (p : List Char) (h n : Nat) (q : List Char),
    string_pass1 f p h = .ok (n, q) →
    ∃ bytes q' pre, q = '"' :: q' ∧ p = pre ++ q ∧ n = h + bytes.length ∧ ∀ g s, f ≤ g →
      string_pass1 g (p ++ s) h = .ok (n, q ++ s)
      ∧ string_pass2 g (p ++ s) = .ok (bytes, q ++ s) := by
  intro f
  induction f with
  | zero =>
    intro p h n q H
    rw [string_pass1] at H
    cases H
  | succ f ih =>
    intro p h n q H
    have hg : ∀ g, f + 1 ≤ g → ∃ g', g = g' + 1 ∧ f ≤ g' :=
      fun g hle => ⟨g - 1, by omega, by omega⟩
    cases p with
    | nil =>
      rw [pass1_fail_end _ _ (by omega)] at H
      cases H
    | cons c t =>
      by_cases hq : c = '"'
      · subst hq
        rw [pass1_quote] at H
        simp only [Except.ok.injEq, Prod.mk.injEq] at H
        refine ⟨[], t, [], H.2.symm, by rw [← H.2]; rfl, H.1.symm, ?_⟩
        intro g s hle
        obtain ⟨g', rfl, _⟩ := hg g hle
        rw [← H.1, ← H.2, List.cons_append, pass1_quote, pass2_quote]
        exact ⟨rfl, rfl⟩
      · by_cases hc : c.toNat < 0x20
        · rw [pass1_fail_control _ _ _ _ (by omega) hc] at H
          cases H
        · by_cases hb : c = '\\'
          · subst hb
            cases t with
            | nil =>
              rw [pass1_fail_escape_end _ _ (by omega)] at H
              cases H
            | cons e t' =>
              by_cases he : is_simple_escape e = true
              · rw [pass1_simple f h e t' he] at H
                obtain ⟨bytes, q', pre, hq', hpre, hn, hext⟩ := ih t' (h + 1) n q H
                refine ⟨unescape e :: bytes, q', '\\' :: e :: pre, hq', by rw [hpre]; rfl,
                  by rw [hn, List.length_cons]; omega, ?_⟩
                intro g s hle
                obtain ⟨g', rfl, hle'⟩ := hg g hle
                obtain ⟨x1, x2⟩ := hext g' s hle'
                rw [List.cons_append, List.cons_append, pass1_simple g' h e _ he,
                  pass2_simple g' e _ he, x1, x2]
                exact ⟨rfl, rfl⟩
              · by_cases hu : e = 'u'
                · subst hu
                  cases hx : ctz_parse_hex4 t' with
                  | none =>
                    rw [pass1_fail_hex _ _ _ (by omega) hx] at H
                    cases H
                  | some r =>
                    obtain ⟨u, t2⟩ := r
                    obtain ⟨a, b, c, d, rfl, ha, hb, hc, hd, rfl⟩ := parse_hex4_some _ _ _ hx
                    have hlt := hex4_value_lt a b c d ha hb hc hd
                    by_cases hs : 0xD800 ≤ hex4_value a b c d ∧ hex4_value a b c d ≤ 0xDBFF
                    · by_cases hlow : low_surrogate_follows t2
                      · obtain ⟨e2, f2, g2, h2, rest, rfl, he2, hf2, hg2, hh2, hl1, hl2⟩ := hlow
                        have hx2 := parse_hex4_ok e2 f2 g2 h2 rest he2 hf2 hg2 hh2
                        rw [pass1_pair f h _ _ _ _ hx hs rest hx2 ⟨hl1, hl2⟩] at H
                        obtain ⟨bytes, q', pre, hq', hpre, hn, hext⟩ := ih rest _ n q H
                        have hcount : n = h + (utf8_bytes (surrogate_code_point
                            (hex4_value a b c d) (hex4_value e2 f2 g2 h2)) ++ bytes).length := by
                          rw [hn, List.length_append, utf8_bytes_length,
                            (surrogate_pair_eq _ _ hs ⟨hl1, hl2⟩).1]
                          omega
                        refine ⟨utf8_bytes (surrogate_code_point (hex4_value a b c d)
                          (hex4_value e2 f2 g2 h2)) ++ bytes, q',
                          '\\' :: 'u' :: a :: b :: c :: d :: '\\' :: 'u' :: e2 :: f2 :: g2 :: h2 :: pre,
                          hq', by rw [hpre]; rfl, hcount, ?_⟩
                        intro g s hle
                        obtain ⟨g', rfl, hle'⟩ := hg g hle
                        obtain ⟨x1, x2⟩ := hext g' s hle'
                        have hxs := parse_hex4_ok a b c d
                          ('\\' :: 'u' :: e2 :: f2 :: g2 :: h2 :: (rest ++ s)) ha hb hc hd
                        have hx2s := parse_hex4_ok e2 f2 g2 h2 (rest ++ s) he2 hf2 hg2 hh2
                        simp only [List.cons_append]
                        rw [pass1_pair g' h _ _ _ _ hxs hs (rest ++ s) hx2s ⟨hl1, hl2⟩,
                          pass2_pair g' _ _ _ _ hxs hs (rest ++ s) hx2s ⟨hl1, hl2⟩, x1, x2]
                        exact ⟨rfl, rfl⟩
                      · rw [pass1_fail_surrogate _ _ _ _ _ (by omega) hx hs hlow] at H
                        cases H
                    · rw [pass1_unicode f h _ _ _ hx hs] at H
                      obtain ⟨bytes, q', pre, hq', hpre, hn, hext⟩ := ih t2 _ n q H
                      refine ⟨utf8_bytes (hex4_value a b c d) ++ bytes, q',
                        '\\' :: 'u' :: a :: b :: c :: d :: pre, hq', by rw [hpre]; rfl,
                        by rw [hn, List.length_append, utf8_bytes_length]; omega, ?_⟩
                      intro g s hle
                      obtain ⟨g', rfl, hle'⟩ := hg g hle
                      obtain ⟨x1, x2⟩ := hext g' s hle'
                      have hxs := parse_hex4_ok a b c d (t2 ++ s) ha hb hc hd
                      simp only [List.cons_append]
                      rw [pass1_unicode g' h _ _ _ hxs hs,
                        pass2_unicode g' _ _ _ hxs hs (by omega), x1, x2]
                      exact ⟨rfl, rfl⟩
                · rw [pass1_fail_escape _ _ _ _ (by omega) (by simpa using he) hu] at H
                  cases H
          · rw [pass1_plain f h c t (by omega) hq hb] at H
            obtain ⟨bytes, q', pre, hq', hpre, hn, hext⟩ := ih t (h + 1) n q H
            refine ⟨c :: bytes, q', c :: pre, hq', by rw [hpre]; rfl,
              by rw [hn, List.length_cons]; omega, ?_⟩
            intro g s hle
            obtain ⟨g', rfl, hle'⟩ := hg g hle
            obtain ⟨x1, x2⟩ := hext g' s hle'
            rw [List.cons_append, pass1_plain g' h c _ (by omega) hq hb,
              pass2_plain g' c _ hq hb, x1, x2]
            exact ⟨rfl, rfl⟩

theorem parse_string_raw_suffix (json : List Char) (r : List Char × Nat) (rest : List Char)
    (h : ctz_parse_string_raw json = .ok (r, rest)) : ∃ pre, json = pre ++ rest := by
  unfold ctz_parse_string_raw at h
  cases h1 : string_pass1 (json.length + 1) json 0 with
  | error e => rw [h1] at h; cases h
  | ok x =>
    obtain ⟨n, q⟩ := x
    obtain ⟨bytes, q', pre, rfl, hpre, _, hext⟩ := string_body_extend _ _ _ _ _ h1
    obtain ⟨a1, a2⟩ := hext (json.length + 1) [] (le_refl _)
    simp only [List.append_nil] at a1 a2
    rw [a1, a2] at h
    simp only [Except.ok.injEq, Prod.mk.injEq, List.tail_cons] at h
    refine ⟨pre ++ ['"'], ?_⟩
    rw [hpre, ← h.2, List.append_assoc]
    rfl

/-! ### The recursive routines, one call at a time -/

theorem parse_value_succ (f : Nat) (json : List Char) :
    ctz_parse_value (f + 1) json
      = (if peek (ctz_parse_whitespace json) = 'n' then
          ctz_parse_literal (ctz_parse_whitespace json) "null".toList CTZ_JSON_NULL
        else if peek (ctz_parse_whitespace json) = 't' then
          ctz_parse_literal (ctz_parse_whitespace json) "true".toList CTZ_JSON_TRUE
        else if peek (ctz_parse_whitespace json) = 'f' then
          ctz_parse_literal (ctz_parse_whitespace json) "false".toList CTZ_JSON_FALSE
        else if peek (ctz_parse_whitespace json) = '"' then
          ctz_parse_string (ctz_parse_whitespace json)
        else if peek (ctz_parse_whitespace json) = '[' then
          ctz_parse_array f (ctz_parse_whitespace json)
        else if peek (ctz_parse_whitespace json) = '{' then
          ctz_parse_object f (ctz_parse_whitespace json)
        else if peek (ctz_parse_whitespace json) = NUL then .error .null
        else ctz_parse_number (ctz_parse_whitespace json)) := by
  rw [ctz_parse_value]

theorem parse_array_succ (f : Nat) (json : List Char) (h : peek json = '[') :
    ctz_parse_array (f + 1) json
      = (if peek (ctz_parse_whitespace json.tail) = ']' then
          .ok (CTZ_JSON_ARRAY [], (ctz_parse_whitespace json.tail).tail)
        else ctz_parse_array_loop f (ctz_parse_whitespace json.tail) []) := by
  rw [ctz_parse_array]
  unfold CTZ_EXPECT
  rw [if_pos h]

theorem parse_array_not (f : Nat) (json : List Char) (h : peek json ≠ '[') :
    ctz_parse_array (f + 1) json = .error .assert_failed := by
  rw [ctz_parse_array]
  unfold CTZ_EXPECT
  rw [if_neg h]

theorem parse_array_loop_ok (f : Nat) (json : List Char) (e : List ctz_json_value)
    (el : ctz_json_value) (j : List Char) (h : ctz_parse_value f json = .ok (el, j)) :
    ctz_parse_array_loop (f + 1) json e
      = (if peek (ctz_parse_whitespace j) = ',' then
          ctz_parse_array_loop f (ctz_parse_whitespace (ctz_parse_whitespace j).tail) (e ++ [el])
        else if peek (ctz_parse_whitespace j) = ']' then
          .ok (CTZ_JSON_ARRAY (e ++ [el]), (ctz_parse_whitespace j).tail)
        else .error .null) := by
  rw [ctz_parse_array_loop, h]

theorem parse_array_loop_error (f : Nat) (json : List Char) (e : List ctz_json_value)
    (err : ctz_stop) (h : ctz_parse_value f json = .error err) :
    ctz_parse_array_loop (f + 1) json e = .error err := by
  rw [ctz_parse_array_loop, h]

theorem parse_object_succ (f : Nat) (json : List Char) (h : peek json = '{') :
    ctz_parse_object (f + 1) json
      = (if peek (ctz_parse_whitespace json.tail) = '}' then
          .ok (CTZ_JSON_OBJECT [], (ctz_parse_whitespace json.tail).tail)
        else ctz_parse_object_loop f (ctz_parse_whitespace json.tail) []) := by
  rw [ctz_parse_object]
  unfold CTZ_EXPECT
  rw [if_pos h]

theorem parse_object_not (f : Nat) (json : List Char) (h : peek json ≠ '{') :
    ctz_parse_object (f + 1) json = .error .assert_failed := by
  rw [ctz_parse_object]
  unfold CTZ_EXPECT
  rw [if_neg h]

theorem parse_object_loop_not (f : Nat) (json : List Char) (m : List ctz_json_member)
    (h : peek json ≠ '"') : ctz_parse_object_loop (f + 1) json m = .error .null := by
  rw [ctz_parse_object_loop, if_pos h]

theorem parse_object_loop_key_error (f : Nat) (json : List Char) (m : List ctz_json_member)
    (h : peek json = '"') (err : ctz_stop) (hk : ctz_parse_string_raw json.tail = .error err) :
    ctz_parse_object_loop (f + 1) json m = .error err := by
  rw [ctz_parse_object_loop, if_neg (not_not.mpr h)]
  unfold CTZ_EXPECT
  rw [if_pos h]
  simp only [hk]

theorem parse_object_loop_no_colon (f : Nat) (json : List Char) (m : List ctz_json_member)
    (h : peek json = '"') (k : List Char) (klen : Nat) (j : List Char)
    (hk : ctz_parse_string_raw json.tail = .ok ((k, klen), j))
    (hc : peek (ctz_parse_whitespace j) ≠ ':') :
    ctz_parse_object_loop (f + 1) json m = .error .null := by
  rw [ctz_parse_object_loop, if_neg (not_not.mpr h)]
  unfold CTZ_EXPECT
  rw [if_pos h]
  simp only [hk]
  rw [if_pos hc]

theorem parse_object_loop_value_error (f : Nat) (json : List Char) (m : List ctz_json_member)
    (h : peek json = '"') (k : List Char) (klen : Nat) (j : List Char)
    (hk : ctz_parse_string_raw json.tail = .ok ((k, klen), j))
    (hc : peek (ctz_parse_whitespace j) = ':') (err : ctz_stop)
    (hv : ctz_parse_value f (ctz_parse_whitespace (ctz_parse_whitespace j).tail) = .error err) :
    ctz_parse_object_loop (f + 1) json m = .error err := by
  rw [ctz_parse_object_loop, if_neg (not_not.mpr h)]
  unfold CTZ_EXPECT
  rw [if_pos h]
  simp only [hk]
  rw [if_neg (not_not.mpr hc), hv]

theorem parse_object_loop_ok (f : Nat) (json : List Char) (m : List ctz_json_member)
    (h : peek json = '"') (k : List Char) (klen : Nat) (j : List Char)
    (hk : ctz_parse_string_raw json.tail = .ok ((k, klen), j))
    (hc : peek (ctz_parse_whitespace j) = ':') (v : ctz_json_value) (j2 : List Char)
    (hv : ctz_parse_value f (ctz_parse_whitespace (ctz_parse_whitespace j).tail) = .ok (v, j2)) :
    ctz_parse_object_loop (f + 1) json m
      = (if peek (ctz_parse_whitespace j2) = ',' then
          ctz_parse_object_loop f (ctz_parse_whitespace (ctz_parse_whitespace j2).tail)
            (m ++ [ctz_json_member_of.mk k klen v])
        else if peek (ctz_parse_whitespace j2) = '}' then
          .ok (CTZ_JSON_OBJECT (m ++ [ctz_json_member_of.mk k klen v]),
            (ctz_parse_whitespace j2).tail)
        else .error .null) := by
  rw [ctz_parse_object_loop, if_neg (not_not.mpr h)]
  unfold CTZ_EXPECT
  rw [if_pos h]
  simp only [hk]
  rw [if_neg (not_not.mpr hc), hv]

/-! ### What the routines look at -/

theorem peek_ne_nil (p : List Char) (h : peek p ≠ NUL) : p ≠ [] := by
  intro e
  rw [e] at h
  exact h rfl

theorem whitespace_head (a : List Char) :
    is_space (peek a) = true ∨ ctz_parse_whitespace a = a := by
  cases a with
  | nil => exact Or.inr rfl
  | cons c t =>
    by_cases hc : is_space c = true
    · exact Or.inl hc
    · right
      unfold ctz_parse_whitespace
      rw [List.dropWhile_cons_of_neg hc]

theorem whitespace_all (w : List Char) (t : List Char) (h : ∀ c ∈ w, is_space c = true) :
    ctz_parse_whitespace (w ++ t) = ctz_parse_whitespace t := by
  unfold ctz_parse_whitespace
  induction w with
  | nil => rfl
  | cons c l ih =>
    rw [List.cons_append, List.dropWhile_cons_of_pos (h c (List.mem_cons_self _ _))]
    exact ih (fun x hx => h x (List.mem_cons_of_mem _ hx))

theorem strncmp_literal (lit : List Char) (hlit : NUL ∉ lit) : ∀ json : List Char,
    strncmp_eq json lit lit.length = true ↔ ∃ r, json = lit ++ r := by
  induction lit with
  | nil =>
    intro json
    exact ⟨fun _ => ⟨json, rfl⟩, fun _ => rfl⟩
  | cons c l ih =>
    intro json
    have hc : c ≠ NUL := fun e => hlit (by rw [e]; exact List.mem_cons_self _ _)
    have hl : NUL ∉ l := fun e => hlit (List.mem_cons_of_mem _ e)
    rw [List.length_cons, strncmp_eq_succ]
    cases json with
    | nil =>
      simp only [List.headD_nil, List.headD_cons]
      rw [if_pos (fun e => hc e.symm)]
      constructor
      · intro h; cases h
      · rintro ⟨r, hr⟩; cases hr
    | cons d t =>
      simp only [List.headD_cons, List.tail_cons]
      by_cases hd : d = c
      · subst hd
        rw [if_neg (not_not.mpr rfl), if_neg hc, ih hl t]
        constructor
        · rintro ⟨r, rfl⟩; exact ⟨r, rfl⟩
        · rintro ⟨r, hr⟩
          rw [List.cons_append, List.cons.injEq] at hr
          exact ⟨r, hr.2⟩
      · rw [if_pos hd]
        constructor
        · intro h; cases h
        · rintro ⟨r, hr⟩
          rw [List.cons_append, List.cons.injEq] at hr
          exact absurd hr.1 hd

theorem strlen_of_nul_free (lit : List Char) (hlit : NUL ∉ lit) : strlen lit = lit.length := by
  unfold strlen cstr
  rw [List.takeWhile_eq_self_iff.mpr]
  intro c hc
  simp only [decide_eq_true_eq]
  intro e
  exact hlit (e ▸ hc)

theorem parse_literal_iff (lit : List Char) (hlit : NUL ∉ lit) (json : List Char)
    (value v : ctz_json_value) (r : List Char) :
    ctz_parse_literal json lit value = .ok (v, r) ↔ json = lit ++ r ∧ v = value := by
  unfold ctz_parse_literal
  rw [strlen_of_nul_free lit hlit]
  by_cases h : strncmp_eq json lit lit.length = true
  · rw [if_pos h]
    obtain ⟨r', rfl⟩ := (strncmp_literal lit hlit json).mp h
    simp only [List.drop_left, Except.ok.injEq, Prod.mk.injEq, List.append_cancel_left_eq]
    constructor
    · rintro ⟨h1, h2⟩; exact ⟨h2, h1.symm⟩
    · rintro ⟨h1, h2⟩; exact ⟨h2.symm, h1⟩
  · rw [if_neg h]
    constructor
    · intro e; cases e
    · rintro ⟨h1, _⟩
      exact absurd ((strncmp_literal lit hlit json).mpr ⟨r, h1⟩) h

theorem parse_object_loop_ok_peek (f : Nat) (a : List Char) (m : List ctz_json_member)
    (v : ctz_json_value) (r : List Char) (h : ctz_parse_object_loop f a m = .ok (v, r)) :
    peek a = '"' := by
  cases f with
  | zero =>
    rw [ctz_parse_object_loop] at h
    cases h
  | succ f =>
    by_contra hq
    rw [parse_object_loop_not f a m hq] at h
    cases h

theorem whitespace_suffix (a : List Char) : ctz_parse_whitespace a <:+ a :=
  List.dropWhile_suffix _

theorem parse_string_suffix (json : List Char) (v : ctz_json_value) (rest : List Char)
    (h : ctz_parse_string json = .ok (v, rest)) : rest <:+ json := by
  unfold ctz_parse_string CTZ_EXPECT at h
  by_cases hq : peek json = '"'
  · rw [if_pos hq] at h
    simp only at h
    cases hr : ctz_parse_string_raw json.tail with
    | error e => rw [hr] at h; cases h
    | ok x =>
      obtain ⟨⟨str, len⟩, rest'⟩ := x
      rw [hr] at h
      simp only [Except.ok.injEq, Prod.mk.injEq] at h
      obtain ⟨pre, hpre⟩ := parse_string_raw_suffix _ _ _ hr
      rw [← h.2]
      exact List.IsSuffix.trans ⟨pre, hpre.symm⟩ (List.tail_suffix _)
  · rw [if_neg hq] at h
    cases h

def value_suffix (f : Nat) : Prop :=
  ∀ a v r, ctz_parse_value f a = .ok (v, r) → r <:+ a

def array_suffix (f : Nat) : Prop :=
  ∀ a v r, ctz_parse_array f a = .ok (v, r) → r <:+ a

def array_loop_suffix (f : Nat) : Prop :=
  ∀ a e v r, ctz_parse_array_loop f a e = .ok (v, r) → r <:+ a

def object_suffix (f : Nat) : Prop :=
  ∀ a v r, ctz_parse_object f a = .ok (v, r) → r <:+ a

def object_loop_suffix (f : Nat) : Prop :=
  ∀ a m v r, ctz_parse_object_loop f a m = .ok (v, r) → r <:+ a

theorem value_suffix_succ (f : Nat) (ha : array_suffix f) (ho : object_suffix f) :
    value_suffix (f + 1) := by
  intro a v r H
  rw [parse_value_succ] at H
  refine List.IsSuffix.trans ?_ (whitespace_suffix a)
  generalize ctz_parse_whitespace a = j at H ⊢
  by_cases h1 : peek j = 'n'
  · rw [if_pos h1] at H
    exact ⟨_, ((parse_literal_iff _ (by decide) _ _ _ _).mp H).1.symm⟩
  rw [if_neg h1] at H
  by_cases h2 : peek j = 't'
  · rw [if_pos h2] at H
    exact ⟨_, ((parse_literal_iff _ (by decide) _ _ _ _).mp H).1.symm⟩
  rw [if_neg h2] at H
  by_cases h3 : peek j = 'f'
  · rw [if_pos h3] at H
    exact ⟨_, ((parse_literal_iff _ (by decide) _ _ _ _).mp H).1.symm⟩
  rw [if_neg h3] at H
  by_cases h4 : peek j = '"'
  · rw [if_pos h4] at H
    exact parse_string_suffix _ _ _ H
  rw [if_neg h4] at H
  by_cases h5 : peek j = '['
  · rw [if_pos h5] at H
    exact ha _ _ _ H
  rw [if_neg h5] at H
  by_cases h6 : peek j = '{'
  · rw [if_pos h6] at H
    exact ho _ _ _ H
  rw [if_neg h6] at H
  by_cases h7 : peek j = NUL
  · rw [if_pos h7] at H
    cases H
  rw [if_neg h7] at H
  obtain ⟨tok, d, h, _, _⟩ := parse_number_sound _ _ _ H
  exact ⟨tok, h.symm⟩

theorem array_suffix_succ (f : Nat) (hl : array_loop_suffix f) : array_suffix (f + 1) := by
  intro a v r H
  by_cases hb : peek a = '['
  · rw [parse_array_succ f a hb] at H
    have hs : ctz_parse_whitespace a.tail <:+ a :=
      List.IsSuffix.trans (whitespace_suffix _) (List.tail_suffix _)
    by_cases hc : peek (ctz_parse_whitespace a.tail) = ']'
    · rw [if_pos hc] at H
      simp only [Except.ok.injEq, Prod.mk.injEq] at H
      rw [← H.2]
      exact List.IsSuffix.trans (List.tail_suffix _) hs
    · rw [if_neg hc] at H
      exact List.IsSuffix.trans (hl _ _ _ _ H) hs
  · rw [parse_array_not f a hb] at H
    cases H

theorem array_loop_suffix_succ (f : Nat) (hv : value_suffix f) (hl : array_loop_suffix f) :
    array_loop_suffix (f + 1) := by
  intro a e v r H
  cases hel : ctz_parse_value f a with
  | error err =>
    rw [parse_array_loop_error f a e err hel] at H
    cases H
  | ok x =>
    obtain ⟨el, j⟩ := x
    rw [parse_array_loop_ok f a e el j hel] at H
    have hs : (ctz_parse_whitespace j).tail <:+ a :=
      List.IsSuffix.trans (List.tail_suffix _)
        (List.IsSuffix.trans (whitespace_suffix _) (hv _ _ _ hel))
    by_cases hc : peek (ctz_parse_whitespace j) = ','
    · rw [if_pos hc] at H
      exact List.IsSuffix.trans (hl _ _ _ _ H) (List.IsSuffix.trans (whitespace_suffix _) hs)
    · by_cases hd : peek (ctz_parse_whitespace j) = ']'
      · rw [if_neg hc, if_pos hd] at H
        simp only [Except.ok.injEq, Prod.mk.injEq] at H
        rw [← H.2]
        exact hs
      · rw [if_neg hc, if_neg hd] at H
        cases H

theorem object_suffix_succ (f : Nat) (hl : object_loop_suffix f) : object_suffix (f + 1) := by
  intro a v r H
  by_cases hb : peek a = '{'
  · rw [parse_object_succ f a hb] at H
    have hs : ctz_parse_whitespace a.tail <:+ a :=
      List.IsSuffix.trans (whitespace_suffix _) (List.tail_suffix _)
    by_cases hc : peek (ctz_parse_whitespace a.tail) = '}'
    · rw [if_pos hc] at H
      simp only [Except.ok.injEq, Prod.mk.injEq] at H
      rw [← H.2]
      exact List.IsSuffix.trans (List.tail_suffix _) hs
    · rw [if_neg hc] at H
      exact List.IsSuffix.trans (hl _ _ _ _ H) hs
  · rw [parse_object_not f a hb] at H
    cases H

theorem object_loop_suffix_succ (f : Nat) (hv : value_suffix f) (hl : object_loop_suffix f) :
    object_loop_suffix (f + 1) := by
  intro a m v r H
  have hq := parse_object_loop_ok_peek _ _ _ _ _ H
  cases hk : ctz_parse_string_raw a.tail with
  | error err =>
    rw [parse_object_loop_key_error f a m hq err hk] at H
    cases H
  | ok x =>
    obtain ⟨⟨k, klen⟩, j⟩ := x
    obtain ⟨pre, hpre⟩ := parse_string_raw_suffix _ _ _ hk
    have hj : j <:+ a := List.IsSuffix.trans ⟨pre, hpre.symm⟩ (List.tail_suffix _)
    by_cases hc : peek (ctz_parse_whitespace j) = ':'
    · cases hval : ctz_parse_value f (ctz_parse_whitespace (ctz_parse_whitespace j).tail) with
      | error err =>
        rw [parse_object_loop_value_error f a m hq k klen j hk hc err hval] at H
        cases H
      | ok y =>
        obtain ⟨el, j2⟩ := y
        rw [parse_object_loop_ok f a m hq k klen j hk hc el j2 hval] at H
        have hj2 : j2 <:+ a :=
          List.IsSuffix.trans (hv _ _ _ hval)
            (List.IsSuffix.trans (whitespace_suffix _)
              (List.IsSuffix.trans (List.tail_suffix _)
                (List.IsSuffix.trans (whitespace_suffix _) hj)))
        have hs : (ctz_parse_whitespace j2).tail <:+ a :=
          List.IsSuffix.trans (List.tail_suffix _)
            (List.IsSuffix.trans (whitespace_suffix _) hj2)
        by_cases hd : peek (ctz_parse_whitespace j2) = ','
        · rw [if_pos hd] at H
          exact List.IsSuffix.trans (hl _ _ _ _ H)
            (List.IsSuffix.trans (whitespace_suffix _) hs)
        · by_cases hb : peek (ctz_parse_whitespace j2) = '}'
          · rw [if_neg hd, if_pos hb] at H
            simp only [Except.ok.injEq, Prod.mk.injEq] at H
            rw [← H.2]
            exact hs
          · rw [if_neg hd, if_neg hb] at H
            cases H
    · rw [parse_object_loop_no_colon f a m hq k klen j hk hc] at H
      cases H

/-- The cursor a recursive routine returns points into the text it was
given. -/
theorem parse_suffix (f : Nat) :
    value_suffix f ∧ array_suffix f ∧ array_loop_suffix f ∧ object_suffix f
      ∧ object_loop_suffix f := by
  induction f with
  | zero =>
    refine ⟨?_, ?_, ?_, ?_, ?_⟩
    · intro a v r H
      rw [ctz_parse_value] at H
      cases H
    · intro a v r H
      rw [ctz_parse_array] at H
      cases H
    · intro a e v r H
      rw [ctz_parse_array_loop] at H
      cases H
    · intro a v r H
      rw [ctz_parse_object] at H
      cases H
    · intro a m v r H
      rw [ctz_parse_object_loop] at H
      cases H
  | succ f ih =>
    obtain ⟨hv, ha, hal, ho, hol⟩ := ih
    exact ⟨value_suffix_succ f ha ho, array_suffix_succ f hal,
      array_loop_suffix_succ f hv hal, object_suffix_succ f hol,
      object_loop_suffix_succ f hv hol⟩

/-- What `ctz_json_parse` does with the result of `ctz_parse_value`. -/
theorem json_parse_of_value (json : List Char) (v : ctz_json_value) (r : List Char)
    (h : ctz_parse_value (3 * json.length + 3) json = .ok (v, r)) :
    ctz_json_parse json
      = if peek (ctz_parse_whitespace r) ≠ NUL then .error .null else .ok v := by
  unfold ctz_json_parse
  rw [h]

theorem bitlen_loop_zero (fuel : Nat) : bitlen_loop fuel 0 = 0 := by
  cases fuel <;> rfl

theorem bitlen_loop_bounds : ∀ (fuel n : Nat), n ≤ fuel → n ≠ 0 →
    1 ≤ bitlen_loop fuel n ∧ 2 ^ (bitlen_loop fuel n - 1) ≤ n ∧ n < 2 ^ bitlen_loop fuel n := by
  intro fuel
  induction fuel with
  | zero => intro n h h0; omega
  | succ f ih =>
    intro n h h0
    have e : bitlen_loop (f + 1) n = bitlen_loop f (n / 2) + 1 := by
      rw [bitlen_loop, if_neg h0]
    rw [e]
    by_cases h2 : n / 2 = 0
    · rw [h2, bitlen_loop_zero]
      have : n = 1 := by omega
      subst this
      decide
    · obtain ⟨a, b, c⟩ := ih (n / 2) (by omega) h2
      generalize bitlen_loop f (n / 2) = k at a b c
      obtain ⟨j, rfl⟩ : ∃ j, k = j + 1 := ⟨k - 1, by omega⟩
      simp only [Nat.add_sub_cancel] at b ⊢
      rw [pow_succ] at c ⊢
      rw [pow_succ]
      omega

theorem bitlen_bounds (n : Nat) (h : n ≠ 0) :
    1 ≤ bitlen n ∧ 2 ^ (bitlen n - 1) ≤ n ∧ n < 2 ^ bitlen n :=
  bitlen_loop_bounds n n (le_refl _) h

theorem declen_loop_zero (fuel : Nat) : declen_loop fuel 0 = 0 := by
  cases fuel <;> rfl

theorem declen_loop_bounds : ∀ (fuel n : Nat), n ≤ fuel → n ≠ 0 →
    1 ≤ declen_loop fuel n ∧ 10 ^ (declen_loop fuel n - 1) ≤ n
      ∧ n < 10 ^ declen_loop fuel n := by
  intro fuel
  induction fuel with
  | zero => intro n h h0; omega
  | succ f ih =>
    intro n h h0
    have e : declen_loop (f + 1) n = declen_loop f (n / 10) + 1 := by
      rw [declen_loop, if_neg h0]
    rw [e]
    by_cases h2 : n / 10 = 0
    · rw [h2, declen_loop_zero]
      have : n < 10 := by omega
      refine ⟨by omega, ?_, ?_⟩
      · show 1 ≤ n
        omega
      · show n < 10
        omega
    · obtain ⟨a, b, c⟩ := ih (n / 10) (by omega) h2
      generalize declen_loop f (n / 10) = k at a b c
      obtain ⟨j, rfl⟩ : ∃ j, k = j + 1 := ⟨k - 1, by omega⟩
      simp only [Nat.add_sub_cancel] at b ⊢
      rw [pow_succ] at c ⊢
      rw [pow_succ]
      omega

theorem declen_bounds (n : Nat) (h : n ≠ 0) :
    1 ≤ declen n ∧ 10 ^ (declen n - 1) ≤ n ∧ n < 10 ^ declen n :=
  declen_loop_bounds n n (le_refl _) h

theorem toDigits_mul_ten (n : Nat) (h : 0 < n) :
    Nat.toDigits 10 (n * 10) = Nat.toDigits 10 n ++ ['0'] := by
  rw [toDigits_ge (n * 10) (by omega), Nat.mul_div_cancel n (by decide), Nat.mul_mod_left]
  rfl

theorem toDigits_mul_pow (n : Nat) (h : 0 < n) (k : Nat) :
    Nat.toDigits 10 (n * 10 ^ k) = Nat.toDigits 10 n ++ List.replicate k '0' := by
  induction k with
  | zero => simp
  | succ k ih =>
    rw [pow_succ, ← Nat.mul_assoc, toDigits_mul_ten _ (Nat.mul_pos h (by positivity)), ih,
      List.append_assoc, List.replicate_succ']

theorem toDigits_length (n : Nat) (h : n ≠ 0) : (Nat.toDigits 10 n).length = declen n := by
  have key : ∀ L n : Nat, n ≠ 0 → 10 ^ (L - 1) ≤ n → n < 10 ^ L → 1 ≤ L →
      (Nat.toDigits 10 n).length = L := by
    intro L
    induction L with
    | zero => intro n _ _ _ h1; omega
    | succ L ih =>
      intro n h0 hlo hhi _
      by_cases h10 : n < 10
      · rw [toDigits_lt n h10]
        cases L with
        | zero => rfl
        | succ L =>
          exfalso
          simp only [Nat.add_sub_cancel] at hlo
          have : 10 ^ 1 ≤ 10 ^ (L + 1) := Nat.pow_le_pow_right (by decide) (by omega)
          omega
      · rw [toDigits_ge n (by omega), List.length_append, List.length_singleton]
        cases L with
        | zero =>
          exfalso
          simp at hhi
          omega
        | succ L =>
          simp only [Nat.add_sub_cancel] at hlo
          rw [pow_succ] at hlo hhi
          rw [ih (n / 10) (by omega) (by simp only [Nat.add_sub_cancel]; omega) (by omega)
            (by omega)]
  obtain ⟨a, b, c⟩ := declen_bounds n h
  exact key (declen n) n h b c a

theorem strip_zeros_replicate (k : Nat) : strip_zeros (List.replicate k '0') = [] := by
  unfold strip_zeros
  rw [List.reverse_replicate, List.reverse_eq_nil_iff, List.dropWhile_eq_nil_iff]
  intro c hc
  rw [List.eq_of_mem_replicate hc]
  rfl

theorem div_round_even_mul (a den : Nat) (h : 0 < den) : div_round_even (a * den) den = a := by
  unfold div_round_even
  simp only [Nat.mul_div_cancel a h, Nat.mul_mod_left]
  rw [if_neg (by omega)]

/-- The double an integer `0 < n < 2^53` converts to: the significand is
`n` shifted to 53 bits. -/
def Double.ofInteger (neg : Bool) (n : Nat) : Double :=
  if n = 0 then { neg := neg, m := 0, e := -1074 }
  else { neg := neg, m := n * 2 ^ (53 - bitlen n), e := (bitlen n : Int) - 53 }

theorem div_round_even_one (a : Nat) : div_round_even a 1 = a := by
  have := div_round_even_mul a 1 (by decide)
  rwa [Nat.mul_one] at this

theorem round_binary64_integer (neg : Bool) (n : Nat) (h : n < 2 ^ 53) :
    round_binary64 neg n 1 = some (Double.ofInteger neg n) := by
  unfold Double.ofInteger
  by_cases h0 : n = 0
  · subst h0
    rfl
  · obtain ⟨b1, b2, b3⟩ := bitlen_bounds n h0
    have hb : bitlen n ≤ 53 := by
      by_contra hc
      have : 2 ^ 53 ≤ 2 ^ (bitlen n - 1) := Nat.pow_le_pow_right (by decide) (by omega)
      omega
    have hone : bitlen 1 = 1 := by decide
    generalize hbdef : bitlen n = b at b1 b2 b3 hb
    obtain ⟨k, hk⟩ : ∃ k, b + k = 53 := ⟨53 - b, by omega⟩
    have hk53 : 53 - b = k := by omega
    have hpow : 2 ^ (b - 1) * 2 ^ (k + 1) = 2 ^ 53 := by
      rw [← pow_add]
      congr 1
      omega
    have hpow2 : 2 ^ b * 2 ^ k = 2 ^ 53 := by
      rw [← pow_add, hk]
    have hlow : 2 ^ 53 ≤ n * 2 ^ (k + 1) := by
      rw [← hpow]
      exact Nat.mul_le_mul_right _ b2
    have hhigh : n * 2 ^ k < 2 ^ 53 := by
      rw [← hpow2]
      exact Nat.mul_lt_mul_of_pos_right b3 (by positivity)
    unfold round_binary64
    rw [if_neg h0]
    simp only [hbdef, hone]
    have e0neg : ¬ ((b : Int) - ((1 : Nat) : Int) - 53 ≥ 0) := by omega
    have e0n : (-((b : Int) - ((1 : Nat) : Int) - 53)).toNat = k + 1 := by omega
    have hfits : (if (b : Int) - ((1 : Nat) : Int) - 53 ≥ 0 then
          decide (n / (1 * 2 ^ ((b : Int) - ((1 : Nat) : Int) - 53).toNat) < 2 ^ 53)
        else decide (n * 2 ^ (-((b : Int) - ((1 : Nat) : Int) - 53)).toNat / 1 < 2 ^ 53))
        = false := by
      rw [if_neg e0neg, e0n, Nat.div_one, decide_eq_false_iff_not]
      omega
    rw [hfits]
    simp only [Bool.false_eq_true, if_false]
    have hmax : max ((b : Int) - ((1 : Nat) : Int) - 53 + 1) (-1074) = (b : Int) - 53 := by
      omega
    rw [hmax]
    have hq : (if (b : Int) - 53 ≥ 0 then div_round_even n (1 * 2 ^ ((b : Int) - 53).toNat)
        else div_round_even (n * 2 ^ (-((b : Int) - 53)).toNat) 1) = n * 2 ^ k := by
      by_cases hb53 : b = 53
      · subst hb53
        have : k = 0 := by omega
        subst this
        simp [div_round_even_one]
      · rw [if_neg (by omega), div_round_even_one]
        congr 2
        omega
    have hne : ¬ (n * 2 ^ k = 2 ^ 53) := by omega
    have hfin : ¬ ((b : Int) - 53 > 971) := by omega
    rw [hq, if_neg hne, hk53]
    simp only
    rw [if_neg hfin, if_neg h0]

theorem fmt_17g_integer (neg : Bool) (n k : Nat) (hn : 0 < n) (h16 : n < 10 ^ 16) :
    fmt_17g { neg := neg, m := n * 2 ^ k, e := -(k : Int) }
      = (if neg then ['-'] else []) ++ Nat.toDigits 10 n := by
  have hm : n * 2 ^ k ≠ 0 := Nat.pos_iff_ne_zero.mp (Nat.mul_pos hn (by positivity))
  have hnum : (if -(k : Int) ≥ 0 then n * 2 ^ k * 2 ^ (-(k : Int)).toNat else n * 2 ^ k)
      = n * 2 ^ k := by
    by_cases hk : k = 0
    · subst hk; simp
    · rw [if_neg (by omega)]
  have hden : (if -(k : Int) ≥ 0 then 1 else 2 ^ (- -(k : Int)).toNat) = 2 ^ k := by
    by_cases hk : k = 0
    · subst hk; simp
    · rw [if_neg (by omega)]
      congr 1
      omega
  obtain ⟨l1, l2, l3⟩ := declen_bounds n (by omega)
  have hlen := toDigits_length n (by omega)
  have hL : declen n ≤ 16 := by
    by_contra hc
    have : 10 ^ 16 ≤ 10 ^ (declen n - 1) := Nat.pow_le_pow_right (by decide) (by omega)
    omega
  generalize declen n = L at l1 l2 l3 hlen hL
  obtain ⟨j, hj⟩ : ∃ j, L + j = 17 := ⟨17 - L, by omega⟩
  have hpos : 0 < 2 ^ k := by positivity
  have hx0 : decimal_exponent (n * 2 ^ k) (2 ^ k) = (L : Int) - 1 := by
    unfold decimal_exponent
    rw [if_pos (Nat.le_mul_of_pos_left _ hn), Nat.mul_div_cancel _ hpos]
    have := toDigits_length n (by omega)
    rw [← this, hlen]
  have hs0 : (if (L : Int) - 1 ≤ 16 then
        div_round_even (n * 2 ^ k * 10 ^ (16 - ((L : Int) - 1)).toNat) (2 ^ k)
      else div_round_even (n * 2 ^ k) (2 ^ k * 10 ^ ((L : Int) - 1 - 16).toNat))
      = n * 10 ^ j := by
    rw [if_pos (by omega), show (16 - ((L : Int) - 1)).toNat = j by omega,
      show n * 2 ^ k * 10 ^ j = n * 10 ^ j * 2 ^ k by ring, div_round_even_mul _ _ hpos]
  have hpw : 10 ^ L * 10 ^ j = 10 ^ 17 := by rw [← pow_add, hj]
  have hlt : ¬ (n * 10 ^ j ≥ 10 ^ 17) := by
    rw [← hpw]
    exact not_le.mpr (Nat.mul_lt_mul_of_pos_right l3 (by positivity))
  have hds : fmt_digits 17 (n * 10 ^ j) = Nat.toDigits 10 n ++ List.replicate j '0' := by
    unfold fmt_digits
    simp only [toDigits_mul_pow n hn j, List.length_append, hlen, List.length_replicate]
    rw [show 17 - (L + j) = 0 by omega]
    rfl
  have htake : (Nat.toDigits 10 n ++ List.replicate j '0').take (((L : Int) - 1).toNat + 1)
      = Nat.toDigits 10 n := by
    rw [show ((L : Int) - 1).toNat + 1 = (Nat.toDigits 10 n).length by omega,
      List.take_left]
  have hdrop : (Nat.toDigits 10 n ++ List.replicate j '0').drop (((L : Int) - 1).toNat + 1)
      = List.replicate j '0' := by
    rw [show ((L : Int) - 1).toNat + 1 = (Nat.toDigits 10 n).length by omega,
      List.drop_left]
  unfold fmt_17g
  simp only [hm, if_false, hnum, hden, hx0, hs0, hlt, hds, htake, hdrop,
    strip_zeros_replicate, List.isEmpty_nil, if_true]
  have hge : (L : Int) - 1 ≥ 0 := by omega
  simp only [hge, if_true, strip_zeros_replicate, List.isEmpty_nil, List.append_nil]
  rw [if_pos (show -4 ≤ (L : Int) - 1 ∧ (L : Int) - 1 < 17 by omega)]

/-- Formatting the double of an integer below `2^53` with `%.17g` gives its
decimal digits. -/
theorem fmt_17g_ofInteger (neg : Bool) (n : Nat) (h : n < 2 ^ 53) :
    fmt_17g (Double.ofInteger neg n) = (if neg then ['-'] else []) ++ Nat.toDigits 10 n := by
  unfold Double.ofInteger
  by_cases h0 : n = 0
  · subst h0
    rw [if_pos rfl]
    cases neg <;> rfl
  · rw [if_neg h0]
    obtain ⟨b1, b2, b3⟩ := bitlen_bounds n h0
    have hb : bitlen n ≤ 53 := by
      by_contra hc
      have : 2 ^ 53 ≤ 2 ^ (bitlen n - 1) := Nat.pow_le_pow_right (by decide) (by omega)
      omega
    have he : (bitlen n : Int) - 53 = -((53 - bitlen n : Nat) : Int) := by omega
    rw [he]
    exact fmt_17g_integer neg n _ (by omega) (lt_of_lt_of_le h (by norm_num))

theorem toDigits_int_part (n : Nat) : int_part (Nat.toDigits 10 n) := by
  by_cases h0 : n = 0
  · subst h0
    exact Or.inl rfl
  · right
    have key : ∀ m : Nat, m ≠ 0 → ∃ d ds, Nat.toDigits 10 m = d :: ds ∧ ('1' ≤ d ∧ d ≤ '9') := by
      intro m
      induction m using Nat.strong_induction_on with
      | _ m ih =>
        intro hm
        by_cases h : m < 10
        · rw [toDigits_lt m h]
          refine ⟨_, [], rfl, ?_⟩
          interval_cases m
          · exact absurd rfl hm
          all_goals decide
        · obtain ⟨d, ds, hd, hr⟩ := ih (m / 10) (by omega) (by omega)
          rw [toDigits_ge m (by omega), hd]
          exact ⟨d, ds ++ [Nat.digitChar (m % 10)], rfl, hr⟩
    obtain ⟨d, ds, hd, hr⟩ := key n h0
    refine ⟨d, ds, hd, hr, ?_⟩
    intro c hc
    exact toDigits_all_isdigit n c (by rw [hd]; exact List.mem_cons_of_mem _ hc)

theorem token_value_integer (neg : Bool) (n : Nat) :
    token_value neg (Nat.toDigits 10 n) [] [] = round_binary64 neg n 1 := by
  unfold token_value
  have he : exponent_part ([] : List Char) = none := by decide
  simp only [List.tail_nil, he, List.append_nil, digits_value_toDigits, List.length_nil]
  simp

/-- Parsing the text `%.17g` gives for the double of an integer below
`2^53` returns that double. -/
theorem parse_number_integer (neg : Bool) (n : Nat) (rest : List Char) (h : n < 2 ^ 53)
    (hr : continues_number (peek rest) = false) :
    ctz_parse_number (fmt_17g (Double.ofInteger neg n) ++ rest)
      = .ok (CTZ_JSON_NUMBER (Double.ofInteger neg n), rest) := by
  rw [fmt_17g_ofInteger neg n h]
  have hsign : (if neg = true then ['-'] else []) = []
      ∨ (if neg = true then ['-'] else []) = ['-'] := by
    cases neg
    · exact Or.inl rfl
    · exact Or.inr rfl
  have hdec : decide ((if neg = true then ['-'] else []) = ['-']) = neg := by
    cases neg <;> rfl
  have htok : rfc_number ((if neg = true then ['-'] else []) ++ Nat.toDigits 10 n) :=
    ⟨_, Nat.toDigits 10 n, [], [], by simp, hsign, toDigits_int_part n, Or.inl rfl, Or.inl rfl⟩
  have hst := strtod_token (if neg = true then ['-'] else []) (Nat.toDigits 10 n) [] [] []
    hsign (toDigits_int_part n) (Or.inl rfl) (Or.inl rfl) (by decide)
  simp only [List.append_nil] at hst
  have hval : (strtod ((if neg = true then ['-'] else []) ++ Nat.toDigits 10 n)).1
      = some (Double.ofInteger neg n) := by
    rw [hst, hdec, token_value_integer, round_binary64_integer neg n h]
  exact (parse_number_token _ rest htok hr).2.1 _ hval

/-! ## Parsing a serialised document (C27) -/

/-- The documents serialisation is followed through: every number node is
the double of an integer of magnitude below `2^53`, and every string and
key stores its length, as the nodes the library builds do. -/
def integer_document : ctz_json_value → Prop
  | CTZ_JSON_NUMBER d => ∃ neg n, n < 2 ^ 53 ∧ round_binary64 neg n 1 = some d
  | CTZ_JSON_STRING s len => len = s.length
  | CTZ_JSON_ARRAY e => elems e
  | CTZ_JSON_OBJECT m => members m
  | _ => True
where
  elems : List ctz_json_value → Prop
    | [] => True
    | v :: rest => integer_document v ∧ elems rest
  members : List (ctz_json_member_of ctz_json_value) → Prop
    | [] => True
    | x :: rest => x.klen = x.k.length ∧ integer_document x.v ∧ members rest

/-- Whether every `sprintf` into the scratch array `char buffer[128]` of
`ctz_stringify_value` stays inside it: the text of a number, and the
`(indent + 1) * 2` blanks before an element and the `indent * 2` blanks
before a closing bracket when `pretty` is set, each with its terminator. -/
def scratch_fits : ctz_json_value → Bool → Nat → Bool
  | CTZ_JSON_NUMBER n, _, _ => decide ((fmt_17g n).length + 1 ≤ 128)
  | CTZ_JSON_ARRAY e, pretty, indent =>
    fits_elems e pretty indent
      && (!(pretty && !e.isEmpty) || decide (indent * 2 + 1 ≤ 128))
  | CTZ_JSON_OBJECT m, pretty, indent =>
    fits_members m pretty indent
      && (!(pretty && !m.isEmpty) || decide (indent * 2 + 1 ≤ 128))
  | _, _, _ => true
where
  fits_elems : List ctz_json_value → Bool → Nat → Bool
    | [], _, _ => true
    | v :: rest, pretty, indent =>
      (!pretty || decide ((indent + 1) * 2 + 1 ≤ 128))
        && scratch_fits v pretty (indent + 1) && fits_elems rest pretty indent
  fits_members : List (ctz_json_member_of ctz_json_value) → Bool → Nat → Bool
    | [], _, _ => true
    | x :: rest, pretty, indent =>
      (!pretty || decide ((indent + 1) * 2 + 1 ≤ 128))
        && scratch_fits x.v pretty (indent + 1) && fits_members rest pretty indent

/-- An array nested `depth` times around `v`. -/
def nested_array : Nat → ctz_json_value → ctz_json_value
  | 0, v => v
  | depth + 1, v => CTZ_JSON_ARRAY [nested_array depth v]

theorem pad_space (n : Nat) : ∀ c ∈ fmt_pad n, is_space c = true := by
  intro c hc
  rw [List.eq_of_mem_replicate hc]
  rfl

theorem ite_space (p : Prop) [Decidable p] (w : List Char)
    (hw : ∀ c ∈ w, is_space c = true) : ∀ c ∈ (if p then w else []), is_space c = true := by
  intro c hc
  by_cases h : p
  · rw [if_pos h] at hc
    exact hw c hc
  · rw [if_neg h] at hc
    cases hc

theorem whitespace_skip (w x : List Char) (hw : ∀ c ∈ w, is_space c = true)
    (hx : is_space (peek x) = false) : ctz_parse_whitespace (w ++ x) = x := by
  rw [whitespace_all w x hw]
  rcases whitespace_head x with h | h
  · rw [hx] at h
    cases h
  · exact h

theorem stringify_string_head (s : List Char) (len : Nat) :
    ∃ t, ctz_stringify_string s len = '"' :: t := ⟨_, rfl⟩

/-- The text of a document starts with a byte that is no whitespace and no
closing bracket. -/
theorem stringify_head (v : ctz_json_value) (hv : integer_document v) (pretty : Bool)
    (indent : Nat) :
    ∃ c t, ctz_stringify_value v pretty indent = c :: t ∧ is_space c = false ∧ c ≠ ']' := by
  cases v with
  | CTZ_JSON_NULL => exact ⟨'n', _, rfl, by decide, by decide⟩
  | CTZ_JSON_FALSE => exact ⟨'f', _, rfl, by decide, by decide⟩
  | CTZ_JSON_TRUE => exact ⟨'t', _, rfl, by decide, by decide⟩
  | CTZ_JSON_NUMBER d =>
    unfold integer_document at hv
    obtain ⟨neg, n, hn, hd⟩ := hv
    rw [round_binary64_integer neg n hn] at hd
    simp only [Option.some.injEq] at hd
    unfold ctz_stringify_value
    rw [← hd, fmt_17g_ofInteger neg n hn]
    cases neg with
    | true => exact ⟨'-', _, rfl, by decide, by decide⟩
    | false =>
      rcases toDigits_int_part n with h | ⟨d, ds, h, hd, _⟩
      · rw [h]
        exact ⟨'0', _, rfl, by decide, by decide⟩
      · rw [h]
        refine ⟨d, ds, rfl, ?_, ?_⟩
        · have := (char_le_iff _ _).mp hd.1
          have h2 := (char_le_iff _ _).mp hd.2
          unfold is_space
          simp only [decide_eq_false_iff_not, not_or]
          refine ⟨?_, ?_, ?_, ?_⟩ <;> intro e <;> rw [e] at this <;> exact absurd this (by decide)
        · intro e
          rw [e] at hd
          exact absurd hd.2 (by decide)
  | CTZ_JSON_STRING s len =>
    unfold ctz_stringify_value
    exact ⟨'"', _, rfl, by decide, by decide⟩
  | CTZ_JSON_ARRAY e =>
    unfold ctz_stringify_value
    exact ⟨'[', _, rfl, by decide, by decide⟩
  | CTZ_JSON_OBJECT m =>
    unfold ctz_stringify_value
    exact ⟨'{', _, rfl, by decide, by decide⟩

theorem whitespace_cons_of_not_space (c : Char) (t : List Char) (h : is_space c = false) :
    ctz_parse_whitespace (c :: t) = c :: t := by
  unfold ctz_parse_whitespace
  rw [List.dropWhile_cons_of_neg (by rw [h]; decide)]

/-- The switch of `ctz_parse_value` at a byte that is no whitespace. -/
theorem parse_value_dispatch (f : Nat) (x : List Char) (h : is_space (peek x) = false) :
    ctz_parse_value (f + 1) x
      = (if peek x = 'n' then ctz_parse_literal x "null".toList CTZ_JSON_NULL
        else if peek x = 't' then ctz_parse_literal x "true".toList CTZ_JSON_TRUE
        else if peek x = 'f' then ctz_parse_literal x "false".toList CTZ_JSON_FALSE
        else if peek x = '"' then ctz_parse_string x
        else if peek x = '[' then ctz_parse_array f x
        else if peek x = '{' then ctz_parse_object f x
        else if peek x = NUL then .error .null
        else ctz_parse_number x) := by
  have hw : ctz_parse_whitespace x = x := by
    rcases whitespace_head x with h2 | h2
    · rw [h] at h2; cases h2
    · exact h2
  rw [parse_value_succ, hw]

theorem parse_value_number (f : Nat) (x : List Char)
    (h : peek x = '-' ∨ isdigit (peek x) = true) :
    ctz_parse_value (f + 1) x = ctz_parse_number x := by
  have hne : ∀ c : Char, isdigit c = false → c ≠ '-' → peek x ≠ c := by
    intro c hc hm e
    rcases h with h | h
    · exact hm (e.symm.trans h)
    · rw [e, hc] at h
      cases h
  have hsp : is_space (peek x) = false := by
    rcases h with h | h
    · rw [h]; decide
    · cases hs : is_space (peek x) with
      | false => rfl
      | true =>
        unfold is_space at hs
        simp only [decide_eq_true_eq] at hs
        rcases hs with e | e | e | e <;> rw [e] at h <;> exact absurd h (by decide)
  rw [parse_value_dispatch f x hsp, if_neg (hne _ (by decide) (by decide)),
    if_neg (hne _ (by decide) (by decide)), if_neg (hne _ (by decide) (by decide)),
    if_neg (hne _ (by decide) (by decide)), if_neg (hne _ (by decide) (by decide)),
    if_neg (hne _ (by decide) (by decide)), if_neg (hne _ (by decide) (by decide))]

theorem fmt_17g_integer_head (neg : Bool) (n : Nat) (h : n < 2 ^ 53) (rest : List Char) :
    peek (fmt_17g (Double.ofInteger neg n) ++ rest) = '-'
      ∨ isdigit (peek (fmt_17g (Double.ofInteger neg n) ++ rest)) = true := by
  rw [fmt_17g_ofInteger neg n h]
  cases neg with
  | true => exact Or.inl rfl
  | false =>
    right
    have hne := toDigits_ne_nil n
    have hall := toDigits_all_isdigit n
    cases hd : Nat.toDigits 10 n with
    | nil => exact absurd hd hne
    | cons c t =>
      rw [hd] at hall
      exact hall c (List.mem_cons_self _ _)

theorem parse_value_leaf_number (d : Double) (hd : integer_document (CTZ_JSON_NUMBER d))
    (f : Nat) (rest : List Char) (hr : continues_number (peek rest) = false) (hf : 1 ≤ f) :
    ctz_parse_value f (fmt_17g d ++ rest) = .ok (CTZ_JSON_NUMBER d, rest) := by
  unfold integer_document at hd
  obtain ⟨neg, n, hn, hd⟩ := hd
  rw [round_binary64_integer neg n hn] at hd
  simp only [Option.some.injEq] at hd
  obtain ⟨g, rfl⟩ : ∃ g, f = g + 1 := ⟨f - 1, by omega⟩
  rw [← hd, parse_value_number g _ (fmt_17g_integer_head neg n hn rest)]
  exact parse_number_integer neg n rest hn hr

theorem fmt_17g_integer_length (d : Double) (hd : integer_document (CTZ_JSON_NUMBER d)) :
    1 ≤ (fmt_17g d).length ∧ (fmt_17g d).length ≤ 17 := by
  unfold integer_document at hd
  obtain ⟨neg, n, hn, hd⟩ := hd
  rw [round_binary64_integer neg n hn] at hd
  simp only [Option.some.injEq] at hd
  rw [← hd, fmt_17g_ofInteger neg n hn, List.length_append]
  have h1 : 1 ≤ (Nat.toDigits 10 n).length := by
    cases hx : Nat.toDigits 10 n with
    | nil => exact absurd hx (toDigits_ne_nil n)
    | cons c t => simp
  have h2 := toDigits_length_le n 16 (by decide) (lt_of_lt_of_le hn (by norm_num))
  cases neg
  · simp only [Bool.false_eq_true, if_false, List.length_nil]
    omega
  · simp only [if_true, List.length_cons, List.length_nil]
    omega

theorem stringify_elems_cons (v : ctz_json_value) (r : List ctz_json_value) (pretty : Bool)
    (indent : Nat) (X : List Char) :
    ctz_stringify_value.stringify_elems (v :: r) pretty indent ++ X
      = (if pretty then fmt_pad ((indent + 1) * 2) else [])
        ++ (ctz_stringify_value v pretty (indent + 1)
          ++ ((if r.isEmpty then [] else [','])
            ++ ((if pretty then ['\n'] else [])
              ++ (ctz_stringify_value.stringify_elems r pretty indent ++ X)))) := by
  rw [ctz_stringify_value.stringify_elems]
  simp only [List.append_assoc]

theorem stringify_elems_cons_length (v : ctz_json_value) (r : List ctz_json_value)
    (pretty : Bool) (indent : Nat) :
    (ctz_stringify_value v pretty (indent + 1)).length
        + (if r.isEmpty then 0 else 1)
        + (ctz_stringify_value.stringify_elems r pretty indent).length
      ≤ (ctz_stringify_value.stringify_elems (v :: r) pretty indent).length := by
  rw [ctz_stringify_value.stringify_elems]
  simp only [List.length_append]
  cases r with
  | nil =>
    simp only [List.isEmpty_nil, if_true, List.length_nil, ctz_stringify_value.stringify_elems]
    omega
  | cons w r2 =>
    simp only [List.isEmpty_cons, Bool.false_eq_true, if_false, List.length_cons,
      List.length_nil]
    omega

/-- What follows the last element or member up to the closing bracket is
whitespace. -/
theorem closing_skip (pretty : Bool) (indent : Nat) (c : Char) (rest : List Char)
    (hc : is_space c = false) :
    ctz_parse_whitespace ((if pretty then ['\n'] else [])
      ++ ((if pretty then fmt_pad (indent * 2) else []) ++ c :: rest)) = c :: rest := by
  rw [← List.append_assoc]
  apply whitespace_skip
  · intro x hx
    rcases List.mem_append.mp hx with h | h
    · exact ite_space _ _ (by decide) x h
    · exact ite_space _ _ (pad_space _) x h
  · exact hc

theorem closing_peek (pretty : Bool) (indent : Nat) (c : Char) (rest : List Char)
    (hc : continues_number c = false) :
    continues_number (peek ((if pretty then ['\n'] else [])
      ++ ((if pretty then fmt_pad (indent * 2) else []) ++ c :: rest))) = false := by
  cases pretty
  · exact hc
  · rfl

/-- One turn of the element loop of `ctz_parse_array` on a serialised
array. -/
theorem array_elems_step (v : ctz_json_value) (r : List ctz_json_value)
    (hv : integer_document v)
    (ihv : ∀ (pretty : Bool) (indent : Nat) (rest : List Char) (f : Nat),
      continues_number (peek rest) = false →
      2 * (ctz_stringify_value v pretty indent).length ≤ f →
      ctz_parse_value f (ctz_stringify_value v pretty indent ++ rest) = .ok (v, rest))
    (ihr : r ≠ [] → ∀ (pretty : Bool) (indent : Nat) (rest : List Char) (f : Nat)
      (acc : List ctz_json_value),
      2 * (ctz_stringify_value.stringify_elems r pretty indent).length + 1 ≤ f →
      ctz_parse_array_loop f (ctz_parse_whitespace
        (ctz_stringify_value.stringify_elems r pretty indent
          ++ ((if pretty then fmt_pad (indent * 2) else []) ++ ']' :: rest))) acc
        = .ok (CTZ_JSON_ARRAY (acc ++ r), rest))
    (pretty : Bool) (indent : Nat) (rest : List Char) (f : Nat) (acc : List ctz_json_value)
    (hf : 2 * (ctz_stringify_value.stringify_elems (v :: r) pretty indent).length + 1 ≤ f) :
    ctz_parse_array_loop f (ctz_parse_whitespace
        (ctz_stringify_value.stringify_elems (v :: r) pretty indent
          ++ ((if pretty then fmt_pad (indent * 2) else []) ++ ']' :: rest))) acc
      = .ok (CTZ_JSON_ARRAY (acc ++ v :: r), rest) := by
  have hlen := stringify_elems_cons_length v r pretty indent
  obtain ⟨g, rfl⟩ : ∃ g, f = g + 1 := ⟨f - 1, by omega⟩
  obtain ⟨c, t, hsv, hcsp, _⟩ := stringify_head v hv pretty (indent + 1)
  rw [stringify_elems_cons]
  generalize hT : (if r.isEmpty then [] else [','])
    ++ ((if pretty then ['\n'] else [])
      ++ (ctz_stringify_value.stringify_elems r pretty indent
        ++ ((if pretty then fmt_pad (indent * 2) else []) ++ ']' :: rest))) = T
  rw [whitespace_skip _ _ (ite_space _ _ (pad_space _))
    (by rw [hsv, List.cons_append, peek_cons]; exact hcsp)]
  cases r with
  | nil =>
    simp only [List.isEmpty_nil, if_true, List.nil_append,
      ctz_stringify_value.stringify_elems] at hT
    have hpk : continues_number (peek T) = false := by
      rw [← hT]
      exact closing_peek pretty indent ']' rest (by decide)
    have hval := ihv pretty (indent + 1) T g hpk (by omega)
    rw [parse_array_loop_ok g _ acc v T hval, ← hT, closing_skip pretty indent ']' rest
      (by decide), peek_cons, if_neg (by decide), if_pos rfl, List.tail_cons]
  | cons w r2 =>
    simp only [List.isEmpty_cons, Bool.false_eq_true, if_false, List.singleton_append] at hT hlen
    have hpk : continues_number (peek T) = false := by
      rw [← hT]
      rfl
    have hval := ihv pretty (indent + 1) T g hpk (by omega)
    rw [parse_array_loop_ok g _ acc v T hval, ← hT,
      whitespace_cons_of_not_space _ _ (by decide), peek_cons, if_pos rfl, List.tail_cons,
      whitespace_all _ _ (ite_space _ _ (by decide))]
    rw [ihr (List.cons_ne_nil _ _) pretty indent rest g (acc ++ [v]) (by omega),
      List.append_assoc, List.singleton_append]

theorem stringify_members_cons (x : ctz_json_member) (r : List ctz_json_member)
    (pretty : Bool) (indent : Nat) (X : List Char) :
    ctz_stringify_value.stringify_members (x :: r) pretty indent ++ X
      = (if pretty then fmt_pad ((indent + 1) * 2) else [])
        ++ (ctz_stringify_string x.k x.klen
          ++ (':' :: ((if pretty then [' '] else [])
            ++ (ctz_stringify_value x.v pretty (indent + 1)
              ++ ((if r.isEmpty then [] else [','])
                ++ ((if pretty then ['\n'] else [])
                  ++ (ctz_stringify_value.stringify_members r pretty indent ++ X))))))) := by
  rw [ctz_stringify_value.stringify_members]
  cases pretty <;> simp only [List.append_assoc, Bool.false_eq_true, if_false, if_true,
    List.cons_append, List.nil_append]

theorem stringify_members_cons_length (x : ctz_json_member) (r : List ctz_json_member)
    (pretty : Bool) (indent : Nat) :
    (ctz_stringify_value x.v pretty (indent + 1)).length
        + (if r.isEmpty then 0 else 1)
        + (ctz_stringify_value.stringify_members r pretty indent).length
      ≤ (ctz_stringify_value.stringify_members (x :: r) pretty indent).length := by
  rw [ctz_stringify_value.stringify_members]
  simp only [List.length_append]
  cases r with
  | nil =>
    simp only [List.isEmpty_nil, if_true, List.length_nil,
      ctz_stringify_value.stringify_members]
    omega
  | cons w r2 =>
    simp only [List.isEmpty_cons, Bool.false_eq_true, if_false, List.length_cons,
      List.length_nil]
    omega

/-- One turn of the member loop of `ctz_parse_object` on a serialised
object. -/
theorem object_members_step (x : ctz_json_member) (r : List ctz_json_member)
    (hk : x.klen = x.k.length) (hv : integer_document x.v)
    (ihv : ∀ (pretty : Bool) (indent : Nat) (rest : List Char) (f : Nat),
      continues_number (peek rest) = false →
      2 * (ctz_stringify_value x.v pretty indent).length ≤ f →
      ctz_parse_value f (ctz_stringify_value x.v pretty indent ++ rest) = .ok (x.v, rest))
    (ihr : r ≠ [] → ∀ (pretty : Bool) (indent : Nat) (rest : List Char) (f : Nat)
      (acc : List ctz_json_member),
      2 * (ctz_stringify_value.stringify_members r pretty indent).length + 1 ≤ f →
      ctz_parse_object_loop f (ctz_parse_whitespace
        (ctz_stringify_value.stringify_members r pretty indent
          ++ ((if pretty then fmt_pad (indent * 2) else []) ++ '}' :: rest))) acc
        = .ok (CTZ_JSON_OBJECT (acc ++ r), rest))
    (pretty : Bool) (indent : Nat) (rest : List Char) (f : Nat) (acc : List ctz_json_member)
    (hf : 2 * (ctz_stringify_value.stringify_members (x :: r) pretty indent).length + 1 ≤ f) :
    ctz_parse_object_loop f (ctz_parse_whitespace
        (ctz_stringify_value.stringify_members (x :: r) pretty indent
          ++ ((if pretty then fmt_pad (indent * 2) else []) ++ '}' :: rest))) acc
      = .ok (CTZ_JSON_OBJECT (acc ++ x :: r), rest) := by
  have hlen := stringify_members_cons_length x r pretty indent
  obtain ⟨g, rfl⟩ : ∃ g, f = g + 1 := ⟨f - 1, by omega⟩
  obtain ⟨c, t, hsv, hcsp, _⟩ := stringify_head x.v hv pretty (indent + 1)
  obtain ⟨k, klen, v⟩ := x
  simp only at hk hv ihv hlen hsv
  subst hk
  rw [stringify_members_cons]
  simp only
  generalize hT : (if r.isEmpty then [] else [','])
    ++ ((if pretty then ['\n'] else [])
      ++ (ctz_stringify_value.stringify_members r pretty indent
        ++ ((if pretty then fmt_pad (indent * 2) else []) ++ '}' :: rest))) = T
  rw [stringify_string_eq, whitespace_skip _ _ (ite_space _ _ (pad_space _))
    (by rw [List.cons_append, List.cons_append, peek_cons]; rfl)]
  have hsp : is_space (peek (ctz_stringify_value v pretty (indent + 1) ++ T)) = false := by
    rw [hsv, List.cons_append, peek_cons]
    exact hcsp
  have hq : peek ('"' :: escaped k ++ ['"']
      ++ ':' :: ((if pretty then [' '] else [])
        ++ (ctz_stringify_value v pretty (indent + 1) ++ T))) = '"' := rfl
  have hkey : ctz_parse_string_raw ('"' :: escaped k ++ ['"']
      ++ ':' :: ((if pretty then [' '] else [])
        ++ (ctz_stringify_value v pretty (indent + 1) ++ T))).tail
      = .ok ((k, k.length), ':' :: ((if pretty then [' '] else [])
        ++ (ctz_stringify_value v pretty (indent + 1) ++ T))) := by
    have := parse_string_raw_escaped k (':' :: ((if pretty then [' '] else [])
        ++ (ctz_stringify_value v pretty (indent + 1) ++ T)))
    simpa only [List.cons_append, List.tail_cons, List.append_assoc, List.nil_append] using this
  have hws : ctz_parse_whitespace (':' :: ((if pretty then [' '] else [])
        ++ (ctz_stringify_value v pretty (indent + 1) ++ T)))
      = ':' :: ((if pretty then [' '] else [])
        ++ (ctz_stringify_value v pretty (indent + 1) ++ T)) :=
    whitespace_cons_of_not_space _ _ (by decide)
  have hc : peek (ctz_parse_whitespace (':' :: ((if pretty then [' '] else [])
        ++ (ctz_stringify_value v pretty (indent + 1) ++ T)))) = ':' := by
    rw [hws, peek_cons]
  have hws2 : ctz_parse_whitespace (ctz_parse_whitespace (':' :: ((if pretty then [' '] else [])
        ++ (ctz_stringify_value v pretty (indent + 1) ++ T)))).tail
      = ctz_stringify_value v pretty (indent + 1) ++ T := by
    rw [hws, List.tail_cons]
    exact whitespace_skip _ _ (ite_space _ _ (by decide)) hsp
  cases r with
  | nil =>
    simp only [List.isEmpty_nil, if_true, List.nil_append,
      ctz_stringify_value.stringify_members] at hT
    have hpk : continues_number (peek T) = false := by
      rw [← hT]
      exact closing_peek pretty indent '}' rest (by decide)
    have hval := ihv pretty (indent + 1) T g hpk (by omega)
    rw [← hws2] at hval
    rw [parse_object_loop_ok g _ acc hq k k.length _ hkey hc v T hval, ← hT,
      closing_skip pretty indent '}' rest (by decide), peek_cons, if_neg (by decide),
      if_pos rfl, List.tail_cons]
  | cons w r2 =>
    simp only [List.isEmpty_cons, Bool.false_eq_true, if_false, List.singleton_append] at hT hlen
    have hpk : continues_number (peek T) = false := by
      rw [← hT]
      rfl
    have hval := ihv pretty (indent + 1) T g hpk (by omega)
    rw [← hws2] at hval
    rw [parse_object_loop_ok g _ acc hq k k.length _ hkey hc v T hval, ← hT,
      whitespace_cons_of_not_space _ _ (by decide), peek_cons, if_pos rfl, List.tail_cons,
      whitespace_all _ _ (ite_space _ _ (by decide))]
    rw [ihr (List.cons_ne_nil _ _) pretty indent rest g _ (by omega),
      List.append_assoc, List.singleton_append]

theorem elems_head (v : ctz_json_value) (r : List ctz_json_value) (hv : integer_document v)
    (pretty : Bool) (indent : Nat) (X : List Char) :
    peek (ctz_parse_whitespace
      (ctz_stringify_value.stringify_elems (v :: r) pretty indent ++ X)) ≠ ']' := by
  obtain ⟨c, t, hsv, hcsp, hc⟩ := stringify_head v hv pretty (indent + 1)
  rw [stringify_elems_cons, whitespace_skip _ _ (ite_space _ _ (pad_space _))
    (by rw [hsv, List.cons_append, peek_cons]; exact hcsp), hsv, List.cons_append, peek_cons]
  exact hc

theorem members_head (x : ctz_json_member) (r : List ctz_json_member)
    (pretty : Bool) (indent : Nat) (X : List Char) :
    peek (ctz_parse_whitespace
      (ctz_stringify_value.stringify_members (x :: r) pretty indent ++ X)) = '"' := by
  obtain ⟨t, ht⟩ := stringify_string_head x.k x.klen
  rw [stringify_members_cons, ht, whitespace_skip _ _ (ite_space _ _ (pad_space _))
    (by rw [List.cons_append, peek_cons]; rfl), List.cons_append, peek_cons]

theorem parse_value_array (f : Nat) (t : List Char) :
    ctz_parse_value (f + 2) ('[' :: t)
      = (if peek (ctz_parse_whitespace t) = ']' then
          .ok (CTZ_JSON_ARRAY [], (ctz_parse_whitespace t).tail)
        else ctz_parse_array_loop f (ctz_parse_whitespace t) []) := by
  rw [parse_value_dispatch (f + 1) _ (by rw [peek_cons]; decide), peek_cons,
    if_neg (by decide), if_neg (by decide), if_neg (by decide), if_neg (by decide),
    if_pos rfl, parse_array_succ f _ (peek_cons _ _), List.tail_cons]

theorem parse_value_object (f : Nat) (t : List Char) :
    ctz_parse_value (f + 2) ('{' :: t)
      = (if peek (ctz_parse_whitespace t) = '}' then
          .ok (CTZ_JSON_OBJECT [], (ctz_parse_whitespace t).tail)
        else ctz_parse_object_loop f (ctz_parse_whitespace t) []) := by
  rw [parse_value_dispatch (f + 1) _ (by rw [peek_cons]; decide), peek_cons,
    if_neg (by decide), if_neg (by decide), if_neg (by decide), if_neg (by decide),
    if_neg (by decide), if_pos rfl, parse_object_succ f _ (peek_cons _ _), List.tail_cons]

theorem parse_value_null (g : Nat) (rest : List Char) :
    ctz_parse_value (g + 1) ("null".toList ++ rest) = .ok (CTZ_JSON_NULL, rest) := by
  have e : "null".toList ++ rest = 'n' :: 'u' :: 'l' :: 'l' :: rest := rfl
  rw [e, parse_value_dispatch g _ (by rw [peek_cons]; decide), peek_cons, if_pos rfl]
  exact (parse_literal_iff _ (by decide) _ _ _ _).mpr ⟨rfl, rfl⟩

theorem parse_value_false (g : Nat) (rest : List Char) :
    ctz_parse_value (g + 1) ("false".toList ++ rest) = .ok (CTZ_JSON_FALSE, rest) := by
  have e : "false".toList ++ rest = 'f' :: 'a' :: 'l' :: 's' :: 'e' :: rest := rfl
  rw [e, parse_value_dispatch g _ (by rw [peek_cons]; decide), peek_cons, if_neg (by decide),
    if_neg (by decide), if_pos rfl]
  exact (parse_literal_iff _ (by decide) _ _ _ _).mpr ⟨rfl, rfl⟩

theorem parse_value_true (g : Nat) (rest : List Char) :
    ctz_parse_value (g + 1) ("true".toList ++ rest) = .ok (CTZ_JSON_TRUE, rest) := by
  have e : "true".toList ++ rest = 't' :: 'r' :: 'u' :: 'e' :: rest := rfl
  rw [e, parse_value_dispatch g _ (by rw [peek_cons]; decide), peek_cons, if_neg (by decide),
    if_pos rfl]
  exact (parse_literal_iff _ (by decide) _ _ _ _).mpr ⟨rfl, rfl⟩

/-- Parsing the text of a document gives the document back, whatever
follows the text, with a bound on the depth of calls of twice the length of
the text. -/
theorem parse_stringify_value (v : ctz_json_value) :
    integer_document v → ∀ (pretty : Bool) (indent : Nat) (rest : List Char) (f : Nat),
      continues_number (peek rest) = false →
      2 * (ctz_stringify_value v pretty indent).length ≤ f →
      ctz_parse_value f (ctz_stringify_value v pretty indent ++ rest) = .ok (v, rest) := by
  refine ctz_json_value.rec
    (motive_1 := fun v => integer_document v →
      ∀ (pretty : Bool) (indent : Nat) (rest : List Char) (f : Nat),
      continues_number (peek rest) = false →
      2 * (ctz_stringify_value v pretty indent).length ≤ f →
      ctz_parse_value f (ctz_stringify_value v pretty indent ++ rest) = .ok (v, rest))
    (motive_2 := fun l => integer_document.elems l → l ≠ [] →
      ∀ (pretty : Bool) (indent : Nat) (rest : List Char) (f : Nat)
        (acc : List ctz_json_value),
      2 * (ctz_stringify_value.stringify_elems l pretty indent).length + 1 ≤ f →
      ctz_parse_array_loop f (ctz_parse_whitespace
        (ctz_stringify_value.stringify_elems l pretty indent
          ++ ((if pretty then fmt_pad (indent * 2) else []) ++ ']' :: rest))) acc
        = .ok (CTZ_JSON_ARRAY (acc ++ l), rest))
    (motive_3 := fun l => integer_document.members l → l ≠ [] →
      ∀ (pretty : Bool) (indent : Nat) (rest : List Char) (f : Nat)
        (acc : List ctz_json_member),
      2 * (ctz_stringify_value.stringify_members l pretty indent).length + 1 ≤ f →
      ctz_parse_object_loop f (ctz_parse_whitespace
        (ctz_stringify_value.stringify_members l pretty indent
          ++ ((if pretty then fmt_pad (indent * 2) else []) ++ '}' :: rest))) acc
        = .ok (CTZ_JSON_OBJECT (acc ++ l), rest))
    (motive_4 := fun m => integer_document m.v →
      ∀ (pretty : Bool) (indent : Nat) (rest : List Char) (f : Nat),
      continues_number (peek rest) = false →
      2 * (ctz_stringify_value m.v pretty indent).length ≤ f →
      ctz_parse_value f (ctz_stringify_value m.v pretty indent ++ rest) = .ok (m.v, rest))
    ?_ ?_ ?_ ?_ ?_ ?_ ?_ ?_ ?_ ?_ ?_ ?_ v
  · intro _ pretty indent rest f _ hf
    rw [ctz_stringify_value] at hf ⊢
    obtain ⟨g, rfl⟩ : ∃ g, f = g + 1 := ⟨f - 1, by simp at hf; omega⟩
    exact parse_value_null g rest
  · intro _ pretty indent rest f _ hf
    rw [ctz_stringify_value] at hf ⊢
    obtain ⟨g, rfl⟩ : ∃ g, f = g + 1 := ⟨f - 1, by simp at hf; omega⟩
    exact parse_value_false g rest
  · intro _ pretty indent rest f _ hf
    rw [ctz_stringify_value] at hf ⊢
    obtain ⟨g, rfl⟩ : ∃ g, f = g + 1 := ⟨f - 1, by simp at hf; omega⟩
    exact parse_value_true g rest
  · intro d hd pretty indent rest f hr hf
    rw [ctz_stringify_value] at hf ⊢
    have := fmt_17g_integer_length d hd
    exact parse_value_leaf_number d hd f rest hr (by omega)
  · intro s len hs pretty indent rest f _ hf
    rw [ctz_stringify_value] at hf ⊢
    unfold integer_document at hs
    subst hs
    have := stringify_string_length s s.length
    obtain ⟨g, rfl⟩ : ∃ g, f = g + 1 := ⟨f - 1, by omega⟩
    obtain ⟨t, ht⟩ := stringify_string_head s s.length
    rw [parse_value_dispatch g _ (by rw [ht, List.cons_append, peek_cons]; decide)]
    have hp : peek (ctz_stringify_string s s.length ++ rest) = '"' := by
      rw [ht, List.cons_append, peek_cons]
    rw [hp, if_neg (by decide), if_neg (by decide), if_neg (by decide), if_pos rfl]
    exact parse_string_stringify s rest
  · intro e ih he pretty indent rest f _ hf
    rw [ctz_stringify_value] at hf ⊢
    unfold integer_document at he
    cases e with
    | nil =>
      simp only [List.isEmpty_nil, Bool.not_true, Bool.and_false, Bool.false_eq_true, if_false,
        ctz_stringify_value.stringify_elems, List.append_nil, List.singleton_append,
        List.cons_append, List.nil_append, List.length_cons, List.length_nil] at hf ⊢
      obtain ⟨g, rfl⟩ : ∃ g, f = g + 2 := ⟨f - 2, by omega⟩
      rw [parse_value_array, whitespace_cons_of_not_space _ _ (by decide), peek_cons,
        if_pos rfl, List.tail_cons]
    | cons v r =>
      simp only [List.isEmpty_cons, Bool.not_false, Bool.and_true, List.append_assoc,
        List.singleton_append, List.length_cons, List.length_append, List.length_nil] at hf ⊢
      obtain ⟨g, rfl⟩ : ∃ g, f = g + 2 := ⟨f - 2, by omega⟩
      rw [List.cons_append, parse_value_array, whitespace_all _ _ (ite_space _ _ (by decide)),
        if_neg (elems_head v r he.1 pretty indent _)]
      exact ih he (List.cons_ne_nil _ _) pretty indent rest g [] (by omega)
  · intro m ih hm pretty indent rest f _ hf
    rw [ctz_stringify_value] at hf ⊢
    unfold integer_document at hm
    cases m with
    | nil =>
      simp only [List.isEmpty_nil, Bool.not_true, Bool.and_false, Bool.false_eq_true, if_false,
        ctz_stringify_value.stringify_members, List.append_nil, List.singleton_append,
        List.cons_append, List.nil_append, List.length_cons, List.length_nil] at hf ⊢
      obtain ⟨g, rfl⟩ : ∃ g, f = g + 2 := ⟨f - 2, by omega⟩
      rw [parse_value_object, whitespace_cons_of_not_space _ _ (by decide), peek_cons,
        if_pos rfl, List.tail_cons]
    | cons x r =>
      simp only [List.isEmpty_cons, Bool.not_false, Bool.and_true, List.append_assoc,
        List.singleton_append, List.length_cons, List.length_append, List.length_nil] at hf ⊢
      obtain ⟨g, rfl⟩ : ∃ g, f = g + 2 := ⟨f - 2, by omega⟩
      rw [List.cons_append, parse_value_object, whitespace_all _ _ (ite_space _ _ (by decide)),
        if_neg (by rw [members_head]; decide)]
      exact ih hm (List.cons_ne_nil _ _) pretty indent rest g [] (by omega)
  · intro _ h
    exact absurd rfl h
  · intro v r ihv ihr he _ pretty indent rest f acc hf
    unfold integer_document.elems at he
    exact array_elems_step v r he.1 (ihv he.1) (ihr he.2) pretty indent rest f acc hf
  · intro _ h
    exact absurd rfl h
  · intro x r ihx ihr hm _ pretty indent rest f acc hf
    unfold integer_document.members at hm
    exact object_members_step x r hm.1 hm.2.1 (ihx hm.2.1) (ihr hm.2.2) pretty indent rest f
      acc hf
  · intro k klen v ih
    exact ih

/-- Without `pretty` nothing but the text of a number goes through the
scratch array, and it fits. -/
theorem scratch_fits_compact (v : ctz_json_value) :
    integer_document v → ∀ indent : Nat, scratch_fits v false indent = true := by
  refine ctz_json_value.rec
    (motive_1 := fun v => integer_document v → ∀ indent : Nat,
      scratch_fits v false indent = true)
    (motive_2 := fun l => integer_document.elems l → ∀ indent : Nat,
      scratch_fits.fits_elems l false indent = true)
    (motive_3 := fun l => integer_document.members l → ∀ indent : Nat,
      scratch_fits.fits_members l false indent = true)
    (motive_4 := fun m => integer_document m.v → ∀ indent : Nat,
      scratch_fits m.v false indent = true)
    ?_ ?_ ?_ ?_ ?_ ?_ ?_ ?_ ?_ ?_ ?_ ?_ v
  · intro _ _; rfl
  · intro _ _; rfl
  · intro _ _; rfl
  · intro d hd _
    have := fmt_17g_integer_length d hd
    rw [scratch_fits, decide_eq_true_eq]
    omega
  · intro _ _ _ _; rfl
  · intro e ih he indent
    unfold integer_document at he
    rw [scratch_fits, ih he indent]
    rfl
  · intro m ih hm indent
    unfold integer_document at hm
    rw [scratch_fits, ih hm indent]
    rfl
  · intro _ _; rfl
  · intro v r ihv ihr he indent
    unfold integer_document.elems at he
    rw [scratch_fits.fits_elems, ihv he.1, ihr he.2]
    rfl
  · intro _ _; rfl
  · intro x r ihx ihr hm indent
    unfold integer_document.members at hm
    rw [scratch_fits.fits_members, ihx hm.2.1, ihr hm.2.2]
    rfl
  · intro k klen v ih
    exact ih

/-- On the text of a document `ctz_json_parse` returns the document. -/
theorem json_parse_stringify (v : ctz_json_value) (pretty : Bool) (hv : integer_document v) :
    ctz_json_parse (ctz_stringify_value v pretty 0) = .ok v := by
  have h := parse_stringify_value v hv pretty 0 [] (3 * (ctz_stringify_value v pretty 0).length + 3)
    (by decide) (by omega)
  rw [List.append_nil] at h
  rw [json_parse_of_value _ _ _ h, if_neg (by decide)]

/-- The call `ctz_json_stringify(v, pretty)` with the scratch array taken
into account: the text returned, or `none` when a `sprintf` writes past the
end of `buffer`, where the behaviour of the call is undefined. -/
def stringify_in_bounds (v : ctz_json_value) (pretty : Bool) : Option (List Char) :=
  if scratch_fits v pretty 0 then ctz_json_stringify (some v) pretty else none

/-- Claim C27. For a document whose number nodes are integers of magnitude
below `2^53` and whose strings and keys store their length, and for both
values of `pretty`: when every `sprintf` of `ctz_stringify_value` stays
inside its 128-byte scratch array, `ctz_json_stringify` returns a text on
which `ctz_json_parse` returns the document. An array nested 64 times
around `null` is such a document, and the parser returns it for its compact
text; with `pretty` set the indentation of its innermost element, 128
blanks and a terminator, does not fit the scratch array, while for 63
levels it does. Without `pretty` the scratch array always suffices. -/
theorem parse_undoes_stringify (v : ctz_json_value) (pretty : Bool)
    (hv : integer_document v) (hfit : scratch_fits v pretty 0 = true) :
    (∃ text, stringify_in_bounds v pretty = some text ∧ ctz_json_parse text = .ok v)
    ∧ (∃ text, stringify_in_bounds v false = some text ∧ ctz_json_parse text = .ok v)
    ∧ integer_document (nested_array 64 CTZ_JSON_NULL)
    ∧ ctz_json_parse (ctz_stringify_value (nested_array 64 CTZ_JSON_NULL) false 0)
        = .ok (nested_array 64 CTZ_JSON_NULL)
    ∧ stringify_in_bounds (nested_array 64 CTZ_JSON_NULL) true = none
    ∧ (stringify_in_bounds (nested_array 63 CTZ_JSON_NULL) true).isSome = true
    ∧ (stringify_in_bounds (nested_array 64 CTZ_JSON_NULL) false).isSome = true := by
  have hnest : ∀ n, integer_document (nested_array n CTZ_JSON_NULL) := by
    intro n
    induction n with
    | zero => exact trivial
    | succ n ih => exact ⟨ih, trivial⟩
  refine ⟨⟨ctz_stringify_value v pretty 0, ?_, json_parse_stringify v pretty hv⟩,
    ⟨ctz_stringify_value v false 0, ?_, json_parse_stringify v false hv⟩, hnest 64,
    json_parse_stringify _ false (hnest 64), by decide!, by decide!, by decide!⟩
  · unfold stringify_in_bounds
    rw [if_pos hfit]
    rfl
  · unfold stringify_in_bounds
    rw [if_pos (scratch_fits_compact v hv 0)]
    rfl

/-- A document with an object, an array, a number, a string with a control
character and a quote, and the three literals. -/
def doc_mixed : ctz_json_value :=
  CTZ_JSON_OBJECT [⟨"a\"b".toList, 3,
    CTZ_JSON_ARRAY [CTZ_JSON_NUMBER (Double.ofNat 7), CTZ_JSON_STRING "x\n".toList 2,
      CTZ_JSON_NULL, CTZ_JSON_TRUE, CTZ_JSON_FALSE, CTZ_JSON_ARRAY [], CTZ_JSON_OBJECT []]⟩,
    ⟨"a\"b".toList, 3, CTZ_JSON_NUMBER (Double.ofNat 9007199254740991)⟩]

theorem parse_undoes_stringify_witness :
    integer_document doc_mixed ∧ scratch_fits doc_mixed true 0 = true
    ∧ ∃ text, stringify_in_bounds doc_mixed true = some text
      ∧ ctz_json_parse text = .ok doc_mixed :=
  have h : integer_document doc_mixed :=
    ⟨rfl, ⟨⟨false, 7, by decide, by decide!⟩, rfl, trivial, trivial, trivial, trivial, trivial,
      trivial⟩, rfl, ⟨false, 9007199254740991, by decide, by decide!⟩, trivial⟩
  ⟨h, by decide!, (parse_undoes_stringify doc_mixed true h (by decide!)).1⟩

/-! ## The two passes of `ctz_parse_string_raw` (C34) -/

/-- Claim C34: the two passes of `ctz_parse_string_raw` agree. When the
first (validating, counting) pass succeeds on the text at the cursor with
count `head`, it stopped at a quote of the text; the second (decoding) pass
succeeds, stops at that same quote and writes exactly `head` bytes; and the
routine returns those bytes with `head` as their length and the cursor
after the quote. The same holds from any start count and with any bound
on the steps. -/
theorem string_passes_agree (json : List Char) (head : Nat) (q : List Char)
    (h : string_pass1 (json.length + 1) json 0 = .ok (head, q)) :
    (∃ bytes rest pre, q = '"' :: rest ∧ json = pre ++ q
      ∧ string_pass2 (json.length + 1) json = .ok (bytes, q)
      ∧ bytes.length = head
      ∧ ctz_parse_string_raw json = .ok ((bytes, head), rest))
    ∧ (∀ (f : Nat) (p : List Char) (h0 n : Nat) (q2 : List Char),
        string_pass1 f p h0 = .ok (n, q2) →
        ∃ bytes, string_pass2 f p = .ok (bytes, q2) ∧ n = h0 + bytes.length) := by
  constructor
  · obtain ⟨bytes, rest, pre, hq, hpre, hn, hext⟩ := string_body_extend _ _ _ _ _ h
    obtain ⟨_, a2⟩ := hext (json.length + 1) [] (le_refl _)
    simp only [List.append_nil] at a2
    refine ⟨bytes, rest, pre, hq, hpre, a2, by omega, ?_⟩
    unfold ctz_parse_string_raw
    rw [h, a2, hq]
    simp only [List.tail_cons]
  · intro f p h0 n q2 H
    obtain ⟨bytes, rest, pre, hq, hpre, hn, hext⟩ := string_body_extend _ _ _ _ _ H
    obtain ⟨_, a2⟩ := hext f [] (le_refl _)
    simp only [List.append_nil] at a2
    exact ⟨bytes, a2, hn⟩

theorem string_passes_agree_witness :
    string_pass1 ("a\\u00e9\\n\\uD83D\\uDE00\" tail".toList.length + 1)
        "a\\u00e9\\n\\uD83D\\uDE00\" tail".toList 0 = .ok (8, "\" tail".toList)
    ∧ ∃ bytes rest pre, "\" tail".toList = '"' :: rest
      ∧ "a\\u00e9\\n\\uD83D\\uDE00\" tail".toList = pre ++ "\" tail".toList
      ∧ string_pass2 ("a\\u00e9\\n\\uD83D\\uDE00\" tail".toList.length + 1)
          "a\\u00e9\\n\\uD83D\\uDE00\" tail".toList = .ok (bytes, "\" tail".toList)
      ∧ bytes.length = 8
      ∧ ctz_parse_string_raw "a\\u00e9\\n\\uD83D\\uDE00\" tail".toList
          = .ok ((bytes, 8), rest) :=
  ⟨by decide!,
    (string_passes_agree "a\\u00e9\\n\\uD83D\\uDE00\" tail".toList 8 "\" tail".toList
      (by decide!)).1⟩

/-! ## Termination and assertions of the parser (C32, C33) -/

/-- A parser routine ended as the C code can end: with a value, or by
returning `NULL`. -/
def settled {α : Type} (r : Except ctz_stop α) : Prop :=
  (∃ x, r = .ok x) ∨ r = .error .null

theorem settled_ok {α : Type} (x : α) : settled (Except.ok x : Except ctz_stop α) :=
  Or.inl ⟨x, rfl⟩

theorem settled_null {α : Type} : settled (Except.error ctz_stop.null : Except ctz_stop α) :=
  Or.inr rfl

theorem settled_cases {α : Type} (r : Except ctz_stop α) (h : settled r) :
    r ≠ .error .out_of_fuel ∧ r ≠ .error .assert_failed ∧ r ≠ .error .undefined := by
  rcases h with ⟨x, rfl⟩ | rfl
  · refine ⟨?_, ?_, ?_⟩ <;> intro e <;> cases e
  · refine ⟨?_, ?_, ?_⟩ <;> intro e <;> cases e

/-- The first loop of `ctz_parse_string_raw` ends within as many steps as
the text has bytes, with a count or with `NULL`. -/
theorem pass1_settled : ∀ (f : Nat) (p : List Char) (h : Nat), p.length < f →
    settled (string_pass1 f p h) := by
  intro f
  induction f with
  | zero => intro p h hf; omega
  | succ f ih =>
    intro p h hf
    cases p with
    | nil =>
      rw [pass1_fail_end _ _ (by omega)]
      exact settled_null
    | cons c t =>
      simp only [List.length_cons] at hf
      by_cases hq : c = '"'
      · subst hq
        rw [pass1_quote]
        exact settled_ok _
      · by_cases hc : c.toNat < 0x20
        · rw [pass1_fail_control _ _ _ _ (by omega) hc]
          exact settled_null
        · by_cases hb : c = '\\'
          · subst hb
            cases t with
            | nil =>
              rw [pass1_fail_escape_end _ _ (by omega)]
              exact settled_null
            | cons e t' =>
              simp only [List.length_cons] at hf
              by_cases he : is_simple_escape e = true
              · rw [pass1_simple f h e t' he]
                exact ih t' _ (by omega)
              · by_cases hu : e = 'u'
                · subst hu
                  cases hx : ctz_parse_hex4 t' with
                  | none =>
                    rw [pass1_fail_hex _ _ _ (by omega) hx]
                    exact settled_null
                  | some r =>
                    obtain ⟨u, t2⟩ := r
                    obtain ⟨a, b, c, d, rfl, ha, hb, hc, hd, rfl⟩ := parse_hex4_some _ _ _ hx
                    simp only [List.length_cons] at hf
                    by_cases hs : 0xD800 ≤ hex4_value a b c d ∧ hex4_value a b c d ≤ 0xDBFF
                    · by_cases hlow : low_surrogate_follows t2
                      · obtain ⟨e2, f2, g2, h2, rest, rfl, he2, hf2, hg2, hh2, hl1, hl2⟩ := hlow
                        have hx2 := parse_hex4_ok e2 f2 g2 h2 rest he2 hf2 hg2 hh2
                        rw [pass1_pair f h _ _ _ _ hx hs rest hx2 ⟨hl1, hl2⟩]
                        simp only [List.length_cons] at hf
                        exact ih rest _ (by omega)
                      · rw [pass1_fail_surrogate _ _ _ _ _ (by omega) hx hs hlow]
                        exact settled_null
                    · rw [pass1_unicode f h _ _ _ hx hs]
                      exact ih t2 _ (by omega)
                · rw [pass1_fail_escape _ _ _ _ (by omega) (by simpa using he) hu]
                  exact settled_null
          · rw [pass1_plain f h c t (by omega) hq hb]
            exact ih t _ (by omega)

/-- `ctz_parse_string_raw` ends with a string or with `NULL` on every text:
its loops do not run past the text, `ctz_parse_hex4` does not fail in the
second loop and the assertion of `ctz_encode_utf8` holds. -/
theorem parse_string_raw_settled (json : List Char) : settled (ctz_parse_string_raw json) := by
  rcases pass1_settled (json.length + 1) json 0 (by omega) with ⟨⟨n, q⟩, h⟩ | h
  · obtain ⟨bytes, rest, pre, hq, hpre, hn, hext⟩ := string_body_extend _ _ _ _ _ h
    obtain ⟨_, a2⟩ := hext (json.length + 1) [] (le_refl _)
    simp only [List.append_nil] at a2
    unfold ctz_parse_string_raw
    rw [h, a2]
    exact settled_ok _
  · unfold ctz_parse_string_raw
    rw [h]
    exact settled_null

theorem parse_string_settled (json : List Char) (h : peek json = '"') :
    settled (ctz_parse_string json) := by
  unfold ctz_parse_string CTZ_EXPECT
  rw [if_pos h]
  simp only
  rcases parse_string_raw_settled json.tail with ⟨⟨⟨s, len⟩, rest⟩, hr⟩ | hr
  · rw [hr]
    exact settled_ok _
  · rw [hr]
    exact settled_null

theorem parse_number_settled (json : List Char) : settled (ctz_parse_number json) := by
  unfold ctz_parse_number
  cases number_scan json with
  | none => exact settled_null
  | some p =>
    simp only
    cases hv : (strtod json).1 with
    | none =>
      have : strtod json = (none, (strtod json).2) := by rw [← hv]
      rw [this]
      exact settled_null
    | some d =>
      have : strtod json = (some d, (strtod json).2) := by rw [← hv]
      rw [this]
      simp only
      split
      · exact settled_null
      · exact settled_ok _

theorem parse_literal_settled (json literal : List Char) (value : ctz_json_value) :
    settled (ctz_parse_literal json literal value) := by
  unfold ctz_parse_literal
  split
  · exact settled_ok _
  · exact settled_null

theorem whitespace_length_le (a : List Char) : (ctz_parse_whitespace a).length ≤ a.length :=
  (whitespace_suffix a).length_le

theorem tail_length_lt (a : List Char) (h : a ≠ []) : a.tail.length < a.length := by
  cases a with
  | nil => exact absurd rfl h
  | cons c t => simp

theorem rfc_number_ne_nil (tok : List Char) (h : rfc_number tok) : 1 ≤ tok.length := by
  obtain ⟨sign, int, frac, exp, rfl, _, hi, _, _⟩ := h
  have := (int_part_digits int hi).1
  cases int with
  | nil => exact absurd rfl this
  | cons c t =>
    simp only [List.length_append, List.length_cons]
    omega

/-- A successful `ctz_parse_array` leaves the cursor past the opening
bracket. -/
theorem parse_array_advances (f : Nat) (a : List Char) (v : ctz_json_value) (r : List Char)
    (H : ctz_parse_array f a = .ok (v, r)) : r.length < a.length := by
  cases f with
  | zero =>
    rw [ctz_parse_array] at H
    cases H
  | succ f =>
    by_cases hb : peek a = '['
    · have ha := peek_ne_nil a (by rw [hb]; decide)
      have h1 := tail_length_lt a ha
      have h2 := whitespace_length_le a.tail
      rw [parse_array_succ f a hb] at H
      by_cases hc : peek (ctz_parse_whitespace a.tail) = ']'
      · rw [if_pos hc] at H
        simp only [Except.ok.injEq, Prod.mk.injEq] at H
        have := (List.tail_suffix (ctz_parse_whitespace a.tail)).length_le
        rw [← H.2]
        omega
      · rw [if_neg hc] at H
        have := ((parse_suffix f).2.2.1 _ _ _ _ H).length_le
        omega
    · rw [parse_array_not f a hb] at H
      cases H

theorem parse_object_advances (f : Nat) (a : List Char) (v : ctz_json_value) (r : List Char)
    (H : ctz_parse_object f a = .ok (v, r)) : r.length < a.length := by
  cases f with
  | zero =>
    rw [ctz_parse_object] at H
    cases H
  | succ f =>
    by_cases hb : peek a = '{'
    · have ha := peek_ne_nil a (by rw [hb]; decide)
      have h1 := tail_length_lt a ha
      have h2 := whitespace_length_le a.tail
      rw [parse_object_succ f a hb] at H
      by_cases hc : peek (ctz_parse_whitespace a.tail) = '}'
      · rw [if_pos hc] at H
        simp only [Except.ok.injEq, Prod.mk.injEq] at H
        have := (List.tail_suffix (ctz_parse_whitespace a.tail)).length_le
        rw [← H.2]
        omega
      · rw [if_neg hc] at H
        have := ((parse_suffix f).2.2.2.2 _ _ _ _ H).length_le
        omega
    · rw [parse_object_not f a hb] at H
      cases H

theorem parse_string_raw_advances (json : List Char) (x : List Char × Nat) (rest : List Char)
    (h : ctz_parse_string_raw json = .ok (x, rest)) : rest.length < json.length := by
  unfold ctz_parse_string_raw at h
  cases h1 : string_pass1 (json.length + 1) json 0 with
  | error e => rw [h1] at h; cases h
  | ok y =>
    obtain ⟨n, q⟩ := y
    obtain ⟨bytes, q', pre, rfl, hpre, _, hext⟩ := string_body_extend _ _ _ _ _ h1
    obtain ⟨a1, a2⟩ := hext (json.length + 1) [] (le_refl _)
    simp only [List.append_nil] at a1 a2
    rw [a1, a2] at h
    simp only [Except.ok.injEq, Prod.mk.injEq, List.tail_cons] at h
    rw [hpre, ← h.2]
    simp only [List.length_append, List.length_cons]
    omega

theorem parse_string_advances (json : List Char) (v : ctz_json_value) (rest : List Char)
    (h : ctz_parse_string json = .ok (v, rest)) : rest.length < json.length := by
  unfold ctz_parse_string CTZ_EXPECT at h
  by_cases hq : peek json = '"'
  · rw [if_pos hq] at h
    simp only at h
    cases hr : ctz_parse_string_raw json.tail with
    | error e => rw [hr] at h; cases h
    | ok x =>
      obtain ⟨⟨str, len⟩, rest'⟩ := x
      rw [hr] at h
      simp only [Except.ok.injEq, Prod.mk.injEq] at h
      have h1 := parse_string_raw_advances _ _ _ hr
      have h2 := (List.tail_suffix json).length_le
      rw [← h.2]
      omega
  · rw [if_neg hq] at h
    cases h

/-- Every successful call of `ctz_parse_value` strictly advances the
cursor. -/
theorem parse_value_advances (f : Nat) (a : List Char) (v : ctz_json_value) (r : List Char)
    (H : ctz_parse_value f a = .ok (v, r)) : r.length < a.length := by
  cases f with
  | zero =>
    rw [ctz_parse_value] at H
    cases H
  | succ f =>
    have hw := whitespace_length_le a
    rw [parse_value_succ] at H
    generalize ctz_parse_whitespace a = j at H hw
    have hlit : ∀ (lit : List Char) (value : ctz_json_value), NUL ∉ lit → 1 ≤ lit.length →
        ctz_parse_literal j lit value = .ok (v, r) → r.length < a.length := by
      intro lit value hn hl hp
      have := ((parse_literal_iff lit hn j value v r).mp hp).1
      rw [this, List.length_append] at hw
      omega
    by_cases h1 : peek j = 'n'
    · rw [if_pos h1] at H
      exact hlit _ _ (by decide) (by decide) H
    rw [if_neg h1] at H
    by_cases h2 : peek j = 't'
    · rw [if_pos h2] at H
      exact hlit _ _ (by decide) (by decide) H
    rw [if_neg h2] at H
    by_cases h3 : peek j = 'f'
    · rw [if_pos h3] at H
      exact hlit _ _ (by decide) (by decide) H
    rw [if_neg h3] at H
    by_cases h4 : peek j = '"'
    · rw [if_pos h4] at H
      have := parse_string_advances _ _ _ H
      omega
    rw [if_neg h4] at H
    by_cases h5 : peek j = '['
    · rw [if_pos h5] at H
      have := parse_array_advances _ _ _ _ H
      omega
    rw [if_neg h5] at H
    by_cases h6 : peek j = '{'
    · rw [if_pos h6] at H
      have := parse_object_advances _ _ _ _ H
      omega
    rw [if_neg h6] at H
    by_cases h7 : peek j = NUL
    · rw [if_pos h7] at H
      cases H
    rw [if_neg h7] at H
    obtain ⟨tok, d, hj, htok, _⟩ := parse_number_sound _ _ _ H
    have := rfc_number_ne_nil tok htok
    rw [hj, List.length_append] at hw
    omega

/-- What remains after a delimiter that follows a cursor `j`: two bytes
shorter than any text `j` is a proper part of. -/
theorem after_delimiter_length (j : List Char) (c : Char) (hc : c ≠ NUL)
    (h : peek (ctz_parse_whitespace j) = c) :
    (ctz_parse_whitespace (ctz_parse_whitespace j).tail).length + 1 ≤ j.length := by
  have hne := peek_ne_nil _ (by rw [h]; exact hc)
  have h1 := tail_length_lt _ hne
  have h2 := whitespace_length_le j
  have h3 := whitespace_length_le (ctz_parse_whitespace j).tail
  omega

def value_settles (f : Nat) : Prop :=
  ∀ a : List Char, 3 * a.length + 3 ≤ f → settled (ctz_parse_value f a)

def array_settles (f : Nat) : Prop :=
  ∀ a : List Char, 3 * a.length + 2 ≤ f → peek a = '[' → settled (ctz_parse_array f a)

def array_loop_settles (f : Nat) : Prop :=
  ∀ (x : List Char) (e : List ctz_json_value), 3 * x.length + 4 ≤ f →
    settled (ctz_parse_array_loop f x e)

def object_settles (f : Nat) : Prop :=
  ∀ a : List Char, 3 * a.length + 2 ≤ f → peek a = '{' → settled (ctz_parse_object f a)

def object_loop_settles (f : Nat) : Prop :=
  ∀ (x : List Char) (m : List ctz_json_member), 3 * x.length + 4 ≤ f →
    settled (ctz_parse_object_loop f x m)

theorem value_settles_succ (f : Nat) (ha : array_settles f) (ho : object_settles f) :
    value_settles (f + 1) := by
  intro a hf
  have hw := whitespace_length_le a
  rw [parse_value_succ]
  generalize ctz_parse_whitespace a = j at hw
  by_cases h1 : peek j = 'n'
  · rw [if_pos h1]
    exact parse_literal_settled _ _ _
  rw [if_neg h1]
  by_cases h2 : peek j = 't'
  · rw [if_pos h2]
    exact parse_literal_settled _ _ _
  rw [if_neg h2]
  by_cases h3 : peek j = 'f'
  · rw [if_pos h3]
    exact parse_literal_settled _ _ _
  rw [if_neg h3]
  by_cases h4 : peek j = '"'
  · rw [if_pos h4]
    exact parse_string_settled _ h4
  rw [if_neg h4]
  by_cases h5 : peek j = '['
  · rw [if_pos h5]
    exact ha j (by omega) h5
  rw [if_neg h5]
  by_cases h6 : peek j = '{'
  · rw [if_pos h6]
    exact ho j (by omega) h6
  rw [if_neg h6]
  by_cases h7 : peek j = NUL
  · rw [if_pos h7]
    exact settled_null
  rw [if_neg h7]
  exact parse_number_settled _

theorem array_settles_succ (f : Nat) (hl : array_loop_settles f) : array_settles (f + 1) := by
  intro a hf hb
  have ha := peek_ne_nil a (by rw [hb]; decide)
  have h1 := tail_length_lt a ha
  have h2 := whitespace_length_le a.tail
  rw [parse_array_succ f a hb]
  by_cases hc : peek (ctz_parse_whitespace a.tail) = ']'
  · rw [if_pos hc]
    exact settled_ok _
  · rw [if_neg hc]
    exact hl _ _ (by omega)

theorem array_loop_settles_succ (f : Nat) (hv : value_settles f)
    (hl : array_loop_settles f) : array_loop_settles (f + 1) := by
  intro x e hf
  rcases hv x (by omega) with ⟨⟨el, j⟩, hel⟩ | hel
  · have hadv := parse_value_advances f x el j hel
    rw [parse_array_loop_ok f x e el j hel]
    by_cases hc : peek (ctz_parse_whitespace j) = ','
    · rw [if_pos hc]
      have := after_delimiter_length j ',' (by decide) hc
      exact hl _ _ (by omega)
    · rw [if_neg hc]
      by_cases hd : peek (ctz_parse_whitespace j) = ']'
      · rw [if_pos hd]
        exact settled_ok _
      · rw [if_neg hd]
        exact settled_null
  · rw [parse_array_loop_error f x e _ hel]
    exact settled_null

theorem object_settles_succ (f : Nat) (hl : object_loop_settles f) :
    object_settles (f + 1) := by
  intro a hf hb
  have ha := peek_ne_nil a (by rw [hb]; decide)
  have h1 := tail_length_lt a ha
  have h2 := whitespace_length_le a.tail
  rw [parse_object_succ f a hb]
  by_cases hc : peek (ctz_parse_whitespace a.tail) = '}'
  · rw [if_pos hc]
    exact settled_ok _
  · rw [if_neg hc]
    exact hl _ _ (by omega)

theorem object_loop_settles_succ (f : Nat) (hv : value_settles f)
    (hl : object_loop_settles f) : object_loop_settles (f + 1) := by
  intro x m hf
  by_cases hq : peek x = '"'
  · have hx := peek_ne_nil x (by rw [hq]; decide)
    have h1 := tail_length_lt x hx
    rcases parse_string_raw_settled x.tail with ⟨⟨⟨k, klen⟩, j⟩, hk⟩ | hk
    · have hj := parse_string_raw_advances _ _ _ hk
      by_cases hc : peek (ctz_parse_whitespace j) = ':'
      · have h2 := after_delimiter_length j ':' (by decide) hc
        rcases hv (ctz_parse_whitespace (ctz_parse_whitespace j).tail) (by omega)
          with ⟨⟨el, j2⟩, hel⟩ | hel
        · have hadv := parse_value_advances f _ el j2 hel
          rw [parse_object_loop_ok f x m hq k klen j hk hc el j2 hel]
          by_cases hd : peek (ctz_parse_whitespace j2) = ','
          · rw [if_pos hd]
            have := after_delimiter_length j2 ',' (by decide) hd
            exact hl _ _ (by omega)
          · rw [if_neg hd]
            by_cases he : peek (ctz_parse_whitespace j2) = '}'
            · rw [if_pos he]
              exact settled_ok _
            · rw [if_neg he]
              exact settled_null
        · rw [parse_object_loop_value_error f x m hq k klen j hk hc _ hel]
          exact settled_null
      · rw [parse_object_loop_no_colon f x m hq k klen j hk hc]
        exact settled_null
    · rw [parse_object_loop_key_error f x m hq _ hk]
      exact settled_null
  · rw [parse_object_loop_not f x m hq]
    exact settled_null

/-- With a bound on the depth of calls of three times the length of the
text and three, every routine of the parser ends with a value or with
`NULL`: the bound is never the reason a routine stops, no assertion fails
and no pointer leaves the text. -/
theorem parse_settles (f : Nat) :
    value_settles f ∧ array_settles f ∧ array_loop_settles f ∧ object_settles f
      ∧ object_loop_settles f := by
  induction f with
  | zero =>
    refine ⟨?_, ?_, ?_, ?_, ?_⟩
    · intro a hf; omega
    · intro a hf; omega
    · intro x e hf; omega
    · intro a hf; omega
    · intro x m hf; omega
  | succ f ih =>
    obtain ⟨hv, ha, hal, ho, hol⟩ := ih
    exact ⟨value_settles_succ f ha ho, array_settles_succ f hal,
      array_loop_settles_succ f hv hal, object_settles_succ f hol,
      object_loop_settles_succ f hv hol⟩

theorem json_parse_settled (json : List Char) : settled (ctz_json_parse json) := by
  rcases (parse_settles _).1 json (le_refl _) with ⟨⟨v, r⟩, h⟩ | h
  · rw [json_parse_of_value json v r h]
    by_cases hp : peek (ctz_parse_whitespace r) = NUL
    · rw [if_neg (not_not.mpr hp)]
      exact settled_ok _
    · rw [if_pos hp]
      exact settled_null
  · unfold ctz_json_parse
    rw [h]
    exact settled_null

/-! ### A larger bound on the depth of calls changes nothing -/

/-- Claim C33: no assertion of the parser fails, whatever the text.
`ctz_json_parse` never ends by a failed assertion or by undefined pointer
arithmetic, nor does `ctz_parse_value` with any sufficient bound on the
depth of calls; `ctz_parse_string`, `ctz_parse_array` and `ctz_parse_object`
meet their `CTZ_EXPECT` exactly when the cursor is at the expected byte,
which is where `ctz_parse_value` calls them; the key of a member is parsed
without a failed assertion; and after a successful first loop the second
loop of `ctz_parse_string_raw` passes to `ctz_encode_utf8` only code points
up to `0x10FFFF`, while a larger one would fail its assertion. -/
theorem parser_assertions_hold :
    (∀ json : List Char, ctz_json_parse json ≠ .error .assert_failed
      ∧ ctz_json_parse json ≠ .error .undefined)
    ∧ (∀ (json : List Char) (g : Nat), 3 * json.length + 3 ≤ g →
        ctz_parse_value g json ≠ .error .assert_failed
        ∧ ctz_parse_value g json ≠ .error .undefined)
    ∧ (∀ json : List Char,
        (peek json = '"' → ctz_parse_string json ≠ .error .assert_failed)
        ∧ (peek json ≠ '"' → ctz_parse_string json = .error .assert_failed))
    ∧ (∀ (f : Nat) (json : List Char), peek json ≠ '[' →
        ctz_parse_array (f + 1) json = .error .assert_failed)
    ∧ (∀ (f : Nat) (json : List Char), peek json ≠ '{' →
        ctz_parse_object (f + 1) json = .error .assert_failed)
    ∧ (∀ (f : Nat) (json : List Char) (m : List ctz_json_member),
        3 * json.length + 4 ≤ f →
        ctz_parse_object_loop f json m ≠ .error .assert_failed)
    ∧ (∀ json : List Char, ctz_parse_string_raw json ≠ .error .assert_failed
        ∧ ctz_parse_string_raw json ≠ .error .undefined)
    ∧ (∀ (f : Nat) (p : List Char) (h n : Nat) (q : List Char),
        string_pass1 f p h = .ok (n, q) → ∃ bytes, string_pass2 f p = .ok (bytes, q))
    ∧ (∀ a b c d : Char, is_hex_digit a = true → is_hex_digit b = true →
        is_hex_digit c = true → is_hex_digit d = true →
        ctz_encode_utf8 (hex4_value a b c d) ≠ none)
    ∧ (∀ h l : Nat, 0xD800 ≤ h ∧ h ≤ 0xDBFF → 0xDC00 ≤ l ∧ l ≤ 0xDFFF →
        surrogate_pair h l ≤ 0x10FFFF ∧ ctz_encode_utf8 (surrogate_pair h l) ≠ none)
    ∧ emit_utf8 0x110000 (.ok ([], [])) = .error .assert_failed := by
  refine ⟨?_, ?_, ?_, ?_, ?_, ?_, ?_, ?_, ?_, ?_, by decide⟩
  · intro json
    exact (settled_cases _ (json_parse_settled json)).2
  · intro json g hg
    exact (settled_cases _ ((parse_settles g).1 json hg)).2
  · intro json
    constructor
    · intro h
      exact (settled_cases _ (parse_string_settled json h)).2.1
    · intro h
      unfold ctz_parse_string CTZ_EXPECT
      rw [if_neg h]
  · intro f json h
    exact parse_array_not f json h
  · intro f json h
    exact parse_object_not f json h
  · intro f json m hf
    exact (settled_cases _ ((parse_settles f).2.2.2.2 json m hf)).2.1
  · intro json
    exact (settled_cases _ (parse_string_raw_settled json)).2
  · intro f p h n q H
    obtain ⟨bytes, rest, pre, hq, hpre, _, hext⟩ := string_body_extend _ _ _ _ _ H
    obtain ⟨_, a2⟩ := hext f [] (le_refl _)
    simp only [List.append_nil] at a2
    exact ⟨bytes, a2⟩
  · intro a b c d ha hb hc hd
    have := hex4_value_lt a b c d ha hb hc hd
    rw [encode_utf8_eq _ (by omega)]
    intro e
    cases e
  · intro h l hh hl
    have := surrogate_pair_eq h l hh hl
    have hle : surrogate_pair h l ≤ 0x10FFFF := by
      rw [this.1]
      exact this.2.2
    refine ⟨hle, ?_⟩
    rw [encode_utf8_eq _ hle]
    intro e
    cases e

/-! ## Setting a member of an object (C31) -/

/-- Embedding of `ctz_json_get_object_size` for a non-null document. -/
def ctz_json_get_object_size : ctz_json_value → Nat
  | CTZ_JSON_OBJECT m => m.length
  | _ => 0

/-- The object built by calls of `ctz_json_object_set_value` on the result
of `ctz_json_new_object`, one call per key and value of the list. -/
def built_object (calls : List (List Char × ctz_json_value)) : ctz_json_value :=
  calls.foldl (fun o c => (ctz_json_object_set_value o c.1 c.2).1) ctz_json_new_object

/-- The keys of an object are pairwise distinct, free of `NUL` and stored
with their length. -/
def distinct_keys (m : List ctz_json_member) : Prop :=
  (m.map (fun x => x.k)).Nodup ∧ ∀ x ∈ m, x.klen = x.k.length ∧ NUL ∉ x.k

theorem cstr_ext (a b : List Char) (h : strlen a = strlen b)
    (hall : ∀ i, i < strlen b → a.getD i NUL = b.getD i NUL) : cstr a = cstr b := by
  unfold strlen at h hall
  apply List.ext_getElem h
  intro i h1 h2
  have e := hall i h2
  rw [getD_cstr a i h1, getD_cstr b i h2, List.getD_eq_getElem?_getD,
    List.getD_eq_getElem?_getD, List.getElem?_eq_getElem h1, List.getElem?_eq_getElem h2] at e
  exact e

/-- A member matches two keys only when they are the same string. -/
theorem key_matches_unique (x : ctz_json_member) (k k2 : List Char)
    (h1 : key_matches x k = true) (h2 : key_matches x k2 = true) : cstr k = cstr k2 := by
  unfold key_matches at h1 h2
  rw [Bool.and_eq_true, beq_iff_eq] at h1 h2
  apply cstr_ext k k2 (h1.1.symm.trans h2.1)
  intro i hi
  have a1 := h1.2
  have a2 := h2.2
  unfold memcmp_eq at a1 a2
  rw [List.all_eq_true] at a1 a2
  have b1 := a1 i (List.mem_range.mpr (by rw [← h1.1, h2.1]; exact hi))
  have b2 := a2 i (List.mem_range.mpr hi)
  rw [beq_iff_eq] at b1 b2
  rw [← b1, b2]

theorem key_matches_new (key : List Char) (v : ctz_json_value) :
    key_matches (ctz_json_member_of.mk (cstr key) (strlen key) v) key = true := by
  unfold key_matches
  rw [Bool.and_eq_true, beq_iff_eq]
  refine ⟨rfl, ?_⟩
  unfold memcmp_eq
  rw [List.all_eq_true]
  intro i hi
  rw [beq_iff_eq]
  exact (getD_cstr key i (List.mem_range.mp hi)).symm

theorem set_existing_none (m : List ctz_json_member) (key : List Char) (v : ctz_json_value) :
    set_existing m key v = none ↔ m.find? (fun x => key_matches x key) = none := by
  induction m with
  | nil => exact ⟨fun _ => rfl, fun _ => rfl⟩
  | cons x rest ih =>
    by_cases hx : key_matches x key = true
    · simp [set_existing, List.find?, hx]
    · have hx2 : key_matches x key = false := by simpa using hx
      simp only [set_existing, hx2, Bool.false_eq_true, if_false, Option.map_eq_none',
        List.find?, ih]

/-- The replacement loop: the first member that matches the key gets the
value, the keys and the number of members stay, and the lookup of every
other key finds what it found. -/
theorem set_existing_some (m : List ctz_json_member) (key : List Char) (v : ctz_json_value) :
    ∀ m2, set_existing m key v = some m2 →
      (m2.find? (fun x => key_matches x key)).map (fun x => x.v) = some v
      ∧ m2.length = m.length
      ∧ m2.map (fun x => (x.k, x.klen)) = m.map (fun x => (x.k, x.klen))
      ∧ (m.find? (fun x => key_matches x key)).isSome = true
      ∧ ∀ k2, cstr k2 ≠ cstr key →
          (m2.find? (fun x => key_matches x k2)).map (fun x => x.v)
            = (m.find? (fun x => key_matches x k2)).map (fun x => x.v) := by
  induction m with
  | nil =>
    intro m2 h
    cases h
  | cons x rest ih =>
    intro m2 h
    by_cases hx : key_matches x key = true
    · simp only [set_existing, hx, if_true, Option.some.injEq] at h
      subst h
      have hx' : key_matches { x with v := v } key = true := hx
      refine ⟨by simp only [List.find?, hx', Option.map_some'], rfl, rfl,
        by simp only [List.find?, hx, Option.isSome_some], ?_⟩
      intro k2 hk
      have hn : key_matches x k2 = false := by
        cases hm : key_matches x k2 with
        | false => rfl
        | true => exact absurd (key_matches_unique x k2 key hm hx) hk
      have hn' : key_matches { x with v := v } k2 = false := hn
      simp only [List.find?, hn, hn']
    · have hx2 : key_matches x key = false := by simpa using hx
      simp only [set_existing, hx2, Bool.false_eq_true, if_false, Option.map_eq_some'] at h
      obtain ⟨l, hl, rfl⟩ := h
      obtain ⟨a1, a2, a3, a4, a5⟩ := ih l hl
      refine ⟨by simp only [List.find?, hx2]; exact a1, by simp only [List.length_cons, a2],
        by simp only [List.map_cons, a3], by simp only [List.find?, hx2]; exact a4, ?_⟩
      intro k2 hk
      cases hm : key_matches x k2 with
      | false =>
        simp only [List.find?, hm]
        exact a5 k2 hk
      | true => simp only [List.find?, hm]

theorem find_append_new (m : List ctz_json_member) (key : List Char) (v : ctz_json_value)
    (hnone : m.find? (fun x => key_matches x key) = none) :
    ((m ++ [ctz_json_member_of.mk (cstr key) (strlen key) v]).find?
        (fun x => key_matches x key)).map (fun x => x.v) = some v
    ∧ ∀ k2, cstr k2 ≠ cstr key →
        ((m ++ [ctz_json_member_of.mk (cstr key) (strlen key) v]).find?
          (fun x => key_matches x k2)).map (fun x => x.v)
          = (m.find? (fun x => key_matches x k2)).map (fun x => x.v) := by
  constructor
  · rw [List.find?_append, hnone]
    simp only [Option.none_or, List.find?, key_matches_new, Option.map_some']
  · intro k2 hk
    have hn : key_matches (ctz_json_member_of.mk (cstr key) (strlen key) v) k2 = false := by
      cases hm : key_matches (ctz_json_member_of.mk (cstr key) (strlen key) v) k2 with
      | false => rfl
      | true => exact absurd (key_matches_unique _ k2 key hm (key_matches_new key v)) hk
    rw [List.find?_append]
    cases m.find? (fun x => key_matches x k2) with
    | none => simp only [Option.none_or, List.find?, hn, Option.map_none']
    | some y => rfl

theorem set_value_object (m : List ctz_json_member) (key : List Char) (v : ctz_json_value) :
    (∀ m2, set_existing m key v = some m2 →
      ctz_json_object_set_value (CTZ_JSON_OBJECT m) key v = (CTZ_JSON_OBJECT m2, 0))
    ∧ (set_existing m key v = none →
      ctz_json_object_set_value (CTZ_JSON_OBJECT m) key v
        = (CTZ_JSON_OBJECT (m ++ [ctz_json_member_of.mk (cstr key) (strlen key) v]), 0)) := by
  constructor
  · intro m2 h
    simp only [ctz_json_object_set_value, h]
  · intro h
    simp only [ctz_json_object_set_value, h]

theorem set_value_distinct (m : List ctz_json_member) (key : List Char) (v : ctz_json_value)
    (h : distinct_keys m) :
    ∃ m2, (ctz_json_object_set_value (CTZ_JSON_OBJECT m) key v).1 = CTZ_JSON_OBJECT m2
      ∧ distinct_keys m2 := by
  cases hs : set_existing m key v with
  | some m2 =>
    rw [(set_value_object m key v).1 m2 hs]
    refine ⟨m2, rfl, ?_⟩
    obtain ⟨_, _, a3, _, _⟩ := set_existing_some m key v m2 hs
    have hk : m2.map (fun x => x.k) = m.map (fun x => x.k) := by
      have := congrArg (List.map Prod.fst) a3
      simpa only [List.map_map, Function.comp_def] using this
    refine ⟨by rw [hk]; exact h.1, ?_⟩
    intro x hx
    have hmem : (x.k, x.klen) ∈ m.map (fun x => (x.k, x.klen)) := by
      rw [← a3]
      exact List.mem_map.mpr ⟨x, hx, rfl⟩
    obtain ⟨y, hy, he⟩ := List.mem_map.mp hmem
    simp only [Prod.mk.injEq] at he
    have := h.2 y hy
    rw [he.1, he.2] at this
    exact this
  | none =>
    rw [(set_value_object m key v).2 hs]
    refine ⟨_, rfl, ?_, ?_⟩
    · rw [List.map_append, List.map_singleton]
      refine List.Nodup.append h.1 (List.nodup_singleton _) ?_
      intro k hk1 hk2
      rw [List.mem_singleton] at hk2
      subst hk2
      obtain ⟨y, hy, he⟩ := List.mem_map.mp hk1
      have hm : key_matches y key = true := (key_matches_iff y key (h.2 y hy).1).mpr he
      have hnone := (set_existing_none m key v).mp hs
      have := List.find?_eq_none.mp hnone y hy
      exact this hm
    · intro x hx
      rcases List.mem_append.mp hx with hx | hx
      · exact h.2 x hx
      · rw [List.mem_singleton] at hx
        subst hx
        exact ⟨rfl, nul_not_mem_cstr key⟩

theorem built_object_distinct (calls : List (List Char × ctz_json_value)) :
    ∃ m, built_object calls = CTZ_JSON_OBJECT m ∧ distinct_keys m := by
  have key : ∀ (calls : List (List Char × ctz_json_value)) (m : List ctz_json_member),
      distinct_keys m →
      ∃ m2, calls.foldl (fun o c => (ctz_json_object_set_value o c.1 c.2).1)
          (CTZ_JSON_OBJECT m) = CTZ_JSON_OBJECT m2 ∧ distinct_keys m2 := by
    intro calls
    induction calls with
    | nil => exact fun m h => ⟨m, rfl, h⟩
    | cons c rest ih =>
      intro m h
      obtain ⟨m1, h1, hd⟩ := set_value_distinct m c.1 c.2 h
      rw [List.foldl_cons, h1]
      exact ih m1 hd
  exact key calls [] ⟨List.nodup_nil, fun x hx => by cases hx⟩

/-- Claim C31: on an object `ctz_json_object_set_value` returns 0, and
afterwards `ctz_json_find_object_value` returns the value for the key and,
for every other key, what it returned before; the number of members grows
by one when the key was absent and is unchanged when it was present, the
keys and their order staying as they were; hence the keys of an object
built from `ctz_json_new_object` by such calls alone are pairwise
distinct. -/
theorem set_value_then_find (m : List ctz_json_member) (key : List Char)
    (v : ctz_json_value) :
    (ctz_json_object_set_value (CTZ_JSON_OBJECT m) key v).2 = 0
    ∧ ctz_json_find_object_value (ctz_json_object_set_value (CTZ_JSON_OBJECT m) key v).1 key
        = some v
    ∧ (∀ k2 : List Char, cstr k2 ≠ cstr key →
        ctz_json_find_object_value (ctz_json_object_set_value (CTZ_JSON_OBJECT m) key v).1 k2
          = ctz_json_find_object_value (CTZ_JSON_OBJECT m) k2)
    ∧ (ctz_json_find_object_value (CTZ_JSON_OBJECT m) key = none →
        ctz_json_get_object_size (ctz_json_object_set_value (CTZ_JSON_OBJECT m) key v).1
          = ctz_json_get_object_size (CTZ_JSON_OBJECT m) + 1)
    ∧ (ctz_json_find_object_value (CTZ_JSON_OBJECT m) key ≠ none →
        ∃ m2, (ctz_json_object_set_value (CTZ_JSON_OBJECT m) key v).1 = CTZ_JSON_OBJECT m2
          ∧ m2.length = m.length
          ∧ m2.map (fun x => (x.k, x.klen)) = m.map (fun x => (x.k, x.klen)))
    ∧ (∀ calls : List (List Char × ctz_json_value),
        ∃ m2, built_object calls = CTZ_JSON_OBJECT m2 ∧ distinct_keys m2) := by
  have hfind : ∀ (l : List ctz_json_member) (k : List Char),
      ctz_json_find_object_value (CTZ_JSON_OBJECT l) k
        = (l.find? (fun x => key_matches x k)).map (fun x => x.v) := fun _ _ => rfl
  cases hs : set_existing m key v with
  | some m2 =>
    obtain ⟨a1, a2, a3, a4, a5⟩ := set_existing_some m key v m2 hs
    rw [(set_value_object m key v).1 m2 hs]
    refine ⟨rfl, by rw [hfind]; exact a1, fun k2 hk => by rw [hfind, hfind]; exact a5 k2 hk,
      ?_, fun _ => ⟨m2, rfl, a2, a3⟩, built_object_distinct⟩
    intro hnone
    rw [hfind, Option.map_eq_none'] at hnone
    rw [hnone] at a4
    cases a4
  | none =>
    have hnone := (set_existing_none m key v).mp hs
    obtain ⟨b1, b2⟩ := find_append_new m key v hnone
    rw [(set_value_object m key v).2 hs]
    refine ⟨rfl, by rw [hfind]; exact b1, fun k2 hk => by rw [hfind, hfind]; exact b2 k2 hk,
      ?_, ?_, built_object_distinct⟩
    · intro _
      simp only [ctz_json_get_object_size, List.length_append, List.length_singleton]
    · intro hne
      rw [hfind, hnone] at hne
      exact absurd rfl hne

/-! ## Comparing and copying documents (C35) -/

end Coordinator
